import Mathlib

/-!
LR(1) parser generator and driver (src/lab_3/LRparser.h).

A shallow embedding of the classes `Symbol`, `Production`, `LR1Item`, `LR1State`,
`Token` and `LRParser` of `src/lab_3/LRparser.h`, followed by theorems about it.

Modelling conventions.

* `std::string` is `String`; `std::vector<T>` is `List T` in index order.
* `std::set<T>` is a `List T` kept in the order of the element type's `operator<`
  (`setInsert`), searched by the equivalence `!(a < b) && !(b < a)` that the
  standard containers use (`setContains`).  `std::map<K, V>` is a list of pairs
  ordered by key in the same way (`mapFind`, `mapSet`).
* `std::stack<T>` is a `List T` whose head is the top.
* `int` values that can be negative (ids, action codes) are `Int`; the token
  cursor, line numbers and dot positions, which only count upwards from 0 or 1,
  are `Nat`.
* The `while` loops whose termination is not structural take a fuel argument.
* Undefined behaviour of the C++ (reading the top of an empty stack, indexing a
  vector out of range) is the explicit result `fault`.
-/

namespace Lab3

/-! ## Containers -/

/-- The comparison `std::lexicographical_compare`, which is `operator<` on vectors and sets. -/
def lexLt {α : Type} (lt : α → α → Bool) : List α → List α → Bool
  | [], [] => false
  | [], _ :: _ => true
  | _ :: _, [] => false
  | x :: xs, y :: ys => if lt x y then true else if lt y x then false else lexLt lt xs ys

/-- The call `std::set::insert`: the element is placed in order, and dropped when an equivalent one is present. -/
def setInsert {α : Type} (lt : α → α → Bool) (x : α) : List α → List α
  | [] => [x]
  | y :: ys => if lt x y then x :: y :: ys else if lt y x then y :: setInsert lt x ys else y :: ys

/-- The test `s.find(x) != s.end()` on a `std::set`. -/
def setContains {α : Type} (lt : α → α → Bool) (x : α) (xs : List α) : Bool :=
  xs.any (fun y => !lt x y && !lt y x)

/-- The call `std::map::find`. -/
def mapFind {κ ν : Type} (lt : κ → κ → Bool) (k : κ) : List (κ × ν) → Option ν
  | [] => none
  | (k', v) :: rest => if !lt k k' && !lt k' k then some v else mapFind lt k rest

/-- The assignment `m[k] = v` on a `std::map`. -/
def mapSet {κ ν : Type} (lt : κ → κ → Bool) (k : κ) (v : ν) : List (κ × ν) → List (κ × ν)
  | [] => [(k, v)]
  | (k', v') :: rest =>
    if lt k k' then (k, v) :: (k', v') :: rest
    else if lt k' k then (k', v') :: mapSet lt k v rest
    else (k', v) :: rest

/-- Lexicographic comparison of two character sequences by character code. -/
def charsLt : List Char → List Char → Bool
  | [], [] => false
  | [], _ :: _ => true
  | _ :: _, [] => false
  | c :: cs, d :: ds =>
    if Nat.blt c.toNat d.toNat then true
    else if Nat.blt d.toNat c.toNat then false
    else charsLt cs ds

/-- Equality of two character sequences. -/
def charsEq : List Char → List Char → Bool
  | [], [] => true
  | [], _ :: _ => false
  | _ :: _, [] => false
  | c :: cs, d :: ds => Nat.beq c.toNat d.toNat && charsEq cs ds

/-- The comparison `operator<` of `std::string`. -/
def strLt (a b : String) : Bool := charsLt a.data b.data

/-- The comparison `operator==` of `std::string`. -/
def strEq (a b : String) : Bool := charsEq a.data b.data

/-! ## Symbol, Production, LR1Item, LR1State, Token -/

/-- The class `Symbol`. -/
structure Symbol where
  name : String
  isTerminal : Bool
  deriving DecidableEq

/-- The member `Symbol::operator==`. -/
def Symbol.eqv (a b : Symbol) : Bool :=
  strEq a.name b.name && (a.isTerminal == b.isTerminal)

/-- The member `Symbol::operator<`. -/
def Symbol.lt (a b : Symbol) : Bool :=
  if !strEq a.name b.name then strLt a.name b.name else (!a.isTerminal && b.isTerminal)

/-- The class `Production`. -/
structure Production where
  left : Symbol
  right : List Symbol
  id : Int
  deriving DecidableEq

/-- The member `Production::operator==`, which ignores the id. -/
def Production.eqv (a b : Production) : Bool :=
  a.left.eqv b.left && decide (a.right = b.right)

/-- The member `Production::operator<`. -/
def Production.lt (a b : Production) : Bool :=
  if !a.left.eqv b.left then a.left.lt b.left else lexLt Symbol.lt a.right b.right

/-- The test `right.size() == 1 && right[0].name == "E"` for an empty production. -/
def isEpsilonRight (right : List Symbol) : Bool :=
  match right with
  | [s] => strEq s.name "E"
  | _ => false

/-- The class `LR1Item`. -/
structure LR1Item where
  prod : Production
  dotPos : Nat
  lookahead : Symbol
  deriving DecidableEq

/-- The member `LR1Item::getSymbolAfterDot`. -/
def LR1Item.getSymbolAfterDot (it : LR1Item) : Symbol :=
  if it.dotPos < it.prod.right.length ∧ ¬ isEpsilonRight it.prod.right then
    it.prod.right.getD it.dotPos ⟨"", true⟩
  else ⟨"", true⟩

/-- The member `LR1Item::isComplete`. -/
def LR1Item.isComplete (it : LR1Item) : Bool :=
  if isEpsilonRight it.prod.right then true else decide (it.dotPos ≥ it.prod.right.length)

/-- The member `LR1Item::operator<`. -/
def LR1Item.lt (a b : LR1Item) : Bool :=
  if a.prod.lt b.prod then true
  else if b.prod.lt a.prod then false
  else if a.dotPos ≠ b.dotPos then decide (a.dotPos < b.dotPos)
  else a.lookahead.lt b.lookahead

/-- The class `LR1State`. -/
structure LR1State where
  items : List LR1Item
  id : Int
  deriving DecidableEq

/-- The class `Token`. -/
structure Token where
  value : String
  line : Nat
  deriving DecidableEq

/-- The comparison `<` of two `int` values. -/
def intLt : Int → Int → Bool
  | Int.ofNat m, Int.ofNat n => Nat.blt m n
  | Int.ofNat _, Int.negSucc _ => false
  | Int.negSucc _, Int.ofNat _ => true
  | Int.negSucc m, Int.negSucc n => Nat.blt n m

/-- The comparison `operator<` of `std::pair<int, Symbol>`, the key type of both tables. -/
def keyLt (a b : Int × Symbol) : Bool :=
  intLt a.1 b.1 || (!intLt b.1 a.1 && a.2.lt b.2)

/-- The type `map<Symbol, set<Symbol>>` of the FIRST and FOLLOW sets. -/
abbrev SymMap := List (Symbol × List Symbol)

/-- The type `map<pair<int, Symbol>, int>` of the GOTO and ACTION tables. -/
abbrev Table := List ((Int × Symbol) × Int)

/-- The class `LRParser`: its data members, in declaration order. -/
structure LRParser where
  productions : List Production
  terminals : List Symbol
  nonTerminals : List Symbol
  startSymbol : Symbol
  augmentedStart : Symbol
  firstSet : SymMap
  followSet : SymMap
  states : List LR1State
  gotoTable : Table
  actionTable : Table
  tokens : List Token
  currentToken : Nat
  lastTokenLine : Nat
  errors : List String
  derivation : List String
  deriving DecidableEq

/-- The members as the initialiser list of `LRParser::LRParser` leaves them, before `initGrammar`. -/
def LRParser.blank : LRParser :=
  { productions := [], terminals := [], nonTerminals := [],
    startSymbol := ⟨"", true⟩, augmentedStart := ⟨"", true⟩,
    firstSet := [], followSet := [], states := [], gotoTable := [], actionTable := [],
    tokens := [], currentToken := 0, lastTokenLine := 1, errors := [], derivation := [] }

/-! ## initGrammar -/

/-- The vector `termNames` of `initGrammar`. -/
def termNames : List String :=
  ["\x7b", "\x7d", "if", "(", ")", "then", "else", "while",
   "ID", "=", ";", "<", ">", "<=", ">=", "==",
   "+", "-", "*", "/", "NUM", "$"]

/-- The vector `nonTermNames` of `initGrammar`. -/
def nonTermNames : List String :=
  ["program'", "program", "stmt", "compoundstmt", "stmts",
   "ifstmt", "whilestmt", "assgstmt", "boolexpr", "boolop",
   "arithexpr", "arithexprprime", "multexpr", "multexprprime", "simpleexpr"]

/-- The member `LRParser::addProduction`. -/
def LRParser.addProduction (p : LRParser) (left : String) (right : List String) (id : Int) :
    LRParser :=
  let rightSyms := right.map (fun r =>
    Symbol.mk r (setContains Symbol.lt ⟨r, true⟩ p.terminals || strEq r "E"))
  { p with productions := p.productions ++ [⟨⟨left, false⟩, rightSyms, id⟩] }

/-- The arguments of the 29 calls of `addProduction` in `initGrammar`, in call order. -/
def grammarRules : List (String × List String) :=
  [("program'", ["program"]),
   ("program", ["compoundstmt"]),
   ("stmt", ["ifstmt"]),
   ("stmt", ["whilestmt"]),
   ("stmt", ["assgstmt"]),
   ("stmt", ["compoundstmt"]),
   ("compoundstmt", ["\x7b", "stmts", "\x7d"]),
   ("stmts", ["stmt", "stmts"]),
   ("stmts", ["E"]),
   ("ifstmt", ["if", "(", "boolexpr", ")", "then", "stmt", "else", "stmt"]),
   ("whilestmt", ["while", "(", "boolexpr", ")", "stmt"]),
   ("assgstmt", ["ID", "=", "arithexpr", ";"]),
   ("boolexpr", ["arithexpr", "boolop", "arithexpr"]),
   ("boolop", ["<"]),
   ("boolop", [">"]),
   ("boolop", ["<="]),
   ("boolop", [">="]),
   ("boolop", ["=="]),
   ("arithexpr", ["multexpr", "arithexprprime"]),
   ("arithexprprime", ["+", "multexpr", "arithexprprime"]),
   ("arithexprprime", ["-", "multexpr", "arithexprprime"]),
   ("arithexprprime", ["E"]),
   ("multexpr", ["simpleexpr", "multexprprime"]),
   ("multexprprime", ["*", "simpleexpr", "multexprprime"]),
   ("multexprprime", ["/", "simpleexpr", "multexprprime"]),
   ("multexprprime", ["E"]),
   ("simpleexpr", ["ID"]),
   ("simpleexpr", ["NUM"]),
   ("simpleexpr", ["(", "arithexpr", ")"])]

/-- The member `LRParser::initGrammar`; `prodId++` is the second component of the fold state. -/
def LRParser.initGrammar (p : LRParser) : LRParser :=
  let ts := termNames.foldl (fun s t => setInsert Symbol.lt ⟨t, true⟩ s) p.terminals
  let p1 := { p with terminals := ts }
  let nts := nonTermNames.foldl (fun s t => setInsert Symbol.lt ⟨t, false⟩ s) p1.nonTerminals
  let p2 := { p1 with nonTerminals := nts }
  let p3 := { p2 with startSymbol := ⟨"program", false⟩, augmentedStart := ⟨"program'", false⟩ }
  (grammarRules.foldl
    (fun (acc : LRParser × Int) r => (acc.1.addProduction r.1 r.2 acc.2, acc.2 + 1)) (p3, 0)).1

/-! ## FIRST and FOLLOW -/

/-- The symbol `Symbol("E", true)`. -/
def epsilon : Symbol := ⟨"E", true⟩

/-- The value read by `firstSet[s]`: the set stored for `s`, empty when there is none.
(`operator[]` also stores that empty set; a stored empty set reads the same as a missing one.) -/
def symGet (m : SymMap) (s : Symbol) : List Symbol := (mapFind Symbol.lt s m).getD []

/-- The body `for (f : firstSet[sym]) if (f.name != "E") target.insert(f)`. -/
def addNonEpsilon (src target : List Symbol) : List Symbol :=
  src.foldl (fun acc f => if !strEq f.name "E" then setInsert Symbol.lt f acc else acc) target

/-- The loop over the symbols of a right-hand side shared by `computeFirstSets` and
`getFirstOfString`; returns the grown set and the flag `allHaveEpsilon`. -/
def firstWalk (fs : SymMap) : List Symbol → List Symbol → List Symbol × Bool
  | [], acc => (acc, true)
  | sym :: rest, acc =>
    if strEq sym.name "E" then (setInsert Symbol.lt epsilon acc, true)
    else
      let acc1 := addNonEpsilon (symGet fs sym) acc
      if !setContains Symbol.lt epsilon (symGet fs sym) then (acc1, false)
      else firstWalk fs rest acc1

/-- The body of `for (prod : productions)` in `computeFirstSets`. -/
def firstProd (acc : SymMap × Bool) (prod : Production) : SymMap × Bool :=
  let first := symGet acc.1 prod.left
  let oldSize := first.length
  let w := firstWalk acc.1 prod.right first
  let first2 :=
    if w.2 && !prod.right.isEmpty && !strEq (prod.right.headD ⟨"", true⟩).name "E"
    then setInsert Symbol.lt epsilon w.1 else w.1
  (mapSet Symbol.lt prod.left first2 acc.1, acc.2 || first2.length != oldSize)

/-- The loop `while (changed)` of `computeFirstSets`; `none` when the fuel runs out. -/
def firstLoop (prods : List Production) : Nat → SymMap → Option SymMap
  | 0, _ => none
  | n + 1, fs =>
    let r := prods.foldl firstProd (fs, false)
    if r.2 then firstLoop prods n r.1 else some r.1

/-- The member `LRParser::computeFirstSets`. -/
def LRParser.computeFirstSets (p : LRParser) (fuel : Nat) : Option LRParser :=
  let fs1 := p.terminals.foldl
    (fun m t => mapSet Symbol.lt t (setInsert Symbol.lt t (symGet m t)) m) p.firstSet
  let fs2 := mapSet Symbol.lt epsilon (setInsert Symbol.lt epsilon (symGet fs1 epsilon)) fs1
  (firstLoop p.productions fuel fs2).map (fun fs => { p with firstSet := fs })

/-- The member `LRParser::getFirstOfString`. -/
def getFirstOfString (fs : SymMap) (symbols : List Symbol) (start : Nat) : List Symbol :=
  if start ≥ symbols.length then [epsilon]
  else
    let w := firstWalk fs (symbols.drop start) []
    if w.2 then setInsert Symbol.lt epsilon w.1 else w.1

/-- The body of `for (i = 0; i < prod.right.size(); i++)` in `computeFollowSets`. -/
def followPos (fs : SymMap) (prod : Production) (acc : SymMap × Bool) (i : Nat) : SymMap × Bool :=
  let B := prod.right.getD i ⟨"", true⟩
  if B.isTerminal || strEq B.name "E" then acc
  else
    let oldSize := (symGet acc.1 B).length
    let firstBeta := getFirstOfString fs prod.right (i + 1)
    let f1 := addNonEpsilon firstBeta (symGet acc.1 B)
    let m1 := mapSet Symbol.lt B f1 acc.1
    let m2 :=
      if setContains Symbol.lt epsilon firstBeta then
        mapSet Symbol.lt B
          ((symGet m1 prod.left).foldl (fun s f => setInsert Symbol.lt f s) (symGet m1 B)) m1
      else m1
    (m2, acc.2 || (symGet m2 B).length != oldSize)

/-- The loop `while (changed)` of `computeFollowSets`; `none` when the fuel runs out. -/
def followLoop (prods : List Production) (fs : SymMap) : Nat → SymMap → Option SymMap
  | 0, _ => none
  | n + 1, fo =>
    let r := prods.foldl
      (fun acc prod => (List.range prod.right.length).foldl (followPos fs prod) acc) (fo, false)
    if r.2 then followLoop prods fs n r.1 else some r.1

/-- The member `LRParser::computeFollowSets`. -/
def LRParser.computeFollowSets (p : LRParser) (fuel : Nat) : Option LRParser :=
  let dollar : Symbol := ⟨"$", true⟩
  let fo1 := mapSet Symbol.lt p.augmentedStart
    (setInsert Symbol.lt dollar (symGet p.followSet p.augmentedStart)) p.followSet
  let fo2 := mapSet Symbol.lt p.startSymbol
    (setInsert Symbol.lt dollar (symGet fo1 p.startSymbol)) fo1
  (followLoop p.productions p.firstSet fuel fo2).map (fun fo => { p with followSet := fo })

/-! ## closure, goto, the automaton and the tables -/

/-- The candidate test and insertion in the innermost loop of `closure`:
`if (state.items.find(newItem) == state.items.end()) { insert; workList.push }`. -/
def closureAdd (acc : List LR1Item × List LR1Item) (newItem : LR1Item) :
    List LR1Item × List LR1Item :=
  if !setContains LR1Item.lt newItem acc.1 then
    (setInsert LR1Item.lt newItem acc.1, acc.2 ++ [newItem])
  else acc

/-- The vector `betaA` built in `closure` for an item. -/
def betaA (item : LR1Item) : List Symbol :=
  ((item.prod.right.drop (item.dotPos + 1)).filter (fun s => !strEq s.name "E")) ++
    [item.lookahead]

/-- The body of `while (!workList.empty())` in `closure` after the pop of `item`; the state is
the pair of `state.items` and the work list. -/
def closureStep (prods : List Production) (fs : SymMap)
    (acc : List LR1Item × List LR1Item) (item : LR1Item) : List LR1Item × List LR1Item :=
  let B := item.getSymbolAfterDot
  if strEq B.name "" || B.isTerminal then acc
  else
    let firstBetaA := getFirstOfString fs (betaA item) 0
    prods.foldl (fun acc prod =>
      if prod.left.eqv B then
        firstBetaA.foldl (fun acc la =>
          if strEq la.name "E" then acc else closureAdd acc ⟨prod, 0, la⟩) acc
      else acc) acc

/-- The loop `while (!workList.empty())` of `closure`. -/
def closureLoop (prods : List Production) (fs : SymMap) :
    Nat → List LR1Item → List LR1Item → List LR1Item
  | 0, items, _ => items
  | _ + 1, items, [] => items
  | n + 1, items, item :: wl =>
    let r := closureStep prods fs (items, wl) item
    closureLoop prods fs n r.1 r.2

/-- A number of iterations that `closure` never exceeds: one per given item and one per
pair of a production and a member of a FIRST set (theorem `closureLoop_closed`). -/
def closureFuel (prods : List Production) (fs : SymMap) (items : List LR1Item) : Nat :=
  items.length + prods.length * (fs.map (fun e => e.2.length)).sum + 1

/-- The member `LRParser::closure`. -/
def closure (prods : List Production) (fs : SymMap) (items : List LR1Item) : LR1State :=
  { items := closureLoop prods fs (closureFuel prods fs items) items items, id := -1 }

/-- The member `LRParser::closure`. -/
def LRParser.closure (p : LRParser) (items : List LR1Item) : LR1State :=
  Lab3.closure p.productions p.firstSet items

/-- The set `newItems` built by `gotoFunc`. -/
def gotoKernel (items : List LR1Item) (X : Symbol) : List LR1Item :=
  items.foldl (fun acc item =>
    if item.getSymbolAfterDot.eqv X then
      setInsert LR1Item.lt { item with dotPos := item.dotPos + 1 } acc
    else acc) []

/-- The member `LRParser::gotoFunc`. -/
def gotoFunc (prods : List Production) (fs : SymMap) (state : LR1State) (X : Symbol) : LR1State :=
  closure prods fs (gotoKernel state.items X)

/-- The member `LRParser::gotoFunc`. -/
def LRParser.gotoFunc (p : LRParser) (state : LR1State) (X : Symbol) : LR1State :=
  Lab3.gotoFunc p.productions p.firstSet state X

/-- The variables of the loop in `buildLR1Automaton`: `states`, `stateMap`, `gotoTable`
and the queue `workList`. -/
structure Automaton where
  states : List LR1State
  stateMap : List (List LR1Item × Int)
  gotoTable : Table
  workList : List Int
  deriving DecidableEq

/-- The body of `for (X : allSymbols)` in `buildLR1Automaton`. -/
def bfsSymbol (prods : List Production) (fs : SymMap) (stateId : Int) (st : LR1State)
    (a : Automaton) (X : Symbol) : Automaton :=
  let newState := gotoFunc prods fs st X
  if newState.items.isEmpty then a
  else
    match mapFind (lexLt LR1Item.lt) newState.items a.stateMap with
    | none =>
      let nid : Int := a.states.length
      { states := a.states ++ [{ newState with id := nid }],
        stateMap := mapSet (lexLt LR1Item.lt) newState.items nid a.stateMap,
        workList := a.workList ++ [nid],
        gotoTable := mapSet keyLt (stateId, X) nid a.gotoTable }
    | some j => { a with gotoTable := mapSet keyLt (stateId, X) j a.gotoTable }

/-- The body of `while (!workList.empty())` in `buildLR1Automaton` after the pop of
`stateId`; `none` when `states[stateId]` is out of range. -/
def bfsVisit (prods : List Production) (fs : SymMap) (allSymbols : List Symbol)
    (a : Automaton) (stateId : Int) (wl : List Int) : Option Automaton :=
  (a.states.get? stateId.toNat).map
    (fun st => allSymbols.foldl (bfsSymbol prods fs stateId st) { a with workList := wl })

/-- The loop `while (!workList.empty())` of `buildLR1Automaton`; `none` when the fuel runs out. -/
def bfsLoop (prods : List Production) (fs : SymMap) (allSymbols : List Symbol) :
    Nat → Automaton → Option Automaton
  | 0, _ => none
  | n + 1, a =>
    match a.workList with
    | [] => some a
    | stateId :: wl => (bfsVisit prods fs allSymbols a stateId wl).bind (bfsLoop prods fs allSymbols n)

/-- The set `allSymbols` of `buildLR1Automaton`. -/
def allSymbols (terminals nonTerminals : List Symbol) : List Symbol :=
  nonTerminals.foldl (fun s t => setInsert Symbol.lt t s)
    (terminals.foldl (fun s t => if !strEq t.name "$" then setInsert Symbol.lt t s else s) [])

/-- The part of `buildLR1Automaton` before its loop: the start state
`closure({[productions[0] -> . program, $]})` with id 0 is appended to `states`, entered
in `stateMap` and queued; `none` when `productions[0]` does not exist. -/
def startAutomaton (prods : List Production) (fs : SymMap) (states : List LR1State)
    (gotoTable : Table) : Option Automaton :=
  match prods.head? with
  | none => none
  | some p0 =>
    let startState : LR1State := { closure prods fs [⟨p0, 0, ⟨"$", true⟩⟩] with id := 0 }
    some { states := states ++ [startState],
           stateMap := [(startState.items, 0)],
           gotoTable := gotoTable,
           workList := [0] }

/-- The member `LRParser::buildLR1Automaton`. -/
def LRParser.buildLR1Automaton (p : LRParser) (fuel : Nat) : Option LRParser :=
  ((startAutomaton p.productions p.firstSet p.states p.gotoTable).bind
    (bfsLoop p.productions p.firstSet (allSymbols p.terminals p.nonTerminals) fuel)).map
    (fun a => { p with states := a.states, gotoTable := a.gotoTable })

/-- One assignment `actionTable[key] = action` of `buildParsingTable`. -/
structure TableWrite where
  key : Int × Symbol
  action : Int
  deriving DecidableEq

/-- The assignment, if any, that the body of `for (item : state.items)` in
`buildParsingTable` performs. -/
def tableWrite (augmentedStart : Symbol) (gotoTable : Table) (sid : Int) (item : LR1Item) :
    Option TableWrite :=
  if item.isComplete then
    if item.prod.left.eqv augmentedStart then some ⟨(sid, ⟨"$", true⟩), -1⟩
    else some ⟨(sid, item.lookahead), -(item.prod.id + 2)⟩
  else
    let a := item.getSymbolAfterDot
    if a.isTerminal && !strEq a.name "E" then
      match mapFind keyLt (sid, a) gotoTable with
      | some t => some ⟨(sid, a), t + 1⟩
      | none => none
    else none

/-- The assignments of the loop `for (item : state.items)` of `buildParsingTable` for one
state, in order. -/
def stateWrites (augmentedStart : Symbol) (gotoTable : Table) (st : LR1State) :
    List TableWrite :=
  st.items.filterMap (tableWrite augmentedStart gotoTable st.id)

/-- The assignments of `buildParsingTable` in the order the two nested loops perform them. -/
def tableWrites (augmentedStart : Symbol) (gotoTable : Table) (states : List LR1State) :
    List TableWrite :=
  states.flatMap (stateWrites augmentedStart gotoTable)

/-- The effect of a sequence of assignments on `actionTable`. -/
def applyWrites (ws : List TableWrite) (act : Table) : Table :=
  ws.foldl (fun t w => mapSet keyLt w.key w.action t) act

/-- The member `LRParser::buildParsingTable`. -/
def LRParser.buildParsingTable (p : LRParser) : LRParser :=
  let act := applyWrites (tableWrites p.augmentedStart p.gotoTable p.states) p.actionTable
  { p with actionTable := act }

/-- The constructor `LRParser::LRParser`; `none` when one of its loops runs out of fuel. -/
def LRParser.construct (fuel : Nat) : Option LRParser :=
  ((LRParser.blank.initGrammar.computeFirstSets fuel).bind
    (fun p => p.computeFollowSets fuel)).bind
    (fun p => (p.buildLR1Automaton fuel).map (fun p => p.buildParsingTable))

/-! ## tokenize -/

/-- The test `c == ' ' || c == '\t' || c == '\n' || c == '\r'` of `tokenize`. -/
def isBlank (c : Char) : Bool :=
  c == ' ' || c == '\t' || c == '\n' || c == '\r'

/-- The inner loop of `tokenize` that skips blanks and counts the line feeds among them. -/
def skipBlanks : List Char → Nat → List Char × Nat
  | [], line => ([], line)
  | c :: rest, line =>
    if isBlank c then skipBlanks rest (if c == '\n' then line + 1 else line)
    else (c :: rest, line)

/-- The test for the twelve one-character tokens of `tokenize`. -/
def isSingleCharToken (c : Char) : Bool :=
  c == '\x7b' || c == '\x7d' || c == '(' || c == ')' || c == '=' || c == ';' ||
  c == '<' || c == '>' || c == '+' || c == '-' || c == '*' || c == '/'

/-- The test `two == "<=" || two == ">=" || two == "=="` of `tokenize`. -/
def isTwoCharToken (c d : Char) : Bool :=
  (c == '<' && d == '=') || (c == '>' && d == '=') || (c == '=' && d == '=')

/-- The token pushed for a scanned word: a keyword, the literal words `ID` and `NUM`, or `ID`. -/
def wordToken (word : String) (line : Nat) : Token :=
  if strEq word "if" || strEq word "then" || strEq word "else" || strEq word "while" then
    ⟨word, line⟩
  else if strEq word "ID" || strEq word "NUM" then ⟨word, line⟩
  else ⟨"ID", line⟩

/-- The loop `while (i < n)` of `tokenize` on the characters from position `i` on; one unit
of fuel per iteration.  The source text is a sequence of `char`; a character outside ASCII
stands for its UTF-8 bytes, each of which the source skips as an unknown character. -/
def tokenizeLoop : Nat → List Char → Nat → List Token → List Token × Nat
  | 0, _, line, tokens => (tokens, line)
  | fuel + 1, cs, line, tokens =>
    match skipBlanks cs line with
    | ([], line1) => (tokens, line1)
    | (c :: rest, line1) =>
      if (match rest with
          | d :: _ => isTwoCharToken c d
          | [] => false) then
        tokenizeLoop fuel (rest.drop 1) line1
          (tokens ++ [⟨String.mk (c :: rest.take 1), line1⟩])
      else if isSingleCharToken c then
        tokenizeLoop fuel rest line1 (tokens ++ [⟨String.mk [c], line1⟩])
      else if c.isAlpha || c == '_' then
        let w := (c :: rest).span (fun x => x.isAlphanum || x == '_')
        tokenizeLoop fuel w.2 line1 (tokens ++ [wordToken (String.mk w.1) line1])
      else if c.isDigit then
        tokenizeLoop fuel ((c :: rest).dropWhile Char.isDigit) line1
          (tokens ++ [⟨"NUM", line1⟩])
      else tokenizeLoop fuel rest line1 tokens

/-- The member `LRParser::tokenize`.  Every iteration of its loop consumes a character, so
one unit of fuel per character and one more is enough. -/
def LRParser.tokenize (p : LRParser) (prog : String) : LRParser :=
  let r := tokenizeLoop (prog.length + 1) prog.data 1 []
  { p with tokens := r.1 ++ [⟨"$", r.2⟩] }

/-! ## The parsing engine -/

/-- The member `LRParser::getCurrentToken`. -/
def LRParser.getCurrentToken (p : LRParser) : Token :=
  if p.currentToken < p.tokens.length then
    p.tokens.getD p.currentToken ⟨"", 1⟩
  else
    ⟨"$", match p.tokens.getLast? with
          | none => 1
          | some t => t.line⟩

/-- The member `LRParser::advance`. -/
def LRParser.advance (p : LRParser) : LRParser :=
  if p.currentToken < p.tokens.length then
    { p with lastTokenLine := (p.tokens.getD p.currentToken ⟨"", 1⟩).line,
             currentToken := p.currentToken + 1 }
  else p

/-- The loop of `sententialFormToString` from index `i` on. -/
def formToStringFrom : Nat → List Symbol → String → String
  | _, [], result => result
  | i, s :: rest, result =>
    let r1 := if i > 0 then result ++ " " else result
    formToStringFrom (i + 1) rest (if !strEq s.name "E" then r1 ++ s.name else r1)

/-- The member `LRParser::sententialFormToString`. -/
def sententialFormToString (form : List Symbol) : String :=
  formToStringFrom 0 form ""

/-- The set `expected` that `handleError` collects from `actionTable`. -/
def expectedSet (actionTable : Table) (state : Int) : List String :=
  actionTable.foldl (fun s entry =>
    if decide (entry.1.1 = state) && decide (entry.2 ≠ 0) then
      setInsert strLt entry.1.2.name s
    else s) []

/-- The call `tokens.insert(tokens.begin() + currentToken, tok)`. -/
def insertToken (tokens : List Token) (currentToken : Nat) (tok : Token) : List Token :=
  tokens.take currentToken ++ tok :: tokens.drop currentToken

/-- The member `LRParser::handleError`.  The two stacks are reference parameters of the
source; they are returned as they are left. -/
def LRParser.handleError (p : LRParser) (state : Int) (tok : Token)
    (stateStack : List Int) (symbolStack : List Symbol) :
    LRParser × List Int × List Symbol :=
  let expected := expectedSet p.actionTable state
  if setContains strLt ";" expected && !strEq tok.value ";" then
    let errorMsg := "语法错误，第" ++ toString p.lastTokenLine ++ "行，缺少\";\""
    ({ p with errors := p.errors ++ [errorMsg],
              tokens := insertToken p.tokens p.currentToken ⟨";", p.lastTokenLine⟩ },
     stateStack, symbolStack)
  else if setContains strLt ")" expected && !strEq tok.value ")" then
    let errorMsg := "语法错误，第" ++ toString p.lastTokenLine ++ "行，缺少\")\""
    ({ p with errors := p.errors ++ [errorMsg],
              tokens := insertToken p.tokens p.currentToken ⟨")", p.lastTokenLine⟩ },
     stateStack, symbolStack)
  else if setContains strLt "\x7d" expected && !strEq tok.value "\x7d" then
    let errorMsg := "语法错误，第" ++ toString p.lastTokenLine ++ "行，缺少\"\x7d\""
    ({ p with errors := p.errors ++ [errorMsg],
              tokens := insertToken p.tokens p.currentToken ⟨"\x7d", p.lastTokenLine⟩ },
     stateStack, symbolStack)
  else if setContains strLt "then" expected && !strEq tok.value "then" then
    let errorMsg := "语法错误，第" ++ toString tok.line ++ "行，缺少\"then\""
    ({ p with errors := p.errors ++ [errorMsg],
              tokens := insertToken p.tokens p.currentToken ⟨"then", tok.line⟩ },
     stateStack, symbolStack)
  else if setContains strLt "else" expected && !strEq tok.value "else" then
    let errorMsg := "语法错误，第" ++ toString tok.line ++ "行，缺少\"else\""
    ({ p with errors := p.errors ++ [errorMsg],
              tokens := insertToken p.tokens p.currentToken ⟨"else", tok.line⟩ },
     stateStack, symbolStack)
  else
    let errorMsg := "语法错误，第" ++ toString tok.line ++ "行，意外的\"" ++ tok.value ++ "\""
    ({ p with errors := p.errors ++ [errorMsg] }.advance, stateStack, symbolStack)

/-- The local variables of `parse`: the two stacks (top first) and the reduction log. -/
structure ParseState where
  stateStack : List Int
  symbolStack : List Symbol
  reductions : List Int
  deriving DecidableEq

/-- What one iteration of the loop of `parse` does: it goes on, it leaves the loop at the
accept action, or it has undefined behaviour. -/
inductive StepResult where
  | running (p : LRParser) (s : ParseState)
  | accepted (p : LRParser) (s : ParseState)
  | fault
  deriving DecidableEq

/-- The element `productions[prodId]`, when it exists. -/
def productionAt (productions : List Production) (prodId : Int) : Option Production :=
  if prodId < 0 then none else productions.get? prodId.toNat

/-- The branch `else` of the loop of `parse`: reduction by the production `prod` with
index `prodId`. -/
def reduceStep (p : LRParser) (s : ParseState) (prodId : Int) (prod : Production) :
    StepResult :=
  let reductions := s.reductions ++ [prodId]
  let popCount := if isEpsilonRight prod.right then 0 else prod.right.length
  if s.symbolStack.length < popCount || s.stateStack.length < popCount then .fault
  else
    let symbolStack := prod.left :: s.symbolStack.drop popCount
    let stateStack := s.stateStack.drop popCount
    match stateStack with
    | [] => .fault
    | topState :: _ =>
      match mapFind keyLt (topState, prod.left) p.gotoTable with
      | some t =>
        .running p { stateStack := t :: stateStack, symbolStack := symbolStack,
                     reductions := reductions }
      | none =>
        .running p { stateStack := stateStack, symbolStack := symbolStack,
                     reductions := reductions }

/-- The body of `while (true)` in `parse`. -/
def LRParser.parseStep (p : LRParser) (s : ParseState) : StepResult :=
  match s.stateStack with
  | [] => .fault
  | state :: _ =>
    let tok := p.getCurrentToken
    let a : Symbol := ⟨tok.value, true⟩
    match mapFind keyLt (state, a) p.actionTable with
    | none =>
      let r := p.handleError state tok s.stateStack s.symbolStack
      .running r.1 { s with stateStack := r.2.1, symbolStack := r.2.2 }
    | some action =>
      if action > 0 then
        .running p.advance
          { s with symbolStack := a :: s.symbolStack,
                   stateStack := (action - 1) :: s.stateStack }
      else if action = -1 then .accepted p s
      else
        match productionAt p.productions (-(action + 2)) with
        | none => .fault
        | some prod => reduceStep p s (-(action + 2)) prod

/-- How the loop of `parse` ends within a given number of iterations. -/
inductive Outcome where
  | accepted (p : LRParser) (s : ParseState)
  | fault
  | outOfFuel (p : LRParser) (s : ParseState)
  deriving DecidableEq

/-- The loop `while (true)` of `parse`, cut off after `fuel` iterations. -/
def parseLoop : Nat → LRParser → ParseState → Outcome
  | 0, p, s => .outOfFuel p s
  | n + 1, p, s =>
    match p.parseStep s with
    | .running p1 s1 => parseLoop n p1 s1
    | .accepted p1 s1 => .accepted p1 s1
    | .fault => .fault

/-- The position found by the loop `for (j = form.size() - 1; j >= 0; j--)` of
`generateDerivation`: the last index at which `form` holds `X`. -/
def rightmostIndex (form : List Symbol) (X : Symbol) : Option Nat :=
  let r := form.reverse.findIdx (fun s => s.eqv X)
  if r < form.length then some (form.length - 1 - r) else none

/-- The body of the loop over the reductions in `generateDerivation`; the state is the
current form and `derivation`.  `parse` logs an index only after reading
`productions[prodId]`, so the case of a missing production does not arise from `parse`;
it leaves the state as it is. -/
def derivationStep (productions : List Production) (acc : List Symbol × List String)
    (prodId : Int) : List Symbol × List String :=
  if prodId = 0 then acc
  else
    match productionAt productions prodId with
    | none => acc
    | some prod =>
      match rightmostIndex acc.1 prod.left with
      | none => acc
      | some pos =>
        let newForm := acc.1.take pos ++
          (if isEpsilonRight prod.right then [] else prod.right) ++ acc.1.drop (pos + 1)
        (newForm, acc.2 ++ [sententialFormToString newForm])

/-- The member `LRParser::generateDerivation`. -/
def LRParser.generateDerivation (p : LRParser) (reductions : List Int) : LRParser :=
  let form := [p.startSymbol]
  let r := reductions.reverse.foldl (derivationStep p.productions)
    (form, p.derivation ++ [sententialFormToString form])
  { p with derivation := r.2 }

/-- The initial values of the local variables of `parse`. -/
def ParseState.init : ParseState :=
  { stateStack := [0], symbolStack := [], reductions := [] }

/-- The member `LRParser::parse`; `none` when the loop does not reach the accept action
within `fuel` iterations or has undefined behaviour. -/
def LRParser.parse (p : LRParser) (fuel : Nat) : Option LRParser :=
  match parseLoop fuel { p with currentToken := 0 } ParseState.init with
  | .accepted p1 s1 => some (p1.generateDerivation s1.reductions)
  | _ => none

/-- The text that the member `LRParser::printResult` writes to `cout`. -/
def LRParser.printResult (p : LRParser) : String :=
  let errs := p.errors.foldl (fun out err => out ++ err ++ "\n") ""
  (List.range p.derivation.length).foldl (fun out i =>
    let out1 := out ++ p.derivation.getD i ""
    if i + 1 < p.derivation.length then out1 ++ " => " ++ "\n" else out1 ++ "\n") errs

/-- The member `LRParser::analyze`: the parser after the call and the text it printed. -/
def LRParser.analyze (p : LRParser) (prog : String) (fuel : Nat) : Option (LRParser × String) :=
  ((p.tokenize prog).parse fuel).map (fun q => (q, q.printResult))

/-! ## The constructed parser, written out

The values below are what `LRParser.construct` computes (theorem `construct_eq`); they
are written out so that later statements can be evaluated without building the
automaton again. -/

/-- A terminal symbol. -/
def tsym (n : String) : Symbol := ⟨n, true⟩

/-- A non-terminal symbol. -/
def nsym (n : String) : Symbol := ⟨n, false⟩

/-- An entry of the GOTO or ACTION table: state, symbol, value. -/
def entry (s : Int) (X : Symbol) (v : Int) : (Int × Symbol) × Int := ((s, X), v)

/-- The productions that `initGrammar` builds. -/
def productionsLit : List Production :=
  [Production.mk (nsym "program'") [nsym "program"] 0,
   Production.mk (nsym "program") [nsym "compoundstmt"] 1,
   Production.mk (nsym "stmt") [nsym "ifstmt"] 2,
   Production.mk (nsym "stmt") [nsym "whilestmt"] 3,
   Production.mk (nsym "stmt") [nsym "assgstmt"] 4,
   Production.mk (nsym "stmt") [nsym "compoundstmt"] 5,
   Production.mk (nsym "compoundstmt") [tsym "\x7b", nsym "stmts", tsym "\x7d"] 6,
   Production.mk (nsym "stmts") [nsym "stmt", nsym "stmts"] 7,
   Production.mk (nsym "stmts") [tsym "E"] 8,
   Production.mk (nsym "ifstmt") [tsym "if", tsym "(", nsym "boolexpr", tsym ")", tsym "then", nsym "stmt", tsym "else", nsym "stmt"] 9,
   Production.mk (nsym "whilestmt") [tsym "while", tsym "(", nsym "boolexpr", tsym ")", nsym "stmt"] 10,
   Production.mk (nsym "assgstmt") [tsym "ID", tsym "=", nsym "arithexpr", tsym ";"] 11,
   Production.mk (nsym "boolexpr") [nsym "arithexpr", nsym "boolop", nsym "arithexpr"] 12,
   Production.mk (nsym "boolop") [tsym "<"] 13,
   Production.mk (nsym "boolop") [tsym ">"] 14,
   Production.mk (nsym "boolop") [tsym "<="] 15,
   Production.mk (nsym "boolop") [tsym ">="] 16,
   Production.mk (nsym "boolop") [tsym "=="] 17,
   Production.mk (nsym "arithexpr") [nsym "multexpr", nsym "arithexprprime"] 18,
   Production.mk (nsym "arithexprprime") [tsym "+", nsym "multexpr", nsym "arithexprprime"] 19,
   Production.mk (nsym "arithexprprime") [tsym "-", nsym "multexpr", nsym "arithexprprime"] 20,
   Production.mk (nsym "arithexprprime") [tsym "E"] 21,
   Production.mk (nsym "multexpr") [nsym "simpleexpr", nsym "multexprprime"] 22,
   Production.mk (nsym "multexprprime") [tsym "*", nsym "simpleexpr", nsym "multexprprime"] 23,
   Production.mk (nsym "multexprprime") [tsym "/", nsym "simpleexpr", nsym "multexprprime"] 24,
   Production.mk (nsym "multexprprime") [tsym "E"] 25,
   Production.mk (nsym "simpleexpr") [tsym "ID"] 26,
   Production.mk (nsym "simpleexpr") [tsym "NUM"] 27,
   Production.mk (nsym "simpleexpr") [tsym "(", nsym "arithexpr", tsym ")"] 28]

/-- The item of production number `p` with the dot at `d` and the terminal `la` as lookahead. -/
def item (p d : Nat) (la : String) : LR1Item :=
  ⟨productionsLit.getD p ⟨⟨"", true⟩, [], -1⟩, d, ⟨la, true⟩⟩

/-- The set `terminals` after `initGrammar`. -/
def terminalsLit : List Symbol :=
  [tsym "$", tsym "(", tsym ")", tsym "*", tsym "+", tsym "-", tsym "/", tsym ";",
   tsym "<", tsym "<=", tsym "=", tsym "==", tsym ">", tsym ">=", tsym "ID", tsym "NUM",
   tsym "else", tsym "if", tsym "then", tsym "while", tsym "\x7b", tsym "\x7d"]

/-- The set `nonTerminals` after `initGrammar`. -/
def nonTerminalsLit : List Symbol :=
  [nsym "arithexpr", nsym "arithexprprime", nsym "assgstmt", nsym "boolexpr",
   nsym "boolop", nsym "compoundstmt", nsym "ifstmt", nsym "multexpr",
   nsym "multexprprime", nsym "program", nsym "program'", nsym "simpleexpr",
   nsym "stmt", nsym "stmts", nsym "whilestmt"]

/-- The map `firstSet` after `computeFirstSets`. -/
def firstSetLit : SymMap :=
  [Prod.mk (tsym "$") [tsym "$"],
   Prod.mk (tsym "(") [tsym "("],
   Prod.mk (tsym ")") [tsym ")"],
   Prod.mk (tsym "*") [tsym "*"],
   Prod.mk (tsym "+") [tsym "+"],
   Prod.mk (tsym "-") [tsym "-"],
   Prod.mk (tsym "/") [tsym "/"],
   Prod.mk (tsym ";") [tsym ";"],
   Prod.mk (tsym "<") [tsym "<"],
   Prod.mk (tsym "<=") [tsym "<="],
   Prod.mk (tsym "=") [tsym "="],
   Prod.mk (tsym "==") [tsym "=="],
   Prod.mk (tsym ">") [tsym ">"],
   Prod.mk (tsym ">=") [tsym ">="],
   Prod.mk (tsym "E") [tsym "E"],
   Prod.mk (tsym "ID") [tsym "ID"],
   Prod.mk (tsym "NUM") [tsym "NUM"],
   Prod.mk (nsym "arithexpr") [tsym "(", tsym "ID", tsym "NUM"],
   Prod.mk (nsym "arithexprprime") [tsym "+", tsym "-", tsym "E"],
   Prod.mk (nsym "assgstmt") [tsym "ID"],
   Prod.mk (nsym "boolexpr") [tsym "(", tsym "ID", tsym "NUM"],
   Prod.mk (nsym "boolop") [tsym "<", tsym "<=", tsym "==", tsym ">", tsym ">="],
   Prod.mk (nsym "compoundstmt") [tsym "\x7b"],
   Prod.mk (tsym "else") [tsym "else"],
   Prod.mk (tsym "if") [tsym "if"],
   Prod.mk (nsym "ifstmt") [tsym "if"],
   Prod.mk (nsym "multexpr") [tsym "(", tsym "ID", tsym "NUM"],
   Prod.mk (nsym "multexprprime") [tsym "*", tsym "/", tsym "E"],
   Prod.mk (nsym "program") [tsym "\x7b"],
   Prod.mk (nsym "program'") [tsym "\x7b"],
   Prod.mk (nsym "simpleexpr") [tsym "(", tsym "ID", tsym "NUM"],
   Prod.mk (nsym "stmt") [tsym "ID", tsym "if", tsym "while", tsym "\x7b"],
   Prod.mk (nsym "stmts") [tsym "E", tsym "ID", tsym "if", tsym "while", tsym "\x7b"],
   Prod.mk (tsym "then") [tsym "then"],
   Prod.mk (tsym "while") [tsym "while"],
   Prod.mk (nsym "whilestmt") [tsym "while"],
   Prod.mk (tsym "\x7b") [tsym "\x7b"],
   Prod.mk (tsym "\x7d") [tsym "\x7d"]]

/-- The map `followSet` after `computeFollowSets`. -/
def followSetLit : SymMap :=
  [Prod.mk (nsym "arithexpr") [tsym ")", tsym ";", tsym "<", tsym "<=", tsym "==", tsym ">", tsym ">="],
   Prod.mk (nsym "arithexprprime") [tsym ")", tsym ";", tsym "<", tsym "<=", tsym "==", tsym ">", tsym ">="],
   Prod.mk (nsym "assgstmt") [tsym "ID", tsym "else", tsym "if", tsym "while", tsym "\x7b", tsym "\x7d"],
   Prod.mk (nsym "boolexpr") [tsym ")"],
   Prod.mk (nsym "boolop") [tsym "(", tsym "ID", tsym "NUM"],
   Prod.mk (nsym "compoundstmt") [tsym "$", tsym "ID", tsym "else", tsym "if", tsym "while", tsym "\x7b", tsym "\x7d"],
   Prod.mk (nsym "ifstmt") [tsym "ID", tsym "else", tsym "if", tsym "while", tsym "\x7b", tsym "\x7d"],
   Prod.mk (nsym "multexpr") [tsym ")", tsym "+", tsym "-", tsym ";", tsym "<", tsym "<=", tsym "==", tsym ">", tsym ">="],
   Prod.mk (nsym "multexprprime") [tsym ")", tsym "+", tsym "-", tsym ";", tsym "<", tsym "<=", tsym "==", tsym ">", tsym ">="],
   Prod.mk (nsym "program") [tsym "$"],
   Prod.mk (nsym "program'") [tsym "$"],
   Prod.mk (nsym "simpleexpr") [tsym ")", tsym "*", tsym "+", tsym "-", tsym "/", tsym ";", tsym "<", tsym "<=", tsym "==", tsym ">", tsym ">="],
   Prod.mk (nsym "stmt") [tsym "ID", tsym "else", tsym "if", tsym "while", tsym "\x7b", tsym "\x7d"],
   Prod.mk (nsym "stmts") [tsym "\x7d"],
   Prod.mk (nsym "whilestmt") [tsym "ID", tsym "else", tsym "if", tsym "while", tsym "\x7b", tsym "\x7d"]]

/-- The vector `states` after `buildLR1Automaton`: 127 item sets. -/
def statesLit : List LR1State :=
  [LR1State.mk [item 6 0 "$", item 1 0 "$", item 0 0 "$"] 0,
   LR1State.mk [item 1 1 "$"] 1,
   LR1State.mk [item 0 1 "$"] 2,
   LR1State.mk [item 11 0 "ID", item 11 0 "if", item 11 0 "while", item 11 0 "\x7b", item 11 0 "\x7d", item 6 0 "ID",
     item 6 0 "if", item 6 0 "while", item 6 0 "\x7b", item 6 0 "\x7d", item 6 1 "$", item 9 0 "ID",
     item 9 0 "if", item 9 0 "while", item 9 0 "\x7b", item 9 0 "\x7d", item 4 0 "ID", item 4 0 "if",
     item 4 0 "while", item 4 0 "\x7b", item 4 0 "\x7d", item 5 0 "ID", item 5 0 "if", item 5 0 "while",
     item 5 0 "\x7b", item 5 0 "\x7d", item 2 0 "ID", item 2 0 "if", item 2 0 "while", item 2 0 "\x7b",
     item 2 0 "\x7d", item 3 0 "ID", item 3 0 "if", item 3 0 "while", item 3 0 "\x7b", item 3 0 "\x7d",
     item 8 0 "\x7d", item 7 0 "\x7d", item 10 0 "ID", item 10 0 "if", item 10 0 "while", item 10 0 "\x7b",
     item 10 0 "\x7d"] 3,
   LR1State.mk [item 11 1 "ID", item 11 1 "if", item 11 1 "while", item 11 1 "\x7b", item 11 1 "\x7d"] 4,
   LR1State.mk [item 4 1 "ID", item 4 1 "if", item 4 1 "while", item 4 1 "\x7b", item 4 1 "\x7d"] 5,
   LR1State.mk [item 5 1 "ID", item 5 1 "if", item 5 1 "while", item 5 1 "\x7b", item 5 1 "\x7d"] 6,
   LR1State.mk [item 9 1 "ID", item 9 1 "if", item 9 1 "while", item 9 1 "\x7b", item 9 1 "\x7d"] 7,
   LR1State.mk [item 2 1 "ID", item 2 1 "if", item 2 1 "while", item 2 1 "\x7b", item 2 1 "\x7d"] 8,
   LR1State.mk [item 11 0 "ID", item 11 0 "if", item 11 0 "while", item 11 0 "\x7b", item 11 0 "\x7d", item 6 0 "ID",
     item 6 0 "if", item 6 0 "while", item 6 0 "\x7b", item 6 0 "\x7d", item 9 0 "ID", item 9 0 "if",
     item 9 0 "while", item 9 0 "\x7b", item 9 0 "\x7d", item 4 0 "ID", item 4 0 "if", item 4 0 "while",
     item 4 0 "\x7b", item 4 0 "\x7d", item 5 0 "ID", item 5 0 "if", item 5 0 "while", item 5 0 "\x7b",
     item 5 0 "\x7d", item 2 0 "ID", item 2 0 "if", item 2 0 "while", item 2 0 "\x7b", item 2 0 "\x7d",
     item 3 0 "ID", item 3 0 "if", item 3 0 "while", item 3 0 "\x7b", item 3 0 "\x7d", item 8 0 "\x7d",
     item 7 0 "\x7d", item 7 1 "\x7d", item 10 0 "ID", item 10 0 "if", item 10 0 "while", item 10 0 "\x7b",
     item 10 0 "\x7d"] 9,
   LR1State.mk [item 6 2 "$"] 10,
   LR1State.mk [item 10 1 "ID", item 10 1 "if", item 10 1 "while", item 10 1 "\x7b", item 10 1 "\x7d"] 11,
   LR1State.mk [item 3 1 "ID", item 3 1 "if", item 3 1 "while", item 3 1 "\x7b", item 3 1 "\x7d"] 12,
   LR1State.mk [item 11 0 "ID", item 11 0 "if", item 11 0 "while", item 11 0 "\x7b", item 11 0 "\x7d", item 6 0 "ID",
     item 6 0 "if", item 6 0 "while", item 6 0 "\x7b", item 6 0 "\x7d", item 6 1 "ID", item 6 1 "if",
     item 6 1 "while", item 6 1 "\x7b", item 6 1 "\x7d", item 9 0 "ID", item 9 0 "if", item 9 0 "while",
     item 9 0 "\x7b", item 9 0 "\x7d", item 4 0 "ID", item 4 0 "if", item 4 0 "while", item 4 0 "\x7b",
     item 4 0 "\x7d", item 5 0 "ID", item 5 0 "if", item 5 0 "while", item 5 0 "\x7b", item 5 0 "\x7d",
     item 2 0 "ID", item 2 0 "if", item 2 0 "while", item 2 0 "\x7b", item 2 0 "\x7d", item 3 0 "ID",
     item 3 0 "if", item 3 0 "while", item 3 0 "\x7b", item 3 0 "\x7d", item 8 0 "\x7d", item 7 0 "\x7d",
     item 10 0 "ID", item 10 0 "if", item 10 0 "while", item 10 0 "\x7b", item 10 0 "\x7d"] 13,
   LR1State.mk [item 18 0 ";", item 11 2 "ID", item 11 2 "if", item 11 2 "while", item 11 2 "\x7b", item 11 2 "\x7d",
     item 22 0 "+", item 22 0 "-", item 22 0 ";", item 28 0 "*", item 28 0 "+", item 28 0 "-",
     item 28 0 "/", item 28 0 ";", item 26 0 "*", item 26 0 "+", item 26 0 "-", item 26 0 "/",
     item 26 0 ";", item 27 0 "*", item 27 0 "+", item 27 0 "-", item 27 0 "/", item 27 0 ";"] 14,
   LR1State.mk [item 18 0 "<", item 18 0 "<=", item 18 0 "==", item 18 0 ">", item 18 0 ">=", item 12 0 ")",
     item 9 2 "ID", item 9 2 "if", item 9 2 "while", item 9 2 "\x7b", item 9 2 "\x7d", item 22 0 "+",
     item 22 0 "-", item 22 0 "<", item 22 0 "<=", item 22 0 "==", item 22 0 ">", item 22 0 ">=",
     item 28 0 "*", item 28 0 "+", item 28 0 "-", item 28 0 "/", item 28 0 "<", item 28 0 "<=",
     item 28 0 "==", item 28 0 ">", item 28 0 ">=", item 26 0 "*", item 26 0 "+", item 26 0 "-",
     item 26 0 "/", item 26 0 "<", item 26 0 "<=", item 26 0 "==", item 26 0 ">", item 26 0 ">=",
     item 27 0 "*", item 27 0 "+", item 27 0 "-", item 27 0 "/", item 27 0 "<", item 27 0 "<=",
     item 27 0 "==", item 27 0 ">", item 27 0 ">="] 15,
   LR1State.mk [item 7 2 "\x7d"] 16,
   LR1State.mk [item 6 3 "$"] 17,
   LR1State.mk [item 18 0 "<", item 18 0 "<=", item 18 0 "==", item 18 0 ">", item 18 0 ">=", item 12 0 ")",
     item 22 0 "+", item 22 0 "-", item 22 0 "<", item 22 0 "<=", item 22 0 "==", item 22 0 ">",
     item 22 0 ">=", item 28 0 "*", item 28 0 "+", item 28 0 "-", item 28 0 "/", item 28 0 "<",
     item 28 0 "<=", item 28 0 "==", item 28 0 ">", item 28 0 ">=", item 26 0 "*", item 26 0 "+",
     item 26 0 "-", item 26 0 "/", item 26 0 "<", item 26 0 "<=", item 26 0 "==", item 26 0 ">",
     item 26 0 ">=", item 27 0 "*", item 27 0 "+", item 27 0 "-", item 27 0 "/", item 27 0 "<",
     item 27 0 "<=", item 27 0 "==", item 27 0 ">", item 27 0 ">=", item 10 2 "ID", item 10 2 "if",
     item 10 2 "while", item 10 2 "\x7b", item 10 2 "\x7d"] 18,
   LR1State.mk [item 6 2 "ID", item 6 2 "if", item 6 2 "while", item 6 2 "\x7b", item 6 2 "\x7d"] 19,
   LR1State.mk [item 18 0 ")", item 22 0 ")", item 22 0 "+", item 22 0 "-", item 28 0 ")", item 28 0 "*",
     item 28 0 "+", item 28 0 "-", item 28 0 "/", item 28 1 "*", item 28 1 "+", item 28 1 "-",
     item 28 1 "/", item 28 1 ";", item 26 0 ")", item 26 0 "*", item 26 0 "+", item 26 0 "-",
     item 26 0 "/", item 27 0 ")", item 27 0 "*", item 27 0 "+", item 27 0 "-", item 27 0 "/"] 20,
   LR1State.mk [item 26 1 "*", item 26 1 "+", item 26 1 "-", item 26 1 "/", item 26 1 ";"] 21,
   LR1State.mk [item 27 1 "*", item 27 1 "+", item 27 1 "-", item 27 1 "/", item 27 1 ";"] 22,
   LR1State.mk [item 11 3 "ID", item 11 3 "if", item 11 3 "while", item 11 3 "\x7b", item 11 3 "\x7d"] 23,
   LR1State.mk [item 18 1 ";", item 19 0 ";", item 20 0 ";", item 21 0 ";"] 24,
   LR1State.mk [item 22 1 "+", item 22 1 "-", item 22 1 ";", item 23 0 "+", item 23 0 "-", item 23 0 ";",
     item 24 0 "+", item 24 0 "-", item 24 0 ";", item 25 0 "+", item 25 0 "-", item 25 0 ";"] 25,
   LR1State.mk [item 18 0 ")", item 22 0 ")", item 22 0 "+", item 22 0 "-", item 28 0 ")", item 28 0 "*",
     item 28 0 "+", item 28 0 "-", item 28 0 "/", item 28 1 "*", item 28 1 "+", item 28 1 "-",
     item 28 1 "/", item 28 1 "<", item 28 1 "<=", item 28 1 "==", item 28 1 ">", item 28 1 ">=",
     item 26 0 ")", item 26 0 "*", item 26 0 "+", item 26 0 "-", item 26 0 "/", item 27 0 ")",
     item 27 0 "*", item 27 0 "+", item 27 0 "-", item 27 0 "/"] 26,
   LR1State.mk [item 26 1 "*", item 26 1 "+", item 26 1 "-", item 26 1 "/", item 26 1 "<", item 26 1 "<=",
     item 26 1 "==", item 26 1 ">", item 26 1 ">="] 27,
   LR1State.mk [item 27 1 "*", item 27 1 "+", item 27 1 "-", item 27 1 "/", item 27 1 "<", item 27 1 "<=",
     item 27 1 "==", item 27 1 ">", item 27 1 ">="] 28,
   LR1State.mk [item 12 1 ")", item 13 0 "(", item 13 0 "ID", item 13 0 "NUM", item 15 0 "(", item 15 0 "ID",
     item 15 0 "NUM", item 17 0 "(", item 17 0 "ID", item 17 0 "NUM", item 14 0 "(", item 14 0 "ID",
     item 14 0 "NUM", item 16 0 "(", item 16 0 "ID", item 16 0 "NUM"] 29,
   LR1State.mk [item 9 3 "ID", item 9 3 "if", item 9 3 "while", item 9 3 "\x7b", item 9 3 "\x7d"] 30,
   LR1State.mk [item 18 1 "<", item 18 1 "<=", item 18 1 "==", item 18 1 ">", item 18 1 ">=", item 19 0 "<",
     item 19 0 "<=", item 19 0 "==", item 19 0 ">", item 19 0 ">=", item 20 0 "<", item 20 0 "<=",
     item 20 0 "==", item 20 0 ">", item 20 0 ">=", item 21 0 "<", item 21 0 "<=", item 21 0 "==",
     item 21 0 ">", item 21 0 ">="] 31,
   LR1State.mk [item 22 1 "+", item 22 1 "-", item 22 1 "<", item 22 1 "<=", item 22 1 "==", item 22 1 ">",
     item 22 1 ">=", item 23 0 "+", item 23 0 "-", item 23 0 "<", item 23 0 "<=", item 23 0 "==",
     item 23 0 ">", item 23 0 ">=", item 24 0 "+", item 24 0 "-", item 24 0 "<", item 24 0 "<=",
     item 24 0 "==", item 24 0 ">", item 24 0 ">=", item 25 0 "+", item 25 0 "-", item 25 0 "<",
     item 25 0 "<=", item 25 0 "==", item 25 0 ">", item 25 0 ">="] 32,
   LR1State.mk [item 10 3 "ID", item 10 3 "if", item 10 3 "while", item 10 3 "\x7b", item 10 3 "\x7d"] 33,
   LR1State.mk [item 6 3 "ID", item 6 3 "if", item 6 3 "while", item 6 3 "\x7b", item 6 3 "\x7d"] 34,
   LR1State.mk [item 18 0 ")", item 22 0 ")", item 22 0 "+", item 22 0 "-", item 28 0 ")", item 28 0 "*",
     item 28 0 "+", item 28 0 "-", item 28 0 "/", item 28 1 ")", item 28 1 "*", item 28 1 "+",
     item 28 1 "-", item 28 1 "/", item 26 0 ")", item 26 0 "*", item 26 0 "+", item 26 0 "-",
     item 26 0 "/", item 27 0 ")", item 27 0 "*", item 27 0 "+", item 27 0 "-", item 27 0 "/"] 35,
   LR1State.mk [item 26 1 ")", item 26 1 "*", item 26 1 "+", item 26 1 "-", item 26 1 "/"] 36,
   LR1State.mk [item 27 1 ")", item 27 1 "*", item 27 1 "+", item 27 1 "-", item 27 1 "/"] 37,
   LR1State.mk [item 28 2 "*", item 28 2 "+", item 28 2 "-", item 28 2 "/", item 28 2 ";"] 38,
   LR1State.mk [item 18 1 ")", item 19 0 ")", item 20 0 ")", item 21 0 ")"] 39,
   LR1State.mk [item 22 1 ")", item 22 1 "+", item 22 1 "-", item 23 0 ")", item 23 0 "+", item 23 0 "-",
     item 24 0 ")", item 24 0 "+", item 24 0 "-", item 25 0 ")", item 25 0 "+", item 25 0 "-"] 40,
   LR1State.mk [item 11 4 "ID", item 11 4 "if", item 11 4 "while", item 11 4 "\x7b", item 11 4 "\x7d"] 41,
   LR1State.mk [item 19 1 ";", item 22 0 "+", item 22 0 "-", item 22 0 ";", item 28 0 "*", item 28 0 "+",
     item 28 0 "-", item 28 0 "/", item 28 0 ";", item 26 0 "*", item 26 0 "+", item 26 0 "-",
     item 26 0 "/", item 26 0 ";", item 27 0 "*", item 27 0 "+", item 27 0 "-", item 27 0 "/",
     item 27 0 ";"] 42,
   LR1State.mk [item 20 1 ";", item 22 0 "+", item 22 0 "-", item 22 0 ";", item 28 0 "*", item 28 0 "+",
     item 28 0 "-", item 28 0 "/", item 28 0 ";", item 26 0 "*", item 26 0 "+", item 26 0 "-",
     item 26 0 "/", item 26 0 ";", item 27 0 "*", item 27 0 "+", item 27 0 "-", item 27 0 "/",
     item 27 0 ";"] 43,
   LR1State.mk [item 18 2 ";"] 44,
   LR1State.mk [item 23 1 "+", item 23 1 "-", item 23 1 ";", item 28 0 "*", item 28 0 "+", item 28 0 "-",
     item 28 0 "/", item 28 0 ";", item 26 0 "*", item 26 0 "+", item 26 0 "-", item 26 0 "/",
     item 26 0 ";", item 27 0 "*", item 27 0 "+", item 27 0 "-", item 27 0 "/", item 27 0 ";"] 45,
   LR1State.mk [item 24 1 "+", item 24 1 "-", item 24 1 ";", item 28 0 "*", item 28 0 "+", item 28 0 "-",
     item 28 0 "/", item 28 0 ";", item 26 0 "*", item 26 0 "+", item 26 0 "-", item 26 0 "/",
     item 26 0 ";", item 27 0 "*", item 27 0 "+", item 27 0 "-", item 27 0 "/", item 27 0 ";"] 46,
   LR1State.mk [item 22 2 "+", item 22 2 "-", item 22 2 ";"] 47,
   LR1State.mk [item 28 2 "*", item 28 2 "+", item 28 2 "-", item 28 2 "/", item 28 2 "<", item 28 2 "<=",
     item 28 2 "==", item 28 2 ">", item 28 2 ">="] 48,
   LR1State.mk [item 13 1 "(", item 13 1 "ID", item 13 1 "NUM"] 49,
   LR1State.mk [item 15 1 "(", item 15 1 "ID", item 15 1 "NUM"] 50,
   LR1State.mk [item 17 1 "(", item 17 1 "ID", item 17 1 "NUM"] 51,
   LR1State.mk [item 14 1 "(", item 14 1 "ID", item 14 1 "NUM"] 52,
   LR1State.mk [item 16 1 "(", item 16 1 "ID", item 16 1 "NUM"] 53,
   LR1State.mk [item 18 0 ")", item 12 2 ")", item 22 0 ")", item 22 0 "+", item 22 0 "-", item 28 0 ")",
     item 28 0 "*", item 28 0 "+", item 28 0 "-", item 28 0 "/", item 26 0 ")", item 26 0 "*",
     item 26 0 "+", item 26 0 "-", item 26 0 "/", item 27 0 ")", item 27 0 "*", item 27 0 "+",
     item 27 0 "-", item 27 0 "/"] 54,
   LR1State.mk [item 9 4 "ID", item 9 4 "if", item 9 4 "while", item 9 4 "\x7b", item 9 4 "\x7d"] 55,
   LR1State.mk [item 19 1 "<", item 19 1 "<=", item 19 1 "==", item 19 1 ">", item 19 1 ">=", item 22 0 "+",
     item 22 0 "-", item 22 0 "<", item 22 0 "<=", item 22 0 "==", item 22 0 ">", item 22 0 ">=",
     item 28 0 "*", item 28 0 "+", item 28 0 "-", item 28 0 "/", item 28 0 "<", item 28 0 "<=",
     item 28 0 "==", item 28 0 ">", item 28 0 ">=", item 26 0 "*", item 26 0 "+", item 26 0 "-",
     item 26 0 "/", item 26 0 "<", item 26 0 "<=", item 26 0 "==", item 26 0 ">", item 26 0 ">=",
     item 27 0 "*", item 27 0 "+", item 27 0 "-", item 27 0 "/", item 27 0 "<", item 27 0 "<=",
     item 27 0 "==", item 27 0 ">", item 27 0 ">="] 56,
   LR1State.mk [item 20 1 "<", item 20 1 "<=", item 20 1 "==", item 20 1 ">", item 20 1 ">=", item 22 0 "+",
     item 22 0 "-", item 22 0 "<", item 22 0 "<=", item 22 0 "==", item 22 0 ">", item 22 0 ">=",
     item 28 0 "*", item 28 0 "+", item 28 0 "-", item 28 0 "/", item 28 0 "<", item 28 0 "<=",
     item 28 0 "==", item 28 0 ">", item 28 0 ">=", item 26 0 "*", item 26 0 "+", item 26 0 "-",
     item 26 0 "/", item 26 0 "<", item 26 0 "<=", item 26 0 "==", item 26 0 ">", item 26 0 ">=",
     item 27 0 "*", item 27 0 "+", item 27 0 "-", item 27 0 "/", item 27 0 "<", item 27 0 "<=",
     item 27 0 "==", item 27 0 ">", item 27 0 ">="] 57,
   LR1State.mk [item 18 2 "<", item 18 2 "<=", item 18 2 "==", item 18 2 ">", item 18 2 ">="] 58,
   LR1State.mk [item 23 1 "+", item 23 1 "-", item 23 1 "<", item 23 1 "<=", item 23 1 "==", item 23 1 ">",
     item 23 1 ">=", item 28 0 "*", item 28 0 "+", item 28 0 "-", item 28 0 "/", item 28 0 "<",
     item 28 0 "<=", item 28 0 "==", item 28 0 ">", item 28 0 ">=", item 26 0 "*", item 26 0 "+",
     item 26 0 "-", item 26 0 "/", item 26 0 "<", item 26 0 "<=", item 26 0 "==", item 26 0 ">",
     item 26 0 ">=", item 27 0 "*", item 27 0 "+", item 27 0 "-", item 27 0 "/", item 27 0 "<",
     item 27 0 "<=", item 27 0 "==", item 27 0 ">", item 27 0 ">="] 59,
   LR1State.mk [item 24 1 "+", item 24 1 "-", item 24 1 "<", item 24 1 "<=", item 24 1 "==", item 24 1 ">",
     item 24 1 ">=", item 28 0 "*", item 28 0 "+", item 28 0 "-", item 28 0 "/", item 28 0 "<",
     item 28 0 "<=", item 28 0 "==", item 28 0 ">", item 28 0 ">=", item 26 0 "*", item 26 0 "+",
     item 26 0 "-", item 26 0 "/", item 26 0 "<", item 26 0 "<=", item 26 0 "==", item 26 0 ">",
     item 26 0 ">=", item 27 0 "*", item 27 0 "+", item 27 0 "-", item 27 0 "/", item 27 0 "<",
     item 27 0 "<=", item 27 0 "==", item 27 0 ">", item 27 0 ">="] 60,
   LR1State.mk [item 22 2 "+", item 22 2 "-", item 22 2 "<", item 22 2 "<=", item 22 2 "==", item 22 2 ">",
     item 22 2 ">="] 61,
   LR1State.mk [item 11 0 "ID", item 11 0 "if", item 11 0 "while", item 11 0 "\x7b", item 11 0 "\x7d", item 6 0 "ID",
     item 6 0 "if", item 6 0 "while", item 6 0 "\x7b", item 6 0 "\x7d", item 9 0 "ID", item 9 0 "if",
     item 9 0 "while", item 9 0 "\x7b", item 9 0 "\x7d", item 4 0 "ID", item 4 0 "if", item 4 0 "while",
     item 4 0 "\x7b", item 4 0 "\x7d", item 5 0 "ID", item 5 0 "if", item 5 0 "while", item 5 0 "\x7b",
     item 5 0 "\x7d", item 2 0 "ID", item 2 0 "if", item 2 0 "while", item 2 0 "\x7b", item 2 0 "\x7d",
     item 3 0 "ID", item 3 0 "if", item 3 0 "while", item 3 0 "\x7b", item 3 0 "\x7d", item 10 0 "ID",
     item 10 0 "if", item 10 0 "while", item 10 0 "\x7b", item 10 0 "\x7d", item 10 4 "ID", item 10 4 "if",
     item 10 4 "while", item 10 4 "\x7b", item 10 4 "\x7d"] 62,
   LR1State.mk [item 28 2 ")", item 28 2 "*", item 28 2 "+", item 28 2 "-", item 28 2 "/"] 63,
   LR1State.mk [item 28 3 "*", item 28 3 "+", item 28 3 "-", item 28 3 "/", item 28 3 ";"] 64,
   LR1State.mk [item 19 1 ")", item 22 0 ")", item 22 0 "+", item 22 0 "-", item 28 0 ")", item 28 0 "*",
     item 28 0 "+", item 28 0 "-", item 28 0 "/", item 26 0 ")", item 26 0 "*", item 26 0 "+",
     item 26 0 "-", item 26 0 "/", item 27 0 ")", item 27 0 "*", item 27 0 "+", item 27 0 "-",
     item 27 0 "/"] 65,
   LR1State.mk [item 20 1 ")", item 22 0 ")", item 22 0 "+", item 22 0 "-", item 28 0 ")", item 28 0 "*",
     item 28 0 "+", item 28 0 "-", item 28 0 "/", item 26 0 ")", item 26 0 "*", item 26 0 "+",
     item 26 0 "-", item 26 0 "/", item 27 0 ")", item 27 0 "*", item 27 0 "+", item 27 0 "-",
     item 27 0 "/"] 66,
   LR1State.mk [item 18 2 ")"] 67,
   LR1State.mk [item 23 1 ")", item 23 1 "+", item 23 1 "-", item 28 0 ")", item 28 0 "*", item 28 0 "+",
     item 28 0 "-", item 28 0 "/", item 26 0 ")", item 26 0 "*", item 26 0 "+", item 26 0 "-",
     item 26 0 "/", item 27 0 ")", item 27 0 "*", item 27 0 "+", item 27 0 "-", item 27 0 "/"] 68,
   LR1State.mk [item 24 1 ")", item 24 1 "+", item 24 1 "-", item 28 0 ")", item 28 0 "*", item 28 0 "+",
     item 28 0 "-", item 28 0 "/", item 26 0 ")", item 26 0 "*", item 26 0 "+", item 26 0 "-",
     item 26 0 "/", item 27 0 ")", item 27 0 "*", item 27 0 "+", item 27 0 "-", item 27 0 "/"] 69,
   LR1State.mk [item 22 2 ")", item 22 2 "+", item 22 2 "-"] 70,
   LR1State.mk [item 19 0 ";", item 19 2 ";", item 20 0 ";", item 21 0 ";"] 71,
   LR1State.mk [item 19 0 ";", item 20 0 ";", item 20 2 ";", item 21 0 ";"] 72,
   LR1State.mk [item 23 0 "+", item 23 0 "-", item 23 0 ";", item 23 2 "+", item 23 2 "-", item 23 2 ";",
     item 24 0 "+", item 24 0 "-", item 24 0 ";", item 25 0 "+", item 25 0 "-", item 25 0 ";"] 73,
   LR1State.mk [item 23 0 "+", item 23 0 "-", item 23 0 ";", item 24 0 "+", item 24 0 "-", item 24 0 ";",
     item 24 2 "+", item 24 2 "-", item 24 2 ";", item 25 0 "+", item 25 0 "-", item 25 0 ";"] 74,
   LR1State.mk [item 28 3 "*", item 28 3 "+", item 28 3 "-", item 28 3 "/", item 28 3 "<", item 28 3 "<=",
     item 28 3 "==", item 28 3 ">", item 28 3 ">="] 75,
   LR1State.mk [item 12 3 ")"] 76,
   LR1State.mk [item 11 0 "else", item 6 0 "else", item 9 0 "else", item 9 5 "ID", item 9 5 "if", item 9 5 "while",
     item 9 5 "\x7b", item 9 5 "\x7d", item 4 0 "else", item 5 0 "else", item 2 0 "else", item 3 0 "else",
     item 10 0 "else"] 77,
   LR1State.mk [item 19 0 "<", item 19 0 "<=", item 19 0 "==", item 19 0 ">", item 19 0 ">=", item 19 2 "<",
     item 19 2 "<=", item 19 2 "==", item 19 2 ">", item 19 2 ">=", item 20 0 "<", item 20 0 "<=",
     item 20 0 "==", item 20 0 ">", item 20 0 ">=", item 21 0 "<", item 21 0 "<=", item 21 0 "==",
     item 21 0 ">", item 21 0 ">="] 78,
   LR1State.mk [item 19 0 "<", item 19 0 "<=", item 19 0 "==", item 19 0 ">", item 19 0 ">=", item 20 0 "<",
     item 20 0 "<=", item 20 0 "==", item 20 0 ">", item 20 0 ">=", item 20 2 "<", item 20 2 "<=",
     item 20 2 "==", item 20 2 ">", item 20 2 ">=", item 21 0 "<", item 21 0 "<=", item 21 0 "==",
     item 21 0 ">", item 21 0 ">="] 79,
   LR1State.mk [item 23 0 "+", item 23 0 "-", item 23 0 "<", item 23 0 "<=", item 23 0 "==", item 23 0 ">",
     item 23 0 ">=", item 23 2 "+", item 23 2 "-", item 23 2 "<", item 23 2 "<=", item 23 2 "==",
     item 23 2 ">", item 23 2 ">=", item 24 0 "+", item 24 0 "-", item 24 0 "<", item 24 0 "<=",
     item 24 0 "==", item 24 0 ">", item 24 0 ">=", item 25 0 "+", item 25 0 "-", item 25 0 "<",
     item 25 0 "<=", item 25 0 "==", item 25 0 ">", item 25 0 ">="] 80,
   LR1State.mk [item 23 0 "+", item 23 0 "-", item 23 0 "<", item 23 0 "<=", item 23 0 "==", item 23 0 ">",
     item 23 0 ">=", item 24 0 "+", item 24 0 "-", item 24 0 "<", item 24 0 "<=", item 24 0 "==",
     item 24 0 ">", item 24 0 ">=", item 24 2 "+", item 24 2 "-", item 24 2 "<", item 24 2 "<=",
     item 24 2 "==", item 24 2 ">", item 24 2 ">=", item 25 0 "+", item 25 0 "-", item 25 0 "<",
     item 25 0 "<=", item 25 0 "==", item 25 0 ">", item 25 0 ">="] 81,
   LR1State.mk [item 10 5 "ID", item 10 5 "if", item 10 5 "while", item 10 5 "\x7b", item 10 5 "\x7d"] 82,
   LR1State.mk [item 28 3 ")", item 28 3 "*", item 28 3 "+", item 28 3 "-", item 28 3 "/"] 83,
   LR1State.mk [item 19 0 ")", item 19 2 ")", item 20 0 ")", item 21 0 ")"] 84,
   LR1State.mk [item 19 0 ")", item 20 0 ")", item 20 2 ")", item 21 0 ")"] 85,
   LR1State.mk [item 23 0 ")", item 23 0 "+", item 23 0 "-", item 23 2 ")", item 23 2 "+", item 23 2 "-",
     item 24 0 ")", item 24 0 "+", item 24 0 "-", item 25 0 ")", item 25 0 "+", item 25 0 "-"] 86,
   LR1State.mk [item 23 0 ")", item 23 0 "+", item 23 0 "-", item 24 0 ")", item 24 0 "+", item 24 0 "-",
     item 24 2 ")", item 24 2 "+", item 24 2 "-", item 25 0 ")", item 25 0 "+", item 25 0 "-"] 87,
   LR1State.mk [item 19 3 ";"] 88,
   LR1State.mk [item 20 3 ";"] 89,
   LR1State.mk [item 23 3 "+", item 23 3 "-", item 23 3 ";"] 90,
   LR1State.mk [item 24 3 "+", item 24 3 "-", item 24 3 ";"] 91,
   LR1State.mk [item 11 1 "else"] 92,
   LR1State.mk [item 4 1 "else"] 93,
   LR1State.mk [item 5 1 "else"] 94,
   LR1State.mk [item 9 1 "else"] 95,
   LR1State.mk [item 2 1 "else"] 96,
   LR1State.mk [item 9 6 "ID", item 9 6 "if", item 9 6 "while", item 9 6 "\x7b", item 9 6 "\x7d"] 97,
   LR1State.mk [item 10 1 "else"] 98,
   LR1State.mk [item 3 1 "else"] 99,
   LR1State.mk [item 11 0 "ID", item 11 0 "if", item 11 0 "while", item 11 0 "\x7b", item 11 0 "\x7d", item 6 0 "ID",
     item 6 0 "if", item 6 0 "while", item 6 0 "\x7b", item 6 0 "\x7d", item 6 1 "else", item 9 0 "ID",
     item 9 0 "if", item 9 0 "while", item 9 0 "\x7b", item 9 0 "\x7d", item 4 0 "ID", item 4 0 "if",
     item 4 0 "while", item 4 0 "\x7b", item 4 0 "\x7d", item 5 0 "ID", item 5 0 "if", item 5 0 "while",
     item 5 0 "\x7b", item 5 0 "\x7d", item 2 0 "ID", item 2 0 "if", item 2 0 "while", item 2 0 "\x7b",
     item 2 0 "\x7d", item 3 0 "ID", item 3 0 "if", item 3 0 "while", item 3 0 "\x7b", item 3 0 "\x7d",
     item 8 0 "\x7d", item 7 0 "\x7d", item 10 0 "ID", item 10 0 "if", item 10 0 "while", item 10 0 "\x7b",
     item 10 0 "\x7d"] 100,
   LR1State.mk [item 19 3 "<", item 19 3 "<=", item 19 3 "==", item 19 3 ">", item 19 3 ">="] 101,
   LR1State.mk [item 20 3 "<", item 20 3 "<=", item 20 3 "==", item 20 3 ">", item 20 3 ">="] 102,
   LR1State.mk [item 23 3 "+", item 23 3 "-", item 23 3 "<", item 23 3 "<=", item 23 3 "==", item 23 3 ">",
     item 23 3 ">="] 103,
   LR1State.mk [item 24 3 "+", item 24 3 "-", item 24 3 "<", item 24 3 "<=", item 24 3 "==", item 24 3 ">",
     item 24 3 ">="] 104,
   LR1State.mk [item 19 3 ")"] 105,
   LR1State.mk [item 20 3 ")"] 106,
   LR1State.mk [item 23 3 ")", item 23 3 "+", item 23 3 "-"] 107,
   LR1State.mk [item 24 3 ")", item 24 3 "+", item 24 3 "-"] 108,
   LR1State.mk [item 18 0 ";", item 11 2 "else", item 22 0 "+", item 22 0 "-", item 22 0 ";", item 28 0 "*",
     item 28 0 "+", item 28 0 "-", item 28 0 "/", item 28 0 ";", item 26 0 "*", item 26 0 "+",
     item 26 0 "-", item 26 0 "/", item 26 0 ";", item 27 0 "*", item 27 0 "+", item 27 0 "-",
     item 27 0 "/", item 27 0 ";"] 109,
   LR1State.mk [item 18 0 "<", item 18 0 "<=", item 18 0 "==", item 18 0 ">", item 18 0 ">=", item 12 0 ")",
     item 9 2 "else", item 22 0 "+", item 22 0 "-", item 22 0 "<", item 22 0 "<=", item 22 0 "==",
     item 22 0 ">", item 22 0 ">=", item 28 0 "*", item 28 0 "+", item 28 0 "-", item 28 0 "/",
     item 28 0 "<", item 28 0 "<=", item 28 0 "==", item 28 0 ">", item 28 0 ">=", item 26 0 "*",
     item 26 0 "+", item 26 0 "-", item 26 0 "/", item 26 0 "<", item 26 0 "<=", item 26 0 "==",
     item 26 0 ">", item 26 0 ">=", item 27 0 "*", item 27 0 "+", item 27 0 "-", item 27 0 "/",
     item 27 0 "<", item 27 0 "<=", item 27 0 "==", item 27 0 ">", item 27 0 ">="] 110,
   LR1State.mk [item 11 0 "ID", item 11 0 "if", item 11 0 "while", item 11 0 "\x7b", item 11 0 "\x7d", item 6 0 "ID",
     item 6 0 "if", item 6 0 "while", item 6 0 "\x7b", item 6 0 "\x7d", item 9 0 "ID", item 9 0 "if",
     item 9 0 "while", item 9 0 "\x7b", item 9 0 "\x7d", item 9 7 "ID", item 9 7 "if", item 9 7 "while",
     item 9 7 "\x7b", item 9 7 "\x7d", item 4 0 "ID", item 4 0 "if", item 4 0 "while", item 4 0 "\x7b",
     item 4 0 "\x7d", item 5 0 "ID", item 5 0 "if", item 5 0 "while", item 5 0 "\x7b", item 5 0 "\x7d",
     item 2 0 "ID", item 2 0 "if", item 2 0 "while", item 2 0 "\x7b", item 2 0 "\x7d", item 3 0 "ID",
     item 3 0 "if", item 3 0 "while", item 3 0 "\x7b", item 3 0 "\x7d", item 10 0 "ID", item 10 0 "if",
     item 10 0 "while", item 10 0 "\x7b", item 10 0 "\x7d"] 111,
   LR1State.mk [item 18 0 "<", item 18 0 "<=", item 18 0 "==", item 18 0 ">", item 18 0 ">=", item 12 0 ")",
     item 22 0 "+", item 22 0 "-", item 22 0 "<", item 22 0 "<=", item 22 0 "==", item 22 0 ">",
     item 22 0 ">=", item 28 0 "*", item 28 0 "+", item 28 0 "-", item 28 0 "/", item 28 0 "<",
     item 28 0 "<=", item 28 0 "==", item 28 0 ">", item 28 0 ">=", item 26 0 "*", item 26 0 "+",
     item 26 0 "-", item 26 0 "/", item 26 0 "<", item 26 0 "<=", item 26 0 "==", item 26 0 ">",
     item 26 0 ">=", item 27 0 "*", item 27 0 "+", item 27 0 "-", item 27 0 "/", item 27 0 "<",
     item 27 0 "<=", item 27 0 "==", item 27 0 ">", item 27 0 ">=", item 10 2 "else"] 112,
   LR1State.mk [item 6 2 "else"] 113,
   LR1State.mk [item 11 3 "else"] 114,
   LR1State.mk [item 9 3 "else"] 115,
   LR1State.mk [item 9 8 "ID", item 9 8 "if", item 9 8 "while", item 9 8 "\x7b", item 9 8 "\x7d"] 116,
   LR1State.mk [item 10 3 "else"] 117,
   LR1State.mk [item 6 3 "else"] 118,
   LR1State.mk [item 11 4 "else"] 119,
   LR1State.mk [item 9 4 "else"] 120,
   LR1State.mk [item 11 0 "else", item 6 0 "else", item 9 0 "else", item 4 0 "else", item 5 0 "else", item 2 0 "else",
     item 3 0 "else", item 10 0 "else", item 10 4 "else"] 121,
   LR1State.mk [item 11 0 "else", item 6 0 "else", item 9 0 "else", item 9 5 "else", item 4 0 "else", item 5 0 "else",
     item 2 0 "else", item 3 0 "else", item 10 0 "else"] 122,
   LR1State.mk [item 10 5 "else"] 123,
   LR1State.mk [item 9 6 "else"] 124,
   LR1State.mk [item 11 0 "else", item 6 0 "else", item 9 0 "else", item 9 7 "else", item 4 0 "else", item 5 0 "else",
     item 2 0 "else", item 3 0 "else", item 10 0 "else"] 125,
   LR1State.mk [item 9 8 "else"] 126]

/-- The map `gotoTable` after `buildLR1Automaton`. -/
def gotoTableLit : Table :=
  [entry 0 (nsym "compoundstmt") 1, entry 0 (nsym "program") 2, entry 0 (tsym "\x7b") 3, entry 3 (tsym "ID") 4,
   entry 3 (nsym "assgstmt") 5, entry 3 (nsym "compoundstmt") 6, entry 3 (tsym "if") 7, entry 3 (nsym "ifstmt") 8,
   entry 3 (nsym "stmt") 9, entry 3 (nsym "stmts") 10, entry 3 (tsym "while") 11, entry 3 (nsym "whilestmt") 12,
   entry 3 (tsym "\x7b") 13, entry 4 (tsym "=") 14, entry 7 (tsym "(") 15, entry 9 (tsym "ID") 4,
   entry 9 (nsym "assgstmt") 5, entry 9 (nsym "compoundstmt") 6, entry 9 (tsym "if") 7, entry 9 (nsym "ifstmt") 8,
   entry 9 (nsym "stmt") 9, entry 9 (nsym "stmts") 16, entry 9 (tsym "while") 11, entry 9 (nsym "whilestmt") 12,
   entry 9 (tsym "\x7b") 13, entry 10 (tsym "\x7d") 17, entry 11 (tsym "(") 18, entry 13 (tsym "ID") 4,
   entry 13 (nsym "assgstmt") 5, entry 13 (nsym "compoundstmt") 6, entry 13 (tsym "if") 7, entry 13 (nsym "ifstmt") 8,
   entry 13 (nsym "stmt") 9, entry 13 (nsym "stmts") 19, entry 13 (tsym "while") 11, entry 13 (nsym "whilestmt") 12,
   entry 13 (tsym "\x7b") 13, entry 14 (tsym "(") 20, entry 14 (tsym "ID") 21, entry 14 (tsym "NUM") 22,
   entry 14 (nsym "arithexpr") 23, entry 14 (nsym "multexpr") 24, entry 14 (nsym "simpleexpr") 25, entry 15 (tsym "(") 26,
   entry 15 (tsym "ID") 27, entry 15 (tsym "NUM") 28, entry 15 (nsym "arithexpr") 29, entry 15 (nsym "boolexpr") 30,
   entry 15 (nsym "multexpr") 31, entry 15 (nsym "simpleexpr") 32, entry 18 (tsym "(") 26, entry 18 (tsym "ID") 27,
   entry 18 (tsym "NUM") 28, entry 18 (nsym "arithexpr") 29, entry 18 (nsym "boolexpr") 33, entry 18 (nsym "multexpr") 31,
   entry 18 (nsym "simpleexpr") 32, entry 19 (tsym "\x7d") 34, entry 20 (tsym "(") 35, entry 20 (tsym "ID") 36,
   entry 20 (tsym "NUM") 37, entry 20 (nsym "arithexpr") 38, entry 20 (nsym "multexpr") 39, entry 20 (nsym "simpleexpr") 40,
   entry 23 (tsym ";") 41, entry 24 (tsym "+") 42, entry 24 (tsym "-") 43, entry 24 (nsym "arithexprprime") 44,
   entry 25 (tsym "*") 45, entry 25 (tsym "/") 46, entry 25 (nsym "multexprprime") 47, entry 26 (tsym "(") 35,
   entry 26 (tsym "ID") 36, entry 26 (tsym "NUM") 37, entry 26 (nsym "arithexpr") 48, entry 26 (nsym "multexpr") 39,
   entry 26 (nsym "simpleexpr") 40, entry 29 (tsym "<") 49, entry 29 (tsym "<=") 50, entry 29 (tsym "==") 51,
   entry 29 (tsym ">") 52, entry 29 (tsym ">=") 53, entry 29 (nsym "boolop") 54, entry 30 (tsym ")") 55,
   entry 31 (tsym "+") 56, entry 31 (tsym "-") 57, entry 31 (nsym "arithexprprime") 58, entry 32 (tsym "*") 59,
   entry 32 (tsym "/") 60, entry 32 (nsym "multexprprime") 61, entry 33 (tsym ")") 62, entry 35 (tsym "(") 35,
   entry 35 (tsym "ID") 36, entry 35 (tsym "NUM") 37, entry 35 (nsym "arithexpr") 63, entry 35 (nsym "multexpr") 39,
   entry 35 (nsym "simpleexpr") 40, entry 38 (tsym ")") 64, entry 39 (tsym "+") 65, entry 39 (tsym "-") 66,
   entry 39 (nsym "arithexprprime") 67, entry 40 (tsym "*") 68, entry 40 (tsym "/") 69, entry 40 (nsym "multexprprime") 70,
   entry 42 (tsym "(") 20, entry 42 (tsym "ID") 21, entry 42 (tsym "NUM") 22, entry 42 (nsym "multexpr") 71,
   entry 42 (nsym "simpleexpr") 25, entry 43 (tsym "(") 20, entry 43 (tsym "ID") 21, entry 43 (tsym "NUM") 22,
   entry 43 (nsym "multexpr") 72, entry 43 (nsym "simpleexpr") 25, entry 45 (tsym "(") 20, entry 45 (tsym "ID") 21,
   entry 45 (tsym "NUM") 22, entry 45 (nsym "simpleexpr") 73, entry 46 (tsym "(") 20, entry 46 (tsym "ID") 21,
   entry 46 (tsym "NUM") 22, entry 46 (nsym "simpleexpr") 74, entry 48 (tsym ")") 75, entry 54 (tsym "(") 35,
   entry 54 (tsym "ID") 36, entry 54 (tsym "NUM") 37, entry 54 (nsym "arithexpr") 76, entry 54 (nsym "multexpr") 39,
   entry 54 (nsym "simpleexpr") 40, entry 55 (tsym "then") 77, entry 56 (tsym "(") 26, entry 56 (tsym "ID") 27,
   entry 56 (tsym "NUM") 28, entry 56 (nsym "multexpr") 78, entry 56 (nsym "simpleexpr") 32, entry 57 (tsym "(") 26,
   entry 57 (tsym "ID") 27, entry 57 (tsym "NUM") 28, entry 57 (nsym "multexpr") 79, entry 57 (nsym "simpleexpr") 32,
   entry 59 (tsym "(") 26, entry 59 (tsym "ID") 27, entry 59 (tsym "NUM") 28, entry 59 (nsym "simpleexpr") 80,
   entry 60 (tsym "(") 26, entry 60 (tsym "ID") 27, entry 60 (tsym "NUM") 28, entry 60 (nsym "simpleexpr") 81,
   entry 62 (tsym "ID") 4, entry 62 (nsym "assgstmt") 5, entry 62 (nsym "compoundstmt") 6, entry 62 (tsym "if") 7,
   entry 62 (nsym "ifstmt") 8, entry 62 (nsym "stmt") 82, entry 62 (tsym "while") 11, entry 62 (nsym "whilestmt") 12,
   entry 62 (tsym "\x7b") 13, entry 63 (tsym ")") 83, entry 65 (tsym "(") 35, entry 65 (tsym "ID") 36,
   entry 65 (tsym "NUM") 37, entry 65 (nsym "multexpr") 84, entry 65 (nsym "simpleexpr") 40, entry 66 (tsym "(") 35,
   entry 66 (tsym "ID") 36, entry 66 (tsym "NUM") 37, entry 66 (nsym "multexpr") 85, entry 66 (nsym "simpleexpr") 40,
   entry 68 (tsym "(") 35, entry 68 (tsym "ID") 36, entry 68 (tsym "NUM") 37, entry 68 (nsym "simpleexpr") 86,
   entry 69 (tsym "(") 35, entry 69 (tsym "ID") 36, entry 69 (tsym "NUM") 37, entry 69 (nsym "simpleexpr") 87,
   entry 71 (tsym "+") 42, entry 71 (tsym "-") 43, entry 71 (nsym "arithexprprime") 88, entry 72 (tsym "+") 42,
   entry 72 (tsym "-") 43, entry 72 (nsym "arithexprprime") 89, entry 73 (tsym "*") 45, entry 73 (tsym "/") 46,
   entry 73 (nsym "multexprprime") 90, entry 74 (tsym "*") 45, entry 74 (tsym "/") 46, entry 74 (nsym "multexprprime") 91,
   entry 77 (tsym "ID") 92, entry 77 (nsym "assgstmt") 93, entry 77 (nsym "compoundstmt") 94, entry 77 (tsym "if") 95,
   entry 77 (nsym "ifstmt") 96, entry 77 (nsym "stmt") 97, entry 77 (tsym "while") 98, entry 77 (nsym "whilestmt") 99,
   entry 77 (tsym "\x7b") 100, entry 78 (tsym "+") 56, entry 78 (tsym "-") 57, entry 78 (nsym "arithexprprime") 101,
   entry 79 (tsym "+") 56, entry 79 (tsym "-") 57, entry 79 (nsym "arithexprprime") 102, entry 80 (tsym "*") 59,
   entry 80 (tsym "/") 60, entry 80 (nsym "multexprprime") 103, entry 81 (tsym "*") 59, entry 81 (tsym "/") 60,
   entry 81 (nsym "multexprprime") 104, entry 84 (tsym "+") 65, entry 84 (tsym "-") 66, entry 84 (nsym "arithexprprime") 105,
   entry 85 (tsym "+") 65, entry 85 (tsym "-") 66, entry 85 (nsym "arithexprprime") 106, entry 86 (tsym "*") 68,
   entry 86 (tsym "/") 69, entry 86 (nsym "multexprprime") 107, entry 87 (tsym "*") 68, entry 87 (tsym "/") 69,
   entry 87 (nsym "multexprprime") 108, entry 92 (tsym "=") 109, entry 95 (tsym "(") 110, entry 97 (tsym "else") 111,
   entry 98 (tsym "(") 112, entry 100 (tsym "ID") 4, entry 100 (nsym "assgstmt") 5, entry 100 (nsym "compoundstmt") 6,
   entry 100 (tsym "if") 7, entry 100 (nsym "ifstmt") 8, entry 100 (nsym "stmt") 9, entry 100 (nsym "stmts") 113,
   entry 100 (tsym "while") 11, entry 100 (nsym "whilestmt") 12, entry 100 (tsym "\x7b") 13, entry 109 (tsym "(") 20,
   entry 109 (tsym "ID") 21, entry 109 (tsym "NUM") 22, entry 109 (nsym "arithexpr") 114, entry 109 (nsym "multexpr") 24,
   entry 109 (nsym "simpleexpr") 25, entry 110 (tsym "(") 26, entry 110 (tsym "ID") 27, entry 110 (tsym "NUM") 28,
   entry 110 (nsym "arithexpr") 29, entry 110 (nsym "boolexpr") 115, entry 110 (nsym "multexpr") 31, entry 110 (nsym "simpleexpr") 32,
   entry 111 (tsym "ID") 4, entry 111 (nsym "assgstmt") 5, entry 111 (nsym "compoundstmt") 6, entry 111 (tsym "if") 7,
   entry 111 (nsym "ifstmt") 8, entry 111 (nsym "stmt") 116, entry 111 (tsym "while") 11, entry 111 (nsym "whilestmt") 12,
   entry 111 (tsym "\x7b") 13, entry 112 (tsym "(") 26, entry 112 (tsym "ID") 27, entry 112 (tsym "NUM") 28,
   entry 112 (nsym "arithexpr") 29, entry 112 (nsym "boolexpr") 117, entry 112 (nsym "multexpr") 31, entry 112 (nsym "simpleexpr") 32,
   entry 113 (tsym "\x7d") 118, entry 114 (tsym ";") 119, entry 115 (tsym ")") 120, entry 117 (tsym ")") 121,
   entry 120 (tsym "then") 122, entry 121 (tsym "ID") 92, entry 121 (nsym "assgstmt") 93, entry 121 (nsym "compoundstmt") 94,
   entry 121 (tsym "if") 95, entry 121 (nsym "ifstmt") 96, entry 121 (nsym "stmt") 123, entry 121 (tsym "while") 98,
   entry 121 (nsym "whilestmt") 99, entry 121 (tsym "\x7b") 100, entry 122 (tsym "ID") 92, entry 122 (nsym "assgstmt") 93,
   entry 122 (nsym "compoundstmt") 94, entry 122 (tsym "if") 95, entry 122 (nsym "ifstmt") 96, entry 122 (nsym "stmt") 124,
   entry 122 (tsym "while") 98, entry 122 (nsym "whilestmt") 99, entry 122 (tsym "\x7b") 100, entry 124 (tsym "else") 125,
   entry 125 (tsym "ID") 92, entry 125 (nsym "assgstmt") 93, entry 125 (nsym "compoundstmt") 94, entry 125 (tsym "if") 95,
   entry 125 (nsym "ifstmt") 96, entry 125 (nsym "stmt") 126, entry 125 (tsym "while") 98, entry 125 (nsym "whilestmt") 99,
   entry 125 (tsym "\x7b") 100]

/-- The map `actionTable` after `buildParsingTable`. -/
def actionTableLit : Table :=
  [entry 0 (tsym "\x7b") 4, entry 1 (tsym "$") (-3), entry 2 (tsym "$") (-1), entry 3 (tsym "ID") 5,
   entry 3 (tsym "if") 8, entry 3 (tsym "while") 12, entry 3 (tsym "\x7b") 14, entry 3 (tsym "\x7d") (-10),
   entry 4 (tsym "=") 15, entry 5 (tsym "ID") (-6), entry 5 (tsym "if") (-6), entry 5 (tsym "while") (-6),
   entry 5 (tsym "\x7b") (-6), entry 5 (tsym "\x7d") (-6), entry 6 (tsym "ID") (-7), entry 6 (tsym "if") (-7),
   entry 6 (tsym "while") (-7), entry 6 (tsym "\x7b") (-7), entry 6 (tsym "\x7d") (-7), entry 7 (tsym "(") 16,
   entry 8 (tsym "ID") (-4), entry 8 (tsym "if") (-4), entry 8 (tsym "while") (-4), entry 8 (tsym "\x7b") (-4),
   entry 8 (tsym "\x7d") (-4), entry 9 (tsym "ID") 5, entry 9 (tsym "if") 8, entry 9 (tsym "while") 12,
   entry 9 (tsym "\x7b") 14, entry 9 (tsym "\x7d") (-10), entry 10 (tsym "\x7d") 18, entry 11 (tsym "(") 19,
   entry 12 (tsym "ID") (-5), entry 12 (tsym "if") (-5), entry 12 (tsym "while") (-5), entry 12 (tsym "\x7b") (-5),
   entry 12 (tsym "\x7d") (-5), entry 13 (tsym "ID") 5, entry 13 (tsym "if") 8, entry 13 (tsym "while") 12,
   entry 13 (tsym "\x7b") 14, entry 13 (tsym "\x7d") (-10), entry 14 (tsym "(") 21, entry 14 (tsym "ID") 22,
   entry 14 (tsym "NUM") 23, entry 15 (tsym "(") 27, entry 15 (tsym "ID") 28, entry 15 (tsym "NUM") 29,
   entry 16 (tsym "\x7d") (-9), entry 17 (tsym "$") (-8), entry 18 (tsym "(") 27, entry 18 (tsym "ID") 28,
   entry 18 (tsym "NUM") 29, entry 19 (tsym "\x7d") 35, entry 20 (tsym "(") 36, entry 20 (tsym "ID") 37,
   entry 20 (tsym "NUM") 38, entry 21 (tsym "*") (-28), entry 21 (tsym "+") (-28), entry 21 (tsym "-") (-28),
   entry 21 (tsym "/") (-28), entry 21 (tsym ";") (-28), entry 22 (tsym "*") (-29), entry 22 (tsym "+") (-29),
   entry 22 (tsym "-") (-29), entry 22 (tsym "/") (-29), entry 22 (tsym ";") (-29), entry 23 (tsym ";") 42,
   entry 24 (tsym "+") 43, entry 24 (tsym "-") 44, entry 24 (tsym ";") (-23), entry 25 (tsym "*") 46,
   entry 25 (tsym "+") (-27), entry 25 (tsym "-") (-27), entry 25 (tsym "/") 47, entry 25 (tsym ";") (-27),
   entry 26 (tsym "(") 36, entry 26 (tsym "ID") 37, entry 26 (tsym "NUM") 38, entry 27 (tsym "*") (-28),
   entry 27 (tsym "+") (-28), entry 27 (tsym "-") (-28), entry 27 (tsym "/") (-28), entry 27 (tsym "<") (-28),
   entry 27 (tsym "<=") (-28), entry 27 (tsym "==") (-28), entry 27 (tsym ">") (-28), entry 27 (tsym ">=") (-28),
   entry 28 (tsym "*") (-29), entry 28 (tsym "+") (-29), entry 28 (tsym "-") (-29), entry 28 (tsym "/") (-29),
   entry 28 (tsym "<") (-29), entry 28 (tsym "<=") (-29), entry 28 (tsym "==") (-29), entry 28 (tsym ">") (-29),
   entry 28 (tsym ">=") (-29), entry 29 (tsym "<") 50, entry 29 (tsym "<=") 51, entry 29 (tsym "==") 52,
   entry 29 (tsym ">") 53, entry 29 (tsym ">=") 54, entry 30 (tsym ")") 56, entry 31 (tsym "+") 57,
   entry 31 (tsym "-") 58, entry 31 (tsym "<") (-23), entry 31 (tsym "<=") (-23), entry 31 (tsym "==") (-23),
   entry 31 (tsym ">") (-23), entry 31 (tsym ">=") (-23), entry 32 (tsym "*") 60, entry 32 (tsym "+") (-27),
   entry 32 (tsym "-") (-27), entry 32 (tsym "/") 61, entry 32 (tsym "<") (-27), entry 32 (tsym "<=") (-27),
   entry 32 (tsym "==") (-27), entry 32 (tsym ">") (-27), entry 32 (tsym ">=") (-27), entry 33 (tsym ")") 63,
   entry 34 (tsym "ID") (-8), entry 34 (tsym "if") (-8), entry 34 (tsym "while") (-8), entry 34 (tsym "\x7b") (-8),
   entry 34 (tsym "\x7d") (-8), entry 35 (tsym "(") 36, entry 35 (tsym "ID") 37, entry 35 (tsym "NUM") 38,
   entry 36 (tsym ")") (-28), entry 36 (tsym "*") (-28), entry 36 (tsym "+") (-28), entry 36 (tsym "-") (-28),
   entry 36 (tsym "/") (-28), entry 37 (tsym ")") (-29), entry 37 (tsym "*") (-29), entry 37 (tsym "+") (-29),
   entry 37 (tsym "-") (-29), entry 37 (tsym "/") (-29), entry 38 (tsym ")") 65, entry 39 (tsym ")") (-23),
   entry 39 (tsym "+") 66, entry 39 (tsym "-") 67, entry 40 (tsym ")") (-27), entry 40 (tsym "*") 69,
   entry 40 (tsym "+") (-27), entry 40 (tsym "-") (-27), entry 40 (tsym "/") 70, entry 41 (tsym "ID") (-13),
   entry 41 (tsym "if") (-13), entry 41 (tsym "while") (-13), entry 41 (tsym "\x7b") (-13), entry 41 (tsym "\x7d") (-13),
   entry 42 (tsym "(") 21, entry 42 (tsym "ID") 22, entry 42 (tsym "NUM") 23, entry 43 (tsym "(") 21,
   entry 43 (tsym "ID") 22, entry 43 (tsym "NUM") 23, entry 44 (tsym ";") (-20), entry 45 (tsym "(") 21,
   entry 45 (tsym "ID") 22, entry 45 (tsym "NUM") 23, entry 46 (tsym "(") 21, entry 46 (tsym "ID") 22,
   entry 46 (tsym "NUM") 23, entry 47 (tsym "+") (-24), entry 47 (tsym "-") (-24), entry 47 (tsym ";") (-24),
   entry 48 (tsym ")") 76, entry 49 (tsym "(") (-15), entry 49 (tsym "ID") (-15), entry 49 (tsym "NUM") (-15),
   entry 50 (tsym "(") (-17), entry 50 (tsym "ID") (-17), entry 50 (tsym "NUM") (-17), entry 51 (tsym "(") (-19),
   entry 51 (tsym "ID") (-19), entry 51 (tsym "NUM") (-19), entry 52 (tsym "(") (-16), entry 52 (tsym "ID") (-16),
   entry 52 (tsym "NUM") (-16), entry 53 (tsym "(") (-18), entry 53 (tsym "ID") (-18), entry 53 (tsym "NUM") (-18),
   entry 54 (tsym "(") 36, entry 54 (tsym "ID") 37, entry 54 (tsym "NUM") 38, entry 55 (tsym "then") 78,
   entry 56 (tsym "(") 27, entry 56 (tsym "ID") 28, entry 56 (tsym "NUM") 29, entry 57 (tsym "(") 27,
   entry 57 (tsym "ID") 28, entry 57 (tsym "NUM") 29, entry 58 (tsym "<") (-20), entry 58 (tsym "<=") (-20),
   entry 58 (tsym "==") (-20), entry 58 (tsym ">") (-20), entry 58 (tsym ">=") (-20), entry 59 (tsym "(") 27,
   entry 59 (tsym "ID") 28, entry 59 (tsym "NUM") 29, entry 60 (tsym "(") 27, entry 60 (tsym "ID") 28,
   entry 60 (tsym "NUM") 29, entry 61 (tsym "+") (-24), entry 61 (tsym "-") (-24), entry 61 (tsym "<") (-24),
   entry 61 (tsym "<=") (-24), entry 61 (tsym "==") (-24), entry 61 (tsym ">") (-24), entry 61 (tsym ">=") (-24),
   entry 62 (tsym "ID") 5, entry 62 (tsym "if") 8, entry 62 (tsym "while") 12, entry 62 (tsym "\x7b") 14,
   entry 63 (tsym ")") 84, entry 64 (tsym "*") (-30), entry 64 (tsym "+") (-30), entry 64 (tsym "-") (-30),
   entry 64 (tsym "/") (-30), entry 64 (tsym ";") (-30), entry 65 (tsym "(") 36, entry 65 (tsym "ID") 37,
   entry 65 (tsym "NUM") 38, entry 66 (tsym "(") 36, entry 66 (tsym "ID") 37, entry 66 (tsym "NUM") 38,
   entry 67 (tsym ")") (-20), entry 68 (tsym "(") 36, entry 68 (tsym "ID") 37, entry 68 (tsym "NUM") 38,
   entry 69 (tsym "(") 36, entry 69 (tsym "ID") 37, entry 69 (tsym "NUM") 38, entry 70 (tsym ")") (-24),
   entry 70 (tsym "+") (-24), entry 70 (tsym "-") (-24), entry 71 (tsym "+") 43, entry 71 (tsym "-") 44,
   entry 71 (tsym ";") (-23), entry 72 (tsym "+") 43, entry 72 (tsym "-") 44, entry 72 (tsym ";") (-23),
   entry 73 (tsym "*") 46, entry 73 (tsym "+") (-27), entry 73 (tsym "-") (-27), entry 73 (tsym "/") 47,
   entry 73 (tsym ";") (-27), entry 74 (tsym "*") 46, entry 74 (tsym "+") (-27), entry 74 (tsym "-") (-27),
   entry 74 (tsym "/") 47, entry 74 (tsym ";") (-27), entry 75 (tsym "*") (-30), entry 75 (tsym "+") (-30),
   entry 75 (tsym "-") (-30), entry 75 (tsym "/") (-30), entry 75 (tsym "<") (-30), entry 75 (tsym "<=") (-30),
   entry 75 (tsym "==") (-30), entry 75 (tsym ">") (-30), entry 75 (tsym ">=") (-30), entry 76 (tsym ")") (-14),
   entry 77 (tsym "ID") 93, entry 77 (tsym "if") 96, entry 77 (tsym "while") 99, entry 77 (tsym "\x7b") 101,
   entry 78 (tsym "+") 57, entry 78 (tsym "-") 58, entry 78 (tsym "<") (-23), entry 78 (tsym "<=") (-23),
   entry 78 (tsym "==") (-23), entry 78 (tsym ">") (-23), entry 78 (tsym ">=") (-23), entry 79 (tsym "+") 57,
   entry 79 (tsym "-") 58, entry 79 (tsym "<") (-23), entry 79 (tsym "<=") (-23), entry 79 (tsym "==") (-23),
   entry 79 (tsym ">") (-23), entry 79 (tsym ">=") (-23), entry 80 (tsym "*") 60, entry 80 (tsym "+") (-27),
   entry 80 (tsym "-") (-27), entry 80 (tsym "/") 61, entry 80 (tsym "<") (-27), entry 80 (tsym "<=") (-27),
   entry 80 (tsym "==") (-27), entry 80 (tsym ">") (-27), entry 80 (tsym ">=") (-27), entry 81 (tsym "*") 60,
   entry 81 (tsym "+") (-27), entry 81 (tsym "-") (-27), entry 81 (tsym "/") 61, entry 81 (tsym "<") (-27),
   entry 81 (tsym "<=") (-27), entry 81 (tsym "==") (-27), entry 81 (tsym ">") (-27), entry 81 (tsym ">=") (-27),
   entry 82 (tsym "ID") (-12), entry 82 (tsym "if") (-12), entry 82 (tsym "while") (-12), entry 82 (tsym "\x7b") (-12),
   entry 82 (tsym "\x7d") (-12), entry 83 (tsym ")") (-30), entry 83 (tsym "*") (-30), entry 83 (tsym "+") (-30),
   entry 83 (tsym "-") (-30), entry 83 (tsym "/") (-30), entry 84 (tsym ")") (-23), entry 84 (tsym "+") 66,
   entry 84 (tsym "-") 67, entry 85 (tsym ")") (-23), entry 85 (tsym "+") 66, entry 85 (tsym "-") 67,
   entry 86 (tsym ")") (-27), entry 86 (tsym "*") 69, entry 86 (tsym "+") (-27), entry 86 (tsym "-") (-27),
   entry 86 (tsym "/") 70, entry 87 (tsym ")") (-27), entry 87 (tsym "*") 69, entry 87 (tsym "+") (-27),
   entry 87 (tsym "-") (-27), entry 87 (tsym "/") 70, entry 88 (tsym ";") (-21), entry 89 (tsym ";") (-22),
   entry 90 (tsym "+") (-25), entry 90 (tsym "-") (-25), entry 90 (tsym ";") (-25), entry 91 (tsym "+") (-26),
   entry 91 (tsym "-") (-26), entry 91 (tsym ";") (-26), entry 92 (tsym "=") 110, entry 93 (tsym "else") (-6),
   entry 94 (tsym "else") (-7), entry 95 (tsym "(") 111, entry 96 (tsym "else") (-4), entry 97 (tsym "else") 112,
   entry 98 (tsym "(") 113, entry 99 (tsym "else") (-5), entry 100 (tsym "ID") 5, entry 100 (tsym "if") 8,
   entry 100 (tsym "while") 12, entry 100 (tsym "\x7b") 14, entry 100 (tsym "\x7d") (-10), entry 101 (tsym "<") (-21),
   entry 101 (tsym "<=") (-21), entry 101 (tsym "==") (-21), entry 101 (tsym ">") (-21), entry 101 (tsym ">=") (-21),
   entry 102 (tsym "<") (-22), entry 102 (tsym "<=") (-22), entry 102 (tsym "==") (-22), entry 102 (tsym ">") (-22),
   entry 102 (tsym ">=") (-22), entry 103 (tsym "+") (-25), entry 103 (tsym "-") (-25), entry 103 (tsym "<") (-25),
   entry 103 (tsym "<=") (-25), entry 103 (tsym "==") (-25), entry 103 (tsym ">") (-25), entry 103 (tsym ">=") (-25),
   entry 104 (tsym "+") (-26), entry 104 (tsym "-") (-26), entry 104 (tsym "<") (-26), entry 104 (tsym "<=") (-26),
   entry 104 (tsym "==") (-26), entry 104 (tsym ">") (-26), entry 104 (tsym ">=") (-26), entry 105 (tsym ")") (-21),
   entry 106 (tsym ")") (-22), entry 107 (tsym ")") (-25), entry 107 (tsym "+") (-25), entry 107 (tsym "-") (-25),
   entry 108 (tsym ")") (-26), entry 108 (tsym "+") (-26), entry 108 (tsym "-") (-26), entry 109 (tsym "(") 21,
   entry 109 (tsym "ID") 22, entry 109 (tsym "NUM") 23, entry 110 (tsym "(") 27, entry 110 (tsym "ID") 28,
   entry 110 (tsym "NUM") 29, entry 111 (tsym "ID") 5, entry 111 (tsym "if") 8, entry 111 (tsym "while") 12,
   entry 111 (tsym "\x7b") 14, entry 112 (tsym "(") 27, entry 112 (tsym "ID") 28, entry 112 (tsym "NUM") 29,
   entry 113 (tsym "\x7d") 119, entry 114 (tsym ";") 120, entry 115 (tsym ")") 121, entry 116 (tsym "ID") (-11),
   entry 116 (tsym "if") (-11), entry 116 (tsym "while") (-11), entry 116 (tsym "\x7b") (-11), entry 116 (tsym "\x7d") (-11),
   entry 117 (tsym ")") 122, entry 118 (tsym "else") (-8), entry 119 (tsym "else") (-13), entry 120 (tsym "then") 123,
   entry 121 (tsym "ID") 93, entry 121 (tsym "if") 96, entry 121 (tsym "while") 99, entry 121 (tsym "\x7b") 101,
   entry 122 (tsym "ID") 93, entry 122 (tsym "if") 96, entry 122 (tsym "while") 99, entry 122 (tsym "\x7b") 101,
   entry 123 (tsym "else") (-12), entry 124 (tsym "else") 126, entry 125 (tsym "ID") 93, entry 125 (tsym "if") 96,
   entry 125 (tsym "while") 99, entry 125 (tsym "\x7b") 101, entry 126 (tsym "else") (-11)]

/-- The parser that the constructor `LRParser::LRParser` returns. -/
def freshLit : LRParser :=
  { productions := productionsLit, terminals := terminalsLit, nonTerminals := nonTerminalsLit,
    startSymbol := nsym "program", augmentedStart := nsym "program'",
    firstSet := firstSetLit, followSet := followSetLit,
    states := statesLit, gotoTable := gotoTableLit, actionTable := actionTableLit,
    tokens := [], currentToken := 0, lastTokenLine := 1, errors := [], derivation := [] }

/-! ## The constructor, stage by stage -/

/-- The parser after `initGrammar`. -/
def grammarLit : LRParser :=
  { LRParser.blank with
    productions := productionsLit, terminals := terminalsLit, nonTerminals := nonTerminalsLit,
    startSymbol := nsym "program", augmentedStart := nsym "program'" }

/-- The parser after `computeFirstSets`. -/
def firstLit : LRParser := { grammarLit with firstSet := firstSetLit }

/-- The parser after `computeFollowSets`. -/
def followLit : LRParser := { firstLit with followSet := followSetLit }

/-- The parser after `buildLR1Automaton`. -/
def automatonLit : LRParser := { followLit with states := statesLit, gotoTable := gotoTableLit }

/-- Exactly `k` iterations of the loop of `buildLR1Automaton`; `none` when the queue empties
earlier. -/
def bfsSteps (prods : List Production) (fs : SymMap) (allSymbols : List Symbol) :
    Nat → Automaton → Option Automaton
  | 0, a => some a
  | k + 1, a =>
    match a.workList with
    | [] => none
    | stateId :: wl =>
      (bfsVisit prods fs allSymbols a stateId wl).bind (bfsSteps prods fs allSymbols k)

/-- The ids of the 127 states in the order of their item sets, which is the order of the
keys of `stateMap`. -/
def stateMapOrder : List Nat :=
  [54, 35, 20, 26, 14, 109, 15, 110, 18, 112, 39, 24, 31, 67, 44, 58, 84, 85, 71, 72, 78, 79,
   65, 42, 56, 105, 88, 101, 66, 43, 57, 106, 89, 102, 3, 13, 100, 111, 9, 62, 77, 122, 125,
   121, 4, 92, 23, 114, 41, 119, 29, 76, 49, 50, 51, 52, 53, 0, 10, 19, 113, 17, 34, 118, 7,
   95, 30, 115, 55, 120, 97, 124, 116, 126, 40, 25, 32, 70, 47, 61, 86, 87, 73, 74, 80, 81,
   68, 45, 59, 107, 90, 103, 69, 46, 60, 108, 91, 104, 1, 2, 63, 38, 48, 83, 64, 75, 36, 21,
   27, 37, 22, 28, 5, 93, 6, 94, 8, 96, 12, 99, 16, 11, 98, 33, 117, 82, 123]

/-- The number of states known once the states with id below `k` have been visited. -/
def seenAfter (k : Nat) : Nat :=
  ((gotoTableLit.filter (fun e => decide (e.1.1 < (k : Int)))).map (fun e => e.2.toNat)).foldl
    max 0 + 1

/-- The loop variables of `buildLR1Automaton` once the states with id below `k` have been
visited, read off the final tables. -/
def autAt (k : Nat) : Automaton :=
  let n := seenAfter k
  { states := statesLit.take n,
    stateMap := (stateMapOrder.filter (fun i => decide (i < n))).map
      (fun i => ((statesLit.getD i ⟨[], -1⟩).items, (i : Int))),
    gotoTable := gotoTableLit.filter (fun e => decide (e.1.1 < (k : Int))),
    workList := (List.range' k (n - k)).map (fun i => (i : Int)) }

/-- The set `allSymbols` of `buildLR1Automaton`, written out. -/
def allSymbolsLit : List Symbol :=
  [tsym "(", tsym ")", tsym "*", tsym "+", tsym "-", tsym "/", tsym ";", tsym "<", tsym "<=",
   tsym "=", tsym "==", tsym ">", tsym ">=", tsym "ID", tsym "NUM", nsym "arithexpr",
   nsym "arithexprprime", nsym "assgstmt", nsym "boolexpr", nsym "boolop",
   nsym "compoundstmt", tsym "else", tsym "if", nsym "ifstmt", nsym "multexpr",
   nsym "multexprprime", nsym "program", nsym "program'", nsym "simpleexpr", nsym "stmt",
   nsym "stmts", tsym "then", tsym "while", nsym "whilestmt", tsym "\x7b", tsym "\x7d"]

/-- The entries of a table whose key has state `s`. -/
def rowOf (t : Table) (s : Int) : Table := t.filter (fun e => decide (e.1.1 = s))

/-- The ACTION rows that `buildParsingTable` produces for one state. -/
def stateTable (aug : Symbol) (gotoTable : Table) (st : LR1State) : Table :=
  applyWrites (stateWrites aug (rowOf gotoTable st.id) st) []

/-! ## Auxiliary definitions for the statements about parsing -/

/-- The list whose members `handleError` tries to insert, in the order of its tests. -/
def priorityList : List String := [";", ")", "\x7d", "then", "else"]

/-- The diagnostic of `handleError` for a skipped token. -/
def unexpectedMsg (tok : Token) : String :=
  "语法错误，第" ++ toString tok.line ++ "行，意外的\"" ++ tok.value ++ "\""

/-- The diagnostic of `handleError` for an inserted token. -/
def missingMsg (line : Nat) (sym : String) : String :=
  "语法错误，第" ++ toString line ++ "行，缺少\"" ++ sym ++ "\""

/-- The parser during `parse` of the empty source text after `n` iterations of the loop:
the token list is the single end marker, `n` diagnostics have been recorded, and the
cursor is 0 before the first iteration and 1 from then on. -/
def emptyRun (n : Nat) : LRParser :=
  { freshLit with
    tokens := [⟨"$", 1⟩],
    currentToken := if n = 0 then 0 else 1,
    errors := List.replicate n "语法错误，第1行，意外的\"$\"" }

/-- `n` iterations of the loop of `parse` that all go on; `none` when the loop ends or
has undefined behaviour before. -/
def runSteps : Nat → LRParser → ParseState → Option (LRParser × ParseState)
  | 0, p, s => some (p, s)
  | n + 1, p, s =>
    match p.parseStep s with
    | .running p1 s1 => runSteps n p1 s1
    | _ => none

/-- The terminal `a` has an entry in the ACTION table for state `S`. -/
def hasAction (p : LRParser) (S : Int) (a : String) : Bool :=
  (mapFind keyLt (S, ⟨a, true⟩) p.actionTable).isSome

/-- What holds of the parser and the stacks at the start of every iteration of `parse`
on the constructed tables: the cursor is within the token list, nothing is stacked while
the cursor is 0, and `lastTokenLine` is the line of the token before the cursor. -/
def CursorInv (p : LRParser) (s : ParseState) : Prop :=
  p.actionTable = actionTableLit ∧
  p.currentToken ≤ p.tokens.length ∧
  (p.currentToken = 0 → s.stateStack = [0]) ∧
  (0 < p.currentToken →
    p.lastTokenLine = (p.tokens.getD (p.currentToken - 1) ⟨"", 1⟩).line)

/-- No two of the assignments address the same key with different actions; "the same
key" is the equivalence of the map's comparison. -/
def writesAgree (ws : List TableWrite) : Bool :=
  ws.all (fun w1 => ws.all (fun w2 =>
    keyLt w1.key w2.key || keyLt w2.key w1.key || decide (w1.action = w2.action)))

/-- A token list with a missing closing brace, the lines as in a three-line source. -/
def sampleTokens : List Token :=
  [⟨"\x7b", 1⟩, ⟨"ID", 2⟩, ⟨"=", 2⟩, ⟨"NUM", 2⟩, ⟨";", 2⟩, ⟨"$", 3⟩]

/-- The parser after ten iterations of `parse` on `sampleTokens`. -/
def sampleParser : LRParser :=
  { freshLit with tokens := sampleTokens, currentToken := 5, lastTokenLine := 2 }

/-- The local variables of `parse` after ten iterations on `sampleTokens`. -/
def sampleState : ParseState :=
  { stateStack := [41, 23, 14, 4, 3, 0],
    symbolStack := [tsym ";", nsym "arithexpr", tsym "=", tsym "ID", tsym "\x7b"],
    reductions := [27, 25, 22, 21, 18] }

/-- The items that one iteration of the loop of `closure` tries to add for `item`, in the
order of its two nested loops. -/
def candidates (prods : List Production) (fs : SymMap) (item : LR1Item) : List LR1Item :=
  if strEq item.getSymbolAfterDot.name "" || item.getSymbolAfterDot.isTerminal then []
  else
    prods.flatMap (fun prod =>
      if prod.left.eqv item.getSymbolAfterDot then
        ((getFirstOfString fs (betaA item) 0).filter (fun la => !strEq la.name "E")).map
          (fun la => (⟨prod, 0, la⟩ : LR1Item))
      else [])

/-- Every item that `closure` can add: a production of the grammar with the dot at 0 and
a member of a FIRST set as lookahead. -/
def closureUniverse (prods : List Production) (fs : SymMap) : List LR1Item :=
  prods.flatMap (fun prod =>
    (fs.flatMap (fun e => e.2)).map (fun la => (⟨prod, 0, la⟩ : LR1Item)))

/-- The number of items of the universe that the item set does not hold yet. -/
def missingCount (U items : List LR1Item) : Nat :=
  (U.filter (fun u => !setContains LR1Item.lt u items)).length

/-- The item set is closed: `closure` finds every candidate of every item in it. -/
def ClosedItems (prods : List Production) (fs : SymMap) (items : List LR1Item) : Prop :=
  ∀ item ∈ items, ∀ c ∈ candidates prods fs item, setContains LR1Item.lt c items = true

/-- What `generateDerivation` puts in the place of the left side of `prod`: the right
side, and nothing for the production whose right side is the single symbol `E`. -/
def rhsOf (prod : Production) : List Symbol :=
  if isEpsilonRight prod.right then [] else prod.right

/-- One step of a rightmost derivation: `form` is `α A w` where `w` holds terminals only
and `A` is a non-terminal, so that `A` is the rightmost non-terminal of `form`, and
`next` is `α β w` for a production `A → β` of the grammar. -/
def RightmostStep (prods : List Production) (form next : List Symbol) : Prop :=
  ∃ (α w : List Symbol) (prod : Production),
    prod ∈ prods ∧ prod.left.isTerminal = false ∧ (∀ s ∈ w, s.isTerminal = true) ∧
    form = α ++ prod.left :: w ∧ next = α ++ rhsOf prod ++ w

/-- The forms `next :: rest` continue `form` as a rightmost derivation that ends in a
form of terminals only. -/
def IsDerivation (prods : List Production) : List Symbol → List (List Symbol) → Prop
  | form, [] => ∀ s ∈ form, s.isTerminal = true
  | form, next :: rest => RightmostStep prods form next ∧ IsDerivation prods next rest

/-- The state stack (top first) and the symbol stack (top first) of `parse` spell a path
of the automaton from state 0: each state is the GOTO of the state below it on the
symbol stacked with it. -/
inductive Path (G : Table) : List Int → List Symbol → Prop
  | base : Path G [0] []
  | step (u t : Int) (X : Symbol) (ss : List Int) (xs : List Symbol) :
      ((u, X), t) ∈ G → Path G (u :: ss) xs → Path G (t :: u :: ss) (X :: xs)

/-- Equality of two numbers of type `int`, by cases on the sign. -/
def intEq : Int → Int → Bool
  | .ofNat a, .ofNat b => Nat.beq a b
  | .negSucc a, .negSucc b => Nat.beq a b
  | _, _ => false

/-- Every path of the automaton that ends in state `s` ends with the symbols `βr` (last
symbol first), and the state below them has a GOTO entry on `A`. -/
def backOk (G : Table) : List Symbol → Int → Symbol → Bool
  | [], s, A => G.any (fun g => intEq g.1.1 s && g.1.2.eqv A)
  | X :: r, s, A =>
    !intEq s 0 &&
      G.all (fun g => !intEq g.2 s || (g.1.2.eqv X && backOk G r g.1.1 A))

/-- The reduce action `action` in state `state` names a production other than
production 0, its left side is a non-terminal, and on every path into `state` the
right side is on top of the stack and the GOTO entry for the left side exists. -/
def reduceOk (G : Table) (P : List Production) (state action : Int) : Bool :=
  !intEq (-(action + 2)) 0 &&
    match productionAt P (-(action + 2)) with
    | none => false
    | some prod => !prod.left.isTerminal && backOk G (rhsOf prod).reverse state prod.left

/-- The pairs of a state and a reduce action that occur in the ACTION table. -/
def reducePairs : List (Int × Int) :=
  [(1, -3), (3, -10), (5, -6), (6, -7), (8, -4), (9, -10), (12, -5), (13, -10), (16, -9),
   (17, -8), (21, -28), (22, -29), (24, -23), (25, -27), (27, -28), (28, -29), (31, -23),
   (32, -27), (34, -8), (36, -28), (37, -29), (39, -23), (40, -27), (41, -13), (44, -20),
   (47, -24), (49, -15), (50, -17), (51, -19), (52, -16), (53, -18), (58, -20), (61, -24),
   (64, -30), (67, -20), (70, -24), (71, -23), (72, -23), (73, -27), (74, -27), (75, -30),
   (76, -14), (78, -23), (79, -23), (80, -27), (81, -27), (82, -12), (83, -30), (84, -23),
   (85, -23), (86, -27), (87, -27), (88, -21), (89, -22), (90, -25), (91, -26), (93, -6),
   (94, -7), (96, -4), (99, -5), (100, -10), (101, -21), (102, -22), (103, -25),
   (104, -26), (105, -21), (106, -22), (107, -25), (108, -26), (116, -11), (118, -8),
   (119, -13), (123, -12), (126, -11)]

/-- What holds of the local variables of `parse` at the start of every iteration on the
constructed tables.  The stacks spell a path of the automaton, and the reductions logged
so far, replayed by `generateDerivation` from the stacked symbols followed by any
terminals `w`, append to `derivation` the lines of a rightmost derivation. -/
def ParseInv (s : ParseState) : Prop :=
  Path gotoTableLit s.stateStack s.symbolStack ∧
  ∀ w, (∀ x ∈ w, x.isTerminal = true) → ∀ acc : List String,
    ∃ forms, IsDerivation productionsLit (s.symbolStack.reverse ++ w) forms ∧
      (s.reductions.reverse.foldl (derivationStep productionsLit)
        (s.symbolStack.reverse ++ w, acc)).2 = acc ++ forms.map sententialFormToString

/-- The parser before `parse` of `sampleTokens`. -/
def sampleStart : LRParser := { freshLit with tokens := sampleTokens }

/-! ## Auxiliary definitions for the statements about printing and tokenizing -/

/-- The text of the diagnostics as the claim about `printResult` words it: every
diagnostic in recording order, each followed by a newline. -/
def diagnosticsText : List String → String
  | [] => ""
  | e :: es => e ++ "\n" ++ diagnosticsText es

/-- The text of the derivation as the claim about `printResult` words it: the lines in
order, each but the last followed by ` => ` and a newline, the last by a newline only. -/
def derivationText : List String → String
  | [] => ""
  | [l] => l ++ "\n"
  | l :: m :: rest => l ++ " => " ++ "\n" ++ derivationText (m :: rest)

/-- One iteration of the loop `while (i < n)` of `tokenize`, read off `tokenizeLoop`:
`none` when only blanks are left, else the characters that remain, the line counter and
the token pushed, if any. -/
def tokenStep (cs : List Char) (line : Nat) : Option (List Char × Nat × List Token) :=
  match skipBlanks cs line with
  | ([], _) => none
  | (c :: rest, line1) =>
    if (match rest with
        | d :: _ => isTwoCharToken c d
        | [] => false) then
      some (rest.drop 1, line1, [⟨String.mk (c :: rest.take 1), line1⟩])
    else if isSingleCharToken c then some (rest, line1, [⟨String.mk [c], line1⟩])
    else if c.isAlpha || c == '_' then
      let w := (c :: rest).span (fun x => x.isAlphanum || x == '_')
      some (w.2, line1, [wordToken (String.mk w.1) line1])
    else if c.isDigit then
      some ((c :: rest).dropWhile Char.isDigit, line1, [⟨"NUM", line1⟩])
    else some (rest, line1, [])

/-- The spelling that `tokenize` gives to a scanned word: the word itself for the four
keywords and for `NUM`, and `ID` for every other word. -/
def wordSpelling (word : String) : String :=
  if word ∈ ["if", "then", "else", "while", "NUM"] then word else "ID"

/-- The part of the parser that the constructor builds: the grammar, the FIRST and FOLLOW
sets, the state list and the two tables. -/
def generatorOf (p : LRParser) :
    List Production × List Symbol × List Symbol × Symbol × Symbol × SymMap × SymMap ×
      List LR1State × Table × Table :=
  (p.productions, p.terminals, p.nonTerminals, p.startSymbol, p.augmentedStart, p.firstSet,
    p.followSet, p.states, p.gotoTable, p.actionTable)

/-- The terminal symbol that `parse` makes of a token. -/
def tokenSymbol (t : Token) : Symbol := ⟨t.value, true⟩

/-- What holds during a `parse` of the token list `toks` for as long as no diagnostic has
been added to the `n0` there were: the token list is unchanged, no token before the cursor
is `$` or `E`, and the reductions logged so far, replayed by `generateDerivation` from the
stacked symbols followed by any terminals `w`, end in the tokens before the cursor
followed by `w`. -/
def SentenceInv (toks : List Token) (n0 : Nat) (p : LRParser) (s : ParseState) : Prop :=
  n0 ≤ p.errors.length ∧
  (p.errors.length = n0 →
    p.tokens = toks ∧
    (∀ t ∈ toks.take p.currentToken, t.value ≠ "$" ∧ t.value ≠ "E") ∧
    ∀ w, (∀ x ∈ w, x.isTerminal = true) → ∀ acc : List String,
      (s.reductions.reverse.foldl (derivationStep productionsLit)
        (s.symbolStack.reverse ++ w, acc)).1 =
        (toks.take p.currentToken).map tokenSymbol ++ w)

end Lab3

namespace Lab1

/-! ## The lexical analyser of lab 1 (src/lab_1/LexAnalysis.h)

The members `input` and `pos` of `LexicalAnalyzer` are kept together as the characters of
`input` from position `pos` on: `peek` is their first character, `advance` drops it, and
`peekNext(n)` is their character at index `n`; each of the three gives the character with
code 0 where the source tests `pos >= input.length()`. -/

/-- The class `Token` of lab 1. -/
structure Token where
  name : String
  code : Int
  deriving DecidableEq, Repr

/-- The class `LexicalAnalyzer`; `input` holds the characters from `pos` on. -/
structure LexicalAnalyzer where
  input : List Char
  line : Nat
  tokens : List Token
  keywords : List (String × Int)
  deriving DecidableEq

/-- The member `peek`. -/
def LexicalAnalyzer.peek (a : LexicalAnalyzer) : Char := a.input.headD '\x00'

/-- The member `peekNext`. -/
def LexicalAnalyzer.peekNext (a : LexicalAnalyzer) (n : Nat) : Char := a.input.getD n '\x00'

/-- The member `advance`: the character read and the analyser after it. -/
def LexicalAnalyzer.advance (a : LexicalAnalyzer) : Char × LexicalAnalyzer :=
  match a.input with
  | [] => ('\x00', a)
  | c :: rest => (c, { a with input := rest })

/-- The C library function `isspace` in the C locale. -/
def isspace (c : Char) : Bool :=
  c == ' ' || c == '\t' || c == '\n' || c == '\x0b' || c == '\x0c' || c == '\r'

/-- The loop of `skipWhitespace` on the characters that are left. -/
def skipWhitespaceLoop : List Char → Nat → List Char × Nat
  | [], line => ([], line)
  | c :: rest, line =>
    if isspace c then skipWhitespaceLoop rest (if c == '\n' then line + 1 else line)
    else (c :: rest, line)

/-- The member `skipWhitespace`. -/
def LexicalAnalyzer.skipWhitespace (a : LexicalAnalyzer) : LexicalAnalyzer :=
  let r := skipWhitespaceLoop a.input a.line
  { a with input := r.1, line := r.2 }

/-- The test `isalnum(peek()) || peek() == '_'`. -/
def isIdentChar (c : Char) : Bool := c.isAlphanum || c == '_'

/-- The member `recognizeIdentifierOrKeyword`: the token and the analyser after it. -/
def LexicalAnalyzer.recognizeIdentifierOrKeyword (a : LexicalAnalyzer) :
    Token × LexicalAnalyzer :=
  let r : List Char × List Char :=
    if a.peek.isAlpha || a.peek == '_' then (a.input.takeWhile isIdentChar,
      a.input.dropWhile isIdentChar)
    else ([], a.input)
  let lexeme := String.mk r.1
  let a1 := { a with input := r.2 }
  match a.keywords.lookup lexeme with
  | some code => (⟨lexeme, code⟩, a1)
  | none => (⟨lexeme, 81⟩, a1)

/-- The test of the loop over the suffixes of a number. -/
def isNumberSuffix (c : Char) : Bool :=
  c == 'L' || c == 'l' || c == 'U' || c == 'u' || c == 'F' || c == 'f'

/-- The member `recognizeNumber`: the token and the analyser after it. -/
def LexicalAnalyzer.recognizeNumber (a : LexicalAnalyzer) : Token × LexicalAnalyzer :=
  -- the integer part
  let lex0 := a.input.takeWhile Char.isDigit
  let in0 := a.input.dropWhile Char.isDigit
  -- the fraction
  let s1 : List Char × List Char :=
    if in0.headD '\x00' == '.' && (in0.getD 1 '\x00').isDigit then
      (lex0 ++ '.' :: (in0.drop 1).takeWhile Char.isDigit, (in0.drop 1).dropWhile Char.isDigit)
    else (lex0, in0)
  -- the exponent
  let s2 : List Char × List Char :=
    if s1.2.headD '\x00' == 'e' || s1.2.headD '\x00' == 'E' then
      let next := s1.2.getD 1 '\x00'
      if next.isDigit || ((next == '+' || next == '-') && (s1.2.getD 2 '\x00').isDigit) then
        let lexE := s1.1 ++ [s1.2.headD '\x00']
        let inE := s1.2.drop 1
        let s3 : List Char × List Char :=
          if inE.headD '\x00' == '+' || inE.headD '\x00' == '-' then
            (lexE ++ [inE.headD '\x00'], inE.drop 1)
          else (lexE, inE)
        (s3.1 ++ s3.2.takeWhile Char.isDigit, s3.2.dropWhile Char.isDigit)
      else s1
    else s1
  -- the suffixes
  (⟨String.mk (s2.1 ++ s2.2.takeWhile isNumberSuffix), 80⟩,
    { a with input := s2.2.dropWhile isNumberSuffix })

/-- The token made of the first `n` characters, with the given spelling and code, as the
branches of `recognizeOperatorOrDelimiter` return it after `n` calls of `advance`. -/
def LexicalAnalyzer.take (a : LexicalAnalyzer) (n : Nat) (name : String) (code : Int) :
    Option Token × LexicalAnalyzer :=
  (some ⟨name, code⟩, { a with input := a.input.drop n })

/-- The member `recognizeOperatorOrDelimiter`: the token, or `none` for `nullptr`, and
the analyser after it. -/
def LexicalAnalyzer.recognizeOperatorOrDelimiter (a : LexicalAnalyzer) :
    Option Token × LexicalAnalyzer :=
  let c := a.peek
  let c1 := a.peekNext 1
  let c2 := a.peekNext 2
  if c == '-' then
    if c1 == '-' then a.take 2 "--" 34
    else if c1 == '=' then a.take 2 "-=" 35
    else if c1 == '>' then a.take 2 "->" 36
    else a.take 1 "-" 33
  else if c == '!' then
    if c1 == '=' then a.take 2 "!=" 38 else a.take 1 "!" 37
  else if c == '%' then
    if c1 == '=' then a.take 2 "%=" 40 else a.take 1 "%" 39
  else if c == '&' then
    if c1 == '&' then a.take 2 "&&" 42
    else if c1 == '=' then a.take 2 "&=" 43
    else a.take 1 "&" 41
  else if c == '*' then
    if c1 == '=' then a.take 2 "*=" 47 else a.take 1 "*" 46
  else if c == '/' then
    if c1 == '=' then a.take 2 "/=" 51 else a.take 1 "/" 50
  else if c == '^' then
    if c1 == '=' then a.take 2 "^=" 58 else a.take 1 "^" 57
  else if c == '|' then
    if c1 == '|' then a.take 2 "||" 61
    else if c1 == '=' then a.take 2 "|=" 62
    else a.take 1 "|" 60
  else if c == '+' then
    if c1 == '+' then a.take 2 "++" 66
    else if c1 == '=' then a.take 2 "+=" 67
    else a.take 1 "+" 65
  else if c == '<' then
    if c1 == '<' then
      if c2 == '=' then a.take 3 "<<=" 70 else a.take 2 "<<" 69
    else if c1 == '=' then a.take 2 "<=" 71
    else a.take 1 "<" 68
  else if c == '=' then
    if c1 == '=' then a.take 2 "==" 73 else a.take 1 "=" 72
  else if c == '>' then
    if c1 == '>' then
      if c2 == '=' then a.take 3 ">>=" 77 else a.take 2 ">>" 76
    else if c1 == '=' then a.take 2 ">=" 75
    else a.take 1 ">" 74
  else if c == '(' then a.take 1 "(" 44
  else if c == ')' then a.take 1 ")" 45
  else if c == ',' then a.take 1 "," 48
  else if c == '.' then a.take 1 "." 49
  else if c == ':' then a.take 1 ":" 52
  else if c == ';' then a.take 1 ";" 53
  else if c == '?' then a.take 1 "?" 54
  else if c == '[' then a.take 1 "[" 55
  else if c == ']' then a.take 1 "]" 56
  else if c == '\x7b' then a.take 1 "\x7b" 59
  else if c == '\x7d' then a.take 1 "\x7d" 63
  else if c == '~' then a.take 1 "~" 64
  else (none, a)

/-- The loop of `handleComment` over the text of a block comment: the characters left,
the line counter and the comment so far. -/
def blockCommentLoop : List Char → Nat → List Char → List Char × Nat × List Char
  | [], line, comment => ([], line, comment)
  | c :: rest, line, comment =>
    if c == '*' && rest.headD '\x00' == '/' then (rest.drop 1, line, comment ++ ['*', '/'])
    else blockCommentLoop rest (if c == '\n' then line + 1 else line) (comment ++ [c])

/-- The member `handleComment`: its result and the analyser after it. -/
def LexicalAnalyzer.handleComment (a : LexicalAnalyzer) : Bool × LexicalAnalyzer :=
  if a.peek == '/' && a.peekNext 1 == '*' then
    let r := blockCommentLoop (a.input.drop 2) a.line ['/', '*']
    (true, { a with input := r.1, line := r.2.1,
                    tokens := a.tokens ++ [⟨String.mk r.2.2, 79⟩] })
  else if a.peek == '/' && a.peekNext 1 == '/' then
    let body := a.input.drop 2
    (true, { a with input := body.dropWhile (fun x => x != '\n'),
                    tokens := a.tokens ++
                      [⟨String.mk ('/' :: '/' :: body.takeWhile (fun x => x != '\n')), 79⟩] })
  else (false, a)

/-- The loop of `handleString` over the content of a string literal; `escaped` says that
the character is the second of an escape pair, which the source adds in the same
iteration as the backslash. -/
def stringLoop : List Char → Bool → Nat → List Char → List Char × Nat × List Char
  | [], _, line, content => ([], line, content)
  | c :: rest, true, line, content => stringLoop rest false line (content ++ [c])
  | c :: rest, false, line, content =>
    if c == '"' then (c :: rest, line, content)
    else if c == '\\' && rest.headD '\x00' != '\x00' then
      stringLoop rest true line (content ++ [c])
    else stringLoop rest false (if c == '\n' then line + 1 else line) (content ++ [c])

/-- The member `handleString`. -/
def LexicalAnalyzer.handleString (a : LexicalAnalyzer) : LexicalAnalyzer :=
  if a.peek == '"' then
    let r := stringLoop (a.input.drop 1) false a.line []
    let t1 := a.tokens ++ [⟨"\"", 78⟩]
    let t2 := if r.2.2 ≠ [] then t1 ++ [⟨String.mk r.2.2, 81⟩] else t1
    if r.1.headD '\x00' == '"' then
      { a with input := r.1.drop 1, line := r.2.1, tokens := t2 ++ [⟨"\"", 78⟩] }
    else { a with input := r.1, line := r.2.1, tokens := t2 }
  else a

/-- The body of the loop of `scan` after the test for a comment. -/
def LexicalAnalyzer.scanToken (a : LexicalAnalyzer) (c : Char) : LexicalAnalyzer :=
  if c == '"' then a.handleString
  else if c.isAlpha || c == '_' then
    let r := a.recognizeIdentifierOrKeyword
    { r.2 with tokens := r.2.tokens ++ [r.1] }
  else if c.isDigit then
    let r := a.recognizeNumber
    { r.2 with tokens := r.2.tokens ++ [r.1] }
  else
    match a.recognizeOperatorOrDelimiter with
    | (some t, a1) => { a1 with tokens := a1.tokens ++ [t] }
    | (none, a1) => a1.advance.2

/-- The loop `while (pos < input.length())` of `scan`, one unit of fuel per iteration;
`none` when the fuel runs out. -/
def scanLoop : Nat → LexicalAnalyzer → Option LexicalAnalyzer
  | 0, a => if a.input = [] then some a else none
  | fuel + 1, a =>
    if a.input = [] then some a
    else
      let a1 := a.skipWhitespace
      if a1.input = [] then some a1
      else
        let c := a1.peek
        if c == '/' && (a1.peekNext 1 == '*' || a1.peekNext 1 == '/') then
          let r := a1.handleComment
          if r.1 then scanLoop fuel r.2 else scanLoop fuel (r.2.scanToken c)
        else scanLoop fuel (a1.scanToken c)

/-- The members `scan` and `analyze`: every iteration of the loop consumes a character,
so one unit of fuel per character is enough. -/
def LexicalAnalyzer.analyze (a : LexicalAnalyzer) : Option LexicalAnalyzer :=
  scanLoop a.input.length a

end Lab1

namespace Lab3

/-! ## Auxiliary definitions for the statements about the automaton -/

/-- Every item of the set is an item of a production of the grammar. -/
def WFItems (prods : List Production) (K : List LR1Item) : Prop :=
  ∀ it ∈ K, it.prod ∈ prods

/-- No two productions of the grammar are equivalent under `Production::operator<`
without being the same production. -/
def ProdsInj (prods : List Production) : Prop :=
  ∀ p ∈ prods, ∀ q ∈ prods, p.lt q = false → q.lt p = false → p = q

/-- The state with index `i` has been visited by the loop of `buildLR1Automaton`: for
every symbol with a non-empty goto the GOTO table has an entry. -/
def GotoComplete (prods : List Production) (fs : SymMap) (syms : List Symbol)
    (a : Automaton) (i : Nat) : Prop :=
  ∀ st : LR1State, a.states[i]? = some st → ∀ X ∈ syms, (gotoFunc prods fs st X).items ≠ [] →
    (mapFind keyLt ((i : Int), X) a.gotoTable).isSome = true

/-- What holds of the variables of `buildLR1Automaton` throughout its loop. -/
structure BfsCore (prods : List Production) (fs : SymMap) (syms : List Symbol)
    (a : Automaton) : Prop where
  ids : ∀ (i : Nat) (st : LR1State), a.states[i]? = some st →
    st.id = (i : Int) ∧ st.items ≠ [] ∧ WFItems prods st.items ∧ ClosedItems prods fs st.items
  mapComplete : ∀ (i : Nat) (st : LR1State), a.states[i]? = some st →
    mapFind (lexLt LR1Item.lt) st.items a.stateMap = some (i : Int)
  mapSound : ∀ e ∈ a.stateMap, WFItems prods e.1 ∧
    ∃ (i : Nat) (st : LR1State), e.2 = (i : Int) ∧ a.states[i]? = some st ∧ st.items = e.1
  gotoSound : ∀ s X j, mapFind keyLt (s, X) a.gotoTable = some j →
    ∃ (i : Nat) (st : LR1State) (k : Nat) (stk : LR1State), s = (i : Int) ∧ a.states[i]? = some st ∧ X ∈ syms ∧ j = (k : Int) ∧
      a.states[k]? = some stk ∧ stk.items = (gotoFunc prods fs st X).items
  work : ∀ id ∈ a.workList, ∃ i : Nat, id = (i : Int) ∧ i < a.states.length

/-- The automaton `b` comes from `a` by iterations of the loop: states are only appended,
GOTO entries are never removed and the queue only grows at its end. -/
def BfsExt (a b : Automaton) : Prop :=
  (∃ extra, b.states = a.states ++ extra) ∧
  (∀ k, (mapFind keyLt k a.gotoTable).isSome = true →
    (mapFind keyLt k b.gotoTable).isSome = true) ∧
  (∀ id ∈ a.workList, id ∈ b.workList)

/-! ## Auxiliary definitions for the statements about FIRST and FOLLOW -/

/-- One pass of the loop `while (changed)` of `computeFirstSets`: the map after the pass
and the flag `changed`. -/
def firstPass (prods : List Production) (fs : SymMap) : SymMap × Bool :=
  prods.foldl firstProd (fs, false)

/-- The map `firstSet` when the loop of `computeFirstSets` starts. -/
def firstStart (terminals : List Symbol) (fs : SymMap) : SymMap :=
  let fs1 := terminals.foldl
    (fun m t => mapSet Symbol.lt t (setInsert Symbol.lt t (symGet m t)) m) fs
  mapSet Symbol.lt epsilon (setInsert Symbol.lt epsilon (symGet fs1 epsilon)) fs1

/-- One pass of the loop `while (changed)` of `computeFollowSets`: the map after the pass
and the flag `changed`. -/
def followPass (prods : List Production) (fs : SymMap) (fo : SymMap) : SymMap × Bool :=
  prods.foldl
    (fun acc prod => (List.range prod.right.length).foldl (followPos fs prod) acc) (fo, false)

/-- The map `followSet` when the loop of `computeFollowSets` starts. -/
def followStart (augmentedStart startSymbol : Symbol) (fo : SymMap) : SymMap :=
  let fo1 := mapSet Symbol.lt augmentedStart
    (setInsert Symbol.lt ⟨"$", true⟩ (symGet fo augmentedStart)) fo
  mapSet Symbol.lt startSymbol (setInsert Symbol.lt ⟨"$", true⟩ (symGet fo1 startSymbol)) fo1

/-- The rule of FIRST for the production `A → Y1..Yk` and a family `G` of sets, `G X f`
reading "f is in FIRST(X)": `E` is in FIRST(A) if `Y1` is the epsilon marker; otherwise
FIRST(Yi) without `E` is in FIRST(A) for each `Yi` before which every symbol has `E` in its
FIRST set, and `E` is in FIRST(A) if every `Yi` has `E` in its FIRST set. -/
def FirstRule (G : Symbol → Symbol → Prop) (prod : Production) : Prop :=
  (∀ Y1, prod.right.head? = some Y1 → Y1.name = "E" → G prod.left epsilon) ∧
  (∀ Y1, prod.right.head? = some Y1 → Y1.name ≠ "E" →
    (∀ (i : Nat) (Y : Symbol), prod.right[i]? = some Y →
      (∀ (j : Nat) (Z : Symbol), j < i → prod.right[j]? = some Z → G Z epsilon) →
      ∀ f, G Y f → f.name ≠ "E" → G prod.left f) ∧
    ((∀ Z ∈ prod.right, G Z epsilon) → G prod.left epsilon))

/-- The rule of FOLLOW for the production `A → α B β` at every occurrence of a
non-terminal `B`, for a family `H` of sets, `H X f` reading "f is in FOLLOW(X)":
FIRST-of-string(β) without `E` is contained in FOLLOW(B), and FOLLOW(A) is contained in
FOLLOW(B) when β is empty or FIRST-of-string(β) contains `E`. -/
def FollowRule (fs : SymMap) (H : Symbol → Symbol → Prop) (prod : Production) : Prop :=
  ∀ (i : Nat) (B : Symbol), prod.right[i]? = some B → B.isTerminal = false →
    (∀ f ∈ getFirstOfString fs prod.right (i + 1), f.name ≠ "E" → H B f) ∧
    ((i + 1 ≥ prod.right.length ∨ epsilon ∈ getFirstOfString fs prod.right (i + 1)) →
      ∀ f, H prod.left f → H B f)

/-! ## Auxiliary definitions for the statement about the sentences of the grammar -/

/-- One step of a derivation: an occurrence of the left side of a production of the
grammar in `form` is replaced by what the production derives, its right side, or nothing
for the production whose right side is the single symbol `E`. -/
def DerivStep (prods : List Production) (form next : List Symbol) : Prop :=
  ∃ (α β : List Symbol) (prod : Production),
    prod ∈ prods ∧ form = α ++ prod.left :: β ∧ next = α ++ rhsOf prod ++ β

/-- The form `w` is derivable from `form` in zero or more steps. -/
inductive Derives (prods : List Production) : List Symbol → List Symbol → Prop
  | refl (form : List Symbol) : Derives prods form form
  | step (form next w : List Symbol) :
      DerivStep prods form next → Derives prods next w → Derives prods form w

/-- The form `form` derives the string of terminals `w`, read along a parse tree: every
terminal of the form stands for itself and every other symbol for what the right side of
one of its productions yields. -/
inductive Yields (prods : List Production) : List Symbol → List Symbol → Prop
  | nil : Yields prods [] []
  | term (a : Symbol) (rest w : List Symbol) :
      a.isTerminal = true → Yields prods rest w → Yields prods (a :: rest) (a :: w)
  | nonterm (prod : Production) (rest u w : List Symbol) :
      prod ∈ prods → Yields prods (rhsOf prod) u → Yields prods rest w →
      Yields prods (prod.left :: rest) (u ++ w)

/-- The test `actionIt == actionTable.end()` at the start of an iteration of `parse`: the
iteration calls `handleError`. -/
def callsHandleError (p : LRParser) (s : ParseState) : Bool :=
  match s.stateStack with
  | [] => false
  | state :: _ =>
    (mapFind keyLt (state, ⟨p.getCurrentToken.value, true⟩) p.actionTable).isNone

/-- `n` iterations of the loop of `parse` that all go on and none of which calls
`handleError`; `none` when the loop ends, has undefined behaviour or calls `handleError`
before. -/
def cleanSteps : Nat → LRParser → ParseState → Option (LRParser × ParseState)
  | 0, p, s => some (p, s)
  | n + 1, p, s =>
    if callsHandleError p s then none
    else
      match p.parseStep s with
      | .running p1 s1 => cleanSteps n p1 s1
      | _ => none

/-- The symbol `b` is found by the walk of `getFirstOfString` over `form`: it is in the
FIRST set of a symbol of `form` before which every symbol has `E` in its FIRST set. -/
def InFirst (fs : SymMap) (form : List Symbol) (b : Symbol) : Prop :=
  ∃ (pre : List Symbol) (X : Symbol) (post : List Symbol),
    form = pre ++ X :: post ∧ (∀ Z ∈ pre, epsilon ∈ symGet fs Z) ∧ b ∈ symGet fs X

/-- The parser works on the constructed grammar and tables, and its token list and
diagnostics are the given ones. -/
def Framed (toks : List Token) (errs : List String) (q : LRParser) : Prop :=
  q.productions = productionsLit ∧ q.gotoTable = gotoTableLit ∧
  q.actionTable = actionTableLit ∧ q.tokens = toks ∧ q.errors = errs

/-- The constructed parser with the token list of an empty block, the lines as in a
two-line source. -/
def emptyBlockParser : LRParser :=
  { freshLit with tokens := [⟨"\x7b", 1⟩, ⟨"\x7d", 2⟩, ⟨"$", 3⟩] }

/-! ## Auxiliary definitions for the statements about the stacks and the derivation -/

/-- The state stack (top first) and the symbol stack (top first) of `parse` spell a path
of the automaton from the start state: the bottom state is 0 and every state above it is
the entry of `gotoTable` for the state below it and the symbol stacked at its level. -/
inductive StackPath (G : Table) : List Int → List Symbol → Prop
  | base : StackPath G [0] []
  | step (u t : Int) (X : Symbol) (ss : List Int) (xs : List Symbol) :
      mapFind keyLt (u, X) G = some t → StackPath G (u :: ss) xs →
      StackPath G (t :: u :: ss) (X :: xs)

/-- The form in which the rightmost occurrence of `A` is replaced by `β`; `none` when `A`
does not occur in the form. -/
def replaceRightmost : List Symbol → Symbol → List Symbol → Option (List Symbol)
  | [], _, _ => none
  | x :: xs, A, β =>
    match replaceRightmost xs A β with
    | some r => some (x :: r)
    | none => if x = A then some (β ++ xs) else none

/-- The forms that the claim about `generateDerivation` describes, after the first one:
for each logged production in turn, the current form with the rightmost occurrence of the
left symbol replaced by the right-hand side, by nothing for an epsilon production; a
production whose left symbol does not occur records nothing. -/
def replayForms (prods : List Production) : List Symbol → List Int → List (List Symbol)
  | _, [] => []
  | form, k :: ks =>
    match productionAt prods k with
    | none => replayForms prods form ks
    | some prod =>
      match replaceRightmost form prod.left (rhsOf prod) with
      | some next => next :: replayForms prods next ks
      | none => replayForms prods form ks

/-- The parser of the empty block after the first iteration of `parse`, the shift of the
opening brace. -/
def emptyBlockShifted : LRParser :=
  { emptyBlockParser with currentToken := 1, lastTokenLine := 1 }

/-- The local variables of `parse` on the empty block after the first iteration. -/
def emptyBlockState : ParseState :=
  { stateStack := [3, 0], symbolStack := [tsym "\x7b"], reductions := [] }

/-- The parser after the eleventh iteration of `parse` on `sampleTokens`, the insertion
of the closing brace. -/
def sampleInserted : LRParser :=
  { sampleParser with
    errors := sampleParser.errors ++ [missingMsg 2 "\x7d"],
    tokens := insertToken sampleParser.tokens 5 ⟨"\x7d", 2⟩ }

/-! ## The constructor, evaluated

Each statement of this section is closed and is checked by evaluating the definitions.
The loop of `buildLR1Automaton` is evaluated in five runs of at most 26 iterations. -/

theorem allSymbols_eq : allSymbols terminalsLit nonTerminalsLit = allSymbolsLit := by decide!

theorem initGrammar_eq : LRParser.blank.initGrammar = grammarLit := by decide!

theorem computeFirstSets_eq : grammarLit.computeFirstSets 200 = some firstLit := by decide!

theorem computeFollowSets_eq : firstLit.computeFollowSets 200 = some followLit := by decide!

theorem startAutomaton_eq :
    startAutomaton productionsLit firstSetLit [] [] = some (autAt 0) := by decide!

theorem bfs_chunk1 :
    bfsSteps productionsLit firstSetLit allSymbolsLit 26 (autAt 0) = some (autAt 26) := by
  decide!

theorem bfs_chunk2 :
    bfsSteps productionsLit firstSetLit allSymbolsLit 26 (autAt 26) = some (autAt 52) := by
  decide!

theorem bfs_chunk3 :
    bfsSteps productionsLit firstSetLit allSymbolsLit 26 (autAt 52) = some (autAt 78) := by
  decide!

theorem bfs_chunk4 :
    bfsSteps productionsLit firstSetLit allSymbolsLit 26 (autAt 78) = some (autAt 104) := by
  decide!

theorem bfs_chunk5 :
    bfsSteps productionsLit firstSetLit allSymbolsLit 23 (autAt 104) = some (autAt 127) := by
  decide!

theorem autAt_final :
    (autAt 127).workList = [] ∧ (autAt 127).states = statesLit ∧
      (autAt 127).gotoTable = gotoTableLit := by decide!

theorem statesLit_ids :
    (statesLit.map (fun st => st.id)).Pairwise (fun a b => a < b) := by decide!

theorem stateTable_eval :
    statesLit.flatMap (stateTable (nsym "program'") gotoTableLit) = actionTableLit := by decide!

/-! ## Facts about the containers -/

theorem intLt_iff (a b : Int) : intLt a b = true ↔ a < b := by
  cases a <;> cases b <;> simp [intLt, Int.negSucc_eq] <;> omega

theorem intLt_irrefl (a : Int) : intLt a a = false := by
  have := intLt_iff a a
  cases h : intLt a a
  · rfl
  · exact absurd (this.mp h) (lt_irrefl a)

theorem keyLt_of_fst_lt (a b : Int × Symbol) (h : a.1 < b.1) :
    keyLt a b = true ∧ keyLt b a = false := by
  have h1 : intLt a.1 b.1 = true := (intLt_iff _ _).mpr h
  have h2 : intLt b.1 a.1 = false := by
    cases h' : intLt b.1 a.1
    · rfl
    · have := (intLt_iff _ _).mp h'
      omega
  simp [keyLt, h1, h2]

theorem fst_eq_of_keyLt_eqv (a b : Int × Symbol) (h1 : keyLt a b = false)
    (h2 : keyLt b a = false) : a.1 = b.1 := by
  by_contra hne
  rcases lt_or_gt_of_ne hne with h | h
  · rw [(keyLt_of_fst_lt a b h).1] at h1
    exact Bool.noConfusion h1
  · rw [(keyLt_of_fst_lt b a h).1] at h2
    exact Bool.noConfusion h2

theorem mapSet_append_of_lt {κ ν : Type} (lt : κ → κ → Bool) (k : κ) (v : ν)
    (t u : List (κ × ν)) (h : ∀ e ∈ t, lt e.1 k = true ∧ lt k e.1 = false) :
    mapSet lt k v (t ++ u) = t ++ mapSet lt k v u := by
  induction t with
  | nil => rfl
  | cons e t ih =>
    obtain ⟨k', v'⟩ := e
    have he := h (k', v') (List.mem_cons_self _ _)
    show mapSet lt k v ((k', v') :: (t ++ u)) = (k', v') :: (t ++ mapSet lt k v u)
    rw [mapSet, if_neg (by simp [he.2]), if_pos he.1,
      ih (fun e he' => h e (List.mem_cons_of_mem _ he'))]

theorem mem_mapSet {κ ν : Type} (lt : κ → κ → Bool) (k : κ) (v : ν) (t : List (κ × ν))
    (e : κ × ν) (h : e ∈ mapSet lt k v t) : e.1 = k ∨ ∃ e' ∈ t, e'.1 = e.1 := by
  induction t with
  | nil =>
    simp only [mapSet, List.mem_singleton] at h
    left; rw [h]
  | cons x t ih =>
    obtain ⟨k', v'⟩ := x
    simp only [mapSet] at h
    split at h
    · rcases List.mem_cons.mp h with h | h
      · left; rw [h]
      · right; exact ⟨e, h, rfl⟩
    · split at h
      · rcases List.mem_cons.mp h with h | h
        · right; exact ⟨(k', v'), List.mem_cons_self _ _, by rw [h]⟩
        · rcases ih h with h | ⟨e', he', h'⟩
          · left; exact h
          · right; exact ⟨e', List.mem_cons_of_mem _ he', h'⟩
      · rcases List.mem_cons.mp h with h | h
        · right; exact ⟨(k', v'), List.mem_cons_self _ _, by rw [h]⟩
        · right; exact ⟨e, List.mem_cons_of_mem _ h, rfl⟩

theorem mapFind_filter {κ ν : Type} (lt : κ → κ → Bool) (k : κ) (p : κ × ν → Bool)
    (t : List (κ × ν))
    (h : ∀ e ∈ t, (!lt k e.1 && !lt e.1 k) = true → p e = true) :
    mapFind lt k (t.filter p) = mapFind lt k t := by
  induction t with
  | nil => rfl
  | cons e t ih =>
    obtain ⟨k', v'⟩ := e
    have ih' := ih (fun e he => h e (List.mem_cons_of_mem _ he))
    by_cases hp : p (k', v') = true
    · simp only [List.filter_cons, hp, if_true, mapFind, ih']
    · have hne : (!lt k k' && !lt k' k) ≠ true := fun hh =>
        hp (h (k', v') (List.mem_cons_self _ _) hh)
      rw [List.filter_cons, if_neg hp, mapFind, if_neg hne, ih']

theorem mapFind_rowOf (t : Table) (s : Int) (a : Symbol) :
    mapFind keyLt (s, a) (rowOf t s) = mapFind keyLt (s, a) t := by
  apply mapFind_filter
  intro e _ he
  simp only [Bool.and_eq_true, Bool.not_eq_true'] at he
  have := fst_eq_of_keyLt_eqv (s, a) e.1 he.1 he.2
  simp only [decide_eq_true_eq]
  exact this.symm

theorem tableWrite_rowOf (aug : Symbol) (t : Table) (s : Int) (item : LR1Item) :
    tableWrite aug (rowOf t s) s item = tableWrite aug t s item := by
  simp only [tableWrite, mapFind_rowOf]

theorem stateWrites_rowOf (aug : Symbol) (t : Table) (st : LR1State) :
    stateWrites aug (rowOf t st.id) st = stateWrites aug t st := by
  unfold stateWrites
  congr 1
  funext item
  exact tableWrite_rowOf aug t st.id item

theorem tableWrite_key (aug : Symbol) (t : Table) (s : Int) (item : LR1Item) (w : TableWrite)
    (h : tableWrite aug t s item = some w) : w.key.1 = s := by
  simp only [tableWrite] at h
  split at h
  · split at h <;> (cases h; rfl)
  · split at h
    · split at h
      · cases h; rfl
      · cases h
    · cases h

theorem stateWrites_key (aug : Symbol) (t : Table) (st : LR1State) (w : TableWrite)
    (h : w ∈ stateWrites aug t st) : w.key.1 = st.id := by
  simp only [stateWrites, List.mem_filterMap] at h
  obtain ⟨item, _, hw⟩ := h
  exact tableWrite_key aug t st.id item w hw

theorem applyWrites_append (a b : List TableWrite) (t : Table) :
    applyWrites (a ++ b) t = applyWrites b (applyWrites a t) := by
  simp only [applyWrites, List.foldl_append]

theorem applyWrites_left (ws : List TableWrite) (t u : Table)
    (h : ∀ w ∈ ws, ∀ e ∈ t, e.1.1 < w.key.1) :
    applyWrites ws (t ++ u) = t ++ applyWrites ws u := by
  induction ws generalizing u with
  | nil => rfl
  | cons w ws ih =>
    have hw := h w (List.mem_cons_self _ _)
    show applyWrites ws (mapSet keyLt w.key w.action (t ++ u)) = _
    rw [mapSet_append_of_lt keyLt w.key w.action t u
      (fun e he => keyLt_of_fst_lt e.1 w.key (hw e he)),
      ih _ (fun w' hw' => h w' (List.mem_cons_of_mem _ hw'))]
    rfl

theorem mem_applyWrites (ws : List TableWrite) (u : Table) (e : (Int × Symbol) × Int)
    (h : e ∈ applyWrites ws u) : (∃ w ∈ ws, e.1 = w.key) ∨ ∃ e' ∈ u, e'.1 = e.1 := by
  induction ws generalizing u with
  | nil => right; exact ⟨e, h, rfl⟩
  | cons w ws ih =>
    have h' : e ∈ applyWrites ws (mapSet keyLt w.key w.action u) := h
    rcases ih _ h' with ⟨w', hw', he⟩ | ⟨e', he', hk⟩
    · left; exact ⟨w', List.mem_cons_of_mem _ hw', he⟩
    · rcases mem_mapSet keyLt w.key w.action u e' he' with h1 | ⟨e'', he'', h2⟩
      · left; exact ⟨w, List.mem_cons_self _ _, by rw [← hk, h1]⟩
      · right; exact ⟨e'', he'', by rw [h2, hk]⟩

/-- When the state ids increase along `states`, `buildParsingTable` appends the rows of
each state in turn. -/
theorem applyWrites_tableWrites (aug : Symbol) (g : Table) (sts : List LR1State) (t : Table)
    (hs : (sts.map (fun st => st.id)).Pairwise (fun a b => a < b))
    (ht : ∀ e ∈ t, ∀ st ∈ sts, e.1.1 < st.id) :
    applyWrites (tableWrites aug g sts) t = t ++ sts.flatMap (stateTable aug g) := by
  induction sts generalizing t with
  | nil => simp [tableWrites, applyWrites]
  | cons st sts ih =>
    have hs' := List.pairwise_cons.mp hs
    have h1 : applyWrites (stateWrites aug g st) t = t ++ stateTable aug g st := by
      have := applyWrites_left (stateWrites aug g st) t []
        (fun w hw e he => by
          rw [stateWrites_key aug g st w hw]
          exact ht e he st (List.mem_cons_self _ _))
      rw [List.append_nil] at this
      rw [this, stateTable, stateWrites_rowOf]
    have h2 : tableWrites aug g (st :: sts) = stateWrites aug g st ++ tableWrites aug g sts := by
      simp [tableWrites]
    rw [h2, applyWrites_append, h1, ih (t ++ stateTable aug g st) hs'.2]
    · simp
    · intro e he st' hst'
      rcases List.mem_append.mp he with he | he
      · exact ht e he st' (List.mem_cons_of_mem _ hst')
      · rw [stateTable, stateWrites_rowOf] at he
        rcases mem_applyWrites _ _ e he with ⟨w, hw, hk⟩ | ⟨e', he', _⟩
        · rw [hk, stateWrites_key aug g st w hw]
          exact hs'.1 st'.id (List.mem_map_of_mem _ hst')
        · cases he'

/-! ## Facts about the comparisons -/

theorem char_eq_of_toNat_eq (c d : Char) (h : c.toNat = d.toNat) : c = d :=
  Char.eq_of_val_eq (UInt32.ext h)

theorem charsEq_iff (cs ds : List Char) : charsEq cs ds = true ↔ cs = ds := by
  induction cs generalizing ds with
  | nil => cases ds <;> simp [charsEq]
  | cons c cs ih =>
    cases ds with
    | nil => simp [charsEq]
    | cons d ds =>
      simp only [charsEq, Bool.and_eq_true, Nat.beq_eq, ih, List.cons.injEq]
      constructor
      · rintro ⟨h1, h2⟩
        exact ⟨char_eq_of_toNat_eq c d h1, h2⟩
      · rintro ⟨h1, h2⟩
        exact ⟨by rw [h1], h2⟩

theorem strEq_iff (a b : String) : strEq a b = true ↔ a = b := by
  rw [strEq, charsEq_iff]
  constructor
  · intro h
    exact String.ext h
  · intro h
    rw [h]

theorem strEq_refl (a : String) : strEq a a = true := (strEq_iff a a).mpr rfl

theorem charsLt_irrefl (cs : List Char) : charsLt cs cs = false := by
  induction cs with
  | nil => rfl
  | cons c cs ih => simp [charsLt, ih]

theorem charsLt_total (cs ds : List Char) (h : cs ≠ ds) :
    charsLt cs ds = true ∨ charsLt ds cs = true := by
  induction cs generalizing ds with
  | nil =>
    cases ds with
    | nil => exact absurd rfl h
    | cons d ds => left; rfl
  | cons c cs ih =>
    cases ds with
    | nil => right; rfl
    | cons d ds =>
      simp only [charsLt, Nat.blt_eq]
      rcases Nat.lt_trichotomy c.toNat d.toNat with hlt | heq | hgt
      · left; simp [hlt]
      · have hcd : c = d := char_eq_of_toNat_eq c d heq
        subst hcd
        have hne : cs ≠ ds := fun e => h (by rw [e])
        simp only [Nat.lt_irrefl, if_false]
        exact ih ds hne
      · right; simp [hgt]

theorem strLt_irrefl (a : String) : strLt a a = false := charsLt_irrefl a.data

theorem str_eq_of_not_lt (a b : String) (h1 : strLt a b = false) (h2 : strLt b a = false) :
    a = b := by
  by_contra hne
  have hd : a.data ≠ b.data := fun e => hne (String.ext e)
  rcases charsLt_total a.data b.data hd with h | h
  · rw [strLt, h] at h1; exact Bool.noConfusion h1
  · rw [strLt, h] at h2; exact Bool.noConfusion h2

theorem symbol_eqv_iff (a b : Symbol) : a.eqv b = true ↔ a = b := by
  cases a with
  | mk an at_ =>
    cases b with
    | mk bn bt =>
      simp only [Symbol.eqv, Bool.and_eq_true, strEq_iff, beq_iff_eq, Symbol.mk.injEq]

theorem symbol_eqv_refl (a : Symbol) : a.eqv a = true := (symbol_eqv_iff a a).mpr rfl

theorem symbol_lt_irrefl (a : Symbol) : a.lt a = false := by
  simp [Symbol.lt, strEq_refl]

theorem symbol_eq_of_not_lt (a b : Symbol) (h1 : a.lt b = false) (h2 : b.lt a = false) :
    a = b := by
  cases a with
  | mk an at_ =>
    cases b with
    | mk bn bt =>
      simp only [Symbol.lt] at h1 h2
      by_cases hn : an = bn
      · subst hn
        simp only [strEq_refl, Bool.not_true, Bool.false_eq_true, if_false] at h1 h2
        cases at_ <;> cases bt <;> simp_all
      · have e1 : strEq an bn = false := by
          cases h : strEq an bn
          · rfl
          · exact absurd ((strEq_iff _ _).mp h) hn
        have e2 : strEq bn an = false := by
          cases h : strEq bn an
          · rfl
          · exact absurd ((strEq_iff _ _).mp h).symm hn
        simp only [e1, e2, Bool.not_false, if_true] at h1 h2
        exact absurd (str_eq_of_not_lt an bn h1 h2) hn

theorem keyLt_irrefl (k : Int × Symbol) : keyLt k k = false := by
  simp [keyLt, intLt_irrefl, symbol_lt_irrefl]

theorem key_eq_of_not_lt (a b : Int × Symbol) (h1 : keyLt a b = false)
    (h2 : keyLt b a = false) : a = b := by
  have hf := fst_eq_of_keyLt_eqv a b h1 h2
  obtain ⟨a1, a2⟩ := a
  obtain ⟨b1, b2⟩ := b
  simp only at hf
  subst hf
  simp only [keyLt, intLt_irrefl, Bool.false_or, Bool.not_false, Bool.true_and] at h1 h2
  rw [symbol_eq_of_not_lt a2 b2 h1 h2]

theorem lexLt_irrefl {α : Type} (lt : α → α → Bool) (h : ∀ x, lt x x = false) (xs : List α) :
    lexLt lt xs xs = false := by
  induction xs with
  | nil => rfl
  | cons x xs ih => simp [lexLt, h x, ih]

theorem production_lt_irrefl (a : Production) : a.lt a = false := by
  simp [Production.lt, symbol_eqv_refl, lexLt_irrefl Symbol.lt symbol_lt_irrefl]

theorem item_lt_irrefl (a : LR1Item) : a.lt a = false := by
  simp [LR1Item.lt, production_lt_irrefl, symbol_lt_irrefl]

/-! ### `mapFind` and `mapSet` under a comparison whose equivalence is equality -/

theorem mapFind_eq_some {κ ν : Type} (lt : κ → κ → Bool)
    (heq : ∀ a b, lt a b = false → lt b a = false → a = b)
    (k : κ) (v : ν) (t : List (κ × ν)) (h : mapFind lt k t = some v) : (k, v) ∈ t := by
  induction t with
  | nil => cases h
  | cons e t ih =>
    obtain ⟨k', v'⟩ := e
    rw [mapFind] at h
    split at h
    · rename_i hc
      simp only [Bool.and_eq_true, Bool.not_eq_true'] at hc
      have hk := heq k k' hc.1 hc.2
      cases h
      rw [hk]
      exact List.mem_cons_self _ _
    · exact List.mem_cons_of_mem _ (ih h)

theorem mapFind_isSome_of_mem {κ ν : Type} (lt : κ → κ → Bool) (hirr : ∀ a, lt a a = false)
    (k : κ) (v : ν) (t : List (κ × ν)) (h : (k, v) ∈ t) : (mapFind lt k t).isSome = true := by
  induction t with
  | nil => cases h
  | cons e t ih =>
    obtain ⟨k', v'⟩ := e
    rw [mapFind]
    split
    · rfl
    · rcases List.mem_cons.mp h with h | h
      · rename_i hc
        cases h
        simp [hirr] at hc
      · exact ih h

theorem mapFind_mapSet {κ ν : Type} [DecidableEq κ] (lt : κ → κ → Bool) (hirr : ∀ a, lt a a = false)
    (heq : ∀ a b, lt a b = false → lt b a = false → a = b)
    (k k' : κ) (v : ν) (t : List (κ × ν)) :
    mapFind lt k (mapSet lt k' v t) = if k = k' then some v else mapFind lt k t := by
  have hsame : ∀ a b : κ, (!lt a b && !lt b a) = true ↔ a = b := by
    intro a b
    constructor
    · intro h
      simp only [Bool.and_eq_true, Bool.not_eq_true'] at h
      exact heq a b h.1 h.2
    · intro h
      rw [h, hirr]
      rfl
  induction t with
  | nil =>
    simp only [mapSet, mapFind, hsame]
  | cons e t ih =>
    obtain ⟨y, vy⟩ := e
    rw [mapSet]
    split
    · simp only [mapFind, hsame]
    · split
      · rename_i h1 h2
        simp only [mapFind, hsame, ih]
        by_cases hky : k = y
        · subst hky
          have : k ≠ k' := by
            intro hk
            subst hk
            rw [hirr] at h2
            exact Bool.noConfusion h2
          simp [this]
        · simp [hky]
      · rename_i h1 h2
        have hy : k' = y := heq k' y (by simpa using h1) (by simpa using h2)
        subst hy
        simp only [mapFind, hsame]
        by_cases hk : k = k'
        · simp [hk]
        · simp [hk]

/-! ### `setInsert` and `setContains` -/

theorem mem_setInsert_of_mem {α : Type} (lt : α → α → Bool) (x z : α) (s : List α)
    (h : z ∈ s) : z ∈ setInsert lt x s := by
  induction s with
  | nil => cases h
  | cons y ys ih =>
    rw [setInsert]
    split
    · exact List.mem_cons_of_mem _ h
    · split
      · rcases List.mem_cons.mp h with h | h
        · rw [h]; exact List.mem_cons_self _ _
        · exact List.mem_cons_of_mem _ (ih h)
      · exact h

theorem mem_setInsert {α : Type} (lt : α → α → Bool) (x z : α) (s : List α)
    (h : z ∈ setInsert lt x s) : z = x ∨ z ∈ s := by
  induction s with
  | nil =>
    rw [setInsert] at h
    left
    exact List.mem_singleton.mp h
  | cons y ys ih =>
    rw [setInsert] at h
    split at h
    · rcases List.mem_cons.mp h with h | h
      · left; exact h
      · right; exact h
    · split at h
      · rcases List.mem_cons.mp h with h | h
        · right; rw [h]; exact List.mem_cons_self _ _
        · rcases ih h with h | h
          · left; exact h
          · right; exact List.mem_cons_of_mem _ h
      · right; exact h

theorem setContains_of_mem {α : Type} (lt : α → α → Bool) (hirr : ∀ a, lt a a = false)
    (x : α) (s : List α) (h : x ∈ s) : setContains lt x s = true := by
  rw [setContains, List.any_eq_true]
  exact ⟨x, h, by rw [hirr]; rfl⟩

theorem setContains_mono {α : Type} (lt : α → α → Bool) (x : α) (s s' : List α)
    (hsub : ∀ z ∈ s, z ∈ s') (h : setContains lt x s = true) : setContains lt x s' = true := by
  rw [setContains, List.any_eq_true] at h ⊢
  obtain ⟨z, hz, hc⟩ := h
  exact ⟨z, hsub z hz, hc⟩

theorem setContains_setInsert_self {α : Type} (lt : α → α → Bool)
    (hirr : ∀ a, lt a a = false) (x : α) (s : List α) :
    setContains lt x (setInsert lt x s) = true := by
  induction s with
  | nil =>
    rw [setInsert]
    exact setContains_of_mem lt hirr x [x] (List.mem_singleton.mpr rfl)
  | cons y ys ih =>
    rw [setInsert]
    split
    · exact setContains_of_mem lt hirr x _ (List.mem_cons_self _ _)
    · split
      · rw [setContains, List.any_cons, Bool.or_eq_true]
        right
        exact ih
      · rename_i h1 h2
        rw [setContains, List.any_cons, Bool.or_eq_true]
        left
        simp only [Bool.not_eq_true] at h1 h2
        rw [h1, h2]
        rfl

theorem setContains_iff_mem {α : Type} (lt : α → α → Bool) (hirr : ∀ a, lt a a = false)
    (heq : ∀ a b, lt a b = false → lt b a = false → a = b) (x : α) (s : List α) :
    setContains lt x s = true ↔ x ∈ s := by
  constructor
  · intro h
    rw [setContains, List.any_eq_true] at h
    obtain ⟨z, hz, hc⟩ := h
    simp only [Bool.and_eq_true, Bool.not_eq_true'] at hc
    rw [heq x z hc.1 hc.2]
    exact hz
  · exact setContains_of_mem lt hirr x s

theorem mem_expectedSet (t : Table) (S : Int) (x : String) :
    x ∈ expectedSet t S ↔ ∃ e ∈ t, e.1.1 = S ∧ e.2 ≠ 0 ∧ e.1.2.name = x := by
  have key : ∀ (acc : List String),
      x ∈ t.foldl (fun s entry =>
        if decide (entry.1.1 = S) && decide (entry.2 ≠ 0) then
          setInsert strLt entry.1.2.name s
        else s) acc ↔ x ∈ acc ∨ ∃ e ∈ t, e.1.1 = S ∧ e.2 ≠ 0 ∧ e.1.2.name = x := by
    induction t with
    | nil => intro acc; simp
    | cons e t ih =>
      intro acc
      rw [List.foldl_cons, ih]
      by_cases hc : (decide (e.1.1 = S) && decide (e.2 ≠ 0)) = true
      · rw [if_pos hc]
        simp only [Bool.and_eq_true, decide_eq_true_eq] at hc
        constructor
        · rintro (h | ⟨e', he', h⟩)
          · rcases mem_setInsert strLt _ _ _ h with h | h
            · right
              exact ⟨e, List.mem_cons_self _ _, hc.1, hc.2, h.symm⟩
            · left; exact h
          · right
            exact ⟨e', List.mem_cons_of_mem _ he', h⟩
        · rintro (h | ⟨e', he', h⟩)
          · left
            exact mem_setInsert_of_mem strLt _ _ _ h
          · rcases List.mem_cons.mp he' with he' | he'
            · left
              subst he'
              have := setContains_setInsert_self strLt strLt_irrefl e'.1.2.name acc
              rw [h.2.2] at this
              have h3 := (setContains_iff_mem strLt strLt_irrefl str_eq_of_not_lt x _).mp this
              rw [h.2.2]
              exact h3
            · right
              exact ⟨e', he', h⟩
      · rw [if_neg hc]
        simp only [Bool.and_eq_true, decide_eq_true_eq] at hc
        constructor
        · rintro (h | ⟨e', he', h⟩)
          · left; exact h
          · right
            exact ⟨e', List.mem_cons_of_mem _ he', h⟩
        · rintro (h | ⟨e', he', h⟩)
          · left; exact h
          · rcases List.mem_cons.mp he' with he' | he'
            · subst he'
              exact absurd ⟨h.1, h.2.1⟩ hc
            · right
              exact ⟨e', he', h⟩
  have := key []
  simp only [List.not_mem_nil, false_or] at this
  exact this

theorem buildParsingTable_eq : automatonLit.buildParsingTable = freshLit := by
  have h := applyWrites_tableWrites (nsym "program'") gotoTableLit statesLit []
    statesLit_ids (fun e he => by cases he)
  rw [stateTable_eval, List.nil_append] at h
  have e1 : automatonLit.augmentedStart = nsym "program'" := rfl
  have e2 : automatonLit.gotoTable = gotoTableLit := rfl
  have e3 : automatonLit.states = statesLit := rfl
  have e4 : automatonLit.actionTable = [] := rfl
  unfold LRParser.buildParsingTable
  rw [e1, e2, e3, e4, h]
  rfl

theorem bfsLoop_done (prods : List Production) (fs : SymMap) (syms : List Symbol) (n : Nat)
    (a : Automaton) (h : a.workList = []) : bfsLoop prods fs syms (n + 1) a = some a := by
  rw [bfsLoop, h]

theorem bfsSteps_bfsLoop (prods : List Production) (fs : SymMap) (syms : List Symbol)
    (k n : Nat) (a b : Automaton) (h : bfsSteps prods fs syms k a = some b) :
    bfsLoop prods fs syms (k + n) a = bfsLoop prods fs syms n b := by
  induction k generalizing a with
  | zero =>
    simp only [bfsSteps, Option.some.injEq] at h
    rw [Nat.zero_add, h]
  | succ k ih =>
    rw [bfsSteps] at h
    rw [show k + 1 + n = (k + n) + 1 by omega, bfsLoop]
    cases hw : a.workList with
    | nil => rw [hw] at h; cases h
    | cons stateId wl =>
      rw [hw] at h
      simp only at h ⊢
      cases hv : bfsVisit prods fs syms a stateId wl with
      | none => rw [hv] at h; cases h
      | some a' =>
        rw [hv] at h
        simp only [Option.some_bind, Option.bind] at h ⊢
        exact ih a' h

theorem bfsLoop_eq :
    bfsLoop productionsLit firstSetLit allSymbolsLit 200 (autAt 0) = some (autAt 127) := by
  have h1 := bfsSteps_bfsLoop _ _ _ 26 174 _ _ bfs_chunk1
  have h2 := bfsSteps_bfsLoop _ _ _ 26 148 _ _ bfs_chunk2
  have h3 := bfsSteps_bfsLoop _ _ _ 26 122 _ _ bfs_chunk3
  have h4 := bfsSteps_bfsLoop _ _ _ 26 96 _ _ bfs_chunk4
  have h5 := bfsSteps_bfsLoop _ _ _ 23 73 _ _ bfs_chunk5
  have h6 := bfsLoop_done productionsLit firstSetLit allSymbolsLit 72 (autAt 127) autAt_final.1
  exact h1.trans (h2.trans (h3.trans (h4.trans (h5.trans h6))))

theorem buildLR1Automaton_eq : followLit.buildLR1Automaton 200 = some automatonLit := by
  have e1 : followLit.productions = productionsLit := rfl
  have e2 : followLit.firstSet = firstSetLit := rfl
  have e3 : followLit.states = [] := rfl
  have e4 : followLit.gotoTable = [] := rfl
  have e5 : followLit.terminals = terminalsLit := rfl
  have e6 : followLit.nonTerminals = nonTerminalsLit := rfl
  unfold LRParser.buildLR1Automaton
  rw [e1, e2, e3, e4, e5, e6, startAutomaton_eq, allSymbols_eq, Option.some_bind, bfsLoop_eq,
    Option.map_some', autAt_final.2.1, autAt_final.2.2]
  rfl

/-- The constructor returns the parser `freshLit`. -/
theorem construct_eq : LRParser.construct 200 = some freshLit := by
  unfold LRParser.construct
  rw [initGrammar_eq, computeFirstSets_eq, Option.some_bind, computeFollowSets_eq,
    Option.some_bind, buildLR1Automaton_eq, Option.map_some', buildParsingTable_eq]

/-! ## Two sample programs (claims C1, C2, C4) -/

/-- Claim C1.  The freshly constructed parser accepts the source text `{ID=NUM;}`:
`analyze` reaches the accept action, the list of diagnostics is empty and the last
derivation line is `{ ID = NUM ; }`. -/
theorem analyze_assignment_block :
    ((LRParser.construct 200).bind (fun p => p.analyze "\x7bID=NUM;\x7d" 100)).map
        (fun r => (r.1.errors, r.1.derivation.getLast?)) =
      some ([], some "\x7b ID = NUM ; \x7d") := by
  rw [construct_eq, Option.some_bind]
  decide!

/-- Claim C2.  On the source text `{ID=NUM;` the freshly constructed parser reaches the
accept action with exactly one diagnostic, and that diagnostic contains the text
`缺少"}"`. -/
theorem analyze_missing_brace :
    ∃ d : String,
      ((LRParser.construct 200).bind (fun p => p.analyze "\x7bID=NUM;" 100)).map
          (fun r => r.1.errors) = some [d] ∧
      "缺少\"\x7d\"".data <:+: d.data := by
  refine ⟨"语法错误，第1行，缺少\"\x7d\"", ?_, "语法错误，第1行，".data, [], ?_⟩
  · rw [construct_eq, Option.some_bind]
    decide!
  · decide

/-- Claim C4, evaluated at a failing input.  One parser instance analyses `{ID=NUM;` and then
`{ID=NUM;}`.  The second run still holds the diagnostic of the first run, and its
derivation is the first run's twelve lines followed by its own twelve, whereas a fresh
parser gives no diagnostic and twelve lines for `{ID=NUM;}`. -/
theorem analyze_twice_keeps_first_run :
    ((LRParser.construct 200).bind (fun p =>
        (p.analyze "\x7bID=NUM;" 100).bind (fun r => r.1.analyze "\x7bID=NUM;\x7d" 100))).map
        (fun r => (r.1.errors, r.1.derivation.length)) =
      some (["语法错误，第1行，缺少\"\x7d\""], 24) ∧
    ((LRParser.construct 200).bind (fun p => p.analyze "\x7bID=NUM;\x7d" 100)).map
        (fun r => (r.1.errors, r.1.derivation.length)) = some ([], 12) := by
  rw [construct_eq, Option.some_bind, Option.some_bind]
  constructor <;> decide!

/-! ## Error recovery (claims C3, C8, C10) -/

theorem handleError_skip (p : LRParser) (state : Int) (tok : Token) (ss : List Int)
    (ys : List Symbol)
    (h : ∀ m ∈ priorityList, setContains strLt m (expectedSet p.actionTable state) = false) :
    p.handleError state tok ss ys =
      ({ p with errors := p.errors ++ [unexpectedMsg tok] }.advance, ss, ys) := by
  have h1 := h ";" (by simp [priorityList])
  have h2 := h ")" (by simp [priorityList])
  have h3 := h "\x7d" (by simp [priorityList])
  have h4 := h "then" (by simp [priorityList])
  have h5 := h "else" (by simp [priorityList])
  simp only [LRParser.handleError, h1, h2, h3, h4, h5, Bool.false_and, Bool.false_eq_true,
    if_false, unexpectedMsg]

theorem parseStep_error (p : LRParser) (s : ParseState) (state : Int) (rest : List Int)
    (hs : s.stateStack = state :: rest)
    (hl : mapFind keyLt (state, ⟨p.getCurrentToken.value, true⟩) p.actionTable = none) :
    p.parseStep s =
      .running (p.handleError state p.getCurrentToken s.stateStack s.symbolStack).1
        { s with
          stateStack := (p.handleError state p.getCurrentToken s.stateStack s.symbolStack).2.1,
          symbolStack :=
            (p.handleError state p.getCurrentToken s.stateStack s.symbolStack).2.2 } := by
  simp only [LRParser.parseStep, hs, hl]

theorem expectedSet_state0 : expectedSet actionTableLit 0 = ["\x7b"] := by decide!

theorem action_state0_dollar : mapFind keyLt (0, ⟨"$", true⟩) actionTableLit = none := by
  decide!

theorem emptyRun_step (n : Nat) :
    (emptyRun n).parseStep ParseState.init = .running (emptyRun (n + 1)) ParseState.init := by
  have htok : (emptyRun n).getCurrentToken = ⟨"$", 1⟩ := by
    by_cases h : n = 0
    · subst h; rfl
    · simp [emptyRun, LRParser.getCurrentToken, h]
  have hl : mapFind keyLt (0, ⟨(emptyRun n).getCurrentToken.value, true⟩)
      (emptyRun n).actionTable = none := by
    rw [htok]; exact action_state0_dollar
  rw [parseStep_error (emptyRun n) ParseState.init 0 [] rfl hl, htok,
    handleError_skip (emptyRun n) 0 ⟨"$", 1⟩ _ _ (by
      intro m hm
      have : (emptyRun n).actionTable = actionTableLit := rfl
      rw [this, expectedSet_state0]
      simp only [priorityList, List.mem_cons, List.mem_singleton, List.not_mem_nil,
        or_false] at hm
      rcases hm with h | h | h | h | h <;> subst h <;> decide)]
  by_cases h : n = 0
  · subst h; rfl
  · have e : unexpectedMsg ⟨"$", 1⟩ = "语法错误，第1行，意外的\"$\"" := by decide
    simp only [emptyRun, h, if_false, LRParser.advance, e, List.length_singleton,
      Nat.lt_irrefl, Nat.add_eq_zero, one_ne_zero, and_false]
    rw [List.replicate_succ']

theorem emptyRun_loop (fuel n : Nat) :
    parseLoop fuel (emptyRun n) ParseState.init =
      .outOfFuel (emptyRun (n + fuel)) ParseState.init := by
  induction fuel generalizing n with
  | zero => rfl
  | succ k ih =>
    rw [parseLoop, emptyRun_step]
    simp only
    rw [ih (n + 1)]
    congr 2
    omega

/-- Claim C3, evaluated at the failing input.  For the empty source text the loop of
`parse` never ends: whatever the number of iterations, the parser is still in the loop,
every iteration so far was a skip recovery that recorded the diagnostic
`语法错误，第1行，意外的"$"`, and `parse` does not return. -/
theorem parse_empty_source_never_ends (fuel : Nat) :
    (LRParser.construct 200).map (fun q =>
        parseLoop fuel { q.tokenize "" with currentToken := 0 } ParseState.init) =
      some (.outOfFuel (emptyRun fuel) ParseState.init) ∧
    (emptyRun fuel).errors.length = fuel ∧
    (LRParser.construct 200).bind (fun q => (q.tokenize "").parse fuel) = none := by
  have h0 : ({ freshLit.tokenize "" with currentToken := 0 } : LRParser) = emptyRun 0 := by
    decide!
  have h1 := emptyRun_loop fuel 0
  rw [Nat.zero_add] at h1
  refine ⟨?_, ?_, ?_⟩
  · rw [construct_eq, Option.map_some', h0, h1]
  · simp [emptyRun]
  · rw [construct_eq, Option.some_bind, LRParser.parse, h0, h1]

/-- Claim C8 as stated fails: after the first iteration on the empty source text the cursor
is 1, the length of the token list; the expected set of state 0 holds no member of the
priority list, `handleError` takes the skip branch, and the cursor is 1 afterwards, not 2. -/
theorem skip_at_end_keeps_cursor :
    (emptyRun 1).currentToken = 1 ∧
    (∀ m ∈ priorityList,
      setContains strLt m (expectedSet (emptyRun 1).actionTable 0) = false) ∧
    ((emptyRun 1).handleError 0 (emptyRun 1).getCurrentToken [0] []).1.currentToken = 1 := by
  decide!

/-- Claim C8, amended.  When the expected set of the state holds no member of the priority
list and the cursor is inside the token list, `handleError` moves the cursor forward by
exactly one, leaves the token list and both stacks unchanged and appends one
diagnostic. -/
theorem handleError_skip_advances (p : LRParser) (state : Int) (tok : Token)
    (ss : List Int) (ys : List Symbol)
    (h : ∀ m ∈ priorityList, setContains strLt m (expectedSet p.actionTable state) = false)
    (hc : p.currentToken < p.tokens.length) :
    (p.handleError state tok ss ys).1.currentToken = p.currentToken + 1 ∧
    (p.handleError state tok ss ys).1.tokens = p.tokens ∧
    (p.handleError state tok ss ys).1.errors = p.errors ++ [unexpectedMsg tok] ∧
    (p.handleError state tok ss ys).2 = (ss, ys) := by
  rw [handleError_skip p state tok ss ys h]
  simp [LRParser.advance, hc]

theorem handleError_skip_advances_witness :
    (∀ m ∈ priorityList,
      setContains strLt m (expectedSet (emptyRun 0).actionTable 0) = false) ∧
    (emptyRun 0).currentToken < (emptyRun 0).tokens.length ∧
    ((emptyRun 0).handleError 0 ⟨"$", 1⟩ [0] []).1.currentToken =
      (emptyRun 0).currentToken + 1 :=
  ⟨by decide!, by decide!,
    (handleError_skip_advances (emptyRun 0) 0 ⟨"$", 1⟩ [0] [] (by decide!) (by decide!)).1⟩

/-! ## The shape of one iteration of `parse` -/

/-- What `handleError` returns: the parser with one token inserted at the cursor, or the
parser after `advance`; in both cases one diagnostic is appended and the stacks are as
they were. -/
theorem handleError_cases (p : LRParser) (state : Int) (tok : Token) (ss : List Int)
    (ys : List Symbol) :
    (∃ sym ∈ priorityList, ∃ line,
      (line = p.lastTokenLine ∨ line = tok.line) ∧
      p.handleError state tok ss ys =
        ({ p with errors := p.errors ++ [missingMsg line sym],
                  tokens := insertToken p.tokens p.currentToken ⟨sym, line⟩ }, ss, ys)) ∨
    p.handleError state tok ss ys =
      ({ p with errors := p.errors ++ [unexpectedMsg tok] }.advance, ss, ys) := by
  have e1 : ∀ l : Nat, "语法错误，第" ++ toString l ++ "行，缺少\";\"" = missingMsg l ";" := by
    intro l; simp only [missingMsg, String.append_assoc]; rfl
  have e2 : ∀ l : Nat, "语法错误，第" ++ toString l ++ "行，缺少\")\"" = missingMsg l ")" := by
    intro l; simp only [missingMsg, String.append_assoc]; rfl
  have e3 : ∀ l : Nat,
      "语法错误，第" ++ toString l ++ "行，缺少\"\x7d\"" = missingMsg l "\x7d" := by
    intro l; simp only [missingMsg, String.append_assoc]; rfl
  have e4 : ∀ l : Nat,
      "语法错误，第" ++ toString l ++ "行，缺少\"then\"" = missingMsg l "then" := by
    intro l; simp only [missingMsg, String.append_assoc]; rfl
  have e5 : ∀ l : Nat,
      "语法错误，第" ++ toString l ++ "行，缺少\"else\"" = missingMsg l "else" := by
    intro l; simp only [missingMsg, String.append_assoc]; rfl
  unfold LRParser.handleError
  simp only [e1, e2, e3, e4, e5]
  split
  · left
    exact ⟨";", by simp [priorityList], p.lastTokenLine, Or.inl rfl, rfl⟩
  · split
    · left
      exact ⟨")", by simp [priorityList], p.lastTokenLine, Or.inl rfl, rfl⟩
    · split
      · left
        exact ⟨"\x7d", by simp [priorityList], p.lastTokenLine, Or.inl rfl, rfl⟩
      · split
        · left
          exact ⟨"then", by simp [priorityList], tok.line, Or.inr rfl, rfl⟩
        · split
          · left
            exact ⟨"else", by simp [priorityList], tok.line, Or.inr rfl, rfl⟩
          · right
            rfl

/-- The three ways in which an iteration of the loop of `parse` goes on. -/
theorem parseStep_running (p q : LRParser) (s t : ParseState)
    (h : p.parseStep s = .running q t) :
    ∃ state rest, s.stateStack = state :: rest ∧
      ((mapFind keyLt (state, ⟨p.getCurrentToken.value, true⟩) p.actionTable = none ∧
        q = (p.handleError state p.getCurrentToken s.stateStack s.symbolStack).1 ∧
        t = { s with
          stateStack := (p.handleError state p.getCurrentToken s.stateStack s.symbolStack).2.1,
          symbolStack :=
            (p.handleError state p.getCurrentToken s.stateStack s.symbolStack).2.2 }) ∨
       (∃ action, mapFind keyLt (state, ⟨p.getCurrentToken.value, true⟩) p.actionTable =
            some action ∧ action > 0 ∧ q = p.advance ∧
          t = { s with symbolStack := ⟨p.getCurrentToken.value, true⟩ :: s.symbolStack,
                       stateStack := (action - 1) :: s.stateStack }) ∨
       (∃ action prod,
          mapFind keyLt (state, ⟨p.getCurrentToken.value, true⟩) p.actionTable =
            some action ∧ ¬ action > 0 ∧ action ≠ -1 ∧
          productionAt p.productions (-(action + 2)) = some prod ∧
          reduceStep p s (-(action + 2)) prod = .running q t)) := by
  unfold LRParser.parseStep at h
  cases hs : s.stateStack with
  | nil => rw [hs] at h; cases h
  | cons state rest =>
    rw [hs] at h
    refine ⟨state, rest, rfl, ?_⟩
    simp only at h
    cases hl : mapFind keyLt (state, ⟨p.getCurrentToken.value, true⟩) p.actionTable with
    | none =>
      rw [hl] at h
      simp only [StepResult.running.injEq] at h
      left
      exact ⟨rfl, h.1.symm, h.2.symm⟩
    | some action =>
      rw [hl] at h
      simp only at h
      right
      by_cases ha : action > 0
      · rw [if_pos ha] at h
        simp only [StepResult.running.injEq] at h
        left
        exact ⟨action, rfl, ha, h.1.symm, h.2.symm⟩
      · rw [if_neg ha] at h
        by_cases hb : action = -1
        · rw [if_pos hb] at h; cases h
        · rw [if_neg hb] at h
          cases hp : productionAt p.productions (-(action + 2)) with
          | none => rw [hp] at h; cases h
          | some prod =>
            rw [hp] at h
            right
            exact ⟨action, prod, rfl, ha, hb, hp, h⟩

/-- How a reduction changes the local variables of `parse`; the parser is not touched. -/
theorem reduceStep_running (p q : LRParser) (s t : ParseState) (prodId : Int)
    (prod : Production) (h : reduceStep p s prodId prod = .running q t) :
    q = p ∧ t.reductions = s.reductions ++ [prodId] ∧
    (if isEpsilonRight prod.right then 0 else prod.right.length) ≤ s.symbolStack.length ∧
    (if isEpsilonRight prod.right then 0 else prod.right.length) ≤ s.stateStack.length ∧
    t.symbolStack = prod.left ::
      s.symbolStack.drop (if isEpsilonRight prod.right then 0 else prod.right.length) ∧
    ∃ top below,
      s.stateStack.drop (if isEpsilonRight prod.right then 0 else prod.right.length) =
        top :: below ∧
      ((∃ g, mapFind keyLt (top, prod.left) p.gotoTable = some g ∧
          t.stateStack = g :: top :: below) ∨
       (mapFind keyLt (top, prod.left) p.gotoTable = none ∧ t.stateStack = top :: below)) := by
  unfold reduceStep at h
  simp only at h
  generalize (if isEpsilonRight prod.right then 0 else prod.right.length) = k at h ⊢
  split at h
  · cases h
  · rename_i hlen
    simp only [Bool.or_eq_true, decide_eq_true_eq, not_or, Nat.not_lt] at hlen
    split at h
    · cases h
    · rename_i top below hst
      split at h
      · rename_i g hg
        simp only [StepResult.running.injEq] at h
        obtain ⟨h1, h2⟩ := h
        subst h1 h2
        exact ⟨rfl, rfl, hlen.1, hlen.2, rfl, top, below, hst, Or.inl ⟨g, hg, by rw [hst]⟩⟩
      · rename_i hg
        simp only [StepResult.running.injEq] at h
        obtain ⟨h1, h2⟩ := h
        subst h1 h2
        exact ⟨rfl, rfl, hlen.1, hlen.2, rfl, top, below, hst, Or.inr ⟨hg, by rw [hst]⟩⟩

/-! ## Diagnostics and insertion recovery (claims C10, C7) -/

theorem advance_fields (p : LRParser) :
    p.advance.errors = p.errors ∧ p.advance.tokens = p.tokens ∧
    p.advance.actionTable = p.actionTable ∧ p.advance.derivation = p.derivation := by
  unfold LRParser.advance
  split <;> exact ⟨rfl, rfl, rfl, rfl⟩

theorem parseStep_accepted (p q : LRParser) (s t : ParseState)
    (h : p.parseStep s = .accepted q t) : q = p ∧ t = s := by
  unfold LRParser.parseStep at h
  cases hs : s.stateStack with
  | nil => rw [hs] at h; cases h
  | cons state rest =>
    rw [hs] at h
    simp only at h
    cases hl : mapFind keyLt (state, ⟨p.getCurrentToken.value, true⟩) p.actionTable with
    | none => rw [hl] at h; cases h
    | some action =>
      rw [hl] at h
      simp only at h
      by_cases ha : action > 0
      · rw [if_pos ha] at h; cases h
      · rw [if_neg ha] at h
        by_cases hb : action = -1
        · rw [if_pos hb] at h
          simp only [StepResult.accepted.injEq] at h
          exact ⟨h.1.symm, h.2.symm⟩
        · rw [if_neg hb] at h
          cases hp : productionAt p.productions (-(action + 2)) with
          | none => rw [hp] at h; cases h
          | some prod =>
            rw [hp] at h
            simp only at h
            unfold reduceStep at h
            simp only at h
            generalize (if isEpsilonRight prod.right then 0 else prod.right.length) = k at h
            split at h
            · cases h
            · split at h
              · cases h
              · split at h <;> cases h

/-- Claim C10.  `handleError` appends exactly one diagnostic: for an insertion of the
token `sym` with line `line` it is `语法错误，第<line>行，缺少"<sym>"`, for a skip of the token
`tok` it is `语法错误，第<tok.line>行，意外的"<tok.value>"`, the line written in decimal.  An
iteration of `parse` changes the diagnostics only by such a call, made when the ACTION
lookup fails, and `tokenize` and `generateDerivation` leave them as they are. -/
theorem recovery_appends_one_diagnostic (p : LRParser) (s : ParseState) :
    (∀ state tok ss ys,
      (∃ sym ∈ priorityList, ∃ line,
        (p.handleError state tok ss ys).1.errors =
          p.errors ++ ["语法错误，第" ++ toString line ++ "行，缺少\"" ++ sym ++ "\""] ∧
        (p.handleError state tok ss ys).1.tokens =
          insertToken p.tokens p.currentToken ⟨sym, line⟩) ∨
      ((p.handleError state tok ss ys).1.errors =
          p.errors ++
            ["语法错误，第" ++ toString tok.line ++ "行，意外的\"" ++ tok.value ++ "\""] ∧
        (p.handleError state tok ss ys).1.tokens = p.tokens)) ∧
    (∀ q t, (p.parseStep s = .running q t ∨ p.parseStep s = .accepted q t) →
      q.errors = p.errors ∨
      ∃ state rest, s.stateStack = state :: rest ∧
        mapFind keyLt (state, ⟨p.getCurrentToken.value, true⟩) p.actionTable = none ∧
        q = (p.handleError state p.getCurrentToken s.stateStack s.symbolStack).1) ∧
    (∀ reductions, (p.generateDerivation reductions).errors = p.errors) ∧
    (∀ prog, (p.tokenize prog).errors = p.errors) := by
  refine ⟨?_, ?_, fun _ => rfl, fun _ => rfl⟩
  · intro state tok ss ys
    rcases handleError_cases p state tok ss ys with ⟨sym, hsym, line, _, h⟩ | h
    · left
      refine ⟨sym, hsym, line, ?_, ?_⟩
      · rw [h]; rfl
      · rw [h]
    · right
      rw [h]
      exact ⟨(advance_fields _).1, (advance_fields _).2.1⟩
  · intro q t h
    rcases h with h | h
    · obtain ⟨state, rest, hs, hc⟩ := parseStep_running p q s t h
      rcases hc with ⟨hl, hq, _⟩ | ⟨action, _, _, hq, _⟩ | ⟨action, prod, _, _, _, _, hr⟩
      · right
        exact ⟨state, rest, hs, hl, hq⟩
      · left
        rw [hq]
        exact (advance_fields p).1
      · left
        rw [(reduceStep_running p q s t _ prod hr).1]
    · left
      rw [(parseStep_accepted p q s t h).1]

theorem action_entries_terminal :
    ∀ e ∈ actionTableLit, e.1.2.isTerminal = true ∧ e.2 ≠ 0 := by
  have h : actionTableLit.all (fun e => e.1.2.isTerminal && decide (e.2 ≠ 0)) = true := by
    decide!
  intro e he
  have := List.all_eq_true.mp h e he
  simpa using this

theorem action_state0_shift :
    ∀ e ∈ actionTableLit, e.1.1 = 0 → 0 < e.2 ∧ e.1.2.name ∉ priorityList := by
  have h : actionTableLit.all
      (fun e => decide (e.1.1 = 0 → 0 < e.2 ∧ e.1.2.name ∉ priorityList)) = true := by
    decide!
  intro e he
  exact of_decide_eq_true (List.all_eq_true.mp h e he)

theorem hasAction_iff (p : LRParser) (hp : p.actionTable = actionTableLit) (S : Int)
    (x : String) :
    hasAction p S x = true ↔ setContains strLt x (expectedSet p.actionTable S) = true := by
  rw [setContains_iff_mem strLt strLt_irrefl str_eq_of_not_lt, mem_expectedSet, hasAction, hp]
  constructor
  · intro h
    cases hf : mapFind keyLt (S, ⟨x, true⟩) actionTableLit with
    | none => rw [hf] at h; cases h
    | some v =>
      have hm := mapFind_eq_some keyLt key_eq_of_not_lt _ v _ hf
      exact ⟨_, hm, rfl, (action_entries_terminal _ hm).2, rfl⟩
  · rintro ⟨e, he, h1, _, h3⟩
    have ht := (action_entries_terminal e he).1
    have hk : e = ((S, ⟨x, true⟩), e.2) := by
      obtain ⟨⟨e1, ⟨en, et⟩⟩, e2⟩ := e
      simp only at h1 h3 ht
      subst h1 h3 ht
      rfl
    rw [hk] at he
    exact mapFind_isSome_of_mem keyLt keyLt_irrefl _ _ _ he

theorem getD_insertToken (tokens : List Token) (c : Nat) (tok d : Token) (hc : 0 < c)
    (hl : c ≤ tokens.length) :
    (insertToken tokens c tok).getD (c - 1) d = tokens.getD (c - 1) d := by
  unfold insertToken
  rw [List.getD_eq_getElem?_getD, List.getD_eq_getElem?_getD,
    List.getElem?_append_left (by rw [List.length_take]; omega),
    List.getElem?_take_of_lt (by omega)]

theorem cursorInv_step (p q : LRParser) (s t : ParseState) (hinv : CursorInv p s)
    (h : p.parseStep s = .running q t) : CursorInv q t := by
  obtain ⟨hact, hle, h0, hline⟩ := hinv
  obtain ⟨state, rest, hs, hc⟩ := parseStep_running p q s t h
  rcases hc with ⟨_, hq, ht⟩ | ⟨action, hl, hpos, hq, ht⟩ | ⟨action, prod, hl, hn1, hn2, _, hr⟩
  · rcases handleError_cases p state p.getCurrentToken s.stateStack s.symbolStack with
      ⟨sym, _, line, _, he⟩ | he
    · rw [he] at hq ht
      subst hq ht
      refine ⟨hact, ?_, h0, ?_⟩
      · show p.currentToken ≤ (insertToken p.tokens p.currentToken ⟨sym, line⟩).length
        unfold insertToken
        simp only [List.length_append, List.length_take, List.length_cons, List.length_drop]
        omega
      · intro hpos
        show p.lastTokenLine =
          ((insertToken p.tokens p.currentToken ⟨sym, line⟩).getD (p.currentToken - 1)
            ⟨"", 1⟩).line
        rw [getD_insertToken _ _ _ _ hpos hle]
        exact hline hpos
    · rw [he] at hq ht
      subst hq ht
      unfold LRParser.advance
      by_cases hlt : p.currentToken < p.tokens.length
      · simp only [hlt, if_true]
        refine ⟨hact, hlt, ?_, ?_⟩
        · intro h'; exact absurd h' (Nat.succ_ne_zero _)
        · intro _
          simp only [Nat.add_sub_cancel]
      · simp only [hlt, if_false]
        exact ⟨hact, hle, h0, hline⟩
  · subst hq ht
    unfold LRParser.advance
    by_cases hlt : p.currentToken < p.tokens.length
    · simp only [hlt, if_true]
      refine ⟨hact, hlt, ?_, ?_⟩
      · intro h'; exact absurd h' (Nat.succ_ne_zero _)
      · intro _
        simp only [Nat.add_sub_cancel]
    · simp only [hlt, if_false]
      refine ⟨hact, hle, ?_, hline⟩
      intro hz
      exfalso
      have hst := h0 hz
      rw [hs] at hst
      have hstate : state = 0 := (List.cons.inj hst).1
      have htok : p.getCurrentToken.value = "$" := by
        unfold LRParser.getCurrentToken
        rw [if_neg hlt]
      rw [hstate, htok, hact, action_state0_dollar] at hl
      cases hl
  · obtain ⟨hq, _, _, _, _, _⟩ := reduceStep_running p q s t _ prod hr
    subst hq
    refine ⟨hact, hle, ?_, hline⟩
    intro hz
    exfalso
    have hst := h0 hz
    rw [hs] at hst
    have hstate : state = 0 := (List.cons.inj hst).1
    rw [hstate, hact] at hl
    have hm := mapFind_eq_some keyLt key_eq_of_not_lt _ _ _ hl
    exact hn1 (action_state0_shift _ hm rfl).1

theorem cursorInv_runSteps (n : Nat) (p q : LRParser) (s t : ParseState)
    (hinv : CursorInv p s) (h : runSteps n p s = some (q, t)) : CursorInv q t := by
  induction n generalizing p s with
  | zero =>
    simp only [runSteps, Option.some.injEq, Prod.mk.injEq] at h
    rw [← h.1, ← h.2]
    exact hinv
  | succ n ih =>
    rw [runSteps] at h
    cases hstep : p.parseStep s with
    | running p1 s1 =>
      rw [hstep] at h
      exact ih p1 s1 (cursorInv_step p p1 s s1 hinv hstep) h
    | accepted p1 s1 => rw [hstep] at h; cases h
    | fault => rw [hstep] at h; cases h

theorem missingMsg_literals (l : Nat) :
    "语法错误，第" ++ toString l ++ "行，缺少\";\"" = missingMsg l ";" ∧
    "语法错误，第" ++ toString l ++ "行，缺少\")\"" = missingMsg l ")" ∧
    "语法错误，第" ++ toString l ++ "行，缺少\"\x7d\"" = missingMsg l "\x7d" ∧
    "语法错误，第" ++ toString l ++ "行，缺少\"then\"" = missingMsg l "then" ∧
    "语法错误，第" ++ toString l ++ "行，缺少\"else\"" = missingMsg l "else" := by
  simp only [missingMsg, String.append_assoc]
  exact ⟨rfl, rfl, rfl, rfl, rfl⟩

theorem strEq_false_of_ne (a b : String) (h : a ≠ b) : strEq a b = false := by
  cases hc : strEq a b
  · rfl
  · exact absurd ((strEq_iff a b).mp hc) h

/-- Claim C7.  In a parse on the constructed tables, started from any token list, let the
ACTION lookup fail in the state `S` on top of the stack, and let `m` be the first member
of the list `;`, `)`, `}`, `then`, `else` that has an ACTION entry in `S`.  Then the
cursor is past the first token, and the iteration inserts the one token `m` at the
cursor position, with the line of the token before the cursor for `;`, `)`, `}` and the
line of the current token for `then`, `else`; it appends the diagnostic for `m` and
leaves the cursor and both stacks as they are. -/
theorem insertion_recovery (q0 : LRParser) (toks : List Token) (l0 : Nat)
    (es : List String) (n : Nat) (p : LRParser) (s : ParseState) (S : Int)
    (rest : List Int) (m : String)
    (hq : LRParser.construct 200 = some q0)
    (hrun : runSteps n
      { q0 with tokens := toks, currentToken := 0, lastTokenLine := l0, errors := es }
      ParseState.init = some (p, s))
    (hS : s.stateStack = S :: rest)
    (hfail : mapFind keyLt (S, ⟨p.getCurrentToken.value, true⟩) p.actionTable = none)
    (hm : priorityList.find? (hasAction p S) = some m) :
    0 < p.currentToken ∧ p.currentToken ≤ p.tokens.length ∧
    ∃ line,
      line = (if m = "then" ∨ m = "else" then p.getCurrentToken.line
              else (p.tokens.getD (p.currentToken - 1) ⟨"", 1⟩).line) ∧
      p.parseStep s = .running
        { p with errors := p.errors ++ [missingMsg line m],
                 tokens := insertToken p.tokens p.currentToken ⟨m, line⟩ } s := by
  rw [construct_eq] at hq
  have hq0 : q0 = freshLit := (Option.some.inj hq).symm
  subst hq0
  have hinit : CursorInv
      { freshLit with tokens := toks, currentToken := 0, lastTokenLine := l0, errors := es }
      ParseState.init :=
    ⟨rfl, Nat.zero_le _, fun _ => rfl, fun h => absurd h (Nat.lt_irrefl 0)⟩
  obtain ⟨hact, hle, h0, hline⟩ := cursorInv_runSteps n _ p _ s hinit hrun
  have hE : ∀ x, setContains strLt x (expectedSet p.actionTable S) = hasAction p S x := by
    intro x
    rw [Bool.eq_iff_iff]
    exact (hasAction_iff p hact S x).symm
  have hmem : hasAction p S m = true ∧ m ∈ priorityList :=
    ⟨List.find?_some hm, List.mem_of_find?_eq_some hm⟩
  have hne : ∀ x, hasAction p S x = true → strEq p.getCurrentToken.value x = false := by
    intro x hx
    apply strEq_false_of_ne
    intro heq
    rw [hasAction, ← heq, hfail] at hx
    cases hx
  have hpos : 0 < p.currentToken := by
    by_contra hz
    have hz' : p.currentToken = 0 := by omega
    have hst := h0 hz'
    rw [hS] at hst
    have hS0 : S = 0 := (List.cons.inj hst).1
    have hx := hmem.1
    rw [hasAction, hS0, hact] at hx
    cases hf : mapFind keyLt ((0 : Int), (⟨m, true⟩ : Symbol)) actionTableLit with
    | none => rw [hf] at hx; cases hx
    | some v =>
      have hin := mapFind_eq_some keyLt key_eq_of_not_lt _ v _ hf
      exact (action_state0_shift _ hin rfl).2 hmem.2
  have hl := hline hpos
  refine ⟨hpos, hle, ?_⟩
  have hstep := parseStep_error p s S rest hS hfail
  obtain ⟨m1, m2, m3, m4, m5⟩ := missingMsg_literals p.lastTokenLine
  obtain ⟨n1, n2, n3, n4, n5⟩ := missingMsg_literals p.getCurrentToken.line
  simp only [priorityList, List.find?] at hm
  cases h1 : hasAction p S ";" with
  | true =>
    rw [h1] at hm
    have hmv : m = ";" := (Option.some.inj hm).symm
    subst hmv
    refine ⟨p.lastTokenLine, by rw [hl]; rfl, ?_⟩
    rw [hstep]
    simp only [LRParser.handleError, hE, h1, hne ";" h1, m1]
    rfl
  | false =>
    rw [h1] at hm
    simp only at hm
    cases h2 : hasAction p S ")" with
    | true =>
      rw [h2] at hm
      have hmv : m = ")" := (Option.some.inj hm).symm
      subst hmv
      refine ⟨p.lastTokenLine, by rw [hl]; rfl, ?_⟩
      rw [hstep]
      simp only [LRParser.handleError, hE, h1, h2, hne ")" h2, m2]
      rfl
    | false =>
      rw [h2] at hm
      simp only at hm
      cases h3 : hasAction p S "\x7d" with
      | true =>
        rw [h3] at hm
        have hmv : m = "\x7d" := (Option.some.inj hm).symm
        subst hmv
        refine ⟨p.lastTokenLine, by rw [hl]; rfl, ?_⟩
        rw [hstep]
        simp only [LRParser.handleError, hE, h1, h2, h3, hne "\x7d" h3, m3]
        rfl
      | false =>
        rw [h3] at hm
        simp only at hm
        cases h4 : hasAction p S "then" with
        | true =>
          rw [h4] at hm
          have hmv : m = "then" := (Option.some.inj hm).symm
          subst hmv
          refine ⟨p.getCurrentToken.line, rfl, ?_⟩
          rw [hstep]
          simp only [LRParser.handleError, hE, h1, h2, h3, h4, hne "then" h4, n4]
          rfl
        | false =>
          rw [h4] at hm
          simp only at hm
          cases h5 : hasAction p S "else" with
          | true =>
            rw [h5] at hm
            have hmv : m = "else" := (Option.some.inj hm).symm
            subst hmv
            refine ⟨p.getCurrentToken.line, rfl, ?_⟩
            rw [hstep]
            simp only [LRParser.handleError, hE, h1, h2, h3, h4, h5, hne "else" h5, n5]
            rfl
          | false =>
            rw [h5] at hm
            cases hm

theorem insertion_recovery_witness :
    LRParser.construct 200 = some freshLit ∧
    runSteps 10
      { freshLit with tokens := sampleTokens, currentToken := 0, lastTokenLine := 1,
                      errors := [] }
      ParseState.init = some (sampleParser, sampleState) ∧
    mapFind keyLt (41, ⟨sampleParser.getCurrentToken.value, true⟩) sampleParser.actionTable =
      none ∧
    priorityList.find? (hasAction sampleParser 41) = some "\x7d" ∧
    (0 < sampleParser.currentToken ∧ sampleParser.currentToken ≤ sampleParser.tokens.length ∧
    ∃ line,
      line = (if "\x7d" = "then" ∨ "\x7d" = "else" then sampleParser.getCurrentToken.line
              else (sampleParser.tokens.getD (sampleParser.currentToken - 1) ⟨"", 1⟩).line) ∧
      sampleParser.parseStep sampleState = .running
        { sampleParser with
          errors := sampleParser.errors ++ [missingMsg line "\x7d"],
          tokens := insertToken sampleParser.tokens sampleParser.currentToken
            ⟨"\x7d", line⟩ } sampleState) :=
  ⟨construct_eq, by decide!, by decide!, by decide!,
    insertion_recovery freshLit sampleTokens 1 [] 10 sampleParser sampleState 41
      [23, 14, 4, 3, 0] "\x7d" construct_eq (by decide!) rfl (by decide!) (by decide!)⟩

/-! ## The ACTION table has no conflict (claim C5) -/

theorem writesAgree_states :
    statesLit.all (fun st =>
      writesAgree (stateWrites (nsym "program'") (rowOf gotoTableLit st.id) st)) = true := by
  decide!

theorem writesAgree_spec (ws : List TableWrite) (h : writesAgree ws = true) :
    ∀ w1 ∈ ws, ∀ w2 ∈ ws, keyLt w1.key w2.key = false → keyLt w2.key w1.key = false →
      w1.action = w2.action := by
  intro w1 h1 w2 h2 hlt hgt
  have := List.all_eq_true.mp (List.all_eq_true.mp h w1 h1) w2 h2
  simpa [hlt, hgt] using this

theorem state_eq_of_id_eq (sts : List LR1State)
    (hs : (sts.map (fun st => st.id)).Pairwise (fun a b => a < b)) :
    ∀ a ∈ sts, ∀ b ∈ sts, a.id = b.id → a = b := by
  induction sts with
  | nil => intro a ha; cases ha
  | cons x xs ih =>
    have hp := List.pairwise_cons.mp hs
    intro a ha b hb hab
    rcases List.mem_cons.mp ha with ha | ha <;> rcases List.mem_cons.mp hb with hb | hb
    · rw [ha, hb]
    · exfalso
      have := hp.1 b.id (List.mem_map_of_mem _ hb)
      rw [← hab, ha] at this
      exact lt_irrefl _ this
    · exfalso
      have := hp.1 a.id (List.mem_map_of_mem _ ha)
      rw [hab, hb] at this
      exact lt_irrefl _ this
    · exact ih hp.2 a ha b hb hab

theorem tableWrites_agree :
    ∀ w1 ∈ tableWrites (nsym "program'") gotoTableLit statesLit,
    ∀ w2 ∈ tableWrites (nsym "program'") gotoTableLit statesLit,
      keyLt w1.key w2.key = false → keyLt w2.key w1.key = false → w1.action = w2.action := by
  intro w1 h1 w2 h2 hlt hgt
  simp only [tableWrites, List.mem_flatMap] at h1 h2
  obtain ⟨st1, hst1, hw1⟩ := h1
  obtain ⟨st2, hst2, hw2⟩ := h2
  have hk := fst_eq_of_keyLt_eqv w1.key w2.key hlt hgt
  rw [stateWrites_key _ _ st1 w1 hw1, stateWrites_key _ _ st2 w2 hw2] at hk
  have hst := state_eq_of_id_eq statesLit statesLit_ids st1 hst1 st2 hst2 hk
  subst hst
  have hall := List.all_eq_true.mp writesAgree_states st1 hst1
  rw [stateWrites_rowOf] at hall
  exact writesAgree_spec _ hall w1 hw1 w2 hw2 hlt hgt

theorem mapFind_applyWrites (ws : List TableWrite)
    (hc : ∀ w1 ∈ ws, ∀ w2 ∈ ws, w1.key = w2.key → w1.action = w2.action)
    (t : Table) (k : Int × Symbol) :
    (∀ w ∈ ws, w.key = k → mapFind keyLt k (applyWrites ws t) = some w.action) ∧
    ((∀ w ∈ ws, w.key ≠ k) → mapFind keyLt k (applyWrites ws t) = mapFind keyLt k t) := by
  induction ws generalizing t with
  | nil =>
    exact ⟨fun w hw => (by cases hw), fun _ => rfl⟩
  | cons w ws ih =>
    have hc' : ∀ w1 ∈ ws, ∀ w2 ∈ ws, w1.key = w2.key → w1.action = w2.action :=
      fun w1 h1 w2 h2 => hc w1 (List.mem_cons_of_mem _ h1) w2 (List.mem_cons_of_mem _ h2)
    have hstep : applyWrites (w :: ws) t = applyWrites ws (mapSet keyLt w.key w.action t) :=
      rfl
    obtain ⟨ihA, ihB⟩ := ih hc' (mapSet keyLt w.key w.action t)
    have hB : (∀ w' ∈ ws, w'.key ≠ k) →
        mapFind keyLt k (applyWrites (w :: ws) t) =
          if k = w.key then some w.action else mapFind keyLt k t := by
      intro hno
      rw [hstep, ihB hno, mapFind_mapSet keyLt keyLt_irrefl key_eq_of_not_lt]
    constructor
    · intro w' hw' hk
      by_cases hex : ∃ w'' ∈ ws, w''.key = k
      · obtain ⟨w'', hw'', hk''⟩ := hex
        rw [hstep, ihA w'' hw'' hk'',
          hc w'' (List.mem_cons_of_mem _ hw'') w' hw' (by rw [hk'', hk])]
      · have hno : ∀ x ∈ ws, x.key ≠ k := fun x hx hxk => hex ⟨x, hx, hxk⟩
        rcases List.mem_cons.mp hw' with h | h
        · rw [hB hno, h, if_pos (by rw [← hk, h])]
        · exact absurd hk (hno w' h)
    · intro hno
      rw [hB (fun x hx => hno x (List.mem_cons_of_mem _ hx)),
        if_neg (fun h => hno w (List.mem_cons_self _ _) h.symm)]

/-- Claim C5.  For the fixed grammar no two assignments of `buildParsingTable` address the
same key of the ACTION table with different actions, so there is no shift/reduce and no
reduce/reduce conflict; and performing the same assignments in any other order yields a
table with the same entry, or none, for every key. -/
theorem buildParsingTable_no_conflict :
    ∃ p, LRParser.construct 200 = some p ∧
      (∀ w1 ∈ tableWrites p.augmentedStart p.gotoTable p.states,
       ∀ w2 ∈ tableWrites p.augmentedStart p.gotoTable p.states,
        keyLt w1.key w2.key = false → keyLt w2.key w1.key = false →
          w1.action = w2.action) ∧
      (∀ ws, ws.Perm (tableWrites p.augmentedStart p.gotoTable p.states) →
        ∀ k, mapFind keyLt k (applyWrites ws []) = mapFind keyLt k p.actionTable) := by
  refine ⟨freshLit, construct_eq, tableWrites_agree, ?_⟩
  intro ws hperm k
  have hW : tableWrites freshLit.augmentedStart freshLit.gotoTable freshLit.states =
      tableWrites (nsym "program'") gotoTableLit statesLit := rfl
  have hA : freshLit.actionTable =
      applyWrites (tableWrites (nsym "program'") gotoTableLit statesLit) [] := by
    have h := applyWrites_tableWrites (nsym "program'") gotoTableLit statesLit []
      statesLit_ids (fun e he => by cases he)
    rw [stateTable_eval, List.nil_append] at h
    rw [h]
    rfl
  rw [hW] at hperm
  rw [hA]
  have hceq : ∀ w1 ∈ tableWrites (nsym "program'") gotoTableLit statesLit,
      ∀ w2 ∈ tableWrites (nsym "program'") gotoTableLit statesLit,
        w1.key = w2.key → w1.action = w2.action := by
    intro w1 h1 w2 h2 hk
    exact tableWrites_agree w1 h1 w2 h2 (by rw [hk, keyLt_irrefl]) (by rw [hk, keyLt_irrefl])
  have hceq' : ∀ w1 ∈ ws, ∀ w2 ∈ ws, w1.key = w2.key → w1.action = w2.action :=
    fun w1 h1 w2 h2 => hceq w1 (hperm.mem_iff.mp h1) w2 (hperm.mem_iff.mp h2)
  by_cases hex : ∃ w ∈ ws, w.key = k
  · obtain ⟨w, hw, hk⟩ := hex
    rw [(mapFind_applyWrites ws hceq' [] k).1 w hw hk,
      (mapFind_applyWrites _ hceq [] k).1 w (hperm.mem_iff.mp hw) hk]
  · have hno : ∀ w ∈ ws, w.key ≠ k := fun w hw hk => hex ⟨w, hw, hk⟩
    rw [(mapFind_applyWrites ws hceq' [] k).2 hno,
      (mapFind_applyWrites _ hceq [] k).2 (fun w hw => hno w (hperm.mem_iff.mpr hw))]

/-! ## closure is idempotent (claim C6) -/

theorem closureStep_eq (prods : List Production) (fs : SymMap)
    (acc : List LR1Item × List LR1Item) (item : LR1Item) :
    closureStep prods fs acc item = (candidates prods fs item).foldl closureAdd acc := by
  unfold closureStep candidates
  simp only
  split
  · rfl
  · generalize getFirstOfString fs (betaA item) 0 = first
    generalize item.getSymbolAfterDot = B
    induction prods generalizing acc with
    | nil => rfl
    | cons prod prods ih =>
      rw [List.foldl_cons, List.flatMap_cons, List.foldl_append, ih]
      congr 1
      split
      · clear ih
        induction first generalizing acc with
        | nil => rfl
        | cons la first ih2 =>
          rw [List.foldl_cons, List.filter_cons]
          by_cases hE : strEq la.name "E" = true
          · simp only [hE, Bool.not_true, Bool.false_eq_true, if_false, if_true]
            exact ih2 acc
          · simp only [hE, Bool.not_false, if_true, if_false, List.map_cons, List.foldl_cons]
            exact ih2 _
      · rfl

theorem mapFind_mem {κ ν : Type} (lt : κ → κ → Bool) (k : κ) (v : ν) (t : List (κ × ν))
    (h : mapFind lt k t = some v) : ∃ k', (k', v) ∈ t := by
  induction t with
  | nil => cases h
  | cons e t ih =>
    obtain ⟨k', v'⟩ := e
    rw [mapFind] at h
    split at h
    · cases h
      exact ⟨k', List.mem_cons_self _ _⟩
    · obtain ⟨k'', hk⟩ := ih h
      exact ⟨k'', List.mem_cons_of_mem _ hk⟩

theorem symGet_subset (fs : SymMap) (sym x : Symbol) (h : x ∈ symGet fs sym) :
    x ∈ fs.flatMap (fun e => e.2) := by
  unfold symGet at h
  cases hf : mapFind Symbol.lt sym fs with
  | none => rw [hf] at h; cases h
  | some v =>
    rw [hf] at h
    obtain ⟨k', hk⟩ := mapFind_mem Symbol.lt sym v fs hf
    exact List.mem_flatMap.mpr ⟨(k', v), hk, h⟩

theorem mem_addNonEpsilon (src target : List Symbol) (x : Symbol)
    (h : x ∈ addNonEpsilon src target) : x ∈ target ∨ x ∈ src := by
  unfold addNonEpsilon at h
  induction src generalizing target with
  | nil => left; exact h
  | cons f src ih =>
    rw [List.foldl_cons] at h
    rcases ih _ h with h | h
    · split at h
      · rcases mem_setInsert Symbol.lt _ _ _ h with h | h
        · right; rw [h]; exact List.mem_cons_self _ _
        · left; exact h
      · left; exact h
    · right; exact List.mem_cons_of_mem _ h

theorem mem_firstWalk (fs : SymMap) (syms acc : List Symbol) (x : Symbol)
    (h : x ∈ (firstWalk fs syms acc).1) :
    x ∈ acc ∨ x = epsilon ∨ x ∈ fs.flatMap (fun e => e.2) := by
  induction syms generalizing acc with
  | nil => left; exact h
  | cons sym syms ih =>
    rw [firstWalk] at h
    split at h
    · rcases mem_setInsert Symbol.lt _ _ _ h with h | h
      · right; left; exact h
      · left; exact h
    · have hadd : ∀ y, y ∈ addNonEpsilon (symGet fs sym) acc →
          y ∈ acc ∨ y = epsilon ∨ y ∈ fs.flatMap (fun e => e.2) := by
        intro y hy
        rcases mem_addNonEpsilon _ _ y hy with hy | hy
        · left; exact hy
        · right; right; exact symGet_subset fs sym y hy
      simp only at h
      split at h
      · exact hadd x h
      · rcases ih _ h with h | h | h
        · exact hadd x h
        · right; left; exact h
        · right; right; exact h

theorem mem_getFirstOfString (fs : SymMap) (syms : List Symbol) (start : Nat) (x : Symbol)
    (h : x ∈ getFirstOfString fs syms start) :
    x = epsilon ∨ x ∈ fs.flatMap (fun e => e.2) := by
  unfold getFirstOfString at h
  split at h
  · left; exact List.mem_singleton.mp h
  · simp only at h
    have hw : ∀ y, y ∈ (firstWalk fs (syms.drop start) []).1 →
        y = epsilon ∨ y ∈ fs.flatMap (fun e => e.2) := by
      intro y hy
      rcases mem_firstWalk fs _ [] y hy with hy | hy | hy
      · cases hy
      · left; exact hy
      · right; exact hy
    split at h
    · rcases mem_setInsert Symbol.lt _ _ _ h with h | h
      · left; exact h
      · exact hw x h
    · exact hw x h

theorem candidates_subset (prods : List Production) (fs : SymMap) (item c : LR1Item)
    (h : c ∈ candidates prods fs item) : c ∈ closureUniverse prods fs := by
  unfold candidates at h
  split at h
  · cases h
  · obtain ⟨prod, hprod, hc⟩ := List.mem_flatMap.mp h
    split at hc
    · obtain ⟨la, hla, hcla⟩ := List.mem_map.mp hc
      obtain ⟨hla1, hla2⟩ := List.mem_filter.mp hla
      rcases mem_getFirstOfString fs _ 0 la hla1 with he | hv
      · rw [he] at hla2
        exact absurd hla2 (by decide)
      · exact List.mem_flatMap.mpr ⟨prod, hprod, List.mem_map.mpr ⟨la, hv, hcla⟩⟩
    · cases hc

theorem length_filter_lt {α : Type} (U : List α) (p q : α → Bool)
    (hsub : ∀ u, q u = true → p u = true) (c : α) (hc : c ∈ U) (hp : p c = true)
    (hq : q c = false) : (U.filter q).length < (U.filter p).length := by
  have hle : ∀ V : List α, (V.filter q).length ≤ (V.filter p).length := by
    intro V
    induction V with
    | nil => exact Nat.le_refl _
    | cons v V ih =>
      rw [List.filter_cons, List.filter_cons]
      by_cases hqv : q v = true
      · rw [if_pos hqv, if_pos (hsub v hqv)]
        exact Nat.succ_le_succ ih
      · rw [if_neg hqv]
        split
        · exact Nat.le_succ_of_le ih
        · exact ih
  induction U with
  | nil => cases hc
  | cons v V ih =>
    rw [List.filter_cons, List.filter_cons]
    rcases List.mem_cons.mp hc with h | h
    · subst h
      rw [if_pos hp, if_neg (by rw [hq]; exact Bool.false_ne_true)]
      exact Nat.lt_succ_of_le (hle V)
    · by_cases hqv : q v = true
      · rw [if_pos hqv, if_pos (hsub v hqv)]
        exact Nat.succ_lt_succ (ih h)
      · rw [if_neg hqv]
        split
        · exact Nat.lt_succ_of_lt (ih h)
        · exact ih h

theorem closureAdd_props (U : List LR1Item) (acc : List LR1Item × List LR1Item)
    (c : LR1Item) (hc : c ∈ U) :
    (∀ z ∈ acc.1, z ∈ (closureAdd acc c).1) ∧
    (∀ z ∈ acc.2, z ∈ (closureAdd acc c).2) ∧
    setContains LR1Item.lt c (closureAdd acc c).1 = true ∧
    (∀ z ∈ (closureAdd acc c).1, z ∈ acc.1 ∨ z ∈ (closureAdd acc c).2) ∧
    (closureAdd acc c).2.length + missingCount U (closureAdd acc c).1 ≤
      acc.2.length + missingCount U acc.1 := by
  unfold closureAdd
  by_cases hfound : setContains LR1Item.lt c acc.1 = true
  · have hsame : (if (!setContains LR1Item.lt c acc.1) = true then
          (setInsert LR1Item.lt c acc.1, acc.2 ++ [c]) else acc) = acc := by
      rw [hfound]; rfl
    rw [hsame]
    exact ⟨fun z hz => hz, fun z hz => hz, hfound, fun z hz => Or.inl hz, Nat.le_refl _⟩
  · have hnew : (if (!setContains LR1Item.lt c acc.1) = true then
          (setInsert LR1Item.lt c acc.1, acc.2 ++ [c]) else acc) =
        (setInsert LR1Item.lt c acc.1, acc.2 ++ [c]) := by
      rw [Bool.not_eq_true] at hfound
      rw [hfound]; rfl
    rw [hnew]
    refine ⟨fun z hz => mem_setInsert_of_mem _ _ _ _ hz,
      fun z hz => List.mem_append_left _ hz,
      setContains_setInsert_self _ item_lt_irrefl _ _, ?_, ?_⟩
    · intro z hz
      rcases mem_setInsert _ _ _ _ hz with h | h
      · right; rw [h]; exact List.mem_append_right _ (List.mem_singleton.mpr rfl)
      · left; exact h
    · have hlt : missingCount U (setInsert LR1Item.lt c acc.1) < missingCount U acc.1 := by
        unfold missingCount
        apply length_filter_lt U _ _ _ c hc
        · simp only [hfound, Bool.not_false]
        · rw [setContains_setInsert_self _ item_lt_irrefl]
          rfl
        · intro u hu
          by_contra hcon
          have h1 : setContains LR1Item.lt u acc.1 = true := by
            cases hh : setContains LR1Item.lt u acc.1
            · rw [hh] at hcon; exact absurd rfl hcon
            · rfl
          have h2 := setContains_mono LR1Item.lt u acc.1 (setInsert LR1Item.lt c acc.1)
            (fun z hz => mem_setInsert_of_mem _ _ _ _ hz) h1
          rw [h2] at hu
          cases hu
      show (acc.2 ++ [c]).length + missingCount U (setInsert LR1Item.lt c acc.1) ≤
        acc.2.length + missingCount U acc.1
      rw [List.length_append, List.length_singleton]
      omega

theorem closureFold_props (U : List LR1Item) (cs : List LR1Item)
    (acc : List LR1Item × List LR1Item) (hcs : ∀ c ∈ cs, c ∈ U) :
    (∀ z ∈ acc.1, z ∈ (cs.foldl closureAdd acc).1) ∧
    (∀ z ∈ acc.2, z ∈ (cs.foldl closureAdd acc).2) ∧
    (∀ c ∈ cs, setContains LR1Item.lt c (cs.foldl closureAdd acc).1 = true) ∧
    (∀ z ∈ (cs.foldl closureAdd acc).1, z ∈ acc.1 ∨ z ∈ (cs.foldl closureAdd acc).2) ∧
    (cs.foldl closureAdd acc).2.length + missingCount U (cs.foldl closureAdd acc).1 ≤
      acc.2.length + missingCount U acc.1 := by
  induction cs generalizing acc with
  | nil =>
    exact ⟨fun z hz => hz, fun z hz => hz, fun c hc => (by cases hc), fun z hz => Or.inl hz,
      Nat.le_refl _⟩
  | cons c cs ih =>
    rw [List.foldl_cons]
    obtain ⟨a1, a2, a3, a4, a5⟩ := closureAdd_props U acc c (hcs c (List.mem_cons_self _ _))
    obtain ⟨b1, b2, b3, b4, b5⟩ :=
      ih (closureAdd acc c) (fun x hx => hcs x (List.mem_cons_of_mem _ hx))
    refine ⟨fun z hz => b1 z (a1 z hz), fun z hz => b2 z (a2 z hz), ?_, ?_,
      Nat.le_trans b5 a5⟩
    · intro x hx
      rcases List.mem_cons.mp hx with h | h
      · rw [h]
        exact setContains_mono _ _ _ _ b1 a3
      · exact b3 x h
    · intro z hz
      rcases b4 z hz with h | h
      · rcases a4 z h with h' | h'
        · left; exact h'
        · right; exact b2 z h'
      · right; exact h

theorem closureLoop_closed (prods : List Production) (fs : SymMap) (fuel : Nat)
    (items wl : List LR1Item)
    (hinv : ∀ x ∈ items, x ∈ wl ∨
      ∀ c ∈ candidates prods fs x, setContains LR1Item.lt c items = true)
    (hfuel : wl.length + missingCount (closureUniverse prods fs) items < fuel) :
    ClosedItems prods fs (closureLoop prods fs fuel items wl) := by
  induction fuel generalizing items wl with
  | zero => exact absurd hfuel (Nat.not_lt_zero _)
  | succ n ih =>
    cases wl with
    | nil =>
      rw [closureLoop]
      intro x hx
      rcases hinv x hx with h | h
      · cases h
      · exact h
    | cons item rest =>
      rw [closureLoop]
      rw [closureStep_eq]
      obtain ⟨b1, b2, b3, b4, b5⟩ := closureFold_props (closureUniverse prods fs)
        (candidates prods fs item) (items, rest)
        (fun c hc => candidates_subset prods fs item c hc)
      apply ih
      · intro x hx
        rcases b4 x hx with h | h
        · rcases hinv x h with h' | h'
          · rcases List.mem_cons.mp h' with h'' | h''
            · right
              rw [h'']
              exact b3
            · left; exact b2 x h''
          · right
            intro c hc
            exact setContains_mono _ _ _ _ b1 (h' c hc)
        · left; exact h
      · simp only [List.length_cons] at hfuel
        simp only at b5
        omega

theorem closureLoop_of_closed (prods : List Production) (fs : SymMap) (fuel : Nat)
    (items wl : List LR1Item) (hclosed : ClosedItems prods fs items)
    (hwl : ∀ x ∈ wl, x ∈ items) : closureLoop prods fs fuel items wl = items := by
  induction fuel generalizing wl with
  | zero => rfl
  | succ n ih =>
    cases wl with
    | nil => rfl
    | cons item rest =>
      rw [closureLoop]
      have hstep : closureStep prods fs (items, rest) item = (items, rest) := by
        rw [closureStep_eq]
        have hall := hclosed item (hwl item (List.mem_cons_self _ _))
        generalize candidates prods fs item = cs at hall
        induction cs with
        | nil => rfl
        | cons c cs ihc =>
          rw [List.foldl_cons]
          have hc := hall c (List.mem_cons_self _ _)
          have : closureAdd (items, rest) c = (items, rest) := by
            unfold closureAdd
            simp only [hc, Bool.not_true, Bool.false_eq_true, if_false]
          rw [this]
          exact ihc (fun x hx => hall x (List.mem_cons_of_mem _ hx))
      rw [hstep]
      exact ih rest (fun x hx => hwl x (List.mem_cons_of_mem _ hx))

theorem length_closureUniverse (prods : List Production) (fs : SymMap) :
    (closureUniverse prods fs).length = prods.length * (fs.map (fun e => e.2.length)).sum := by
  have h1 : (fs.flatMap (fun e => e.2)).length = (fs.map (fun e => e.2.length)).sum := by
    induction fs with
    | nil => rfl
    | cons e fs ih => rw [List.flatMap_cons, List.length_append, ih, List.map_cons, List.sum_cons]
  unfold closureUniverse
  induction prods with
  | nil => simp
  | cons p ps ih =>
    rw [List.flatMap_cons, List.length_append, ih, List.length_map, h1, List.length_cons]
    ring

theorem closure_closed (prods : List Production) (fs : SymMap) (items : List LR1Item) :
    ClosedItems prods fs (closure prods fs items).items := by
  unfold closure
  apply closureLoop_closed
  · intro x hx
    left; exact hx
  · unfold closureFuel
    have hle : missingCount (closureUniverse prods fs) items ≤
        (closureUniverse prods fs).length := by
      unfold missingCount
      exact List.length_filter_le _ _
    rw [length_closureUniverse] at hle
    omega

/-- Claim C6.  `closure` is idempotent: for every grammar, every FIRST map and every item
set `I`, the items of `closure(closure(I).items)` are the items of `closure(I)`. -/
theorem closure_idempotent (p : LRParser) (I : List LR1Item) :
    (p.closure (p.closure I).items).items = (p.closure I).items := by
  unfold LRParser.closure
  have hclosed := closure_closed p.productions p.firstSet I
  generalize (closure p.productions p.firstSet I).items = J at hclosed
  unfold closure
  exact closureLoop_of_closed _ _ _ J J hclosed (fun x hx => hx)

/-! ## The recorded derivation is a rightmost derivation (claim C9) -/

/-! ### Facts read off the tables -/

theorem intEq_iff (a b : Int) : intEq a b = true ↔ a = b := by
  cases a <;> cases b <;> simp [intEq]

theorem table_shift_goto :
    actionTableLit.all (fun e =>
      !intLt 0 e.2 || gotoTableLit.any (fun g =>
        intEq g.1.1 e.1.1 && intEq g.2 (e.2 - 1) && g.1.2.eqv e.1.2)) = true := by decide!

theorem table_accept_state :
    actionTableLit.all (fun e => !intEq e.2 (-1) || intEq e.1.1 2) = true := by
  decide!

theorem table_goto_accept :
    gotoTableLit.all (fun g =>
      !intEq g.2 2 || (intEq g.1.1 0 && g.1.2.eqv (nsym "program"))) = true := by
  decide!

theorem table_goto_nonzero : gotoTableLit.all (fun g => !intEq g.2 0) = true := by
  decide!

theorem table_reduce_pairs :
    actionTableLit.all (fun e =>
      intLt 0 e.2 || intEq e.2 (-1) ||
        reducePairs.any (fun pr => intEq pr.1 e.1.1 && intEq pr.2 e.2)) = true := by
  decide!

theorem table_reduce_ok :
    reducePairs.all (fun pr => reduceOk gotoTableLit productionsLit pr.1 pr.2) = true := by
  decide!

/-! ### Replaying the reductions -/

theorem rhsOf_length (prod : Production) :
    (if isEpsilonRight prod.right then 0 else prod.right.length) = (rhsOf prod).length := by
  unfold rhsOf
  split <;> rfl

theorem findIdx_append_hit {α : Type} (f : α → Bool) (l : List α) (a : α) (r : List α)
    (hl : ∀ x ∈ l, f x = false) (ha : f a = true) : (l ++ a :: r).findIdx f = l.length := by
  induction l with
  | nil => rw [List.nil_append, List.findIdx_cons, ha]; rfl
  | cons b l ih =>
    rw [List.cons_append, List.findIdx_cons, hl b (List.mem_cons_self _ _),
      ih (fun x hx => hl x (List.mem_cons_of_mem _ hx))]
    rfl

theorem rightmostIndex_hit (α w : List Symbol) (A : Symbol) (hA : A.isTerminal = false)
    (hw : ∀ s ∈ w, s.isTerminal = true) :
    rightmostIndex (α ++ A :: w) A = some α.length := by
  have hrev : (α ++ A :: w).reverse = w.reverse ++ A :: α.reverse := by
    rw [List.reverse_append, List.reverse_cons, List.append_assoc]
    rfl
  have hidx : (α ++ A :: w).reverse.findIdx (fun s => s.eqv A) = w.length := by
    rw [hrev, findIdx_append_hit (fun s : Symbol => s.eqv A) w.reverse A α.reverse ?_
      (symbol_eqv_refl A), List.length_reverse]
    intro x hx
    have hx1 := hw x (List.mem_reverse.mp hx)
    cases hxa : x.eqv A with
    | false => exact hxa
    | true =>
      have hxA := (symbol_eqv_iff x A).mp hxa
      rw [hxA, hA] at hx1
      cases hx1
  have hlen : (α ++ A :: w).length = α.length + w.length + 1 := by
    rw [List.length_append, List.length_cons]
    omega
  unfold rightmostIndex
  simp only [hidx, hlen]
  rw [if_pos (by omega)]
  congr 1
  omega

theorem productionAt_mem (prods : List Production) (k : Int) (prod : Production)
    (h : productionAt prods k = some prod) : prod ∈ prods := by
  unfold productionAt at h
  split at h
  · cases h
  · exact List.get?_mem h

theorem derivationStep_reduce (prods : List Production) (k : Int) (prod : Production)
    (α w : List Symbol) (acc : List String) (hk : k ≠ 0)
    (hp : productionAt prods k = some prod) (hA : prod.left.isTerminal = false)
    (hw : ∀ s ∈ w, s.isTerminal = true) :
    derivationStep prods (α ++ prod.left :: w, acc) k =
      (α ++ rhsOf prod ++ w, acc ++ [sententialFormToString (α ++ rhsOf prod ++ w)]) := by
  have htake : (α ++ prod.left :: w).take α.length = α := List.take_left _ _
  have hdrop : (α ++ prod.left :: w).drop (α.length + 1) = w := by
    rw [← List.drop_drop, List.drop_left]
    rfl
  unfold derivationStep
  rw [if_neg hk, hp]
  simp only
  rw [rightmostIndex_hit α w prod.left hA hw]
  simp only [htake, hdrop, rhsOf]

/-! ### One iteration of `parse` keeps the grammar, the tables and `derivation` -/

theorem advance_frame (p : LRParser) :
    p.advance.productions = p.productions ∧ p.advance.actionTable = p.actionTable ∧
    p.advance.gotoTable = p.gotoTable ∧ p.advance.startSymbol = p.startSymbol ∧
    p.advance.derivation = p.derivation := by
  unfold LRParser.advance
  split <;> exact ⟨rfl, rfl, rfl, rfl, rfl⟩

theorem handleError_frame (p : LRParser) (state : Int) (tok : Token) (ss : List Int)
    (ys : List Symbol) :
    ((p.handleError state tok ss ys).1.productions = p.productions ∧
     (p.handleError state tok ss ys).1.actionTable = p.actionTable ∧
     (p.handleError state tok ss ys).1.gotoTable = p.gotoTable ∧
     (p.handleError state tok ss ys).1.startSymbol = p.startSymbol ∧
     (p.handleError state tok ss ys).1.derivation = p.derivation) ∧
    (p.handleError state tok ss ys).2 = (ss, ys) := by
  rcases handleError_cases p state tok ss ys with ⟨sym, _, line, _, h⟩ | h
  · rw [h]
    exact ⟨⟨rfl, rfl, rfl, rfl, rfl⟩, rfl⟩
  · rw [h]
    exact ⟨advance_frame _, rfl⟩

theorem parseStep_frame (p q : LRParser) (s t : ParseState)
    (h : p.parseStep s = .running q t) :
    q.productions = p.productions ∧ q.actionTable = p.actionTable ∧
    q.gotoTable = p.gotoTable ∧ q.startSymbol = p.startSymbol ∧
    q.derivation = p.derivation := by
  obtain ⟨state, rest, _, hc⟩ := parseStep_running p q s t h
  rcases hc with ⟨_, hq, _⟩ | ⟨action, _, _, hq, _⟩ | ⟨action, prod, _, _, _, _, hr⟩
  · rw [hq]
    exact (handleError_frame p state p.getCurrentToken s.stateStack s.symbolStack).1
  · rw [hq]
    exact advance_frame p
  · rw [(reduceStep_running p q s t _ prod hr).1]
    exact ⟨rfl, rfl, rfl, rfl, rfl⟩

/-! ### The entries of the tables, one at a time -/

theorem action_entry (p : LRParser) (hA : p.actionTable = actionTableLit) (k : Int × Symbol)
    (v : Int) (h : mapFind keyLt k p.actionTable = some v) : (k, v) ∈ actionTableLit := by
  rw [hA] at h
  exact mapFind_eq_some keyLt key_eq_of_not_lt k v _ h

theorem shift_edge (k : Int × Symbol) (v : Int) (h : (k, v) ∈ actionTableLit) (hv : v > 0) :
    (k, v - 1) ∈ gotoTableLit := by
  have hall := List.all_eq_true.mp table_shift_goto (k, v) h
  have hlt : intLt 0 v = true := (intLt_iff 0 v).mpr hv
  simp only [hlt, Bool.not_true, Bool.false_or] at hall
  obtain ⟨g, hg, heq⟩ := List.any_eq_true.mp hall
  simp only [Bool.and_eq_true, intEq_iff, symbol_eqv_iff] at heq
  obtain ⟨⟨h1, h2⟩, h3⟩ := heq
  obtain ⟨⟨g1, g2⟩, g3⟩ := g
  obtain ⟨k1, k2⟩ := k
  simp only at h1 h2 h3
  subst h1 h2 h3
  exact hg

theorem accept_state (k : Int × Symbol) (h : (k, (-1 : Int)) ∈ actionTableLit) : k.1 = 2 := by
  have hall := List.all_eq_true.mp table_accept_state (k, -1) h
  have hself : intEq (-1) (-1) = true := (intEq_iff _ _).mpr rfl
  simp only [hself, Bool.not_true, Bool.false_or] at hall
  exact (intEq_iff _ _).mp hall

theorem goto_into_accept (u : Int) (X : Symbol) (h : ((u, X), (2 : Int)) ∈ gotoTableLit) :
    u = 0 ∧ X = nsym "program" := by
  have hall := List.all_eq_true.mp table_goto_accept ((u, X), 2) h
  have hself : intEq 2 2 = true := (intEq_iff _ _).mpr rfl
  simp only [hself, Bool.not_true, Bool.false_or, Bool.and_eq_true] at hall
  exact ⟨(intEq_iff _ _).mp hall.1, (symbol_eqv_iff _ _).mp hall.2⟩

theorem goto_into_start (u : Int) (X : Symbol) : ((u, X), (0 : Int)) ∉ gotoTableLit := by
  intro h
  have hall := List.all_eq_true.mp table_goto_nonzero ((u, X), 0) h
  have hself : intEq 0 0 = true := (intEq_iff _ _).mpr rfl
  simp only [hself, Bool.not_true] at hall
  cases hall

theorem reduce_entry (k : Int × Symbol) (v : Int) (h : (k, v) ∈ actionTableLit)
    (hv : ¬ v > 0) (hacc : v ≠ -1) : reduceOk gotoTableLit productionsLit k.1 v = true := by
  have hall := List.all_eq_true.mp table_reduce_pairs (k, v) h
  have hlt : intLt 0 v = false := by
    cases hh : intLt 0 v with
    | false => rfl
    | true => exact absurd ((intLt_iff 0 v).mp hh) hv
  have hne : intEq v (-1) = false := by
    cases hh : intEq v (-1) with
    | false => rfl
    | true => exact absurd ((intEq_iff _ _).mp hh) hacc
  simp only [hlt, hne, Bool.false_or] at hall
  obtain ⟨pr, hpr, heq⟩ := List.any_eq_true.mp hall
  simp only [Bool.and_eq_true, intEq_iff] at heq
  have hok := List.all_eq_true.mp table_reduce_ok pr hpr
  rw [heq.1, heq.2] at hok
  exact hok

/-! ### The stacks spell a path of the automaton -/

theorem backOk_sound (A : Symbol) (βr : List Symbol) :
    ∀ (s : Int) (rest : List Int) (xs : List Symbol),
      Path gotoTableLit (s :: rest) xs → backOk gotoTableLit βr s A = true →
      ∃ xs0 u below, xs = βr ++ xs0 ∧ (s :: rest).drop βr.length = u :: below ∧
        Path gotoTableLit (u :: below) xs0 ∧
        (mapFind keyLt (u, A) gotoTableLit).isSome = true := by
  induction βr with
  | nil =>
    intro s rest xs hpath hok
    rw [backOk] at hok
    obtain ⟨g, hg, heq⟩ := List.any_eq_true.mp hok
    simp only [Bool.and_eq_true, intEq_iff, symbol_eqv_iff] at heq
    obtain ⟨⟨g1, g2⟩, g3⟩ := g
    simp only at heq
    obtain ⟨h1, h2⟩ := heq
    subst h1 h2
    exact ⟨xs, g1, rest, rfl, rfl, hpath,
      mapFind_isSome_of_mem keyLt keyLt_irrefl (g1, g2) g3 _ hg⟩
  | cons X r ih =>
    intro s rest xs hpath hok
    rw [backOk, Bool.and_eq_true] at hok
    obtain ⟨hs0, hall⟩ := hok
    cases hpath with
    | base =>
      have hself : intEq 0 0 = true := (intEq_iff _ _).mpr rfl
      rw [hself] at hs0
      cases hs0
    | step u t Y ss ys hedge hrest =>
      have he := List.all_eq_true.mp hall ((u, Y), s) hedge
      have hself : intEq s s = true := (intEq_iff _ _).mpr rfl
      simp only [hself, Bool.not_true, Bool.false_or, Bool.and_eq_true] at he
      have hY : Y = X := (symbol_eqv_iff Y X).mp he.1
      obtain ⟨xs0, v, below, h1, h2, h3, h4⟩ := ih u ss ys hrest he.2
      refine ⟨xs0, v, below, ?_, ?_, h3, h4⟩
      · rw [hY, h1]
        rfl
      · rw [List.length_cons, List.drop_succ_cons]
        exact h2

/-! ### The invariant of the loop of `parse` -/

theorem parseInv_init : ParseInv ParseState.init := by
  refine ⟨Path.base, ?_⟩
  intro w hw acc
  exact ⟨[], hw, (List.append_nil acc).symm⟩

theorem parseInv_step (p q : LRParser) (s t : ParseState)
    (hP : p.productions = productionsLit) (hA : p.actionTable = actionTableLit)
    (hG : p.gotoTable = gotoTableLit) (hinv : ParseInv s)
    (h : p.parseStep s = .running q t) : ParseInv t := by
  obtain ⟨hpath, hrep⟩ := hinv
  obtain ⟨state, rest, hst, hc⟩ := parseStep_running p q s t h
  rcases hc with ⟨_, _, ht⟩ | ⟨action, hact, hpos, _, ht⟩ |
    ⟨action, prod, hact, hneg, hacc, hprod, hr⟩
  · have hf := (handleError_frame p state p.getCurrentToken s.stateStack s.symbolStack).2
    rw [ht]
    rw [hf]
    exact ⟨hpath, hrep⟩
  · have hentry := action_entry p hA _ _ hact
    have hedge := shift_edge _ _ hentry hpos
    rw [ht]
    refine ⟨?_, ?_⟩
    · show Path gotoTableLit ((action - 1) :: s.stateStack) (_ :: s.symbolStack)
      rw [hst]
      rw [hst] at hpath
      exact Path.step state (action - 1) _ rest s.symbolStack hedge hpath
    · intro w hw acc
      show ∃ forms, IsDerivation productionsLit
          ((⟨p.getCurrentToken.value, true⟩ :: s.symbolStack).reverse ++ w) forms ∧
        (s.reductions.reverse.foldl (derivationStep productionsLit)
          ((⟨p.getCurrentToken.value, true⟩ :: s.symbolStack).reverse ++ w, acc)).2 =
          acc ++ forms.map sententialFormToString
      rw [List.reverse_cons, List.append_assoc]
      apply hrep
      intro x hx
      rcases List.mem_cons.mp hx with hx | hx
      · rw [hx]
      · exact hw x hx
  · have hentry := action_entry p hA _ _ hact
    have hok := reduce_entry _ _ hentry hneg hacc
    rw [hP] at hprod
    unfold reduceOk at hok
    rw [hprod, Bool.and_eq_true] at hok
    obtain ⟨hk, hok2⟩ := hok
    simp only [Bool.and_eq_true, Bool.not_eq_true'] at hok2
    obtain ⟨hleft, hback⟩ := hok2
    have hk0 : -(action + 2) ≠ 0 := by
      intro h0
      rw [(intEq_iff _ _).mpr h0] at hk
      cases hk
    rw [hst] at hpath
    obtain ⟨xs0, u, below, hxs, hdrop, hpath0, hgoto⟩ :=
      backOk_sound prod.left (rhsOf prod).reverse state rest s.symbolStack hpath hback
    rw [List.length_reverse] at hdrop
    obtain ⟨_, hreds, _, _, hsym, top, below1, hd1, hcase⟩ :=
      reduceStep_running p q s t _ prod hr
    rw [rhsOf_length, hst, hdrop] at hd1
    obtain ⟨htop, hbelow⟩ := List.cons.inj hd1
    subst htop hbelow
    rw [hG] at hcase
    have hsym1 : t.symbolStack = prod.left :: xs0 := by
      rw [hsym, rhsOf_length, hxs, ← List.length_reverse (rhsOf prod), List.drop_left]
    refine ⟨?_, ?_⟩
    · rcases hcase with ⟨g, hg, hstack⟩ | ⟨hnone, _⟩
      · rw [hstack, hsym1]
        exact Path.step u g prod.left below xs0
          (mapFind_eq_some keyLt key_eq_of_not_lt _ g _ hg) hpath0
      · rw [hnone] at hgoto
        cases hgoto
    · intro w hw acc
      rw [hreds, hsym1, List.reverse_append, List.reverse_singleton, List.singleton_append,
        List.foldl_cons, List.reverse_cons, List.append_assoc, List.singleton_append,
        derivationStep_reduce productionsLit _ prod xs0.reverse w acc hk0 hprod hleft hw]
      have hform : xs0.reverse ++ rhsOf prod ++ w = s.symbolStack.reverse ++ w := by
        rw [hxs, List.reverse_append, List.reverse_reverse]
      obtain ⟨forms, hder, hfold⟩ := hrep w hw
        (acc ++ [sententialFormToString (xs0.reverse ++ rhsOf prod ++ w)])
      refine ⟨(xs0.reverse ++ rhsOf prod ++ w) :: forms, ⟨?_, ?_⟩, ?_⟩
      · exact ⟨xs0.reverse, w, prod, productionAt_mem _ _ _ hprod, hleft, hw, rfl, rfl⟩
      · rw [hform]
        exact hder
      · rw [hform] at hfold ⊢
        rw [hfold, List.map_cons, List.append_assoc, List.singleton_append]

theorem parseStep_accepted_state (p q : LRParser) (s t : ParseState)
    (h : p.parseStep s = .accepted q t) :
    ∃ state rest, s.stateStack = state :: rest ∧
      mapFind keyLt (state, ⟨p.getCurrentToken.value, true⟩) p.actionTable = some (-1) := by
  unfold LRParser.parseStep at h
  cases hs : s.stateStack with
  | nil => rw [hs] at h; cases h
  | cons state rest =>
    rw [hs] at h
    refine ⟨state, rest, rfl, ?_⟩
    simp only at h
    cases hl : mapFind keyLt (state, ⟨p.getCurrentToken.value, true⟩) p.actionTable with
    | none => rw [hl] at h; cases h
    | some action =>
      rw [hl] at h
      simp only at h
      by_cases ha : action > 0
      · rw [if_pos ha] at h; cases h
      · rw [if_neg ha] at h
        by_cases hb : action = -1
        · rw [hb]
        · rw [if_neg hb] at h
          cases hp : productionAt p.productions (-(action + 2)) with
          | none => rw [hp] at h; cases h
          | some prod =>
            rw [hp] at h
            simp only at h
            unfold reduceStep at h
            simp only at h
            generalize (if isEpsilonRight prod.right then 0 else prod.right.length) = k at h
            split at h
            · cases h
            · split at h
              · cases h
              · split at h <;> cases h

theorem parseInv_accept (p q : LRParser) (s t : ParseState)
    (hA : p.actionTable = actionTableLit) (hinv : ParseInv s)
    (h : p.parseStep s = .accepted q t) : s.symbolStack = [nsym "program"] := by
  obtain ⟨state, rest, hst, hact⟩ := parseStep_accepted_state p q s t h
  have hentry := action_entry p hA _ _ hact
  have h2 : state = 2 := accept_state _ hentry
  have hpath := hinv.1
  rw [hst, h2] at hpath
  generalize s.symbolStack = ys at hpath ⊢
  cases hpath with
  | step u t X ss xs hedge hrest =>
    obtain ⟨hu, hX⟩ := goto_into_accept u X hedge
    subst hu hX
    cases hrest with
    | base => rfl
    | step u1 t1 X1 ss1 xs1 hedge1 _ => exact absurd hedge1 (goto_into_start u1 X1)

theorem parseLoop_accepted (fuel : Nat) : ∀ (p q : LRParser) (s t : ParseState),
    p.productions = productionsLit → p.actionTable = actionTableLit →
    p.gotoTable = gotoTableLit → ParseInv s → parseLoop fuel p s = .accepted q t →
    q.productions = p.productions ∧ q.startSymbol = p.startSymbol ∧
    q.derivation = p.derivation ∧ t.symbolStack = [nsym "program"] ∧ ParseInv t := by
  induction fuel with
  | zero =>
    intro p q s t _ _ _ _ h
    cases h
  | succ n ih =>
    intro p q s t hP hA hG hinv h
    rw [parseLoop] at h
    cases hstep : p.parseStep s with
    | running p1 s1 =>
      rw [hstep] at h
      obtain ⟨f1, f2, f3, f4, f5⟩ := parseStep_frame p p1 s s1 hstep
      obtain ⟨r0, r1, r2, r3, r4⟩ := ih p1 q s1 t (f1.trans hP) (f2.trans hA) (f3.trans hG)
        (parseInv_step p p1 s s1 hP hA hG hinv hstep) h
      exact ⟨r0.trans f1, r1.trans f4, r2.trans f5, r3, r4⟩
    | accepted p1 s1 =>
      rw [hstep] at h
      simp only [Outcome.accepted.injEq] at h
      obtain ⟨hq, ht⟩ := h
      obtain ⟨e1, e2⟩ := parseStep_accepted p p1 s s1 hstep
      subst hq ht e1 e2
      exact ⟨rfl, rfl, rfl, parseInv_accept _ _ _ _ hA hinv hstep, hinv⟩
    | fault =>
      rw [hstep] at h
      cases h

theorem isDerivation_chain (prods : List Production) (forms : List (List Symbol)) :
    ∀ form, IsDerivation prods form forms →
      List.Chain (RightmostStep prods) form forms ∧
      ∀ x ∈ (form :: forms).getLast (List.cons_ne_nil _ _), x.isTerminal = true := by
  induction forms with
  | nil =>
    intro form h
    exact ⟨List.Chain.nil, h⟩
  | cons next rest ih =>
    intro form h
    obtain ⟨h1, h2⟩ := h
    obtain ⟨c, l⟩ := ih next h2
    refine ⟨List.Chain.cons h1 c, ?_⟩
    rw [List.getLast_cons (List.cons_ne_nil _ _)]
    exact l

/-- Claim C9.  On the grammar and the tables that the constructor builds, every `parse`
that reaches the accept action appends to `derivation` the lines of a rightmost
derivation: the first line is `program`, every later line is the line of a form that
comes from the form before it by replacing its rightmost non-terminal by the right side
of one of that non-terminal's productions, and the last form holds terminals only.  The
token list, the cursor and the diagnostics of the parser are arbitrary; for a parser
that has not parsed before, `derivation` is empty and the appended lines are the whole
of it. -/
theorem parse_records_rightmost_derivation (q0 p q : LRParser) (fuel : Nat)
    (hq0 : LRParser.construct 200 = some q0)
    (hprods : p.productions = q0.productions) (hstart : p.startSymbol = q0.startSymbol)
    (haction : p.actionTable = q0.actionTable) (hgoto : p.gotoTable = q0.gotoTable)
    (hparse : p.parse fuel = some q) :
    sententialFormToString [nsym "program"] = "program" ∧
    ∃ forms : List (List Symbol),
      q.derivation =
        p.derivation ++ ([nsym "program"] :: forms).map sententialFormToString ∧
      List.Chain (RightmostStep p.productions) [nsym "program"] forms ∧
      ∀ x ∈ ([nsym "program"] :: forms).getLast (List.cons_ne_nil _ _),
        x.isTerminal = true := by
  rw [construct_eq] at hq0
  have hq : q0 = freshLit := (Option.some.inj hq0).symm
  subst hq
  refine ⟨by decide, ?_⟩
  unfold LRParser.parse at hparse
  cases hloop : parseLoop fuel { p with currentToken := 0 } ParseState.init with
  | outOfFuel p1 s1 => rw [hloop] at hparse; cases hparse
  | fault => rw [hloop] at hparse; cases hparse
  | accepted p1 s1 =>
    rw [hloop] at hparse
    have hq1 : q = p1.generateDerivation s1.reductions := (Option.some.inj hparse).symm
    obtain ⟨r0, r1, r2, r3, r4⟩ := parseLoop_accepted fuel { p with currentToken := 0 } p1
      ParseState.init s1 hprods haction hgoto parseInv_init hloop
    have hs1 : p1.startSymbol = nsym "program" := r1.trans hstart
    have hd1 : p1.derivation = p.derivation := r2
    obtain ⟨forms, hder, hfold⟩ := r4.2 [] (fun x hx => (by cases hx))
      (p.derivation ++ [sententialFormToString [nsym "program"]])
    rw [r3] at hder hfold
    obtain ⟨hchain, hlast⟩ := isDerivation_chain productionsLit forms _ hder
    refine ⟨forms, ?_, ?_, hlast⟩
    · rw [hq1]
      show (s1.reductions.reverse.foldl (derivationStep p1.productions)
        ([p1.startSymbol], p1.derivation ++ [sententialFormToString [p1.startSymbol]])).2 = _
      have hp1 : p1.productions = productionsLit := r0.trans hprods
      rw [hs1, hd1, hp1, List.map_cons]
      simp only [List.reverse_cons, List.reverse_nil, List.nil_append, List.append_nil,
        List.append_assoc, List.singleton_append] at hfold
      exact hfold
    · rw [hprods]
      exact hchain

theorem parse_records_rightmost_derivation_witness :
    ∃ q, LRParser.construct 200 = some freshLit ∧ sampleStart.parse 40 = some q ∧
      q.errors = ["语法错误，第2行，缺少\"\x7d\""] ∧
      q.derivation =
        ["program", "compoundstmt", "\x7b stmts \x7d", "\x7b stmt stmts \x7d",
         "\x7b stmt \x7d", "\x7b assgstmt \x7d", "\x7b ID = arithexpr ; \x7d",
         "\x7b ID = multexpr arithexprprime ; \x7d", "\x7b ID = multexpr ; \x7d",
         "\x7b ID = simpleexpr multexprprime ; \x7d", "\x7b ID = simpleexpr ; \x7d",
         "\x7b ID = NUM ; \x7d"] ∧
      (sententialFormToString [nsym "program"] = "program" ∧
       ∃ forms : List (List Symbol),
        q.derivation =
          sampleStart.derivation ++ ([nsym "program"] :: forms).map sententialFormToString ∧
        List.Chain (RightmostStep sampleStart.productions) [nsym "program"] forms ∧
        ∀ x ∈ ([nsym "program"] :: forms).getLast (List.cons_ne_nil _ _),
          x.isTerminal = true) := by
  have hrun : (sampleStart.parse 40).map (fun q => (q.errors, q.derivation)) =
      some (["语法错误，第2行，缺少\"\x7d\""],
        ["program", "compoundstmt", "\x7b stmts \x7d", "\x7b stmt stmts \x7d",
         "\x7b stmt \x7d", "\x7b assgstmt \x7d", "\x7b ID = arithexpr ; \x7d",
         "\x7b ID = multexpr arithexprprime ; \x7d", "\x7b ID = multexpr ; \x7d",
         "\x7b ID = simpleexpr multexprprime ; \x7d", "\x7b ID = simpleexpr ; \x7d",
         "\x7b ID = NUM ; \x7d"]) := by decide!
  cases hq : sampleStart.parse 40 with
  | none => rw [hq] at hrun; cases hrun
  | some q =>
    rw [hq] at hrun
    have hpair := Option.some.inj hrun
    exact ⟨q, construct_eq, rfl, (Prod.mk.inj hpair).1, (Prod.mk.inj hpair).2,
      parse_records_rightmost_derivation freshLit sampleStart q 40 construct_eq rfl rfl rfl
        rfl hq⟩

/-! ## The text written by printResult (claim C11) -/

theorem foldl_diagnostics (es : List String) (out : String) :
    es.foldl (fun out err => out ++ err ++ "\n") out = out ++ diagnosticsText es := by
  induction es generalizing out with
  | nil => rw [List.foldl_nil, diagnosticsText, String.append_empty]
  | cons e es ih =>
    rw [List.foldl_cons, ih, diagnosticsText]
    simp only [String.append_assoc]

theorem foldl_derivation (l : List String) : ∀ (pre D : List String) (out : String),
    D = pre ++ l →
    (List.range' pre.length l.length).foldl (fun out i =>
      let out1 := out ++ D.getD i ""
      if i + 1 < D.length then out1 ++ " => " ++ "\n" else out1 ++ "\n") out =
      out ++ derivationText l := by
  induction l with
  | nil =>
    intro pre D out _
    rw [List.length_nil, List.range'_zero, List.foldl_nil, derivationText,
      String.append_empty]
  | cons x rest ih =>
    intro pre D out hD
    have hget : D.getD pre.length "" = x := by
      rw [hD, List.getD_eq_getElem?_getD, List.getElem?_append_right (Nat.le_refl _),
        Nat.sub_self, List.getElem?_cons_zero, Option.getD_some]
    have hlen : D.length = pre.length + rest.length + 1 := by
      rw [hD, List.length_append, List.length_cons]
      omega
    have hih := ih (pre ++ [x]) D
    rw [List.length_append, List.length_singleton] at hih
    rw [List.length_cons, List.range'_succ, List.foldl_cons,
      hih _ (by rw [hD, List.append_assoc, List.singleton_append])]
    simp only [hget, hlen]
    cases rest with
    | nil =>
      rw [if_neg (by simp), derivationText, derivationText, String.append_empty,
        String.append_assoc]
    | cons m rest =>
      rw [if_pos (by simp), derivationText]
      simp only [String.append_assoc]

/-- Claim C11.  The text that `printResult` writes is the diagnostics in recording order,
each followed by a newline, and then the derivation lines in order, each but the last
followed by ` => ` and a newline and the last by a newline only; so no diagnostic comes
after the first derivation line. -/
theorem printResult_text (p : LRParser) :
    p.printResult = diagnosticsText p.errors ++ derivationText p.derivation := by
  have h := foldl_derivation p.derivation [] p.derivation (diagnosticsText p.errors) rfl
  rw [List.length_nil, ← List.range_eq_range'] at h
  unfold LRParser.printResult
  simp only
  rw [foldl_diagnostics, String.empty_append]
  exact h

/-! ## tokenize (claims C12, C13, C14) -/

theorem tokenizeLoop_succ (fuel : Nat) (cs : List Char) (line : Nat) (toks : List Token) :
    tokenizeLoop (fuel + 1) cs line toks =
      match tokenStep cs line with
      | none => (toks, (skipBlanks cs line).2)
      | some r => tokenizeLoop fuel r.1 r.2.1 (toks ++ r.2.2) := by
  rw [tokenizeLoop]
  unfold tokenStep
  cases hs : skipBlanks cs line with
  | mk cs1 line1 =>
    cases cs1 with
    | nil => rfl
    | cons c rest =>
      have hrest : ∀ b : Bool,
          (if b = true then
              tokenizeLoop fuel (rest.drop 1) line1
                (toks ++ [⟨String.mk (c :: rest.take 1), line1⟩])
            else if isSingleCharToken c then
              tokenizeLoop fuel rest line1 (toks ++ [⟨String.mk [c], line1⟩])
            else if c.isAlpha || c == '_' then
              tokenizeLoop fuel ((c :: rest).span (fun x => x.isAlphanum || x == '_')).2 line1
                (toks ++ [wordToken
                  (String.mk ((c :: rest).span (fun x => x.isAlphanum || x == '_')).1) line1])
            else if c.isDigit then
              tokenizeLoop fuel ((c :: rest).dropWhile Char.isDigit) line1
                (toks ++ [⟨"NUM", line1⟩])
            else tokenizeLoop fuel rest line1 toks) =
          match (if b = true then
              some (rest.drop 1, line1, [(⟨String.mk (c :: rest.take 1), line1⟩ : Token)])
            else if isSingleCharToken c then some (rest, line1, [⟨String.mk [c], line1⟩])
            else if c.isAlpha || c == '_' then
              some (((c :: rest).span (fun x => x.isAlphanum || x == '_')).2, line1,
                [wordToken
                  (String.mk ((c :: rest).span (fun x => x.isAlphanum || x == '_')).1) line1])
            else if c.isDigit then
              some ((c :: rest).dropWhile Char.isDigit, line1, [⟨"NUM", line1⟩])
            else some (rest, line1, [])) with
          | none => (toks, line1)
          | some r => tokenizeLoop fuel r.1 r.2.1 (toks ++ r.2.2) := by
        intro b
        cases b
        · simp only [Bool.false_eq_true, if_false]
          by_cases h2 : isSingleCharToken c = true
          · simp only [h2, Bool.false_eq_true, if_false, if_true]
          · simp only [h2, Bool.false_eq_true, if_false, if_true]
            by_cases h3 : (c.isAlpha || c == '_') = true
            · simp only [h3, Bool.false_eq_true, if_false, if_true]
            · simp only [h3, Bool.false_eq_true, if_false, if_true]
              by_cases h4 : c.isDigit = true
              · simp only [h4, Bool.false_eq_true, if_false, if_true]
              · simp only [h4, Bool.false_eq_true, if_false, if_true, List.append_nil]
        · simp only [if_true]
      exact hrest _

theorem skipBlanks_length (cs : List Char) (line : Nat) :
    (skipBlanks cs line).1.length ≤ cs.length := by
  induction cs generalizing line with
  | nil => exact Nat.le_refl _
  | cons c rest ih =>
    rw [skipBlanks]
    split
    · exact Nat.le_succ_of_le (ih _)
    · exact Nat.le_refl _

theorem skipBlanks_line (cs : List Char) (line : Nat) :
    (skipBlanks cs line).2 + (skipBlanks cs line).1.count '\n' = line + cs.count '\n' := by
  induction cs generalizing line with
  | nil => rfl
  | cons c rest ih =>
    rw [skipBlanks]
    split
    · rw [ih]
      by_cases hc : c = '\n'
      · subst hc
        simp only [beq_self_eq_true, if_true, List.count_cons_self]
        omega
      · have hb : (c == '\n') = false := by simpa using hc
        rw [hb, List.count_cons_of_ne (fun h => hc h.symm)]
        rfl
    · rfl

theorem skipBlanks_le (cs : List Char) (line : Nat) : line ≤ (skipBlanks cs line).2 := by
  induction cs generalizing line with
  | nil => exact Nat.le_refl _
  | cons c rest ih =>
    rw [skipBlanks]
    split
    · refine Nat.le_trans ?_ (ih _)
      split
      · exact Nat.le_succ _
      · exact Nat.le_refl _
    · exact Nat.le_refl _

theorem skipBlanks_head (cs : List Char) (line : Nat) (c : Char) (rest : List Char)
    (h : (skipBlanks cs line).1 = c :: rest) : isBlank c = false := by
  induction cs generalizing line with
  | nil => rw [skipBlanks] at h; cases h
  | cons d ds ih =>
    rw [skipBlanks] at h
    split at h
    · exact ih _ h
    · rename_i hb
      cases h
      simpa using hb

theorem not_blank_ne_newline (c : Char) (h : isBlank c = false) : c ≠ '\n' := by
  intro hc
  subst hc
  exact absurd h (by decide)

theorem wordChar_ne_newline (c : Char) (h : (c.isAlphanum || c == '_') = true) :
    c ≠ '\n' := by
  intro hc
  subst hc
  exact absurd h (by decide)

theorem digit_ne_newline (c : Char) (h : c.isDigit = true) : c ≠ '\n' := by
  intro hc
  subst hc
  exact absurd h (by decide)

theorem twoChar_second (c d : Char) (h : isTwoCharToken c d = true) : d = '=' := by
  unfold isTwoCharToken at h
  simp only [Bool.or_eq_true, Bool.and_eq_true, beq_iff_eq] at h
  rcases h with (h | h) | h <;> exact h.2

theorem string_mk_ne_dollar (cs : List Char) (h : cs ≠ ['$']) : String.mk cs ≠ "$" := by
  intro he
  exact h (congrArg String.data he)

theorem singleChar_ne_dollar (c : Char) (h : isSingleCharToken c = true) : c ≠ '$' := by
  intro hc
  subst hc
  exact absurd h (by decide)

theorem wordToken_cases (word : String) (line : Nat) :
    (wordToken word line).line = line ∧
    (wordToken word line).value = wordSpelling word := by
  unfold wordToken wordSpelling
  by_cases h1 : word = "if"
  · subst h1; exact ⟨rfl, rfl⟩
  by_cases h2 : word = "then"
  · subst h2; exact ⟨rfl, rfl⟩
  by_cases h3 : word = "else"
  · subst h3; exact ⟨rfl, rfl⟩
  by_cases h4 : word = "while"
  · subst h4; exact ⟨rfl, rfl⟩
  by_cases h5 : word = "NUM"
  · subst h5; exact ⟨rfl, rfl⟩
  by_cases h6 : word = "ID"
  · subst h6; exact ⟨rfl, rfl⟩
  rw [strEq_false_of_ne _ _ h1, strEq_false_of_ne _ _ h2, strEq_false_of_ne _ _ h3,
    strEq_false_of_ne _ _ h4, strEq_false_of_ne _ _ h5, strEq_false_of_ne _ _ h6]
  have hmem : word ∉ ["if", "then", "else", "while", "NUM"] := by
    simp only [List.mem_cons, List.mem_singleton, List.not_mem_nil, or_false, not_or]
    exact ⟨h1, h2, h3, h4, h5⟩
  rw [if_neg hmem]
  exact ⟨rfl, rfl⟩

theorem wordSpelling_ne_dollar (word : String) : wordSpelling word ≠ "$" := by
  unfold wordSpelling
  split
  · rename_i h
    intro he
    rw [he] at h
    exact absurd h (by decide)
  · decide

theorem length_dropWhile_le {α : Type} (f : α → Bool) (l : List α) :
    (l.dropWhile f).length ≤ l.length := by
  induction l with
  | nil => exact Nat.le_refl _
  | cons a l ih =>
    rw [List.dropWhile_cons]
    split
    · exact Nat.le_succ_of_le ih
    · exact Nat.le_refl _

theorem count_dropWhile {α : Type} [DecidableEq α] (f : α → Bool) (a : α)
    (hf : ∀ x, f x = true → x ≠ a) (l : List α) :
    (l.dropWhile f).count a = l.count a := by
  induction l with
  | nil => rfl
  | cons b l ih =>
    rw [List.dropWhile_cons]
    split
    · rename_i hb
      rw [ih, List.count_cons_of_ne (fun h => hf b hb h.symm)]
    · rfl

theorem tokenStep_some (cs : List Char) (line : Nat) (cs1 : List Char) (line1 : Nat)
    (new : List Token) (h : tokenStep cs line = some (cs1, line1, new)) :
    cs1.length < cs.length ∧ line1 + cs1.count '\n' = line + cs.count '\n' ∧
    line ≤ line1 ∧ ∀ t ∈ new, t.value ≠ "$" ∧ t.line = line1 := by
  unfold tokenStep at h
  have hlen := skipBlanks_length cs line
  have hline := skipBlanks_line cs line
  have hle := skipBlanks_le cs line
  have hhead := skipBlanks_head cs line
  cases hs : skipBlanks cs line with
  | mk cs2 line2 =>
    rw [hs] at h hlen hline hle hhead
    cases cs2 with
    | nil => cases h
    | cons c rest =>
      have hcb : c ≠ '\n' := not_blank_ne_newline c (hhead c rest rfl)
      simp only [List.length_cons, List.count_cons_of_ne (fun h => hcb h.symm)] at hlen hline hle
      simp only at h
      split at h
      · rename_i h1
        cases rest with
        | nil => simp at h1
        | cons d rest2 =>
          simp only at h1
          have hd : d ≠ '\n' := by
            rw [twoChar_second c d h1]
            decide
          simp only [List.count_cons_of_ne (fun h => hd h.symm), List.length_cons] at hlen hline
          simp only [Option.some.injEq, Prod.mk.injEq, List.drop_succ_cons, List.drop_zero] at h
          obtain ⟨e1, e2, e3⟩ := h
          subst e1 e2 e3
          refine ⟨by omega, hline, hle, ?_⟩
          intro t ht
          rw [List.mem_singleton] at ht
          subst ht
          exact ⟨string_mk_ne_dollar _ (by simp), rfl⟩
      · split at h
        · rename_i h2
          simp only [Option.some.injEq, Prod.mk.injEq] at h
          obtain ⟨e1, e2, e3⟩ := h
          subst e1 e2 e3
          refine ⟨by omega, hline, hle, ?_⟩
          intro t ht
          rw [List.mem_singleton] at ht
          subst ht
          refine ⟨string_mk_ne_dollar _ ?_, rfl⟩
          intro he
          exact singleChar_ne_dollar c h2 (List.cons.inj he).1
        · split at h
          · rename_i h3
            have hc : (c.isAlphanum || c == '_') = true := by
              simp only [Bool.or_eq_true] at h3 ⊢
              rcases h3 with h3 | h3
              · left
                simp only [Char.isAlphanum, h3, Bool.true_or]
              · right; exact h3
            simp only [Option.some.injEq, Prod.mk.injEq] at h
            obtain ⟨e1, e2, e3⟩ := h
            subst e1 e2 e3
            rw [List.span_eq_take_drop]
            simp only
            have hdw : (c :: rest).dropWhile (fun x => x.isAlphanum || x == '_') =
                rest.dropWhile (fun x => x.isAlphanum || x == '_') := by
              rw [List.dropWhile_cons, if_pos hc]
            rw [hdw]
            refine ⟨?_, ?_, hle, ?_⟩
            · have := length_dropWhile_le (fun x => x.isAlphanum || x == '_') rest
              omega
            · rw [count_dropWhile _ _ wordChar_ne_newline]
              exact hline
            · intro t ht
              rw [List.mem_singleton] at ht
              subst ht
              obtain ⟨w1, w2⟩ := wordToken_cases
                (String.mk ((c :: rest).takeWhile (fun x => x.isAlphanum || x == '_'))) line2
              exact ⟨by rw [w2]; exact wordSpelling_ne_dollar _, w1⟩
          · split at h
            · rename_i h4
              simp only [Option.some.injEq, Prod.mk.injEq] at h
              obtain ⟨e1, e2, e3⟩ := h
              subst e1 e2 e3
              have hdw : (c :: rest).dropWhile Char.isDigit = rest.dropWhile Char.isDigit := by
                rw [List.dropWhile_cons, if_pos h4]
              rw [hdw]
              refine ⟨?_, ?_, hle, ?_⟩
              · have := length_dropWhile_le Char.isDigit rest
                omega
              · rw [count_dropWhile _ _ digit_ne_newline]
                exact hline
              · intro t ht
                rw [List.mem_singleton] at ht
                subst ht
                exact ⟨(by decide : ("NUM" : String) ≠ "$"), rfl⟩
            · simp only [Option.some.injEq, Prod.mk.injEq] at h
              obtain ⟨e1, e2, e3⟩ := h
              subst e1 e2 e3
              exact ⟨by omega, hline, hle, fun t ht => (by cases ht)⟩

theorem tokenStep_none (cs : List Char) (line : Nat) (h : tokenStep cs line = none) :
    (skipBlanks cs line).2 = line + cs.count '\n' := by
  unfold tokenStep at h
  have hline := skipBlanks_line cs line
  cases hs : skipBlanks cs line with
  | mk cs2 line2 =>
    rw [hs] at h hline
    cases cs2 with
    | nil => exact hline
    | cons c rest =>
      simp only at h
      split at h
      · cases h
      · split at h
        · cases h
        · split at h
          · cases h
          · split at h <;> cases h

/-! ### The whole loop -/

theorem tokenizeLoop_spec (fuel : Nat) : ∀ (cs : List Char) (line : Nat) (toks : List Token),
    cs.length < fuel →
    ∃ new, (tokenizeLoop fuel cs line toks).1 = toks ++ new ∧
      (tokenizeLoop fuel cs line toks).2 = line + cs.count '\n' ∧
      ∀ t ∈ new, t.value ≠ "$" ∧ line ≤ t.line ∧ t.line ≤ line + cs.count '\n' := by
  induction fuel with
  | zero => intro cs line toks h; exact absurd h (Nat.not_lt_zero _)
  | succ n ih =>
    intro cs line toks hlen
    rw [tokenizeLoop_succ]
    cases hstep : tokenStep cs line with
    | none =>
      exact ⟨[], (List.append_nil toks).symm, tokenStep_none cs line hstep,
        fun t ht => (by cases ht)⟩
    | some r =>
      obtain ⟨cs1, line1, new⟩ := r
      obtain ⟨h1, h2, h3, h4⟩ := tokenStep_some cs line cs1 line1 new hstep
      obtain ⟨new2, e1, e2, e3⟩ := ih cs1 line1 (toks ++ new) (by omega)
      refine ⟨new ++ new2, ?_, ?_, ?_⟩
      · simp only
        rw [e1, List.append_assoc]
      · simp only
        rw [e2, h2]
      · intro t ht
        rcases List.mem_append.mp ht with ht | ht
        · obtain ⟨v, l⟩ := h4 t ht
          exact ⟨v, by omega, by omega⟩
        · obtain ⟨v, l1, l2⟩ := e3 t ht
          exact ⟨v, by omega, by omega⟩

theorem takeWhile_append_stop {α : Type} (f : α → Bool) (l rest : List α)
    (hl : ∀ x ∈ l, f x = true) (hr : ∀ d ∈ rest.head?, f d = false) :
    (l ++ rest).takeWhile f = l ∧ (l ++ rest).dropWhile f = rest := by
  induction l with
  | nil =>
    cases rest with
    | nil => exact ⟨rfl, rfl⟩
    | cons d rest =>
      have hd := hr d rfl
      rw [List.nil_append, List.takeWhile_cons, List.dropWhile_cons, hd]
      exact ⟨rfl, rfl⟩
  | cons a l ih =>
    obtain ⟨i1, i2⟩ := ih (fun x hx => hl x (List.mem_cons_of_mem _ hx))
    have ha := hl a (List.mem_cons_self _ _)
    rw [List.cons_append, List.takeWhile_cons, List.dropWhile_cons, ha, i1, i2]
    exact ⟨rfl, rfl⟩

theorem firstLoop_mono (prods : List Production) (n : Nat) :
    ∀ (k : Nat) (fs r : SymMap), firstLoop prods n fs = some r →
      firstLoop prods (n + k) fs = some r := by
  induction n with
  | zero => intro k fs r h; cases h
  | succ n ih =>
    intro k fs r h
    rw [show n + 1 + k = (n + k) + 1 by omega, firstLoop]
    rw [firstLoop] at h
    split
    · rename_i hc
      rw [if_pos hc] at h
      exact ih k _ r h
    · rename_i hc
      rw [if_neg hc] at h
      exact h

theorem followLoop_mono (prods : List Production) (fs : SymMap) (n : Nat) :
    ∀ (k : Nat) (fo r : SymMap), followLoop prods fs n fo = some r →
      followLoop prods fs (n + k) fo = some r := by
  induction n with
  | zero => intro k fo r h; cases h
  | succ n ih =>
    intro k fo r h
    rw [show n + 1 + k = (n + k) + 1 by omega, followLoop]
    rw [followLoop] at h
    split
    · rename_i hc
      rw [if_pos hc] at h
      exact ih k _ r h
    · rename_i hc
      rw [if_neg hc] at h
      exact h

theorem bfsLoop_mono (prods : List Production) (fs : SymMap) (syms : List Symbol) (n : Nat) :
    ∀ (k : Nat) (a r : Automaton), bfsLoop prods fs syms n a = some r →
      bfsLoop prods fs syms (n + k) a = some r := by
  induction n with
  | zero => intro k a r h; cases h
  | succ n ih =>
    intro k a r h
    rw [show n + 1 + k = (n + k) + 1 by omega, bfsLoop]
    rw [bfsLoop] at h
    cases hw : a.workList with
    | nil =>
      rw [hw] at h
      exact h
    | cons stateId wl =>
      rw [hw] at h
      simp only at h ⊢
      cases hv : bfsVisit prods fs syms a stateId wl with
      | none => rw [hv] at h; cases h
      | some b =>
        rw [hv] at h
        simp only [Option.some_bind] at h ⊢
        exact ih k b r h

theorem computeFirstSets_mono (p q : LRParser) (n k : Nat)
    (h : p.computeFirstSets n = some q) : p.computeFirstSets (n + k) = some q := by
  unfold LRParser.computeFirstSets at h ⊢
  simp only at h ⊢
  generalize mapSet Symbol.lt epsilon _ _ = fs2 at h ⊢
  cases hl : firstLoop p.productions n fs2 with
  | none => rw [hl] at h; cases h
  | some r =>
    rw [hl] at h
    rw [firstLoop_mono p.productions n k fs2 r hl]
    exact h

theorem computeFollowSets_mono (p q : LRParser) (n k : Nat)
    (h : p.computeFollowSets n = some q) : p.computeFollowSets (n + k) = some q := by
  unfold LRParser.computeFollowSets at h ⊢
  simp only at h ⊢
  generalize mapSet Symbol.lt p.startSymbol _ _ = fo2 at h ⊢
  cases hl : followLoop p.productions p.firstSet n fo2 with
  | none => rw [hl] at h; cases h
  | some r =>
    rw [hl] at h
    rw [followLoop_mono p.productions p.firstSet n k fo2 r hl]
    exact h

theorem buildLR1Automaton_mono (p q : LRParser) (n k : Nat)
    (h : p.buildLR1Automaton n = some q) : p.buildLR1Automaton (n + k) = some q := by
  unfold LRParser.buildLR1Automaton at h ⊢
  cases hs : startAutomaton p.productions p.firstSet p.states p.gotoTable with
  | none => rw [hs] at h; cases h
  | some a =>
    rw [hs] at h
    simp only [Option.some_bind] at h ⊢
    cases hl : bfsLoop p.productions p.firstSet (allSymbols p.terminals p.nonTerminals) n a with
    | none => rw [hl] at h; cases h
    | some r =>
      rw [hl] at h
      rw [bfsLoop_mono _ _ _ n k a r hl]
      exact h

theorem construct_mono (n k : Nat) (p : LRParser) (h : LRParser.construct n = some p) :
    LRParser.construct (n + k) = some p := by
  unfold LRParser.construct at h ⊢
  cases h1 : LRParser.blank.initGrammar.computeFirstSets n with
  | none => rw [h1] at h; cases h
  | some p1 =>
    rw [h1] at h
    rw [computeFirstSets_mono _ p1 n k h1]
    simp only [Option.some_bind] at h ⊢
    cases h2 : p1.computeFollowSets n with
    | none => rw [h2] at h; cases h
    | some p2 =>
      rw [h2] at h
      rw [computeFollowSets_mono _ p2 n k h2]
      simp only [Option.some_bind] at h ⊢
      cases h3 : p2.buildLR1Automaton n with
      | none => rw [h3] at h; cases h
      | some p3 =>
        rw [h3] at h
        rw [buildLR1Automaton_mono _ p3 n k h3]
        exact h

/-- Claim C15.  The constructor, and `buildLR1Automaton` within it, ends on the fixed
grammar: 200 iterations of each of its loops are enough, and more change nothing.  It
takes no input, so whenever it returns, it returns the same parser: the state list has
127 states, the GOTO table 297 entries and the ACTION table 419 entries in every
instance. -/
theorem buildLR1Automaton_terminates :
    ∃ p, (∀ fuel, 200 ≤ fuel → LRParser.construct fuel = some p) ∧
      (∀ fuel q, LRParser.construct fuel = some q → q = p) ∧
      p.states.length = 127 ∧ p.gotoTable.length = 297 ∧ p.actionTable.length = 419 := by
  have h200 : ∀ fuel, 200 ≤ fuel → LRParser.construct fuel = some freshLit := by
    intro fuel hf
    have h := construct_mono 200 (fuel - 200) freshLit construct_eq
    rw [show 200 + (fuel - 200) = fuel by omega] at h
    exact h
  refine ⟨freshLit, h200, ?_, by decide!, by decide!, by decide!⟩
  intro fuel q hq
  have h1 := construct_mono fuel 200 q hq
  rw [h200 (fuel + 200) (by omega)] at h1
  exact (Option.some.inj h1).symm

/-! ## Parsing is read-only on the generator (claim C16) -/

theorem generatorOf_advance (p : LRParser) : generatorOf p.advance = generatorOf p := by
  unfold LRParser.advance
  split <;> rfl

theorem generatorOf_handleError (p : LRParser) (state : Int) (tok : Token) (ss : List Int)
    (ys : List Symbol) : generatorOf (p.handleError state tok ss ys).1 = generatorOf p := by
  rcases handleError_cases p state tok ss ys with ⟨sym, _, line, _, h⟩ | h
  · rw [h]
    rfl
  · rw [h]
    exact generatorOf_advance _

theorem generatorOf_parseStep (p q : LRParser) (s t : ParseState)
    (h : p.parseStep s = .running q t ∨ p.parseStep s = .accepted q t) :
    generatorOf q = generatorOf p := by
  rcases h with h | h
  · obtain ⟨state, rest, _, hc⟩ := parseStep_running p q s t h
    rcases hc with ⟨_, hq, _⟩ | ⟨action, _, _, hq, _⟩ | ⟨action, prod, _, _, _, _, hr⟩
    · rw [hq]
      exact generatorOf_handleError p state p.getCurrentToken s.stateStack s.symbolStack
    · rw [hq]
      exact generatorOf_advance p
    · rw [(reduceStep_running p q s t _ prod hr).1]
  · rw [(parseStep_accepted p q s t h).1]

theorem generatorOf_parseLoop (fuel : Nat) : ∀ (p q : LRParser) (s t : ParseState),
    (parseLoop fuel p s = .accepted q t ∨ parseLoop fuel p s = .outOfFuel q t) →
    generatorOf q = generatorOf p := by
  induction fuel with
  | zero =>
    intro p q s t h
    rcases h with h | h
    · cases h
    · rw [parseLoop] at h
      simp only [Outcome.outOfFuel.injEq] at h
      rw [h.1]
  | succ n ih =>
    intro p q s t h
    rw [parseLoop] at h
    cases hstep : p.parseStep s with
    | running p1 s1 =>
      rw [hstep] at h
      exact (ih p1 q s1 t h).trans (generatorOf_parseStep p p1 s s1 (Or.inl hstep))
    | accepted p1 s1 =>
      rw [hstep] at h
      rcases h with h | h
      · simp only [Outcome.accepted.injEq] at h
        rw [← h.1]
        exact generatorOf_parseStep p p1 s s1 (Or.inr hstep)
      · cases h
    | fault =>
      rw [hstep] at h
      rcases h with h | h <;> cases h

/-- Claim C16.  Parsing is read-only on the generator: `handleError`, every iteration of
the loop of `parse`, the loop as a whole after any number of iterations,
`generateDerivation`, `parse` and `tokenize` leave the productions, the symbols of the
grammar, the FIRST and FOLLOW sets, the state list, the GOTO table and the ACTION table
as they are. -/
theorem parsing_keeps_generator (p : LRParser) :
    (∀ state tok ss ys, generatorOf (p.handleError state tok ss ys).1 = generatorOf p) ∧
    (∀ s q t, (p.parseStep s = .running q t ∨ p.parseStep s = .accepted q t) →
      generatorOf q = generatorOf p) ∧
    (∀ fuel s q t, (parseLoop fuel p s = .accepted q t ∨ parseLoop fuel p s = .outOfFuel q t) →
      generatorOf q = generatorOf p) ∧
    (∀ reductions, generatorOf (p.generateDerivation reductions) = generatorOf p) ∧
    (∀ fuel q, p.parse fuel = some q → generatorOf q = generatorOf p) ∧
    (∀ prog, generatorOf (p.tokenize prog) = generatorOf p) := by
  refine ⟨generatorOf_handleError p, fun s q t h => generatorOf_parseStep p q s t h,
    fun fuel s q t h => generatorOf_parseLoop fuel p q s t h, fun _ => rfl, ?_, fun _ => rfl⟩
  intro fuel q h
  unfold LRParser.parse at h
  cases hl : parseLoop fuel { p with currentToken := 0 } ParseState.init with
  | accepted p1 s1 =>
    rw [hl] at h
    rw [← Option.some.inj h]
    exact generatorOf_parseLoop fuel { p with currentToken := 0 } p1 _ s1 (Or.inl hl)
  | fault => rw [hl] at h; cases h
  | outOfFuel p1 s1 => rw [hl] at h; cases h

/-! ## FIRST of the terminals, FOLLOW of the start symbols (claims C17, C18) -/

/-- Claim C17.  After `computeFirstSets` the grammar has 22 terminal symbols, and for
every one of them the FIRST set is the singleton of the symbol itself; the constructor
leaves the FIRST sets as `computeFirstSets` made them. -/
theorem first_of_terminal :
    ∃ p, LRParser.blank.initGrammar.computeFirstSets 200 = some p ∧
      p.terminals.length = 22 ∧
      (∀ t ∈ p.terminals, mapFind Symbol.lt t p.firstSet = some [t]) ∧
      (LRParser.construct 200).map (fun q => q.firstSet) = some p.firstSet := by
  refine ⟨firstLit, ?_, by decide!, by decide!, ?_⟩
  · rw [initGrammar_eq, computeFirstSets_eq]
  · rw [construct_eq]
    rfl

/-- Claim C18.  After `computeFollowSets` the FOLLOW sets of the start symbol `program`
and of the augmented start symbol `program'` both contain `$`; the constructor leaves the
FOLLOW sets as `computeFollowSets` made them. -/
theorem follow_of_start :
    ∃ p, (LRParser.blank.initGrammar.computeFirstSets 200).bind
          (fun q => q.computeFollowSets 200) = some p ∧
      p.startSymbol = nsym "program" ∧ p.augmentedStart = nsym "program'" ∧
      (∃ fo, mapFind Symbol.lt p.startSymbol p.followSet = some fo ∧ tsym "$" ∈ fo) ∧
      (∃ fo, mapFind Symbol.lt p.augmentedStart p.followSet = some fo ∧ tsym "$" ∈ fo) ∧
      (LRParser.construct 200).map (fun q => q.followSet) = some p.followSet := by
  refine ⟨followLit, ?_, rfl, rfl, ⟨[tsym "$"], by decide!, by decide⟩,
    ⟨[tsym "$"], by decide!, by decide⟩, ?_⟩
  · rw [initGrammar_eq, computeFirstSets_eq, Option.some_bind, computeFollowSets_eq]
  · rw [construct_eq]
    rfl

end Lab3

namespace Lab1

/-! ## Longest match of the operators of lab 1 (claim C19) -/

end Lab1

namespace Lab3

/-! ## The derivation ends in the sentence that was read (claim C20) -/

theorem table_dollar_no_shift :
    actionTableLit.all (fun e => !strEq e.1.2.name "$" || !intLt 0 e.2) = true := by decide!

theorem table_accept_dollar :
    actionTableLit.all (fun e => !intEq e.2 (-1) || strEq e.1.2.name "$") = true := by
  decide!

theorem table_no_epsilon :
    actionTableLit.all (fun e => !strEq e.1.2.name "E") = true := by decide!

theorem shift_token (k : Int × Symbol) (v : Int) (h : (k, v) ∈ actionTableLit) (hv : v > 0) :
    k.2.name ≠ "$" ∧ k.2.name ≠ "E" := by
  have h1 := List.all_eq_true.mp table_dollar_no_shift (k, v) h
  have h2 := List.all_eq_true.mp table_no_epsilon (k, v) h
  have hlt : intLt 0 v = true := (intLt_iff 0 v).mpr hv
  simp only [hlt, Bool.not_true, Bool.or_false, Bool.not_eq_true'] at h1
  simp only [Bool.not_eq_true'] at h2
  constructor
  · intro he
    rw [(strEq_iff _ _).mpr he] at h1
    cases h1
  · intro he
    rw [(strEq_iff _ _).mpr he] at h2
    cases h2

theorem accept_token (k : Int × Symbol) (h : (k, (-1 : Int)) ∈ actionTableLit) :
    k.2.name = "$" := by
  have h1 := List.all_eq_true.mp table_accept_dollar (k, -1) h
  have hself : intEq (-1) (-1) = true := (intEq_iff _ _).mpr rfl
  simp only [hself, Bool.not_true, Bool.false_or] at h1
  exact (strEq_iff _ _).mp h1

theorem handleError_errors (p : LRParser) (state : Int) (tok : Token) (ss : List Int)
    (ys : List Symbol) :
    (p.handleError state tok ss ys).1.errors.length = p.errors.length + 1 := by
  rcases handleError_cases p state tok ss ys with ⟨sym, _, line, _, h⟩ | h
  · rw [h]
    simp only [List.length_append, List.length_singleton]
  · rw [h, (advance_fields _).1]
    simp only [List.length_append, List.length_singleton]

theorem getCurrentToken_end (p : LRParser) (h : ¬ p.currentToken < p.tokens.length) :
    p.getCurrentToken.value = "$" := by
  unfold LRParser.getCurrentToken
  rw [if_neg h]

theorem getCurrentToken_inside (p : LRParser) (h : p.currentToken < p.tokens.length) :
    p.tokens[p.currentToken]? = some p.getCurrentToken := by
  unfold LRParser.getCurrentToken
  rw [if_pos h, List.getD_eq_getElem?_getD, List.getElem?_eq_getElem h]
  rfl

theorem advance_inside (p : LRParser) (h : p.currentToken < p.tokens.length) :
    p.advance.currentToken = p.currentToken + 1 ∧ p.advance.tokens = p.tokens ∧
    p.advance.errors = p.errors := by
  unfold LRParser.advance
  rw [if_pos h]
  exact ⟨rfl, rfl, rfl⟩

theorem reduce_shape (p q : LRParser) (s t : ParseState)
    (hP : p.productions = productionsLit) (hA : p.actionTable = actionTableLit)
    (hpath : Path gotoTableLit s.stateStack s.symbolStack)
    (state : Int) (rest : List Int) (hst : s.stateStack = state :: rest)
    (action : Int) (prod : Production)
    (hact : mapFind keyLt (state, ⟨p.getCurrentToken.value, true⟩) p.actionTable =
      some action)
    (hneg : ¬ action > 0) (hacc : action ≠ -1)
    (hprod : productionAt p.productions (-(action + 2)) = some prod)
    (hr : reduceStep p s (-(action + 2)) prod = .running q t) :
    q = p ∧ -(action + 2) ≠ 0 ∧ productionAt productionsLit (-(action + 2)) = some prod ∧
    prod.left.isTerminal = false ∧
    ∃ xs0, s.symbolStack = (rhsOf prod).reverse ++ xs0 ∧ t.symbolStack = prod.left :: xs0 ∧
      t.reductions = s.reductions ++ [-(action + 2)] := by
  have hentry := action_entry p hA _ _ hact
  have hok := reduce_entry _ _ hentry hneg hacc
  rw [hP] at hprod
  unfold reduceOk at hok
  rw [hprod, Bool.and_eq_true] at hok
  obtain ⟨hk, hok2⟩ := hok
  simp only [Bool.and_eq_true, Bool.not_eq_true'] at hok2
  obtain ⟨hleft, hback⟩ := hok2
  have hk0 : -(action + 2) ≠ 0 := by
    intro h0
    rw [(intEq_iff _ _).mpr h0] at hk
    cases hk
  rw [hst] at hpath
  obtain ⟨xs0, u, below, hxs, _, _, _⟩ :=
    backOk_sound prod.left (rhsOf prod).reverse state rest s.symbolStack hpath hback
  obtain ⟨hq, hreds, _, _, hsym, _⟩ := reduceStep_running p q s t _ prod hr
  have hsym1 : t.symbolStack = prod.left :: xs0 := by
    rw [hsym, rhsOf_length, hxs, ← List.length_reverse (rhsOf prod), List.drop_left]
  exact ⟨hq, hk0, hprod, hleft, xs0, hxs, hsym1, hreds⟩

theorem sentenceInv_step (toks : List Token) (n0 : Nat) (p q : LRParser) (s t : ParseState)
    (hP : p.productions = productionsLit) (hA : p.actionTable = actionTableLit)
    (hpi : ParseInv s) (hsi : SentenceInv toks n0 p s)
    (h : p.parseStep s = .running q t) : SentenceInv toks n0 q t := by
  obtain ⟨hn0, hinv⟩ := hsi
  obtain ⟨state, rest, hst, hc⟩ := parseStep_running p q s t h
  rcases hc with ⟨_, hq, _⟩ | ⟨action, hact, hpos, hq, ht⟩ |
    ⟨action, prod, hact, hneg, hacc, hprod, hr⟩
  · have he := handleError_errors p state p.getCurrentToken s.stateStack s.symbolStack
    rw [← hq] at he
    exact ⟨by omega, fun hlen => absurd hlen (by omega)⟩
  · have hentry := action_entry p hA _ _ hact
    obtain ⟨hd, hE⟩ := shift_token _ _ hentry hpos
    simp only at hd hE
    have hin : p.currentToken < p.tokens.length := by
      by_contra hout
      exact hd (getCurrentToken_end p hout)
    obtain ⟨a1, a2, a3⟩ := advance_inside p hin
    have hcur := getCurrentToken_inside p hin
    rw [hq]
    refine ⟨by rw [a3]; exact hn0, ?_⟩
    intro hlen
    rw [a3] at hlen
    obtain ⟨i1, i2, i3⟩ := hinv hlen
    rw [i1] at hcur
    have htake : toks.take (p.currentToken + 1) =
        toks.take p.currentToken ++ [p.getCurrentToken] := by
      rw [List.take_succ, hcur]
      rfl
    rw [a1, a2, htake]
    refine ⟨i1, ?_, ?_⟩
    · intro x hx
      rcases List.mem_append.mp hx with hx | hx
      · exact i2 x hx
      · rw [List.mem_singleton] at hx
        rw [hx]
        exact ⟨hd, hE⟩
    · intro w hw acc
      rw [ht]
      show (s.reductions.reverse.foldl (derivationStep productionsLit)
        ((⟨p.getCurrentToken.value, true⟩ :: s.symbolStack).reverse ++ w, acc)).1 = _
      rw [List.reverse_cons, List.append_assoc, List.singleton_append,
        i3 (⟨p.getCurrentToken.value, true⟩ :: w) (by
          intro x hx
          rcases List.mem_cons.mp hx with hx | hx
          · rw [hx]
          · exact hw x hx) acc,
        List.map_append, List.append_assoc]
      rfl
  · obtain ⟨hq, hk0, hprod1, hleft, xs0, hxs, hsym1, hreds⟩ :=
      reduce_shape p q s t hP hA hpi.1 state rest hst action prod hact hneg hacc hprod hr
    rw [hq]
    refine ⟨hn0, ?_⟩
    intro hlen
    obtain ⟨i1, i2, i3⟩ := hinv hlen
    refine ⟨i1, i2, ?_⟩
    intro w hw acc
    rw [hreds, hsym1, List.reverse_append, List.reverse_singleton, List.singleton_append,
      List.foldl_cons, List.reverse_cons, List.append_assoc, List.singleton_append,
      derivationStep_reduce productionsLit _ prod xs0.reverse w acc hk0 hprod1 hleft hw]
    have hform : xs0.reverse ++ rhsOf prod ++ w = s.symbolStack.reverse ++ w := by
      rw [hxs, List.reverse_append, List.reverse_reverse]
    rw [hform]
    exact i3 w hw _

theorem parseLoop_sentence (toks : List Token) (n0 : Nat) (fuel : Nat) :
    ∀ (p q : LRParser) (s t : ParseState),
    p.productions = productionsLit → p.actionTable = actionTableLit →
    p.gotoTable = gotoTableLit → ParseInv s → SentenceInv toks n0 p s →
    parseLoop fuel p s = .accepted q t →
    SentenceInv toks n0 q t ∧ q.getCurrentToken.value = "$" := by
  induction fuel with
  | zero =>
    intro p q s t _ _ _ _ _ h
    cases h
  | succ n ih =>
    intro p q s t hP hA hG hpi hsi h
    rw [parseLoop] at h
    cases hstep : p.parseStep s with
    | running p1 s1 =>
      rw [hstep] at h
      obtain ⟨f1, f2, f3, _, _⟩ := parseStep_frame p p1 s s1 hstep
      exact ih p1 q s1 t (f1.trans hP) (f2.trans hA) (f3.trans hG)
        (parseInv_step p p1 s s1 hP hA hG hpi hstep)
        (sentenceInv_step toks n0 p p1 s s1 hP hA hpi hsi hstep) h
    | accepted p1 s1 =>
      rw [hstep] at h
      simp only [Outcome.accepted.injEq] at h
      obtain ⟨hq, ht⟩ := h
      obtain ⟨e1, e2⟩ := parseStep_accepted p p1 s s1 hstep
      obtain ⟨state, rest, _, hact⟩ := parseStep_accepted_state p p1 s s1 hstep
      have hentry := action_entry p hA _ _ hact
      have hd := accept_token _ hentry
      subst hq ht e1 e2
      exact ⟨hsi, hd⟩
    | fault =>
      rw [hstep] at h
      cases h

theorem takeWhile_eq_take {α : Type} (f : α → Bool) (l : List α) :
    ∀ n, (∀ t ∈ l.take n, f t = true) → (∀ t, l[n]? = some t → f t = false) →
      l.takeWhile f = l.take n := by
  induction l with
  | nil => intro n _ _; rw [List.take_nil]; rfl
  | cons a l ih =>
    intro n h1 h2
    cases n with
    | zero =>
      have ha := h2 a (List.getElem?_cons_zero)
      rw [List.takeWhile_cons, ha]
      rfl
    | succ n =>
      have ha : f a = true := h1 a (by rw [List.take_succ_cons]; exact List.mem_cons_self _ _)
      rw [List.takeWhile_cons, ha, List.take_succ_cons]
      simp only [if_true]
      congr 1
      apply ih n
      · intro t ht
        exact h1 t (by rw [List.take_succ_cons]; exact List.mem_cons_of_mem _ ht)
      · intro t ht
        exact h2 t (by rw [List.getElem?_cons_succ]; exact ht)

theorem getLast_append_singleton {α : Type} (l : List α) (a : α) :
    (l ++ [a]).getLast? = some a := by
  rw [List.getLast?_append, List.getLast?_singleton]
  rfl

theorem derivationStep_last (prods : List Production) (acc : List Symbol × List String)
    (k : Int) (h : acc.2.getLast? = some (sententialFormToString acc.1)) :
    (derivationStep prods acc k).2.getLast? =
      some (sententialFormToString (derivationStep prods acc k).1) := by
  unfold derivationStep
  split
  · exact h
  · split
    · exact h
    · split
      · exact h
      · exact getLast_append_singleton _ _

theorem foldl_derivationStep_last (prods : List Production) (reds : List Int) :
    ∀ acc : List Symbol × List String,
      acc.2.getLast? = some (sententialFormToString acc.1) →
      (reds.foldl (derivationStep prods) acc).2.getLast? =
        some (sententialFormToString (reds.foldl (derivationStep prods) acc).1) := by
  induction reds with
  | nil => intro acc h; exact h
  | cons k reds ih =>
    intro acc h
    rw [List.foldl_cons]
    exact ih _ (derivationStep_last prods acc k h)

theorem formToStringFrom_go (rest : List Symbol) :
    ∀ (i : Nat) (acc : String), (∀ x ∈ rest, x.name ≠ "E") →
      formToStringFrom (i + 1) rest acc =
        String.intercalate.go acc " " (rest.map (fun x => x.name)) := by
  induction rest with
  | nil => intro i acc _; rfl
  | cons x rest ih =>
    intro i acc h
    have hx : strEq x.name "E" = false := strEq_false_of_ne _ _ (h x (List.mem_cons_self _ _))
    rw [formToStringFrom]
    simp only [hx, Bool.not_false, if_true, Nat.succ_pos, gt_iff_lt, List.map_cons,
      String.intercalate.go]
    exact ih (i + 1) _ (fun y hy => h y (List.mem_cons_of_mem _ hy))

theorem sententialFormToString_intercalate (form : List Symbol)
    (h : ∀ x ∈ form, x.name ≠ "E") :
    sententialFormToString form = String.intercalate " " (form.map (fun x => x.name)) := by
  cases form with
  | nil => rfl
  | cons x rest =>
    have hx : strEq x.name "E" = false := strEq_false_of_ne _ _ (h x (List.mem_cons_self _ _))
    unfold sententialFormToString
    rw [formToStringFrom]
    simp only [hx, Bool.not_false, if_true, gt_iff_lt, Nat.lt_irrefl, if_false, List.map_cons,
      String.intercalate, String.empty_append, Nat.zero_add]
    exact formToStringFrom_go rest 0 _ (fun y hy => h y (List.mem_cons_of_mem _ hy))

/-- The last line that an accepting `parse` without a new diagnostic records is the line
of the tokens before the first `$` of the token list. -/
theorem parse_sentence (p q : LRParser) (fuel : Nat)
    (hP : p.productions = productionsLit) (hA : p.actionTable = actionTableLit)
    (hG : p.gotoTable = gotoTableLit) (hS : p.startSymbol = nsym "program")
    (hparse : p.parse fuel = some q) (hclean : q.errors.length = p.errors.length) :
    q.derivation.getLast? = some (String.intercalate " "
      ((p.tokens.takeWhile (fun t => t.value != "$")).map (fun t => t.value))) := by
  unfold LRParser.parse at hparse
  cases hloop : parseLoop fuel { p with currentToken := 0 } ParseState.init with
  | outOfFuel p1 s1 => rw [hloop] at hparse; cases hparse
  | fault => rw [hloop] at hparse; cases hparse
  | accepted p1 s1 =>
    rw [hloop] at hparse
    have hq1 : q = p1.generateDerivation s1.reductions := (Option.some.inj hparse).symm
    have hinit : SentenceInv p.tokens p.errors.length { p with currentToken := 0 }
        ParseState.init := by
      refine ⟨Nat.le_refl _, fun _ => ⟨rfl, ?_, ?_⟩⟩
      · intro t ht
        cases ht
      · intro w _ acc
        rfl
    obtain ⟨r0, r1, r2, r3, _⟩ := parseLoop_accepted fuel { p with currentToken := 0 } p1
      ParseState.init s1 hP hA hG parseInv_init hloop
    obtain ⟨⟨_, hinv⟩, hdollar⟩ := parseLoop_sentence p.tokens p.errors.length fuel
      { p with currentToken := 0 } p1 ParseState.init s1 hP hA hG parseInv_init hinit hloop
    have hp1 : p1.productions = productionsLit := r0.trans hP
    have hs1 : p1.startSymbol = nsym "program" := r1.trans hS
    have he1 : p1.errors.length = p.errors.length := by
      rw [← hclean, hq1]
      rfl
    obtain ⟨i1, i2, i3⟩ := hinv he1
    have hlast := foldl_derivationStep_last productionsLit s1.reductions.reverse
      ([nsym "program"], p1.derivation ++ [sententialFormToString [nsym "program"]])
      (getLast_append_singleton _ _)
    have hform := i3 [] (fun x hx => (by cases hx))
      (p1.derivation ++ [sententialFormToString [nsym "program"]])
    rw [r3] at hform
    simp only [List.reverse_cons, List.reverse_nil, List.nil_append, List.append_nil]
      at hform
    rw [hform] at hlast
    have htw : p.tokens.takeWhile (fun t => t.value != "$") =
        p.tokens.take p1.currentToken := by
      apply takeWhile_eq_take
      · intro t ht
        simpa using (i2 t ht).1
      · intro t ht
        have hin : p1.currentToken < p1.tokens.length := by
          rw [i1]
          by_contra hout
          rw [List.getElem?_eq_none (by omega)] at ht
          cases ht
        have hcur := getCurrentToken_inside p1 hin
        rw [i1, ht] at hcur
        rw [← Option.some.inj hcur] at hdollar
        simp only [hdollar, bne_self_eq_false]
    have hq2 : q.derivation.getLast? = some (sententialFormToString
        ((p.tokens.take p1.currentToken).map tokenSymbol)) := by
      rw [hq1]
      show (s1.reductions.reverse.foldl (derivationStep p1.productions)
        ([p1.startSymbol], p1.derivation ++ [sententialFormToString [p1.startSymbol]])).2.getLast?
          = _
      rw [hp1, hs1]
      exact hlast
    rw [hq2, htw, sententialFormToString_intercalate, List.map_map]
    · rfl
    · intro x hx
      obtain ⟨t, ht, hxt⟩ := List.mem_map.mp hx
      rw [← hxt]
      exact (i2 t ht).2

/-- Claim C20.  For every source text whose parse by the constructed parser reaches the
accept action with no diagnostics, the last derivation line is the values of the tokens
that `tokenize` made of the source text, without the final `$`, joined by single
spaces. -/
theorem accepted_derivation_ends_in_input (q0 q : LRParser) (prog : String) (fuel : Nat)
    (hq0 : LRParser.construct 200 = some q0)
    (hparse : (q0.tokenize prog).parse fuel = some q) (hclean : q.errors = []) :
    q.derivation.getLast? = some (String.intercalate " "
      ((q0.tokenize prog).tokens.dropLast.map (fun t => t.value))) := by
  rw [construct_eq] at hq0
  have hq : q0 = freshLit := (Option.some.inj hq0).symm
  subst hq
  have hlen : q.errors.length = (freshLit.tokenize prog).errors.length := by
    rw [hclean]
    rfl
  have h := parse_sentence (freshLit.tokenize prog) q fuel rfl rfl rfl rfl hparse hlen
  obtain ⟨new, e1, e2, e3⟩ := tokenizeLoop_spec (prog.length + 1) prog.data 1 []
    (Nat.lt_succ_self _)
  have htoks : (freshLit.tokenize prog).tokens =
      new ++ [⟨"$", (tokenizeLoop (prog.length + 1) prog.data 1 []).2⟩] := by
    unfold LRParser.tokenize
    simp only
    rw [e1, List.nil_append]
  obtain ⟨t1, _⟩ := takeWhile_append_stop (fun t : Token => t.value != "$") new
    [⟨"$", (tokenizeLoop (prog.length + 1) prog.data 1 []).2⟩]
    (fun x hx => by simpa using (e3 x hx).1)
    (fun d hd => by
      simp only [List.head?_cons, Option.mem_def, Option.some.injEq] at hd
      rw [← hd]
      rfl)
  rw [htoks, t1] at h
  rw [htoks, List.dropLast_concat]
  exact h

theorem accepted_derivation_ends_in_input_witness :
    ∃ q, LRParser.construct 200 = some freshLit ∧
      (freshLit.tokenize "\x7b\n  ID = NUM ;\n\x7d\n").parse 100 = some q ∧
      q.errors = [] ∧
      q.derivation.getLast? = some "\x7b ID = NUM ; \x7d" ∧
      q.derivation.getLast? = some (String.intercalate " "
        ((freshLit.tokenize "\x7b\n  ID = NUM ;\n\x7d\n").tokens.dropLast.map
          (fun t => t.value))) := by
  have hrun : ((freshLit.tokenize "\x7b\n  ID = NUM ;\n\x7d\n").parse 100).map
      (fun q => (q.errors, q.derivation.getLast?)) =
      some ([], some "\x7b ID = NUM ; \x7d") := by decide!
  cases hq : (freshLit.tokenize "\x7b\n  ID = NUM ;\n\x7d\n").parse 100 with
  | none => rw [hq] at hrun; cases hrun
  | some q =>
    rw [hq] at hrun
    have hpair := Option.some.inj hrun
    exact ⟨q, construct_eq, rfl, (Prod.mk.inj hpair).1, (Prod.mk.inj hpair).2,
      accepted_derivation_ends_in_input freshLit q "\x7b\n  ID = NUM ;\n\x7d\n" 100
        construct_eq hq (Prod.mk.inj hpair).1⟩

/-! ## closure is the least closed item set (claim C22) -/

theorem mem_candidates (prods : List Production) (fs : SymMap) (item c : LR1Item) :
    c ∈ candidates prods fs item ↔
      (strEq item.getSymbolAfterDot.name "" || item.getSymbolAfterDot.isTerminal) = false ∧
      ∃ prod ∈ prods, prod.left.eqv item.getSymbolAfterDot = true ∧
        ∃ la ∈ getFirstOfString fs (betaA item) 0,
          strEq la.name "E" = false ∧ c = ⟨prod, 0, la⟩ := by
  unfold candidates
  constructor
  · intro h
    split at h
    · cases h
    · rename_i hB
      refine ⟨by simpa using hB, ?_⟩
      obtain ⟨prod, hprod, hc⟩ := List.mem_flatMap.mp h
      split at hc
      · rename_i hl
        obtain ⟨la, hla, hcla⟩ := List.mem_map.mp hc
        obtain ⟨hla1, hla2⟩ := List.mem_filter.mp hla
        exact ⟨prod, hprod, hl, la, hla1, by simpa using hla2, hcla.symm⟩
      · cases hc
  · intro h
    obtain ⟨hB, prod, hprod, hl, la, hla, hE, hc⟩ := h
    rw [if_neg (by rw [hB]; exact Bool.false_ne_true)]
    refine List.mem_flatMap.mpr ⟨prod, hprod, ?_⟩
    rw [if_pos hl]
    exact List.mem_map.mpr ⟨la, List.mem_filter.mpr ⟨hla, by rw [hE]; rfl⟩, hc.symm⟩

theorem closureLoop_superset (prods : List Production) (fs : SymMap) (fuel : Nat) :
    ∀ (items wl : List LR1Item), ∀ x ∈ items, x ∈ closureLoop prods fs fuel items wl := by
  induction fuel with
  | zero => intro items wl x hx; exact hx
  | succ n ih =>
    intro items wl x hx
    cases wl with
    | nil => exact hx
    | cons item rest =>
      rw [closureLoop, closureStep_eq]
      obtain ⟨b1, _⟩ := closureFold_props (closureUniverse prods fs)
        (candidates prods fs item) (items, rest)
        (fun c hc => candidates_subset prods fs item c hc)
      exact ih _ _ x (b1 x hx)

theorem closureFold_least (S : LR1Item → Prop) (cs : List LR1Item) :
    ∀ (acc : List LR1Item × List LR1Item), (∀ c ∈ cs, S c) →
      (∀ x ∈ acc.1, S x) → (∀ x ∈ acc.2, S x) →
      (∀ x ∈ (cs.foldl closureAdd acc).1, S x) ∧ (∀ x ∈ (cs.foldl closureAdd acc).2, S x) := by
  induction cs with
  | nil => intro acc _ h1 h2; exact ⟨h1, h2⟩
  | cons c cs ih =>
    intro acc hcs h1 h2
    rw [List.foldl_cons]
    apply ih
    · intro x hx
      exact hcs x (List.mem_cons_of_mem _ hx)
    · intro x hx
      unfold closureAdd at hx
      split at hx
      · rcases mem_setInsert _ _ _ _ hx with h | h
        · rw [h]; exact hcs c (List.mem_cons_self _ _)
        · exact h1 x h
      · exact h1 x hx
    · intro x hx
      unfold closureAdd at hx
      split at hx
      · rcases List.mem_append.mp hx with h | h
        · exact h2 x h
        · rw [List.mem_singleton.mp h]; exact hcs c (List.mem_cons_self _ _)
      · exact h2 x hx

theorem closureLoop_least (prods : List Production) (fs : SymMap) (S : LR1Item → Prop)
    (hS : ∀ item, S item → ∀ c ∈ candidates prods fs item, S c) (fuel : Nat) :
    ∀ (items wl : List LR1Item), (∀ x ∈ items, S x) → (∀ x ∈ wl, S x) →
      ∀ x ∈ closureLoop prods fs fuel items wl, S x := by
  induction fuel with
  | zero => intro items wl h1 _ x hx; exact h1 x hx
  | succ n ih =>
    intro items wl h1 h2 x hx
    cases wl with
    | nil => exact h1 x hx
    | cons item rest =>
      rw [closureLoop, closureStep_eq] at hx
      obtain ⟨f1, f2⟩ := closureFold_least S (candidates prods fs item) (items, rest)
        (hS item (h2 item (List.mem_cons_self _ _))) h1
        (fun y hy => h2 y (List.mem_cons_of_mem _ hy))
      exact ih _ _ f1 f2 x hx

/-- Claim C22.  For every grammar, FIRST map and item set `I`, `closure(I)` contains `I`;
it is closed under the LR(1) rule: for every item of it with a non-terminal `B` after the
dot, every production `B → γ` and every member `b` other than `E` of the FIRST set of the
symbols behind `B` followed by the lookahead, the item `[B → · γ, b]` is found in it; and
it lies within every set of items that contains `I` and is closed under that rule. -/
theorem closure_least_closed (p : LRParser) (I : List LR1Item) :
    (∀ x ∈ I, x ∈ (p.closure I).items) ∧
    (∀ item ∈ (p.closure I).items,
      item.getSymbolAfterDot.isTerminal = false → item.getSymbolAfterDot.name ≠ "" →
      ∀ prod ∈ p.productions, prod.left = item.getSymbolAfterDot →
      ∀ b ∈ getFirstOfString p.firstSet (betaA item) 0, b.name ≠ "E" →
        setContains LR1Item.lt ⟨prod, 0, b⟩ (p.closure I).items = true) ∧
    (∀ S : LR1Item → Prop, (∀ x ∈ I, S x) →
      (∀ item, S item →
        item.getSymbolAfterDot.isTerminal = false → item.getSymbolAfterDot.name ≠ "" →
        ∀ prod ∈ p.productions, prod.left = item.getSymbolAfterDot →
        ∀ b ∈ getFirstOfString p.firstSet (betaA item) 0, b.name ≠ "E" →
          S ⟨prod, 0, b⟩) →
      ∀ x ∈ (p.closure I).items, S x) := by
  refine ⟨?_, ?_, ?_⟩
  · intro x hx
    exact closureLoop_superset p.productions p.firstSet _ I I x hx
  · intro item hitem hT hN prod hprod hleft b hb hbE
    apply closure_closed p.productions p.firstSet I item hitem
    rw [mem_candidates]
    refine ⟨?_, prod, hprod, (symbol_eqv_iff _ _).mpr hleft, b, hb,
      strEq_false_of_ne _ _ hbE, rfl⟩
    rw [strEq_false_of_ne _ _ hN, hT]
    rfl
  · intro S hI hS x hx
    refine closureLoop_least p.productions p.firstSet S ?_ _ I I hI hI x hx
    intro item hitem c hc
    rw [mem_candidates] at hc
    obtain ⟨hB, prod, hprod, hl, la, hla, hE, hcv⟩ := hc
    simp only [Bool.or_eq_false_iff] at hB
    rw [hcv]
    refine hS item hitem hB.2 ?_ prod hprod ((symbol_eqv_iff _ _).mp hl) la hla ?_
    · intro hn
      rw [(strEq_iff _ _).mpr hn] at hB
      exact absurd hB.1 (by decide)
    · intro hn
      rw [(strEq_iff _ _).mpr hn] at hE
      cases hE

/-! ## gotoFunc (claim C23) -/

theorem gotoKernel_fold (X : Symbol) (l : List LR1Item) : ∀ (acc : List LR1Item),
    (∀ y ∈ l.foldl (fun acc item =>
        if item.getSymbolAfterDot.eqv X then
          setInsert LR1Item.lt { item with dotPos := item.dotPos + 1 } acc
        else acc) acc,
      y ∈ acc ∨ ∃ item ∈ l, item.getSymbolAfterDot = X ∧
        y = { item with dotPos := item.dotPos + 1 }) ∧
    (∀ y ∈ acc, y ∈ l.foldl (fun acc item =>
        if item.getSymbolAfterDot.eqv X then
          setInsert LR1Item.lt { item with dotPos := item.dotPos + 1 } acc
        else acc) acc) ∧
    (∀ item ∈ l, item.getSymbolAfterDot = X →
      setContains LR1Item.lt { item with dotPos := item.dotPos + 1 }
        (l.foldl (fun acc item =>
          if item.getSymbolAfterDot.eqv X then
            setInsert LR1Item.lt { item with dotPos := item.dotPos + 1 } acc
          else acc) acc) = true) := by
  induction l with
  | nil =>
    intro acc
    exact ⟨fun y hy => Or.inl hy, fun y hy => hy, fun item hitem => (by cases hitem)⟩
  | cons it l ih =>
    intro acc
    rw [List.foldl_cons]
    obtain ⟨i1, i2, i3⟩ := ih (if it.getSymbolAfterDot.eqv X then
      setInsert LR1Item.lt { it with dotPos := it.dotPos + 1 } acc else acc)
    refine ⟨?_, ?_, ?_⟩
    · intro y hy
      rcases i1 y hy with h | ⟨item, hitem, hX, hy2⟩
      · split at h
        · rename_i hq
          rcases mem_setInsert _ _ _ _ h with h | h
          · right
            exact ⟨it, List.mem_cons_self _ _, (symbol_eqv_iff _ _).mp hq, h⟩
          · left; exact h
        · left; exact h
      · right
        exact ⟨item, List.mem_cons_of_mem _ hitem, hX, hy2⟩
    · intro y hy
      apply i2
      split
      · exact mem_setInsert_of_mem _ _ _ _ hy
      · exact hy
    · intro item hitem hX
      rcases List.mem_cons.mp hitem with h | h
      · subst h
        refine setContains_mono _ _ _ _ i2 ?_
        rw [if_pos ((symbol_eqv_iff _ _).mpr hX)]
        exact setContains_setInsert_self _ item_lt_irrefl _ _
      · exact i3 item h hX

theorem closureLoop_nil (prods : List Production) (fs : SymMap) (fuel : Nat) :
    closureLoop prods fs fuel [] [] = [] := by
  cases fuel <;> rfl

/-- Claim C23.  `gotoFunc(state, X)` is `closure` of the set made of the items of `state`
that have `X` after the dot, each with its dot moved one position to the right; and its
item set is empty exactly when no item of `state` has `X` after the dot. -/
theorem gotoFunc_spec (p : LRParser) (state : LR1State) (X : Symbol) :
    ∃ kernel : List LR1Item,
      (p.gotoFunc state X).items = (p.closure kernel).items ∧
      (∀ y ∈ kernel, ∃ item ∈ state.items, item.getSymbolAfterDot = X ∧
        y = { item with dotPos := item.dotPos + 1 }) ∧
      (∀ item ∈ state.items, item.getSymbolAfterDot = X →
        setContains LR1Item.lt { item with dotPos := item.dotPos + 1 } kernel = true) ∧
      ((p.gotoFunc state X).items = [] ↔
        ∀ item ∈ state.items, item.getSymbolAfterDot ≠ X) := by
  obtain ⟨k1, _, k3⟩ := gotoKernel_fold X state.items []
  have hk1 : ∀ y ∈ gotoKernel state.items X, ∃ item ∈ state.items,
      item.getSymbolAfterDot = X ∧ y = { item with dotPos := item.dotPos + 1 } := by
    intro y hy
    rcases k1 y hy with h | h
    · cases h
    · exact h
  refine ⟨gotoKernel state.items X, rfl, hk1, k3, ?_⟩
  constructor
  · intro hempty item hitem hX
    have hc := k3 item hitem hX
    have hsub := closureLoop_superset p.productions p.firstSet
      (closureFuel p.productions p.firstSet (gotoKernel state.items X))
      (gotoKernel state.items X) (gotoKernel state.items X)
    have hke : gotoKernel state.items X = [] := by
      cases hk : gotoKernel state.items X with
      | nil => rfl
      | cons y ys =>
        have hy : y ∈ (p.gotoFunc state X).items := by
          have := hsub y (by rw [hk]; exact List.mem_cons_self _ _)
          exact this
        rw [hempty] at hy
        cases hy
    have hc2 : setContains LR1Item.lt { item with dotPos := item.dotPos + 1 }
        (gotoKernel state.items X) = true := hc
    rw [hke] at hc2
    cases hc2
  · intro hnone
    have hke : gotoKernel state.items X = [] := by
      cases hk : gotoKernel state.items X with
      | nil => rfl
      | cons y ys =>
        obtain ⟨item, hitem, hX, _⟩ := hk1 y (by rw [hk]; exact List.mem_cons_self _ _)
        exact absurd hX (hnone item hitem)
    show (closure p.productions p.firstSet (gotoKernel state.items X)).items = []
    rw [hke]
    exact closureLoop_nil _ _ _

/-! ## The automaton: order and map lemmas -/

theorem lexLt_eq_of_not_lt {α : Type} (lt : α → α → Bool) : ∀ (xs ys : List α),
    (∀ a ∈ xs, ∀ b ∈ ys, lt a b = false → lt b a = false → a = b) →
    lexLt lt xs ys = false → lexLt lt ys xs = false → xs = ys := by
  intro xs
  induction xs with
  | nil =>
    intro ys _ h1 _
    cases ys with
    | nil => rfl
    | cons y ys => rw [lexLt] at h1; cases h1
  | cons x xs ih =>
    intro ys heq h1 h2
    cases ys with
    | nil => rw [lexLt] at h2; cases h2
    | cons y ys =>
      rw [lexLt] at h1 h2
      have hxy : lt x y = false := by
        cases h : lt x y with
        | false => rfl
        | true => rw [h] at h1; simp at h1
      have hyx : lt y x = false := by
        cases h : lt y x with
        | false => rfl
        | true => rw [h] at h2; simp at h2
      rw [hxy, hyx] at h1
      rw [hxy, hyx] at h2
      simp only [Bool.false_eq_true, if_false] at h1 h2
      have hx := heq x (List.mem_cons_self _ _) y (List.mem_cons_self _ _) hxy hyx
      rw [hx, ih ys (fun a ha b hb => heq a (List.mem_cons_of_mem _ ha) b
        (List.mem_cons_of_mem _ hb)) h1 h2]

theorem item_eq_of_not_lt (prods : List Production) (hinj : ProdsInj prods) (a b : LR1Item)
    (ha : a.prod ∈ prods) (hb : b.prod ∈ prods) (h1 : a.lt b = false) (h2 : b.lt a = false) :
    a = b := by
  unfold LR1Item.lt at h1 h2
  have hp1 : a.prod.lt b.prod = false := by
    cases h : a.prod.lt b.prod with
    | false => rfl
    | true => rw [h] at h1; simp at h1
  have hp2 : b.prod.lt a.prod = false := by
    cases h : b.prod.lt a.prod with
    | false => rfl
    | true => rw [h] at h2; simp at h2
  have hprod : a.prod = b.prod := hinj a.prod ha b.prod hb hp1 hp2
  rw [hp1, hp2] at h1
  rw [hp1, hp2] at h2
  simp only [Bool.false_eq_true, if_false] at h1 h2
  have hdot : a.dotPos = b.dotPos := by
    by_contra hne
    rw [if_pos hne] at h1
    rw [if_pos (fun h => hne h.symm)] at h2
    simp only [decide_eq_false_iff_not] at h1 h2
    omega
  rw [if_neg (by rw [hdot]; exact fun h => h rfl)] at h1
  rw [if_neg (by rw [hdot]; exact fun h => h rfl)] at h2
  have hla := symbol_eq_of_not_lt _ _ h1 h2
  cases a
  cases b
  simp only at hprod hdot hla
  rw [hprod, hdot, hla]

theorem items_eq_of_not_lt (prods : List Production) (hinj : ProdsInj prods)
    (K L : List LR1Item) (hK : WFItems prods K) (hL : WFItems prods L)
    (h1 : lexLt LR1Item.lt K L = false) (h2 : lexLt LR1Item.lt L K = false) : K = L :=
  lexLt_eq_of_not_lt LR1Item.lt K L
    (fun a ha b hb => item_eq_of_not_lt prods hinj a b (hK a ha) (hL b hb)) h1 h2

theorem mapFind_equiv {κ ν : Type} (lt : κ → κ → Bool) (k : κ) (v : ν) (t : List (κ × ν))
    (h : mapFind lt k t = some v) :
    ∃ k', (k', v) ∈ t ∧ lt k k' = false ∧ lt k' k = false := by
  induction t with
  | nil => cases h
  | cons e t ih =>
    obtain ⟨k', v'⟩ := e
    rw [mapFind] at h
    split at h
    · rename_i hc
      simp only [Bool.and_eq_true, Bool.not_eq_true'] at hc
      cases h
      exact ⟨k', List.mem_cons_self _ _, hc.1, hc.2⟩
    · obtain ⟨k'', hk, h1, h2⟩ := ih h
      exact ⟨k'', List.mem_cons_of_mem _ hk, h1, h2⟩

theorem mapFind_none {κ ν : Type} (lt : κ → κ → Bool) (k : κ) (t : List (κ × ν))
    (h : mapFind lt k t = none) : ∀ e ∈ t, (!lt k e.1 && !lt e.1 k) = false := by
  induction t with
  | nil => intro e he; cases he
  | cons x t ih =>
    obtain ⟨k', v'⟩ := x
    rw [mapFind] at h
    split at h
    · cases h
    · rename_i hc
      intro e he
      rcases List.mem_cons.mp he with he | he
      · rw [he]
        simpa using hc
      · exact ih h e he

theorem mem_mapSet_new {κ ν : Type} (lt : κ → κ → Bool) (k : κ) (v : ν) (t : List (κ × ν))
    (hnone : mapFind lt k t = none) (e : κ × ν) (h : e ∈ mapSet lt k v t) :
    e = (k, v) ∨ e ∈ t := by
  induction t with
  | nil =>
    rw [mapSet] at h
    left
    exact List.mem_singleton.mp h
  | cons x t ih =>
    obtain ⟨k', v'⟩ := x
    have hx := mapFind_none lt k _ hnone (k', v') (List.mem_cons_self _ _)
    rw [mapFind] at hnone
    rw [if_neg (by rw [hx]; exact Bool.false_ne_true)] at hnone
    rw [mapSet] at h
    split at h
    · rcases List.mem_cons.mp h with h | h
      · left; exact h
      · right; exact h
    · split at h
      · rcases List.mem_cons.mp h with h | h
        · right; rw [h]; exact List.mem_cons_self _ _
        · rcases ih hnone h with h | h
          · left; exact h
          · right; exact List.mem_cons_of_mem _ h
      · rename_i h1 h2
        simp only [Bool.not_eq_true] at h1 h2
        simp only [h1, h2, Bool.not_false, Bool.and_self] at hx
        cases hx

theorem mapFind_mapSet_new {κ ν : Type} [DecidableEq κ] (lt : κ → κ → Bool)
    (hirr : ∀ a, lt a a = false) (k : κ) (v : ν) (t : List (κ × ν))
    (hnone : mapFind lt k t = none) (k' : κ)
    (hk : lt k' k = false → lt k k' = false → k' = k) :
    mapFind lt k' (mapSet lt k v t) = if k' = k then some v else mapFind lt k' t := by
  have hcond : (!lt k' k && !lt k k') = true ↔ k' = k := by
    constructor
    · intro h
      simp only [Bool.and_eq_true, Bool.not_eq_true'] at h
      exact hk h.1 h.2
    · intro h
      rw [h, hirr]
      rfl
  induction t with
  | nil =>
    simp only [mapSet, mapFind]
    by_cases hkk : k' = k
    · rw [if_pos (hcond.mpr hkk), if_pos hkk]
    · rw [if_neg (fun h => hkk (hcond.mp h)), if_neg hkk]
  | cons x t ih =>
    obtain ⟨y, vy⟩ := x
    have hx := mapFind_none lt k _ hnone (y, vy) (List.mem_cons_self _ _)
    rw [mapFind] at hnone
    rw [if_neg (by rw [hx]; exact Bool.false_ne_true)] at hnone
    rw [mapSet]
    split
    · show (if (!lt k' k && !lt k k') = true then some v
        else mapFind lt k' ((y, vy) :: t)) = _
      by_cases hkk : k' = k
      · rw [if_pos (hcond.mpr hkk), if_pos hkk]
      · rw [if_neg (fun h => hkk (hcond.mp h)), if_neg hkk]
    · split
      · rename_i h1 h2
        show (if (!lt k' y && !lt y k') = true then some vy
          else mapFind lt k' (mapSet lt k v t)) = _
        rw [ih hnone]
        by_cases hkk : k' = k
        · subst hkk
          have hx2 : (!lt k' y && !lt y k') = false := hx
          rw [if_neg (by rw [hx2]; exact Bool.false_ne_true), if_pos rfl, if_pos rfl]
        · rw [if_neg hkk, if_neg hkk]
          rfl
      · rename_i h1 h2
        simp only [Bool.not_eq_true] at h1 h2
        simp only [h1, h2, Bool.not_false, Bool.and_self] at hx
        cases hx

/-! ## The invariant of the loop of buildLR1Automaton -/

theorem lt_of_getElem_some {α : Type} (l : List α) (i : Nat) (x : α) (h : l[i]? = some x) :
    i < l.length := by
  by_contra hn
  rw [List.getElem?_eq_none (by omega)] at h
  cases h

theorem getElem_append_old {α : Type} (l e : List α) (i : Nat) (x : α)
    (h : l[i]? = some x) : (l ++ e)[i]? = some x := by
  rw [List.getElem?_append_left (lt_of_getElem_some l i x h)]
  exact h

theorem getElem_append_inv {α : Type} (l : List α) (y : α) (i : Nat) (x : α)
    (h : (l ++ [y])[i]? = some x) : l[i]? = some x ∨ (i = l.length ∧ x = y) := by
  by_cases hi : i < l.length
  · left
    rw [List.getElem?_append_left hi] at h
    exact h
  · right
    have hlt := lt_of_getElem_some _ i x h
    rw [List.length_append, List.length_singleton] at hlt
    have hil : i = l.length := by omega
    subst hil
    rw [List.getElem?_append_right (Nat.le_refl _), Nat.sub_self] at h
    exact ⟨rfl, (Option.some.inj h).symm⟩

theorem getElem_append_new {α : Type} (l : List α) (y : α) :
    (l ++ [y])[l.length]? = some y := by
  rw [List.getElem?_append_right (Nat.le_refl _), Nat.sub_self]
  rfl

theorem closure_wf (prods : List Production) (fs : SymMap) (I : List LR1Item)
    (h : WFItems prods I) : WFItems prods (closure prods fs I).items := by
  intro x hx
  refine closureLoop_least prods fs (fun it => it.prod ∈ prods) ?_ _ I I h h x hx
  intro item _ c hc
  rw [mem_candidates] at hc
  obtain ⟨_, prod, hprod, _, la, _, _, hcv⟩ := hc
  rw [hcv]
  exact hprod

theorem gotoFunc_wf (prods : List Production) (fs : SymMap) (st : LR1State) (X : Symbol)
    (h : WFItems prods st.items) : WFItems prods (gotoFunc prods fs st X).items := by
  apply closure_wf
  intro y hy
  rcases (gotoKernel_fold X st.items []).1 y hy with h1 | ⟨item, hitem, _, hy2⟩
  · cases h1
  · rw [hy2]
    exact h item hitem

theorem bfsExt_refl (a : Automaton) : BfsExt a a :=
  ⟨⟨[], (List.append_nil _).symm⟩, fun _ h => h, fun _ h => h⟩

theorem bfsExt_trans (a b c : Automaton) (h1 : BfsExt a b) (h2 : BfsExt b c) : BfsExt a c := by
  obtain ⟨⟨e1, s1⟩, g1, w1⟩ := h1
  obtain ⟨⟨e2, s2⟩, g2, w2⟩ := h2
  refine ⟨⟨e1 ++ e2, ?_⟩, fun k h => g2 k (g1 k h), fun id h => w2 id (w1 id h)⟩
  rw [s2, s1, List.append_assoc]

theorem bfsExt_getElem (a b : Automaton) (h : BfsExt a b) (i : Nat) (st : LR1State)
    (hst : a.states[i]? = some st) : b.states[i]? = some st := by
  obtain ⟨⟨e, hs⟩, _, _⟩ := h
  rw [hs]
  exact getElem_append_old _ _ i st hst

theorem gotoComplete_ext (prods : List Production) (fs : SymMap) (syms : List Symbol)
    (a b : Automaton) (h : BfsExt a b) (i : Nat) (hi : i < a.states.length)
    (hc : GotoComplete prods fs syms a i) : GotoComplete prods fs syms b i := by
  intro st hst X hX hne
  have hold : a.states[i]? = some st := by
    obtain ⟨⟨e, hs⟩, _, _⟩ := h
    rw [hs, List.getElem?_append_left hi] at hst
    exact hst
  exact h.2.1 _ (hc st hold X hX hne)

theorem isSome_mapFind_mapSet (k k' : Int × Symbol) (v : Int) (t : Table)
    (h : (mapFind keyLt k t).isSome = true) :
    (mapFind keyLt k (mapSet keyLt k' v t)).isSome = true := by
  rw [mapFind_mapSet keyLt keyLt_irrefl key_eq_of_not_lt]
  split
  · rfl
  · exact h

theorem bfsSymbol_step (prods : List Production) (fs : SymMap) (syms : List Symbol)
    (hinj : ProdsInj prods) (a : Automaton) (hcore : BfsCore prods fs syms a)
    (s : Nat) (st : LR1State) (hst : a.states[s]? = some st) (X : Symbol) (hX : X ∈ syms) :
    BfsCore prods fs syms (bfsSymbol prods fs (s : Int) st a X) ∧
    BfsExt a (bfsSymbol prods fs (s : Int) st a X) ∧
    ((gotoFunc prods fs st X).items ≠ [] →
      (mapFind keyLt ((s : Int), X) (bfsSymbol prods fs (s : Int) st a X).gotoTable).isSome =
        true) ∧
    (∀ i, a.states.length ≤ i → i < (bfsSymbol prods fs (s : Int) st a X).states.length →
      (i : Int) ∈ (bfsSymbol prods fs (s : Int) st a X).workList) := by
  have hwfst : WFItems prods st.items := (hcore.ids s st hst).2.2.1
  have hwfK : WFItems prods (gotoFunc prods fs st X).items := gotoFunc_wf prods fs st X hwfst
  have hclK : ClosedItems prods fs (gotoFunc prods fs st X).items :=
    closure_closed prods fs (gotoKernel st.items X)
  unfold bfsSymbol
  simp only
  split
  · rename_i hemp
    refine ⟨hcore, bfsExt_refl a, ?_, ?_⟩
    · intro hne
      rw [List.isEmpty_iff] at hemp
      exact absurd hemp hne
    · intro i h1 h2
      omega
  · rename_i hemp
    have hne : (gotoFunc prods fs st X).items ≠ [] := by
      intro h
      rw [h] at hemp
      exact hemp rfl
    split
    · rename_i hnone
      -- a new state
      have hkey : ∀ K' : List LR1Item, WFItems prods K' →
          lexLt LR1Item.lt K' (gotoFunc prods fs st X).items = false →
          lexLt LR1Item.lt (gotoFunc prods fs st X).items K' = false →
          K' = (gotoFunc prods fs st X).items :=
        fun K' hK' h1 h2 => items_eq_of_not_lt prods hinj K' _ hK' hwfK h1 h2
      refine ⟨⟨?_, ?_, ?_, ?_, ?_⟩, ⟨⟨[_], rfl⟩, ?_, ?_⟩, ?_, ?_⟩
      · intro i sti hi
        rcases getElem_append_inv _ _ i sti hi with h | ⟨h1, h2⟩
        · exact hcore.ids i sti h
        · rw [h1, h2]
          exact ⟨rfl, hne, hwfK, hclK⟩
      · intro i sti hi
        rw [mapFind_mapSet_new (lexLt LR1Item.lt) (lexLt_irrefl LR1Item.lt item_lt_irrefl)
          _ _ _ hnone]
        · rcases getElem_append_inv _ _ i sti hi with h | ⟨h1, h2⟩
          · have hold := hcore.mapComplete i sti h
            rw [if_neg]
            · exact hold
            · intro heq
              rw [heq, hnone] at hold
              cases hold
          · rw [h2, h1]
            rw [if_pos rfl]
        · rcases getElem_append_inv _ _ i sti hi with h | ⟨h1, h2⟩
          · exact hkey sti.items (hcore.ids i sti h).2.2.1
          · intro _ _
            rw [h2]
      · intro e he
        rcases mem_mapSet_new _ _ _ _ hnone e he with h | h
        · rw [h]
          exact ⟨hwfK, a.states.length, _, rfl, getElem_append_new _ _, rfl⟩
        · obtain ⟨hw, i, sti, h1, h2, h3⟩ := hcore.mapSound e h
          exact ⟨hw, i, sti, h1, getElem_append_old _ _ i sti h2, h3⟩
      · intro s' X' j hj
        rw [mapFind_mapSet keyLt keyLt_irrefl key_eq_of_not_lt] at hj
        split at hj
        · rename_i hk
          obtain ⟨hs', hX'⟩ := Prod.mk.inj hk
          rw [hs', hX']
          exact ⟨s, st, a.states.length, _, rfl, getElem_append_old _ _ s st hst, hX,
            (Option.some.inj hj).symm, getElem_append_new _ _, rfl⟩
        · obtain ⟨i, sti, k, stk, h1, h2, h3, h4, h5, h6⟩ := hcore.gotoSound s' X' j hj
          exact ⟨i, sti, k, stk, h1, getElem_append_old _ _ i sti h2, h3, h4,
            getElem_append_old _ _ k stk h5, h6⟩
      · intro id hid
        rw [List.length_append, List.length_singleton]
        rcases List.mem_append.mp hid with h | h
        · obtain ⟨i, h1, h2⟩ := hcore.work id h
          exact ⟨i, h1, by omega⟩
        · exact ⟨a.states.length, List.mem_singleton.mp h, by omega⟩
      · intro k hk
        exact isSome_mapFind_mapSet k _ _ _ hk
      · intro id hid
        exact List.mem_append_left _ hid
      · intro _
        rw [mapFind_mapSet keyLt keyLt_irrefl key_eq_of_not_lt, if_pos rfl]
        rfl
      · intro i h1 h2
        rw [List.length_append, List.length_singleton] at h2
        have hi : i = a.states.length := by omega
        rw [hi]
        exact List.mem_append_right _ (List.mem_singleton.mpr rfl)
    · rename_i j hsome
      -- an existing state
      obtain ⟨K', hmem, h1, h2⟩ := mapFind_equiv _ _ _ _ hsome
      obtain ⟨hwK', i, sti, hji, hsti, hitems⟩ := hcore.mapSound (K', j) hmem
      have hKK : K' = (gotoFunc prods fs st X).items :=
        items_eq_of_not_lt prods hinj K' _ hwK' hwfK h2 h1
      refine ⟨⟨hcore.ids, hcore.mapComplete, hcore.mapSound, ?_, hcore.work⟩,
        ⟨⟨[], (List.append_nil _).symm⟩, ?_, fun _ h => h⟩, ?_, ?_⟩
      · intro s' X' j' hj
        rw [mapFind_mapSet keyLt keyLt_irrefl key_eq_of_not_lt] at hj
        split at hj
        · rename_i hk
          obtain ⟨hs', hX'⟩ := Prod.mk.inj hk
          rw [hs', hX']
          refine ⟨s, st, i, sti, rfl, hst, hX, ?_, hsti, ?_⟩
          · rw [← Option.some.inj hj]
            exact hji
          · rw [hitems]
            exact hKK
        · exact hcore.gotoSound s' X' j' hj
      · intro k hk
        exact isSome_mapFind_mapSet k _ _ _ hk
      · intro _
        rw [mapFind_mapSet keyLt keyLt_irrefl key_eq_of_not_lt, if_pos rfl]
        rfl
      · intro i' h1 h2
        have h3 : i' < a.states.length := h2
        omega

theorem bfsFold_step (prods : List Production) (fs : SymMap) (syms : List Symbol)
    (hinj : ProdsInj prods) (s : Nat) (st : LR1State) (l : List Symbol)
    (hl : ∀ X ∈ l, X ∈ syms) :
    ∀ a : Automaton, BfsCore prods fs syms a → a.states[s]? = some st →
      BfsCore prods fs syms (l.foldl (bfsSymbol prods fs (s : Int) st) a) ∧
      BfsExt a (l.foldl (bfsSymbol prods fs (s : Int) st) a) ∧
      (∀ X ∈ l, (gotoFunc prods fs st X).items ≠ [] →
        (mapFind keyLt ((s : Int), X)
          (l.foldl (bfsSymbol prods fs (s : Int) st) a).gotoTable).isSome = true) ∧
      (∀ i, a.states.length ≤ i →
        i < (l.foldl (bfsSymbol prods fs (s : Int) st) a).states.length →
        (i : Int) ∈ (l.foldl (bfsSymbol prods fs (s : Int) st) a).workList) := by
  induction l with
  | nil =>
    intro a hcore _
    refine ⟨hcore, bfsExt_refl a, fun X hX => (by cases hX), ?_⟩
    intro i h1 h2
    have h3 : i < a.states.length := h2
    omega
  | cons X l ih =>
    intro a hcore hst
    rw [List.foldl_cons]
    obtain ⟨c1, e1, g1, n1⟩ := bfsSymbol_step prods fs syms hinj a hcore s st hst X
      (hl X (List.mem_cons_self _ _))
    obtain ⟨c2, e2, g2, n2⟩ := ih (fun Y hY => hl Y (List.mem_cons_of_mem _ hY))
      (bfsSymbol prods fs (s : Int) st a X) c1 (bfsExt_getElem _ _ e1 s st hst)
    refine ⟨c2, bfsExt_trans _ _ _ e1 e2, ?_, ?_⟩
    · intro Y hY hne
      rcases List.mem_cons.mp hY with h | h
      · subst h
        exact e2.2.1 _ (g1 hne)
      · exact g2 Y h hne
    · intro i h1 h2
      by_cases hi : i < (bfsSymbol prods fs (s : Int) st a X).states.length
      · exact e2.2.2 _ (n1 i h1 hi)
      · exact n2 i (by omega) h2

theorem bfsLoop_inv (prods : List Production) (fs : SymMap) (syms : List Symbol)
    (hinj : ProdsInj prods) (fuel : Nat) :
    ∀ a r : Automaton, BfsCore prods fs syms a →
      (∀ i, i < a.states.length →
        (i : Int) ∈ a.workList ∨ GotoComplete prods fs syms a i) →
      bfsLoop prods fs syms fuel a = some r →
      BfsCore prods fs syms r ∧
      (∀ i, i < r.states.length → GotoComplete prods fs syms r i) ∧
      ∃ extra, r.states = a.states ++ extra := by
  induction fuel with
  | zero => intro a r _ _ h; cases h
  | succ n ih =>
    intro a r hcore hpend h
    rw [bfsLoop] at h
    cases hw : a.workList with
    | nil =>
      rw [hw] at h
      simp only [Option.some.injEq] at h
      subst h
      refine ⟨hcore, ?_, [], (List.append_nil _).symm⟩
      intro i hi
      rcases hpend i hi with hp | hp
      · rw [hw] at hp
        cases hp
      · exact hp
    | cons sid wl =>
      rw [hw] at h
      simp only at h
      obtain ⟨s, hsid, hs⟩ := hcore.work sid (by rw [hw]; exact List.mem_cons_self _ _)
      have hget : ∃ st, a.states[s]? = some st :=
        ⟨a.states[s], List.getElem?_eq_getElem hs⟩
      obtain ⟨st, hst⟩ := hget
      have hvisit : bfsVisit prods fs syms a sid wl =
          some (syms.foldl (bfsSymbol prods fs (s : Int) st) { a with workList := wl }) := by
        unfold bfsVisit
        rw [hsid, Int.toNat_ofNat, List.get?_eq_getElem?, hst]
        rfl
      rw [hvisit, Option.some_bind] at h
      have hcore0 : BfsCore prods fs syms { a with workList := wl } :=
        ⟨hcore.ids, hcore.mapComplete, hcore.mapSound, hcore.gotoSound,
          fun id hid => hcore.work id (by rw [hw]; exact List.mem_cons_of_mem _ hid)⟩
      obtain ⟨c1, e1, g1, n1⟩ := bfsFold_step prods fs syms hinj s st syms (fun X hX => hX)
        { a with workList := wl } hcore0 hst
      obtain ⟨c2, g2, extra2, hx2⟩ := ih _ r c1 (by
        intro i hi
        by_cases hold : i < a.states.length
        · rcases hpend i hold with hp | hp
          · rw [hw] at hp
            rcases List.mem_cons.mp hp with hp | hp
            · right
              rw [hsid] at hp
              have his : i = s := by omega
              subst his
              intro st' hst' X hX hne
              have hst2 := bfsExt_getElem _ _ e1 i st hst
              rw [hst2] at hst'
              rw [← Option.some.inj hst'] at hne
              exact g1 X hX hne
            · left
              exact e1.2.2 _ hp
          · right
            exact gotoComplete_ext prods fs syms { a with workList := wl } _ e1 i hold hp
        · left
          exact n1 i (by
            have : a.states.length ≤ i := by omega
            exact this) hi) h
      refine ⟨c2, g2, ?_⟩
      obtain ⟨⟨extra1, hx1⟩, _, _⟩ := e1
      refine ⟨extra1 ++ extra2, ?_⟩
      rw [hx2, hx1, List.append_assoc]

theorem startAutomaton_inv (prods : List Production) (fs : SymMap) (syms : List Symbol)
    (a0 : Automaton) (h : startAutomaton prods fs [] [] = some a0) :
    BfsCore prods fs syms a0 ∧
    (∀ i, i < a0.states.length →
      (i : Int) ∈ a0.workList ∨ GotoComplete prods fs syms a0 i) ∧
    ∃ p0, prods.head? = some p0 ∧
      a0.states = [{ closure prods fs [⟨p0, 0, ⟨"$", true⟩⟩] with id := 0 }] := by
  unfold startAutomaton at h
  cases hp : prods.head? with
  | none => rw [hp] at h; cases h
  | some p0 =>
    rw [hp] at h
    simp only [Option.some.injEq] at h
    subst h
    have hp0 : p0 ∈ prods := List.mem_of_mem_head? hp
    have hwf : WFItems prods (closure prods fs [⟨p0, 0, ⟨"$", true⟩⟩]).items := by
      apply closure_wf
      intro it hit
      rw [List.mem_singleton.mp hit]
      exact hp0
    have hne : (closure prods fs [⟨p0, 0, ⟨"$", true⟩⟩]).items ≠ [] := by
      intro he
      have hm := closureLoop_superset prods fs
        (closureFuel prods fs [⟨p0, 0, ⟨"$", true⟩⟩]) [⟨p0, 0, ⟨"$", true⟩⟩]
        [⟨p0, 0, ⟨"$", true⟩⟩] _ (List.mem_singleton.mpr rfl)
      have hm2 : (⟨p0, 0, ⟨"$", true⟩⟩ : LR1Item) ∈
          (closure prods fs [⟨p0, 0, ⟨"$", true⟩⟩]).items := hm
      rw [he] at hm2
      cases hm2
    have hget : ∀ (i : Nat) (st : LR1State),
        ([] ++ [({ closure prods fs [⟨p0, 0, ⟨"$", true⟩⟩] with id := 0 } : LR1State)])[i]? =
          some st →
        i = 0 ∧ st = { closure prods fs [⟨p0, 0, ⟨"$", true⟩⟩] with id := 0 } := by
      intro i st hi
      rcases getElem_append_inv _ _ i st hi with h1 | ⟨h1, h2⟩
      · cases h1
      · exact ⟨h1, h2⟩
    refine ⟨⟨?_, ?_, ?_, ?_, ?_⟩, ?_, p0, rfl, rfl⟩
    · intro i st hi
      obtain ⟨h1, h2⟩ := hget i st hi
      rw [h1, h2]
      exact ⟨rfl, hne, hwf, closure_closed prods fs _⟩
    · intro i st hi
      obtain ⟨h1, h2⟩ := hget i st hi
      rw [h1, h2]
      simp only [mapFind, lexLt_irrefl LR1Item.lt item_lt_irrefl, Bool.not_false,
        Bool.and_self, if_true]
      rfl
    · intro e he
      rw [List.mem_singleton.mp he]
      exact ⟨hwf, 0, _, rfl, rfl, rfl⟩
    · intro s X j hj
      cases hj
    · intro id hid
      rw [List.mem_singleton.mp hid]
      exact ⟨0, rfl, Nat.zero_lt_one⟩
    · intro i hi
      left
      have h0 : i = 0 := by
        simp only [List.nil_append, List.length_singleton] at hi
        omega
      rw [h0]
      exact List.mem_singleton.mpr rfl

/-- What the loop of `buildLR1Automaton` leaves behind, for every grammar in which no two
productions are equivalent. -/
theorem automaton_spec (prods : List Production) (fs : SymMap) (syms : List Symbol)
    (hinj : ProdsInj prods) (fuel : Nat) (a0 r : Automaton)
    (hstart : startAutomaton prods fs [] [] = some a0)
    (hloop : bfsLoop prods fs syms fuel a0 = some r) :
    BfsCore prods fs syms r ∧
    (∀ i, i < r.states.length → GotoComplete prods fs syms r i) ∧
    ∃ p0 extra, prods.head? = some p0 ∧
      r.states = { closure prods fs [⟨p0, 0, ⟨"$", true⟩⟩] with id := 0 } :: extra := by
  obtain ⟨c0, p0', p0, hp0, hs0⟩ := startAutomaton_inv prods fs syms a0 hstart
  obtain ⟨c1, g1, extra, hx⟩ := bfsLoop_inv prods fs syms hinj fuel a0 r c0 p0' hloop
  refine ⟨c1, g1, p0, extra, hp0, ?_⟩
  rw [hx, hs0]
  rfl

/-! ## The automaton of the fixed grammar (claims C24, C25, C26) -/

theorem prodsInj_lit : ProdsInj productionsLit := by
  unfold ProdsInj
  decide!

theorem allSymbolsLit_mem :
    (∀ X ∈ terminalsLit, X.name ≠ "$" → X ∈ allSymbolsLit) ∧
    (∀ X ∈ nonTerminalsLit, X ∈ allSymbolsLit) ∧
    (∀ X ∈ allSymbolsLit, (X ∈ terminalsLit ∧ X.name ≠ "$") ∨ X ∈ nonTerminalsLit) := by
  decide!

theorem automaton_lit :
    BfsCore productionsLit firstSetLit allSymbolsLit (autAt 127) ∧
    (∀ i, i < (autAt 127).states.length →
      GotoComplete productionsLit firstSetLit allSymbolsLit (autAt 127) i) ∧
    ∃ p0 extra, productionsLit.head? = some p0 ∧
      (autAt 127).states =
        { closure productionsLit firstSetLit [⟨p0, 0, ⟨"$", true⟩⟩] with id := 0 } :: extra :=
  automaton_spec productionsLit firstSetLit allSymbolsLit prodsInj_lit 200 (autAt 0)
    (autAt 127) startAutomaton_eq bfsLoop_eq

/-- Claim C24.  In the constructed parser the state list is closed under goto and the GOTO
table is exact.  For every state `states[s]` and every grammar symbol `X` other than `$`:
when `gotoFunc(states[s], X)` is not empty, `gotoTable[(s, X)]` is the index, and the id,
of a state of the list whose item set is that of `gotoFunc(states[s], X)`; when it is empty, the table
has no entry for `(s, X)`.  The table has no other entries: every key is such a pair. -/
theorem gotoTable_exact :
    ∃ p, LRParser.construct 200 = some p ∧
      (∀ (s : Nat) (st : LR1State), p.states[s]? = some st →
        ∀ X, (X ∈ p.terminals ∧ X.name ≠ "$") ∨ X ∈ p.nonTerminals →
          ((p.gotoFunc st X).items ≠ [] →
            ∃ (j : Nat) (stj : LR1State),
              mapFind keyLt ((s : Int), X) p.gotoTable = some (j : Int) ∧
              p.states[j]? = some stj ∧ stj.id = (j : Int) ∧
              stj.items = (p.gotoFunc st X).items) ∧
          ((p.gotoFunc st X).items = [] →
            mapFind keyLt ((s : Int), X) p.gotoTable = none)) ∧
      (∀ k j, mapFind keyLt k p.gotoTable = some j →
        ∃ (s : Nat) (st : LR1State), k.1 = (s : Int) ∧ p.states[s]? = some st ∧
          ((k.2 ∈ p.terminals ∧ k.2.name ≠ "$") ∨ k.2 ∈ p.nonTerminals) ∧
          (p.gotoFunc st k.2).items ≠ []) := by
  obtain ⟨hcore, hcomp, _⟩ := automaton_lit
  obtain ⟨_, hstates, hgoto⟩ := autAt_final
  rw [hstates] at hcomp
  refine ⟨freshLit, construct_eq, ?_, ?_⟩
  · intro s st hst X hX
    have hst1 : (autAt 127).states[s]? = some st := by rw [hstates]; exact hst
    have hXs : X ∈ allSymbolsLit := by
      rcases hX with ⟨h1, h2⟩ | h
      · exact allSymbolsLit_mem.1 X h1 h2
      · exact allSymbolsLit_mem.2.1 X h
    constructor
    · intro hne
      have hsome := hcomp s (lt_of_getElem_some _ s st hst) st hst1 X hXs hne
      rw [hgoto] at hsome
      cases hf : mapFind keyLt ((s : Int), X) gotoTableLit with
      | none => rw [hf] at hsome; cases hsome
      | some j =>
        have hf1 : mapFind keyLt ((s : Int), X) (autAt 127).gotoTable = some j := by
          rw [hgoto]; exact hf
        obtain ⟨i, sti, k, stk, h1, h2, _, h4, h5, h6⟩ := hcore.gotoSound _ _ _ hf1
        have his : i = s := by omega
        subst his
        rw [hst1] at h2
        rw [← Option.some.inj h2] at h6
        have hidk := (hcore.ids k stk h5).1
        rw [hstates] at h5
        exact ⟨k, stk, h4 ▸ hf, h5, hidk, h6⟩
    · intro hemp
      cases hf : mapFind keyLt ((s : Int), X) gotoTableLit with
      | none => exact hf
      | some j =>
        have hf1 : mapFind keyLt ((s : Int), X) (autAt 127).gotoTable = some j := by
          rw [hgoto]; exact hf
        obtain ⟨i, sti, k, stk, h1, h2, _, h4, h5, h6⟩ := hcore.gotoSound _ _ _ hf1
        have his : i = s := by omega
        subst his
        rw [hst1] at h2
        rw [← Option.some.inj h2] at h6
        have hne := (hcore.ids k stk h5).2.1
        rw [h6] at hne
        exact absurd hemp hne
  · intro k j hk
    have hk1 : mapFind keyLt (k.1, k.2) (autAt 127).gotoTable = some j := by
      rw [hgoto]; exact hk
    obtain ⟨i, sti, k', stk, h1, h2, h3, h4, h5, h6⟩ := hcore.gotoSound _ _ _ hk1
    rw [hstates] at h2
    refine ⟨i, sti, h1, h2, allSymbolsLit_mem.2.2 k.2 h3, ?_⟩
    have hne := (hcore.ids k' stk h5).2.1
    rw [h6] at hne
    exact hne

/-- Claim C25.  In the state list of the constructed parser the entry at index `i` has id
`i`, no entry has an empty item set, and no two entries have equal item sets, neither as
lists nor under the comparison that the map of seen states uses. -/
theorem states_deduplicated :
    ∃ p, LRParser.construct 200 = some p ∧
      (∀ (i : Nat) (st : LR1State), p.states[i]? = some st →
        st.id = (i : Int) ∧ st.items ≠ []) ∧
      (∀ (i j : Nat) (sti stj : LR1State), p.states[i]? = some sti →
        p.states[j]? = some stj → sti.items = stj.items → i = j) ∧
      (∀ (i j : Nat) (sti stj : LR1State), p.states[i]? = some sti →
        p.states[j]? = some stj → lexLt LR1Item.lt sti.items stj.items = false →
        lexLt LR1Item.lt stj.items sti.items = false → i = j) := by
  obtain ⟨hcore, _, _⟩ := automaton_lit
  obtain ⟨_, hstates, _⟩ := autAt_final
  have heq : ∀ (i j : Nat) (sti stj : LR1State), statesLit[i]? = some sti →
      statesLit[j]? = some stj → sti.items = stj.items → i = j := by
    intro i j sti stj hi hj hitems
    rw [← hstates] at hi hj
    have h1 := hcore.mapComplete i sti hi
    have h2 := hcore.mapComplete j stj hj
    rw [hitems, h2] at h1
    have := Option.some.inj h1
    omega
  refine ⟨freshLit, construct_eq, ?_, heq, ?_⟩
  · intro i st hst
    have hst1 : (autAt 127).states[i]? = some st := by rw [hstates]; exact hst
    exact ⟨(hcore.ids i st hst1).1, (hcore.ids i st hst1).2.1⟩
  · intro i j sti stj hi hj h1 h2
    have hi1 : (autAt 127).states[i]? = some sti := by rw [hstates]; exact hi
    have hj1 : (autAt 127).states[j]? = some stj := by rw [hstates]; exact hj
    exact heq i j sti stj hi hj
      (items_eq_of_not_lt productionsLit prodsInj_lit _ _ (hcore.ids i sti hi1).2.2.1
        (hcore.ids j stj hj1).2.2.1 h1 h2)

/-- Claim C26.  In the constructed parser the start state is `states[0]`, its id is 0, and
its item set is `closure` of the single item `[program' → · program, $]`, the first
production of the grammar with the dot at 0. -/
theorem start_state :
    ∃ p, LRParser.construct 200 = some p ∧
      p.productions.head? = some ⟨nsym "program'", [nsym "program"], 0⟩ ∧
      ∃ st, p.states[0]? = some st ∧ st.id = 0 ∧
        st.items =
          (p.closure [⟨⟨nsym "program'", [nsym "program"], 0⟩, 0, tsym "$"⟩]).items := by
  obtain ⟨_, _, p0, extra, hp0, hs⟩ := automaton_lit
  obtain ⟨_, hstates, _⟩ := autAt_final
  have hhead : productionsLit.head? = some ⟨nsym "program'", [nsym "program"], 0⟩ := by
    decide
  rw [hhead] at hp0
  have hp : p0 = ⟨nsym "program'", [nsym "program"], 0⟩ := (Option.some.inj hp0).symm
  subst hp
  rw [hstates] at hs
  refine ⟨freshLit, construct_eq, hhead,
    { closure productionsLit firstSetLit
        [⟨⟨nsym "program'", [nsym "program"], 0⟩, 0, ⟨"$", true⟩⟩] with id := 0 }, ?_, rfl, rfl⟩
  show statesLit[0]? = _
  rw [hs]
  exact List.getElem?_cons_zero

/-! ## The ACTION table is the one the items dictate (claim C27) -/

theorem actionTable_writes :
    freshLit.actionTable =
      applyWrites (tableWrites (nsym "program'") gotoTableLit statesLit) [] := by
  have h := applyWrites_tableWrites (nsym "program'") gotoTableLit statesLit []
    statesLit_ids (fun e he => by cases he)
  rw [stateTable_eval, List.nil_append] at h
  rw [h]
  rfl

theorem action_iff_write (k : Int × Symbol) (v : Int) :
    mapFind keyLt k freshLit.actionTable = some v ↔
      ∃ st ∈ statesLit, ∃ item ∈ st.items,
        tableWrite (nsym "program'") gotoTableLit st.id item = some ⟨k, v⟩ := by
  have hceq : ∀ w1 ∈ tableWrites (nsym "program'") gotoTableLit statesLit,
      ∀ w2 ∈ tableWrites (nsym "program'") gotoTableLit statesLit,
        w1.key = w2.key → w1.action = w2.action := by
    intro w1 h1 w2 h2 hk
    exact tableWrites_agree w1 h1 w2 h2 (by rw [hk, keyLt_irrefl]) (by rw [hk, keyLt_irrefl])
  have hmem : ∀ w, w ∈ tableWrites (nsym "program'") gotoTableLit statesLit ↔
      ∃ st ∈ statesLit, ∃ item ∈ st.items,
        tableWrite (nsym "program'") gotoTableLit st.id item = some w := by
    intro w
    simp only [tableWrites, stateWrites, List.mem_flatMap, List.mem_filterMap]
  rw [actionTable_writes]
  constructor
  · intro h
    by_cases hex : ∃ w ∈ tableWrites (nsym "program'") gotoTableLit statesLit, w.key = k
    · obtain ⟨w, hw, hk⟩ := hex
      rw [(mapFind_applyWrites _ hceq [] k).1 w hw hk] at h
      have hwe : w = ⟨k, v⟩ := by
        cases w
        simp only [TableWrite.mk.injEq]
        exact ⟨hk, Option.some.inj h⟩
      rw [← hwe]
      exact (hmem w).mp hw
    · rw [(mapFind_applyWrites _ hceq [] k).2 (fun w hw hk => hex ⟨w, hw, hk⟩)] at h
      cases h
  · rintro ⟨st, hst, item, hit, hw⟩
    exact (mapFind_applyWrites _ hceq [] k).1 ⟨k, v⟩ ((hmem _).mpr ⟨st, hst, item, hit, hw⟩) rfl

theorem tableWrite_some (aug : Symbol) (g : Table) (sid : Int) (item : LR1Item)
    (k : Int × Symbol) (v : Int) :
    tableWrite aug g sid item = some ⟨k, v⟩ ↔
      (item.isComplete = true ∧ item.prod.left = aug ∧ k = (sid, ⟨"$", true⟩) ∧ v = -1) ∨
      (item.isComplete = true ∧ item.prod.left ≠ aug ∧ k = (sid, item.lookahead) ∧
        v = -(item.prod.id + 2)) ∨
      (item.isComplete = false ∧ item.getSymbolAfterDot.isTerminal = true ∧
        item.getSymbolAfterDot.name ≠ "E" ∧ k = (sid, item.getSymbolAfterDot) ∧
        ∃ t, mapFind keyLt (sid, item.getSymbolAfterDot) g = some t ∧ v = t + 1) := by
  unfold tableWrite
  by_cases hc : item.isComplete = true
  · by_cases he : item.prod.left.eqv aug = true
    · have hl := (symbol_eqv_iff _ _).mp he
      rw [if_pos hc, if_pos he]
      simp only [hc, Option.some.injEq, TableWrite.mk.injEq, hl, ne_eq,
        not_true_eq_false, false_and, and_false, Bool.true_eq_false, or_false, true_and]
      constructor
      · rintro ⟨h1, h2⟩
        exact ⟨h1.symm, h2.symm⟩
      · rintro ⟨h1, h2⟩
        exact ⟨h1.symm, h2.symm⟩
    · have hl : item.prod.left ≠ aug := fun h => he ((symbol_eqv_iff _ _).mpr h)
      rw [if_pos hc, if_neg he]
      simp only [hc, Option.some.injEq,
        TableWrite.mk.injEq, hl, ne_eq, not_false_eq_true, false_and, and_false,
        Bool.true_eq_false, or_false, false_or, true_and]
      constructor
      · rintro ⟨h1, h2⟩
        exact ⟨h1.symm, h2.symm⟩
      · rintro ⟨h1, h2⟩
        exact ⟨h1.symm, h2.symm⟩
  · have hc' : item.isComplete = false := by
      cases h : item.isComplete
      · rfl
      · exact absurd h hc
    simp only [hc', Bool.false_eq_true, if_false, false_and, false_or, true_and]
    by_cases ht : item.getSymbolAfterDot.isTerminal = true
    · by_cases hn : item.getSymbolAfterDot.name = "E"
      · have hs : strEq item.getSymbolAfterDot.name "E" = true := (strEq_iff _ _).mpr hn
        simp only [ht, hs, Bool.not_true, Bool.and_false, Bool.false_eq_true, if_false]
        simp [hn]
      · have hs : strEq item.getSymbolAfterDot.name "E" = false := strEq_false_of_ne _ _ hn
        simp only [ht, hs, Bool.not_false, Bool.and_self, if_true, ne_eq, hn,
          not_false_eq_true, true_and]
        cases hf : mapFind keyLt (sid, item.getSymbolAfterDot) g with
        | none => simp
        | some t =>
          simp only [Option.some.injEq, TableWrite.mk.injEq, exists_eq_left']
          constructor
          · rintro ⟨h1, h2⟩
            exact ⟨h1.symm, h2.symm⟩
          · rintro ⟨h1, h2⟩
            exact ⟨h1.symm, h2.symm⟩
    · have ht' : item.getSymbolAfterDot.isTerminal = false := by
        cases h : item.getSymbolAfterDot.isTerminal
        · rfl
        · exact absurd h ht
      simp [ht']

theorem isComplete_of_after (item : LR1Item) (h : item.getSymbolAfterDot.name ≠ "") :
    item.isComplete = false := by
  unfold LR1Item.getSymbolAfterDot at h
  unfold LR1Item.isComplete
  by_cases hc : item.dotPos < item.prod.right.length ∧ ¬ isEpsilonRight item.prod.right
  · have h2 : isEpsilonRight item.prod.right = false := by
      cases he : isEpsilonRight item.prod.right
      · rfl
      · exact absurd he hc.2
    rw [h2]
    simp only [Bool.false_eq_true, if_false, decide_eq_false_iff_not, ge_iff_le, not_le]
    exact hc.1
  · rw [if_neg hc] at h
    exact absurd rfl h

theorem productionsLit_facts :
    (∀ pr ∈ productionsLit, 0 ≤ pr.id) ∧
    (∀ pr ∈ productionsLit, pr.left = nsym "program'" →
      pr = ⟨nsym "program'", [nsym "program"], 0⟩) ∧
    (∀ p ∈ productionsLit, ∀ q ∈ productionsLit, p.id = q.id → p = q) := by
  decide!

theorem terminalsLit_facts :
    (∀ a ∈ terminalsLit, a.isTerminal = true ∧ a.name ≠ "E" ∧ a.name ≠ "") ∧
    (∀ X ∈ nonTerminalsLit, X.isTerminal = false) ∧
    tsym "$" ∈ terminalsLit := by
  decide!

theorem lookaheads_eval :
    statesLit.all (fun st => st.items.all (fun it =>
      it.lookahead.isTerminal &&
        terminalsLit.any (fun t => strEq t.name it.lookahead.name))) = true := by
  decide!

theorem lookahead_terminal (st : LR1State) (hst : st ∈ statesLit) (it : LR1Item)
    (hit : it ∈ st.items) : it.lookahead ∈ terminalsLit := by
  have h := List.all_eq_true.mp (List.all_eq_true.mp lookaheads_eval st hst) it hit
  simp only [Bool.and_eq_true, List.any_eq_true] at h
  obtain ⟨h1, t, ht, h2⟩ := h
  have hname := (strEq_iff _ _).mp h2
  have htt := (terminalsLit_facts.1 t ht).1
  have : t = it.lookahead := by
    cases t
    cases hl : it.lookahead
    rw [hl] at hname h1
    simp only at hname h1 htt
    rw [hname, htt, h1]
  rw [← this]
  exact ht

theorem state_at (s : Nat) (st : LR1State) (hst : statesLit[s]? = some st) :
    st ∈ statesLit ∧ st.id = (s : Int) ∧ WFItems productionsLit st.items := by
  obtain ⟨hcore, _, _⟩ := automaton_lit
  obtain ⟨_, hstates, _⟩ := autAt_final
  have hst1 : (autAt 127).states[s]? = some st := by rw [hstates]; exact hst
  exact ⟨List.getElem?_mem hst, (hcore.ids s st hst1).1, (hcore.ids s st hst1).2.2.1⟩

theorem goto_value (s : Int) (X : Symbol) (t : Int)
    (h : mapFind keyLt (s, X) gotoTableLit = some t) : 0 ≤ t ∧ X ∈ allSymbolsLit := by
  obtain ⟨hcore, _, _⟩ := automaton_lit
  obtain ⟨_, _, hgoto⟩ := autAt_final
  have h1 : mapFind keyLt (s, X) (autAt 127).gotoTable = some t := by rw [hgoto]; exact h
  obtain ⟨i, sti, k, stk, _, _, h3, h4, _, _⟩ := hcore.gotoSound _ _ _ h1
  exact ⟨by omega, h3⟩

theorem action_at (s : Nat) (st : LR1State) (hst : statesLit[s]? = some st) (a : Symbol)
    (v : Int) :
    mapFind keyLt ((s : Int), a) freshLit.actionTable = some v ↔
      ∃ item ∈ st.items,
        tableWrite (nsym "program'") gotoTableLit (s : Int) item = some ⟨((s : Int), a), v⟩ := by
  obtain ⟨hmem, hid, _⟩ := state_at s st hst
  rw [action_iff_write]
  constructor
  · rintro ⟨st', hst', item, hit, hw⟩
    have hk := tableWrite_key _ _ _ _ _ hw
    have he : st' = st :=
      state_eq_of_id_eq statesLit statesLit_ids st' hst' st hmem (by rw [hid]; exact hk.symm)
    subst he
    rw [hid] at hw
    exact ⟨item, hit, hw⟩
  · rintro ⟨item, hit, hw⟩
    exact ⟨st, hmem, item, hit, by rw [hid]; exact hw⟩

/-- Claim C27.  In the constructed parser the ACTION table is exactly the one the items
dictate.  For every state `states[s]` and every terminal `a`: `ACTION[s, $]` is accept
(`-1`) iff the state contains a complete item of `program' → program`, and accept occurs
under no other terminal; `ACTION[s, a]` is reduce by `p` (`-(p.id + 2)`), for a production
`p` other than the augmented one, iff the state contains a complete item of `p` with
lookahead `a`; `ACTION[s, a]` is shift to `t` (`t + 1`) iff some item of the state has `a`
after the dot and `gotoTable[(s, a)] = t`.  There is no other entry: every key of the table
is a state index with a terminal, and every value is accept, a reduce by such a production,
or a shift. -/
theorem actionTable_exact :
    ∃ p, LRParser.construct 200 = some p ∧
      (∀ (s : Nat) (st : LR1State), p.states[s]? = some st →
        (mapFind keyLt ((s : Int), tsym "$") p.actionTable = some (-1) ↔
          ∃ item ∈ st.items, item.prod = ⟨p.augmentedStart, [p.startSymbol], 0⟩ ∧
            item.isComplete = true) ∧
        ∀ a ∈ p.terminals,
          (mapFind keyLt ((s : Int), a) p.actionTable = some (-1) → a = tsym "$") ∧
          (∀ pr ∈ p.productions, pr.left ≠ p.augmentedStart →
            (mapFind keyLt ((s : Int), a) p.actionTable = some (-(pr.id + 2)) ↔
              ∃ item ∈ st.items, item.prod = pr ∧ item.isComplete = true ∧
                item.lookahead = a)) ∧
          (∀ t : Nat,
            (mapFind keyLt ((s : Int), a) p.actionTable = some ((t : Int) + 1) ↔
              (∃ item ∈ st.items, item.getSymbolAfterDot = a) ∧
                mapFind keyLt ((s : Int), a) p.gotoTable = some (t : Int)))) ∧
      (∀ k v, mapFind keyLt k p.actionTable = some v →
        ∃ (s : Nat) (st : LR1State), p.states[s]? = some st ∧ k.1 = (s : Int) ∧
          k.2 ∈ p.terminals ∧
          (v = -1 ∨ (∃ pr ∈ p.productions, pr.left ≠ p.augmentedStart ∧ v = -(pr.id + 2)) ∨
            ∃ t : Nat, v = (t : Int) + 1)) := by
  refine ⟨freshLit, construct_eq, ?_, ?_⟩
  · intro s st hst
    have hst' : statesLit[s]? = some st := hst
    obtain ⟨hmem, hid, hwf⟩ := state_at s st hst'
    refine ⟨?_, ?_⟩
    · rw [action_at s st hst']
      constructor
      · rintro ⟨item, hit, hw⟩
        rcases (tableWrite_some _ _ _ _ _ _).mp hw with ⟨h1, h2, _, _⟩ | ⟨_, _, _, h4⟩ |
          ⟨_, _, _, _, t, h5, h6⟩
        · exact ⟨item, hit, productionsLit_facts.2.1 _ (hwf item hit) h2, h1⟩
        · have := productionsLit_facts.1 _ (hwf item hit)
          omega
        · have := (goto_value _ _ _ h5).1
          omega
      · rintro ⟨item, hit, hp, hc⟩
        refine ⟨item, hit, (tableWrite_some _ _ _ _ _ _).mpr (Or.inl ⟨hc, ?_, rfl, rfl⟩)⟩
        rw [hp]
        rfl
    · intro a ha
      have hta := terminalsLit_facts.1 a ha
      refine ⟨?_, ?_, ?_⟩
      · intro h
        obtain ⟨item, hit, hw⟩ := (action_at s st hst' a (-1)).mp h
        rcases (tableWrite_some _ _ _ _ _ _).mp hw with ⟨_, _, h3, _⟩ | ⟨_, _, _, h4⟩ |
          ⟨_, _, _, _, t, h5, h6⟩
        · exact (Prod.mk.inj h3).2
        · have := productionsLit_facts.1 _ (hwf item hit)
          omega
        · have := (goto_value _ _ _ h5).1
          omega
      · intro pr hpr hleft
        have hpr0 := productionsLit_facts.1 pr hpr
        rw [action_at s st hst']
        constructor
        · rintro ⟨item, hit, hw⟩
          rcases (tableWrite_some _ _ _ _ _ _).mp hw with ⟨_, _, _, h4⟩ | ⟨h1, _, h3, h4⟩ |
            ⟨_, _, _, _, t, h5, h6⟩
          · omega
          · have hid2 : item.prod.id = pr.id := by omega
            exact ⟨item, hit, productionsLit_facts.2.2 _ (hwf item hit) _ hpr hid2, h1,
              (Prod.mk.inj h3).2.symm⟩
          · have := (goto_value _ _ _ h5).1
            omega
        · rintro ⟨item, hit, hp, hc, hl⟩
          refine ⟨item, hit, (tableWrite_some _ _ _ _ _ _).mpr (Or.inr (Or.inl ⟨hc, ?_, ?_, ?_⟩))⟩
          · rw [hp]; exact hleft
          · rw [hl]
          · rw [hp]
      · intro t
        rw [action_at s st hst']
        constructor
        · rintro ⟨item, hit, hw⟩
          rcases (tableWrite_some _ _ _ _ _ _).mp hw with ⟨_, _, _, h4⟩ | ⟨_, _, _, h4⟩ |
            ⟨_, _, _, h4, t', h5, h6⟩
          · omega
          · have := productionsLit_facts.1 _ (hwf item hit)
            omega
          · have ha2 : a = item.getSymbolAfterDot := (Prod.mk.inj h4).2
            have ht : t' = (t : Int) := by omega
            refine ⟨⟨item, hit, ha2.symm⟩, ?_⟩
            show mapFind keyLt ((s : Int), a) gotoTableLit = some (t : Int)
            rw [ha2, h5, ht]
        · rintro ⟨⟨item, hit, ha2⟩, hg⟩
          have hg' : mapFind keyLt ((s : Int), a) gotoTableLit = some (t : Int) := hg
          refine ⟨item, hit, (tableWrite_some _ _ _ _ _ _).mpr (Or.inr (Or.inr
            ⟨isComplete_of_after item (by rw [ha2]; exact hta.2.2), by rw [ha2]; exact hta.1,
              by rw [ha2]; exact hta.2.1, by rw [ha2], (t : Int), by rw [ha2]; exact hg',
              rfl⟩))⟩
  · intro k v hk
    obtain ⟨st, hst, item, hit, hw⟩ := (action_iff_write k v).mp hk
    obtain ⟨s, hs⟩ := List.getElem?_of_mem hst
    obtain ⟨_, hid, hwf⟩ := state_at s st hs
    have hk1 : k.1 = (s : Int) := by
      have := tableWrite_key _ _ _ _ _ hw
      rw [← hid]
      exact this
    refine ⟨s, st, hs, hk1, ?_⟩
    rcases (tableWrite_some _ _ _ _ _ _).mp hw with ⟨_, _, h3, h4⟩ | ⟨_, h2, h3, h4⟩ |
      ⟨_, h2, _, h4, t, h5, h6⟩
    · refine ⟨?_, Or.inl h4⟩
      rw [h3]
      exact terminalsLit_facts.2.2
    · refine ⟨?_, Or.inr (Or.inl ⟨item.prod, hwf item hit, h2, h4⟩)⟩
      rw [h3]
      exact lookahead_terminal st hst item hit
    · obtain ⟨h0, hsym⟩ := goto_value _ _ _ h5
      refine ⟨?_, Or.inr (Or.inr ⟨t.toNat, by omega⟩)⟩
      rw [h4]
      rcases allSymbolsLit_mem.2.2 _ hsym with ⟨h, _⟩ | h
      · exact h
      · have := terminalsLit_facts.2.1 _ h
        rw [this] at h2
        cases h2

/-! ## FIRST: the least sets closed under the rule (claim C28) -/

theorem computeFirstSets_start (p : LRParser) (fuel : Nat) :
    p.computeFirstSets fuel =
      (firstLoop p.productions fuel (firstStart p.terminals p.firstSet)).map
        (fun fs => { p with firstSet := fs }) := rfl

theorem firstLoop_succ (prods : List Production) (n : Nat) (fs : SymMap) :
    firstLoop prods (n + 1) fs =
      if (firstPass prods fs).2 then firstLoop prods n (firstPass prods fs).1
      else some (firstPass prods fs).1 := rfl

theorem symGet_mapSet (A X : Symbol) (v : List Symbol) (m : SymMap) :
    symGet (mapSet Symbol.lt A v m) X = if X = A then v else symGet m X := by
  unfold symGet
  rw [mapFind_mapSet Symbol.lt symbol_lt_irrefl symbol_eq_of_not_lt]
  split <;> rfl

theorem mem_addNonEpsilon_name (src target : List Symbol) (x : Symbol)
    (h : x ∈ addNonEpsilon src target) : x ∈ target ∨ (x ∈ src ∧ x.name ≠ "E") := by
  unfold addNonEpsilon at h
  induction src generalizing target with
  | nil => left; exact h
  | cons f src ih =>
    rw [List.foldl_cons] at h
    rcases ih _ h with h | h
    · split at h
      · rename_i hne
        rcases mem_setInsert Symbol.lt _ _ _ h with h | h
        · right
          rw [h]
          refine ⟨List.mem_cons_self _ _, ?_⟩
          intro hn
          rw [(strEq_iff _ _).mpr hn] at hne
          exact Bool.noConfusion hne
        · left; exact h
      · left; exact h
    · right; exact ⟨List.mem_cons_of_mem _ h.1, h.2⟩

theorem mem_addNonEpsilon_of_mem (src target : List Symbol) (x : Symbol) (h : x ∈ target) :
    x ∈ addNonEpsilon src target := by
  unfold addNonEpsilon
  induction src generalizing target with
  | nil => exact h
  | cons f src ih =>
    rw [List.foldl_cons]
    apply ih
    split
    · exact mem_setInsert_of_mem _ _ _ _ h
    · exact h

theorem firstWalk_superset (fs : SymMap) (syms acc : List Symbol) (x : Symbol) (h : x ∈ acc) :
    x ∈ (firstWalk fs syms acc).1 := by
  induction syms generalizing acc with
  | nil => exact h
  | cons sym syms ih =>
    rw [firstWalk]
    split
    · exact mem_setInsert_of_mem _ _ _ _ h
    · simp only
      split
      · exact mem_addNonEpsilon_of_mem _ _ _ h
      · exact ih _ (mem_addNonEpsilon_of_mem _ _ _ h)

theorem firstWalk_rule (G : Symbol → Symbol → Prop) (fs : SymMap) (A : Symbol)
    (hF : ∀ X f, f ∈ symGet fs X → G X f) (rest : List Symbol) :
    ∀ (pre acc : List Symbol), (∀ Y ∈ rest, Y.name ≠ "E") → (∀ Z ∈ pre, G Z epsilon) →
      (∀ pre' Y post, pre ++ rest = pre' ++ Y :: post → (∀ Z ∈ pre', G Z epsilon) →
        ∀ f, G Y f → f.name ≠ "E" → G A f) →
      (∀ f ∈ acc, G A f) →
      (∀ f ∈ (firstWalk fs rest acc).1, G A f) ∧
      ((firstWalk fs rest acc).2 = true → ∀ Z ∈ pre ++ rest, G Z epsilon) := by
  induction rest with
  | nil =>
    intro pre acc _ hpre _ hacc
    refine ⟨hacc, fun _ Z hZ => ?_⟩
    rw [List.append_nil] at hZ
    exact hpre Z hZ
  | cons sym rest ih =>
    intro pre acc hnoE hpre hrule hacc
    have hs : strEq sym.name "E" = false :=
      strEq_false_of_ne _ _ (hnoE sym (List.mem_cons_self _ _))
    have hacc1 : ∀ f ∈ addNonEpsilon (symGet fs sym) acc, G A f := by
      intro f hf
      rcases mem_addNonEpsilon_name _ _ f hf with hf | ⟨hf, hn⟩
      · exact hacc f hf
      · exact hrule pre sym rest rfl hpre f (hF sym f hf) hn
    rw [firstWalk]
    simp only [hs, Bool.false_eq_true, if_false]
    split
    · exact ⟨hacc1, fun h => Bool.noConfusion h⟩
    · rename_i hc
      have hc' : setContains Symbol.lt epsilon (symGet fs sym) = true := by
        cases h : setContains Symbol.lt epsilon (symGet fs sym)
        · rw [h] at hc; exact absurd rfl hc
        · rfl
      have heps : G sym epsilon :=
        hF sym epsilon
          ((setContains_iff_mem Symbol.lt symbol_lt_irrefl symbol_eq_of_not_lt _ _).mp hc')
      have hpre2 : ∀ Z ∈ pre ++ [sym], G Z epsilon := by
        intro Z hZ
        rcases List.mem_append.mp hZ with hZ | hZ
        · exact hpre Z hZ
        · rw [List.mem_singleton.mp hZ]; exact heps
      have happ : pre ++ [sym] ++ rest = pre ++ sym :: rest := by
        rw [List.append_assoc]; rfl
      have := ih (pre ++ [sym]) (addNonEpsilon (symGet fs sym) acc)
        (fun Y hY => hnoE Y (List.mem_cons_of_mem _ hY)) hpre2
        (fun pre' Y post h => hrule pre' Y post (by rw [← happ]; exact h)) hacc1
      rw [happ] at this
      exact this

theorem firstRule_split (G : Symbol → Symbol → Prop) (prod : Production) (Y1 : Symbol)
    (hrule : FirstRule G prod) (hhead : prod.right.head? = some Y1) (hn : Y1.name ≠ "E") :
    ∀ pre' Y post, prod.right = pre' ++ Y :: post → (∀ Z ∈ pre', G Z epsilon) →
      ∀ f, G Y f → f.name ≠ "E" → G prod.left f := by
  intro pre' Y post hdec hpre f hf hfn
  refine (hrule.2 Y1 hhead hn).1 pre'.length Y ?_ ?_ f hf hfn
  · rw [hdec, List.getElem?_append_right (le_refl _), Nat.sub_self]
    exact List.getElem?_cons_zero
  · intro j Z hj hZ
    rw [hdec, List.getElem?_append_left hj] at hZ
    exact hpre Z (List.getElem?_mem hZ)

theorem firstProd_rule (G : Symbol → Symbol → Prop) (prod : Production)
    (hrule : FirstRule G prod) (hE : ∀ Y ∈ prod.right.tail, Y.name ≠ "E")
    (acc : SymMap × Bool) (hF : ∀ X f, f ∈ symGet acc.1 X → G X f) :
    ∀ X f, f ∈ symGet (firstProd acc prod).1 X → G X f := by
  intro X f hf
  unfold firstProd at hf
  simp only at hf
  rw [symGet_mapSet] at hf
  split at hf
  swap
  · exact hF X f hf
  rename_i hX
  subst hX
  cases hr : prod.right with
  | nil =>
    rw [hr] at hf
    simp only [firstWalk, List.isEmpty_nil, Bool.not_true, Bool.and_false, Bool.false_and,
      Bool.false_eq_true, if_false] at hf
    exact hF _ f hf
  | cons Y1 tl =>
    have hhead : prod.right.head? = some Y1 := by rw [hr]; rfl
    by_cases hn : Y1.name = "E"
    · have hs : strEq Y1.name "E" = true := (strEq_iff _ _).mpr hn
      rw [hr] at hf
      simp only [firstWalk, hs, if_true, List.headD_cons, Bool.not_true, Bool.and_false,
        Bool.false_eq_true, if_false] at hf
      rcases mem_setInsert Symbol.lt _ _ _ hf with hf | hf
      · rw [hf]; exact hrule.1 Y1 hhead hn
      · exact hF _ f hf
    · have hs : strEq Y1.name "E" = false := strEq_false_of_ne _ _ hn
      have hnoE : ∀ Y ∈ prod.right, Y.name ≠ "E" := by
        intro Y hY
        rw [hr] at hY
        rcases List.mem_cons.mp hY with hY | hY
        · rw [hY]; exact hn
        · exact hE Y (by rw [hr]; exact hY)
      have hw := firstWalk_rule G acc.1 prod.left hF prod.right [] (symGet acc.1 prod.left)
        hnoE (fun Z hZ => by cases hZ)
        (fun pre' Y post h => firstRule_split G prod Y1 hrule hhead hn pre' Y post h)
        (fun f hf => hF _ f hf)
      rw [List.nil_append] at hw
      split at hf
      · rename_i hcond
        rcases mem_setInsert Symbol.lt _ _ _ hf with hf | hf
        · rw [hf]
          simp only [Bool.and_eq_true] at hcond
          exact (hrule.2 Y1 hhead hn).2 (hw.2 hcond.1.1)
        · exact hw.1 f hf
      · exact hw.1 f hf

theorem firstPass_rule (G : Symbol → Symbol → Prop) (prods : List Production)
    (hrule : ∀ prod ∈ prods, FirstRule G prod)
    (hE : ∀ prod ∈ prods, ∀ Y ∈ prod.right.tail, Y.name ≠ "E")
    (acc : SymMap × Bool) (hF : ∀ X f, f ∈ symGet acc.1 X → G X f) :
    ∀ X f, f ∈ symGet (prods.foldl firstProd acc).1 X → G X f := by
  induction prods generalizing acc with
  | nil => exact hF
  | cons prod prods ih =>
    rw [List.foldl_cons]
    exact ih (fun q hq => hrule q (List.mem_cons_of_mem _ hq))
      (fun q hq => hE q (List.mem_cons_of_mem _ hq)) _
      (firstProd_rule G prod (hrule prod (List.mem_cons_self _ _))
        (hE prod (List.mem_cons_self _ _)) acc hF)

theorem firstLoop_rule (G : Symbol → Symbol → Prop) (prods : List Production)
    (hrule : ∀ prod ∈ prods, FirstRule G prod)
    (hE : ∀ prod ∈ prods, ∀ Y ∈ prod.right.tail, Y.name ≠ "E") (n : Nat) :
    ∀ (fs r : SymMap), (∀ X f, f ∈ symGet fs X → G X f) → firstLoop prods n fs = some r →
      ∀ X f, f ∈ symGet r X → G X f := by
  induction n with
  | zero => intro fs r _ h; cases h
  | succ n ih =>
    intro fs r hF h
    rw [firstLoop_succ] at h
    have hp := firstPass_rule G prods hrule hE (fs, false) hF
    split at h
    · exact ih _ r hp h
    · cases h
      exact hp

theorem firstStart_rule (G : Symbol → Symbol → Prop) (terminals : List Symbol)
    (hT : ∀ t ∈ terminals, G t t) (hEps : G epsilon epsilon) (fs : SymMap)
    (hF : ∀ X f, f ∈ symGet fs X → G X f) :
    ∀ X f, f ∈ symGet (firstStart terminals fs) X → G X f := by
  have hfold : ∀ (ts : List Symbol) (m : SymMap), (∀ t ∈ ts, G t t) →
      (∀ X f, f ∈ symGet m X → G X f) →
      ∀ X f, f ∈ symGet (ts.foldl
        (fun m t => mapSet Symbol.lt t (setInsert Symbol.lt t (symGet m t)) m) m) X → G X f := by
    intro ts
    induction ts with
    | nil => intro m _ hm; exact hm
    | cons t ts ih =>
      intro m hts hm
      rw [List.foldl_cons]
      apply ih _ (fun u hu => hts u (List.mem_cons_of_mem _ hu))
      intro X f hf
      rw [symGet_mapSet] at hf
      split at hf
      · rename_i hX
        rcases mem_setInsert Symbol.lt _ _ _ hf with hf | hf
        · rw [hf, hX]; exact hts t (List.mem_cons_self _ _)
        · rw [hX]; exact hm t f hf
      · exact hm X f hf
  intro X f hf
  unfold firstStart at hf
  simp only at hf
  rw [symGet_mapSet] at hf
  split at hf
  · rename_i hX
    rcases mem_setInsert Symbol.lt _ _ _ hf with hf | hf
    · rw [hf, hX]; exact hEps
    · rw [hX]; exact hfold terminals fs hT hF _ f hf
  · exact hfold terminals fs hT hF X f hf

theorem firstLoop_lit :
    firstLoop productionsLit 200 (firstStart terminalsLit []) = some firstSetLit := by
  have h := computeFirstSets_eq
  rw [computeFirstSets_start] at h
  cases hl : firstLoop grammarLit.productions 200
      (firstStart grammarLit.terminals grammarLit.firstSet) with
  | none => rw [hl] at h; cases h
  | some fs =>
    rw [hl] at h
    have hfs : fs = firstSetLit := congrArg LRParser.firstSet (Option.some.inj h)
    rw [← hfs]
    exact hl

theorem productionsLit_shape :
    ∀ prod ∈ productionsLit, prod.right ≠ [] ∧ ∀ Y ∈ prod.right.tail, Y.name ≠ "E" := by
  decide!

theorem first_closed_eval :
    ∀ prod ∈ productionsLit,
      ((prod.right.headD ⟨"", true⟩).name = "E" → epsilon ∈ symGet firstSetLit prod.left) ∧
      ((prod.right.headD ⟨"", true⟩).name ≠ "E" →
        (∀ i < prod.right.length,
          (∀ j < i, epsilon ∈ symGet firstSetLit (prod.right.getD j ⟨"", true⟩)) →
          ∀ f ∈ symGet firstSetLit (prod.right.getD i ⟨"", true⟩), f.name ≠ "E" →
            f ∈ symGet firstSetLit prod.left) ∧
        ((∀ Z ∈ prod.right, epsilon ∈ symGet firstSetLit Z) →
          epsilon ∈ symGet firstSetLit prod.left)) := by
  decide!

theorem getD_of_getElem {α : Type} (l : List α) (i : Nat) (x d : α) (h : l[i]? = some x) :
    i < l.length ∧ l.getD i d = x := by
  refine ⟨lt_of_getElem_some l i x h, ?_⟩
  rw [List.getD_eq_getElem?_getD, h]
  rfl

theorem firstRule_lit :
    ∀ prod ∈ productionsLit, FirstRule (fun X f => f ∈ symGet firstSetLit X) prod := by
  intro prod hprod
  obtain ⟨h1, h2⟩ := first_closed_eval prod hprod
  have hhd : ∀ Y1, prod.right.head? = some Y1 → prod.right.headD ⟨"", true⟩ = Y1 := by
    intro Y1 h
    cases hr : prod.right with
    | nil => rw [hr] at h; cases h
    | cons a l =>
      rw [hr] at h
      exact Option.some.inj h
  refine ⟨?_, ?_⟩
  · intro Y1 hY1 hn
    exact h1 (by rw [hhd Y1 hY1]; exact hn)
  · intro Y1 hY1 hn
    obtain ⟨h3, h4⟩ := h2 (by rw [hhd Y1 hY1]; exact hn)
    refine ⟨?_, h4⟩
    intro i Y hY hpre f hf hfn
    obtain ⟨hi, hg⟩ := getD_of_getElem prod.right i Y ⟨"", true⟩ hY
    refine h3 i hi ?_ f (by rw [hg]; exact hf) hfn
    intro j hj
    have hjl : j < prod.right.length := lt_trans hj hi
    have hZ : prod.right[j]? = some (prod.right.getD j ⟨"", true⟩) := by
      rw [List.getD_eq_getElem?_getD, List.getElem?_eq_getElem hjl]
      rfl
    exact hpre j _ hj hZ

/-- Claim C28.  After `computeFirstSets` the FIRST sets are the least sets closed under the
rule of FIRST.  In the constructed parser no production has an empty right-hand side, and
for every production `A → Y1..Yk`: `E` is in FIRST(A) if `Y1` is the epsilon marker;
otherwise FIRST(Yi) without `E` is in FIRST(A) for each `Yi` up to and including the first
whose FIRST set lacks `E`, and `E` is in FIRST(A) if every `Yi` has `E` in its FIRST set.
And every family of sets that has `t` in the set of each terminal `t`, `E` in the set of
`E`, and is closed under the same rule contains the computed FIRST sets. -/
theorem first_least_fixpoint :
    ∃ p, LRParser.construct 200 = some p ∧
      (∀ prod ∈ p.productions, prod.right ≠ [] ∧
        FirstRule (fun X f => f ∈ symGet p.firstSet X) prod) ∧
      (∀ G : Symbol → Symbol → Prop, (∀ t ∈ p.terminals, G t t) → G epsilon epsilon →
        (∀ prod ∈ p.productions, FirstRule G prod) →
        ∀ X f, f ∈ symGet p.firstSet X → G X f) := by
  refine ⟨freshLit, construct_eq, ?_, ?_⟩
  · intro prod hprod
    exact ⟨(productionsLit_shape prod hprod).1, firstRule_lit prod hprod⟩
  · intro G hT hEps hrule
    have hstart := firstStart_rule G terminalsLit hT hEps [] (fun X f hf => by cases hf)
    exact firstLoop_rule G productionsLit hrule (fun q hq => (productionsLit_shape q hq).2)
      200 _ _ hstart firstLoop_lit

/-! ## FOLLOW: the least sets closed under the rule (claim C29) -/

theorem computeFollowSets_start (p : LRParser) (fuel : Nat) :
    p.computeFollowSets fuel =
      (followLoop p.productions p.firstSet fuel
        (followStart p.augmentedStart p.startSymbol p.followSet)).map
        (fun fo => { p with followSet := fo }) := rfl

theorem followLoop_succ (prods : List Production) (fs : SymMap) (n : Nat) (fo : SymMap) :
    followLoop prods fs (n + 1) fo =
      if (followPass prods fs fo).2 then followLoop prods fs n (followPass prods fs fo).1
      else some (followPass prods fs fo).1 := rfl

theorem mem_insertAll (src target : List Symbol) (x : Symbol)
    (h : x ∈ src.foldl (fun s f => setInsert Symbol.lt f s) target) :
    x ∈ target ∨ x ∈ src := by
  induction src generalizing target with
  | nil => left; exact h
  | cons f src ih =>
    rw [List.foldl_cons] at h
    rcases ih _ h with h | h
    · rcases mem_setInsert Symbol.lt _ _ _ h with h | h
      · right; rw [h]; exact List.mem_cons_self _ _
      · left; exact h
    · right; exact List.mem_cons_of_mem _ h

theorem mem_insertAll_of_mem (src target : List Symbol) (x : Symbol) (h : x ∈ target) :
    x ∈ src.foldl (fun s f => setInsert Symbol.lt f s) target := by
  induction src generalizing target with
  | nil => exact h
  | cons f src ih =>
    rw [List.foldl_cons]
    exact ih _ (mem_setInsert_of_mem _ _ _ _ h)

theorem getElem_of_getD {α : Type} (l : List α) (i : Nat) (d : α) (h : i < l.length) :
    l[i]? = some (l.getD i d) := by
  rw [List.getD_eq_getElem?_getD, List.getElem?_eq_getElem h]
  rfl

theorem followPos_rule (fs : SymMap) (H : Symbol → Symbol → Prop) (prod : Production)
    (hrule : FollowRule fs H prod) (acc : SymMap × Bool) (i : Nat)
    (hi : i < prod.right.length) (hH : ∀ X f, f ∈ symGet acc.1 X → H X f) :
    ∀ X f, f ∈ symGet (followPos fs prod acc i).1 X → H X f := by
  intro X f hf
  unfold followPos at hf
  simp only at hf
  split at hf
  · exact hH X f hf
  · rename_i hskip
    have hterm : (prod.right.getD i ⟨"", true⟩).isTerminal = false := by
      cases h : (prod.right.getD i ⟨"", true⟩).isTerminal
      · rfl
      · rw [h] at hskip
        exact absurd (Bool.true_or _) hskip
    obtain ⟨hr1, hr2⟩ := hrule i _ (getElem_of_getD prod.right i ⟨"", true⟩ hi) hterm
    have hm1 : ∀ X f, f ∈ symGet (mapSet Symbol.lt (prod.right.getD i ⟨"", true⟩)
        (addNonEpsilon (getFirstOfString fs prod.right (i + 1))
          (symGet acc.1 (prod.right.getD i ⟨"", true⟩))) acc.1) X → H X f := by
      intro X f hf
      rw [symGet_mapSet] at hf
      split at hf
      · rename_i hX
        rw [hX]
        rcases mem_addNonEpsilon_name _ _ f hf with hf | ⟨hf, hn⟩
        · exact hH _ f hf
        · exact hr1 f hf hn
      · exact hH X f hf
    split at hf
    · rename_i hc
      have heps : epsilon ∈ getFirstOfString fs prod.right (i + 1) :=
        (setContains_iff_mem Symbol.lt symbol_lt_irrefl symbol_eq_of_not_lt _ _).mp hc
      rw [symGet_mapSet] at hf
      split at hf
      · rename_i hX
        rw [hX]
        rcases mem_insertAll _ _ f hf with hf | hf
        · exact hm1 _ f hf
        · exact hr2 (Or.inr heps) f (hm1 _ f hf)
      · exact hm1 X f hf
    · exact hm1 X f hf

theorem followPass_rule (fs : SymMap) (H : Symbol → Symbol → Prop) (prods : List Production)
    (hrule : ∀ prod ∈ prods, FollowRule fs H prod)
    (acc : SymMap × Bool) (hH : ∀ X f, f ∈ symGet acc.1 X → H X f) :
    ∀ X f, f ∈ symGet (prods.foldl
      (fun acc prod => (List.range prod.right.length).foldl (followPos fs prod) acc) acc).1 X →
      H X f := by
  have hinner : ∀ (prod : Production), FollowRule fs H prod → ∀ (is : List Nat),
      (∀ i ∈ is, i < prod.right.length) → ∀ (acc : SymMap × Bool),
      (∀ X f, f ∈ symGet acc.1 X → H X f) →
      ∀ X f, f ∈ symGet (is.foldl (followPos fs prod) acc).1 X → H X f := by
    intro prod hr is
    induction is with
    | nil => intro _ acc hacc; exact hacc
    | cons i is ih =>
      intro his acc hacc
      rw [List.foldl_cons]
      exact ih (fun j hj => his j (List.mem_cons_of_mem _ hj)) _
        (followPos_rule fs H prod hr acc i (his i (List.mem_cons_self _ _)) hacc)
  induction prods generalizing acc with
  | nil => exact hH
  | cons prod prods ih =>
    rw [List.foldl_cons]
    exact ih (fun q hq => hrule q (List.mem_cons_of_mem _ hq)) _
      (hinner prod (hrule prod (List.mem_cons_self _ _)) _
        (fun i hi => List.mem_range.mp hi) acc hH)

theorem followLoop_rule (fs : SymMap) (H : Symbol → Symbol → Prop) (prods : List Production)
    (hrule : ∀ prod ∈ prods, FollowRule fs H prod) (n : Nat) :
    ∀ (fo r : SymMap), (∀ X f, f ∈ symGet fo X → H X f) → followLoop prods fs n fo = some r →
      ∀ X f, f ∈ symGet r X → H X f := by
  induction n with
  | zero => intro fo r _ h; cases h
  | succ n ih =>
    intro fo r hH h
    rw [followLoop_succ] at h
    have hp := followPass_rule fs H prods hrule (fo, false) hH
    split at h
    · exact ih _ r hp h
    · cases h
      exact hp

theorem followStart_rule (H : Symbol → Symbol → Prop) (aug start : Symbol)
    (h1 : H aug ⟨"$", true⟩) (h2 : H start ⟨"$", true⟩) (fo : SymMap)
    (hH : ∀ X f, f ∈ symGet fo X → H X f) :
    ∀ X f, f ∈ symGet (followStart aug start fo) X → H X f := by
  have hfo1 : ∀ X f, f ∈ symGet (mapSet Symbol.lt aug
      (setInsert Symbol.lt ⟨"$", true⟩ (symGet fo aug)) fo) X → H X f := by
    intro X f hf
    rw [symGet_mapSet] at hf
    split at hf
    · rename_i hX
      rcases mem_setInsert Symbol.lt _ _ _ hf with hf | hf
      · rw [hf, hX]; exact h1
      · rw [hX]; exact hH _ f hf
    · exact hH X f hf
  intro X f hf
  unfold followStart at hf
  simp only at hf
  rw [symGet_mapSet] at hf
  split at hf
  · rename_i hX
    rcases mem_setInsert Symbol.lt _ _ _ hf with hf | hf
    · rw [hf, hX]; exact h2
    · rw [hX]; exact hfo1 _ f hf
  · exact hfo1 X f hf

theorem followLoop_lit :
    followLoop productionsLit firstSetLit 200
      (followStart (nsym "program'") (nsym "program") []) = some followSetLit := by
  have h := computeFollowSets_eq
  rw [computeFollowSets_start] at h
  cases hl : followLoop firstLit.productions firstLit.firstSet 200
      (followStart firstLit.augmentedStart firstLit.startSymbol firstLit.followSet) with
  | none => rw [hl] at h; cases h
  | some fo =>
    rw [hl] at h
    have hfo : fo = followSetLit := congrArg LRParser.followSet (Option.some.inj h)
    rw [← hfo]
    exact hl

theorem follow_closed_eval :
    ∀ prod ∈ productionsLit, ∀ i < prod.right.length,
      (prod.right.getD i ⟨"", true⟩).isTerminal = false →
        (∀ f ∈ getFirstOfString firstSetLit prod.right (i + 1), f.name ≠ "E" →
          f ∈ symGet followSetLit (prod.right.getD i ⟨"", true⟩)) ∧
        ((i + 1 ≥ prod.right.length ∨
            epsilon ∈ getFirstOfString firstSetLit prod.right (i + 1)) →
          ∀ f ∈ symGet followSetLit prod.left,
            f ∈ symGet followSetLit (prod.right.getD i ⟨"", true⟩)) := by
  decide!

theorem followRule_lit :
    ∀ prod ∈ productionsLit,
      FollowRule firstSetLit (fun X f => f ∈ symGet followSetLit X) prod := by
  intro prod hprod i B hB hterm
  obtain ⟨hi, hg⟩ := getD_of_getElem prod.right i B ⟨"", true⟩ hB
  have h := follow_closed_eval prod hprod i hi (by rw [hg]; exact hterm)
  rw [hg] at h
  exact h

/-- Claim C29.  After `computeFollowSets` the FOLLOW sets are the least sets closed under
the rule of FOLLOW.  In the constructed parser `$` is in FOLLOW(program') and in
FOLLOW(program), and for every occurrence of a non-terminal `B` in a production
`A → α B β`, FIRST-of-string(β) without `E` is contained in FOLLOW(B) and, when β is empty
or FIRST-of-string(β) contains `E`, FOLLOW(A) is contained in FOLLOW(B).  And every
family of sets with these properties contains the computed FOLLOW sets. -/
theorem follow_least_fixpoint :
    ∃ p, LRParser.construct 200 = some p ∧
      tsym "$" ∈ symGet p.followSet p.augmentedStart ∧
      tsym "$" ∈ symGet p.followSet p.startSymbol ∧
      (∀ prod ∈ p.productions,
        FollowRule p.firstSet (fun X f => f ∈ symGet p.followSet X) prod) ∧
      (∀ H : Symbol → Symbol → Prop, H p.augmentedStart (tsym "$") →
        H p.startSymbol (tsym "$") →
        (∀ prod ∈ p.productions, FollowRule p.firstSet H prod) →
        ∀ X f, f ∈ symGet p.followSet X → H X f) := by
  refine ⟨freshLit, construct_eq, by decide, by decide, followRule_lit, ?_⟩
  intro H h1 h2 hrule
  have hstart := followStart_rule H (nsym "program'") (nsym "program") h1 h2 []
    (fun X f hf => by cases hf)
  exact followLoop_rule firstSetLit H productionsLit hrule 200 _ _ hstart followLoop_lit

/-! ## The fixpoint loops of FIRST and FOLLOW terminate (claim C30) -/

theorem firstProd_superset (acc : SymMap × Bool) (prod : Production) (X f : Symbol)
    (h : f ∈ symGet acc.1 X) : f ∈ symGet (firstProd acc prod).1 X := by
  unfold firstProd
  simp only
  rw [symGet_mapSet]
  split
  · rename_i hX
    rw [hX] at h
    have hw := firstWalk_superset acc.1 prod.right _ f h
    split
    · exact mem_setInsert_of_mem _ _ _ _ hw
    · exact hw
  · exact h

theorem firstPass_superset (prods : List Production) (fs : SymMap) (X f : Symbol)
    (h : f ∈ symGet fs X) : f ∈ symGet (firstPass prods fs).1 X := by
  unfold firstPass
  have hfold : ∀ (acc : SymMap × Bool), f ∈ symGet acc.1 X →
      f ∈ symGet (prods.foldl firstProd acc).1 X := by
    induction prods with
    | nil => intro acc h; exact h
    | cons prod prods ih =>
      intro acc h
      rw [List.foldl_cons]
      exact ih _ (firstProd_superset acc prod X f h)
  exact hfold (fs, false) h

theorem followPos_superset (fs : SymMap) (prod : Production) (acc : SymMap × Bool) (i : Nat)
    (X f : Symbol) (h : f ∈ symGet acc.1 X) : f ∈ symGet (followPos fs prod acc i).1 X := by
  unfold followPos
  simp only
  split
  · exact h
  · have hm1 : f ∈ symGet (mapSet Symbol.lt (prod.right.getD i ⟨"", true⟩)
        (addNonEpsilon (getFirstOfString fs prod.right (i + 1))
          (symGet acc.1 (prod.right.getD i ⟨"", true⟩))) acc.1) X := by
      rw [symGet_mapSet]
      split
      · rename_i hX
        rw [hX] at h
        exact mem_addNonEpsilon_of_mem _ _ _ h
      · exact h
    split
    · rw [symGet_mapSet]
      split
      · rename_i hX
        rw [hX] at hm1
        exact mem_insertAll_of_mem _ _ _ hm1
      · exact hm1
    · exact hm1

theorem followPass_superset (prods : List Production) (fs fo : SymMap) (X f : Symbol)
    (h : f ∈ symGet fo X) : f ∈ symGet (followPass prods fs fo).1 X := by
  unfold followPass
  have hinner : ∀ (prod : Production) (is : List Nat) (acc : SymMap × Bool),
      f ∈ symGet acc.1 X → f ∈ symGet (is.foldl (followPos fs prod) acc).1 X := by
    intro prod is
    induction is with
    | nil => intro acc h; exact h
    | cons i is ih =>
      intro acc h
      rw [List.foldl_cons]
      exact ih _ (followPos_superset fs prod acc i X f h)
  have hfold : ∀ (acc : SymMap × Bool), f ∈ symGet acc.1 X →
      f ∈ symGet (prods.foldl
        (fun acc prod => (List.range prod.right.length).foldl (followPos fs prod) acc) acc).1 X := by
    induction prods with
    | nil => intro acc h; exact h
    | cons prod prods ih =>
      intro acc h
      rw [List.foldl_cons]
      exact ih _ (hinner prod _ acc h)
  exact hfold (fo, false) h

theorem firstLoop_passes :
    firstLoop productionsLit 4 (firstStart terminalsLit []) = none ∧
    firstLoop productionsLit 5 (firstStart terminalsLit []) = some firstSetLit := by
  decide!

theorem followLoop_passes :
    followLoop productionsLit firstSetLit 2
      (followStart (nsym "program'") (nsym "program") []) = none ∧
    followLoop productionsLit firstSetLit 3
      (followStart (nsym "program'") (nsym "program") []) = some followSetLit := by
  decide!

theorem firstRule_bound (T : List Symbol) (prod : Production) :
    FirstRule (fun _ f => f ∈ T ∨ f = epsilon) prod :=
  ⟨fun _ _ _ => Or.inr rfl,
    fun _ _ _ => ⟨fun _ _ _ _ _ hf _ => hf, fun _ => Or.inr rfl⟩⟩

theorem firstSetLit_values :
    ∀ e ∈ firstSetLit, ∀ f ∈ e.2, f.name ≠ "E" → f ∈ terminalsLit := by
  decide!

theorem followRule_bound (prod : Production) :
    FollowRule firstSetLit (fun _ f => f ∈ terminalsLit) prod := by
  intro i B _ _
  refine ⟨?_, fun _ f hf => hf⟩
  intro f hf hn
  rcases mem_getFirstOfString firstSetLit prod.right (i + 1) f hf with h | h
  · rw [h] at hn
    exact absurd rfl hn
  · obtain ⟨e, he, hfe⟩ := List.mem_flatMap.mp h
    exact firstSetLit_values e he f hfe hn

/-- Claim C30.  The fixpoint loops of `computeFirstSets` and `computeFollowSets`
terminate.  For the grammar of the constructed parser the loop of `computeFirstSets` ends
in its fifth pass and that of `computeFollowSets` in its third, whatever larger bound is
put on the number of passes.  In every pass each set is a superset of its value before
the pass; every FIRST set is a subset of the terminals plus `E` when the loop starts and
after each pass, and every FOLLOW set is a subset of the terminals when the loop starts
and after each pass. -/
theorem fixpoint_loops_terminate :
    ∃ p, LRParser.construct 200 = some p ∧
      (firstLoop p.productions 4 (firstStart p.terminals LRParser.blank.firstSet) = none ∧
        ∀ n, 5 ≤ n →
          firstLoop p.productions n (firstStart p.terminals LRParser.blank.firstSet) =
            some p.firstSet) ∧
      (followLoop p.productions p.firstSet 2
          (followStart p.augmentedStart p.startSymbol LRParser.blank.followSet) = none ∧
        ∀ n, 3 ≤ n →
          followLoop p.productions p.firstSet n
            (followStart p.augmentedStart p.startSymbol LRParser.blank.followSet) =
            some p.followSet) ∧
      (∀ fs X f, f ∈ symGet fs X → f ∈ symGet (firstPass p.productions fs).1 X) ∧
      (∀ fo X f, f ∈ symGet fo X →
        f ∈ symGet (followPass p.productions p.firstSet fo).1 X) ∧
      (∀ X f, f ∈ symGet (firstStart p.terminals LRParser.blank.firstSet) X →
        f ∈ p.terminals ∨ f = epsilon) ∧
      (∀ fs, (∀ X f, f ∈ symGet fs X → f ∈ p.terminals ∨ f = epsilon) →
        ∀ X f, f ∈ symGet (firstPass p.productions fs).1 X →
          f ∈ p.terminals ∨ f = epsilon) ∧
      (∀ X f,
        f ∈ symGet (followStart p.augmentedStart p.startSymbol LRParser.blank.followSet) X →
          f ∈ p.terminals) ∧
      (∀ fo, (∀ X f, f ∈ symGet fo X → f ∈ p.terminals) →
        ∀ X f, f ∈ symGet (followPass p.productions p.firstSet fo).1 X →
          f ∈ p.terminals) := by
  refine ⟨freshLit, construct_eq, ⟨firstLoop_passes.1, ?_⟩, ⟨followLoop_passes.1, ?_⟩,
    fun fs X f h => firstPass_superset productionsLit fs X f h,
    fun fo X f h => followPass_superset productionsLit firstSetLit fo X f h, ?_, ?_, ?_, ?_⟩
  · intro n hn
    have h := firstLoop_mono productionsLit 5 (n - 5) _ _ firstLoop_passes.2
    rw [show 5 + (n - 5) = n by omega] at h
    exact h
  · intro n hn
    have h := followLoop_mono productionsLit firstSetLit 3 (n - 3) _ _ followLoop_passes.2
    rw [show 3 + (n - 3) = n by omega] at h
    exact h
  · exact firstStart_rule (fun _ f => f ∈ terminalsLit ∨ f = epsilon) terminalsLit
      (fun t ht => Or.inl ht) (Or.inr rfl) [] (fun X f hf => by cases hf)
  · intro fs hfs
    exact firstPass_rule (fun _ f => f ∈ terminalsLit ∨ f = epsilon) productionsLit
      (fun prod _ => firstRule_bound terminalsLit prod)
      (fun q hq => (productionsLit_shape q hq).2) (fs, false) hfs
  · exact followStart_rule (fun _ f => f ∈ terminalsLit) (nsym "program'") (nsym "program")
      terminalsLit_facts.2.2 terminalsLit_facts.2.2 [] (fun X f hf => by cases hf)
  · intro fo hfo
    exact followPass_rule firstSetLit (fun _ f => f ∈ terminalsLit) productionsLit
      (fun prod _ => followRule_bound prod) (fo, false) hfo

/-! ## Derivations and parse trees -/

theorem yields_terminals (prods : List Production) (w : List Symbol)
    (h : ∀ x ∈ w, x.isTerminal = true) : Yields prods w w := by
  induction w with
  | nil => exact Yields.nil
  | cons a w ih =>
    exact Yields.term a w w (h a (List.mem_cons_self _ _))
      (ih (fun x hx => h x (List.mem_cons_of_mem _ hx)))

theorem yields_append (prods : List Production) (α β u v : List Symbol)
    (h1 : Yields prods α u) (h2 : Yields prods β v) : Yields prods (α ++ β) (u ++ v) := by
  induction h1 with
  | nil => exact h2
  | term a rest w ha _ ih => exact Yields.term a (rest ++ β) (w ++ v) ha ih
  | nonterm prod rest u' w hp h1 _ _ ih2 =>
    rw [List.append_assoc]
    exact Yields.nonterm prod (rest ++ β) u' (w ++ v) hp h1 ih2

theorem yields_split (prods : List Production) (α : List Symbol) :
    ∀ (β w : List Symbol), Yields prods (α ++ β) w →
      ∃ u v, w = u ++ v ∧ Yields prods α u ∧ Yields prods β v := by
  induction α with
  | nil => intro β w h; exact ⟨[], w, rfl, Yields.nil, h⟩
  | cons X α ih =>
    intro β w h
    generalize hform : X :: α ++ β = form at h
    cases h with
    | nil => cases hform
    | term a rest w' ha hrest =>
      have h1 : X = a := (List.cons.inj hform).1
      have h2 : α ++ β = rest := (List.cons.inj hform).2
      subst h1
      subst h2
      obtain ⟨u, v, hw, hu, hv⟩ := ih β w' hrest
      exact ⟨X :: u, v, by rw [hw]; rfl, Yields.term X α u ha hu, hv⟩
    | nonterm prod rest u' w' hp hrhs hrest =>
      have h1 : X = prod.left := (List.cons.inj hform).1
      have h2 : α ++ β = rest := (List.cons.inj hform).2
      subst h2
      obtain ⟨u, v, hw, hu, hv⟩ := ih β w' hrest
      refine ⟨u' ++ u, v, by rw [hw, List.append_assoc], ?_, hv⟩
      rw [h1]
      exact Yields.nonterm prod α u' u hp hrhs hu

theorem yields_of_derives (prods : List Production) (form w : List Symbol)
    (h : Derives prods form w) (hw : ∀ x ∈ w, x.isTerminal = true) : Yields prods form w := by
  induction h with
  | refl form => exact yields_terminals prods form hw
  | step form next w hstep _ ih =>
    obtain ⟨α, β, prod, hp, hform, hnext⟩ := hstep
    have hy := ih hw
    rw [hnext, List.append_assoc] at hy
    obtain ⟨u, v, hw1, hu, hv⟩ := yields_split prods α _ w hy
    obtain ⟨v1, v2, hw2, hv1, hv2⟩ := yields_split prods (rhsOf prod) β v hv
    rw [hform, hw1, hw2]
    exact yields_append prods α _ u _ hu (Yields.nonterm prod β v1 v2 hp hv1 hv2)

/-! ## FIRST holds the first terminal of everything a form derives -/

theorem grammar_shape :
    ∀ prod ∈ productionsLit,
      prod.left.isTerminal = false ∧ prod.left.name ≠ "" ∧
      productionAt productionsLit prod.id = some prod ∧
      (isEpsilonRight prod.right = false →
        ∀ Y ∈ prod.right, Y.name ≠ "E" ∧ Y.name ≠ "" ∧ Y ≠ nsym "program'" ∧
          Y ∈ allSymbolsLit ∧ (Y.isTerminal = true → Y ∈ terminalsLit)) := by
  decide!

theorem first_terminal_self : ∀ t ∈ terminalsLit, t ∈ symGet firstSetLit t := by
  decide!

theorem isEpsilonRight_head (right : List Symbol) (h : isEpsilonRight right = true) :
    ∃ Y1, right.head? = some Y1 ∧ Y1.name = "E" := by
  cases right with
  | nil => cases h
  | cons s rest =>
    cases rest with
    | nil => exact ⟨s, rfl, (strEq_iff _ _).mp h⟩
    | cons t rest => cases h

theorem rhsOf_of_not_epsilon (prod : Production) (h : isEpsilonRight prod.right = false) :
    rhsOf prod = prod.right := by
  unfold rhsOf
  rw [h]
  rfl

theorem rhsOf_of_epsilon (prod : Production) (h : isEpsilonRight prod.right = true) :
    rhsOf prod = [] := by
  unfold rhsOf
  rw [h]
  rfl

theorem rhsOf_good (prod : Production) (hprod : prod ∈ productionsLit) :
    ∀ Z ∈ rhsOf prod, Z.isTerminal = true → Z ∈ terminalsLit := by
  intro Z hZ ht
  cases he : isEpsilonRight prod.right with
  | true => rw [rhsOf_of_epsilon prod he] at hZ; cases hZ
  | false =>
    rw [rhsOf_of_not_epsilon prod he] at hZ
    exact ((grammar_shape prod hprod).2.2.2 he Z hZ).2.2.2.2 ht

theorem yields_nil_inv (prods : List Production) (w : List Symbol)
    (h : Yields prods [] w) : w = [] := by
  cases h
  rfl

theorem first_of_left (prod : Production) (hprod : prod ∈ productionsLit) :
    (∀ b, InFirst firstSetLit (rhsOf prod) b → b.name ≠ "E" →
      b ∈ symGet firstSetLit prod.left) ∧
    ((∀ Z ∈ rhsOf prod, epsilon ∈ symGet firstSetLit Z) →
      epsilon ∈ symGet firstSetLit prod.left) := by
  have hrule := firstRule_lit prod hprod
  cases he : isEpsilonRight prod.right with
  | true =>
    obtain ⟨Y1, hhead, hn⟩ := isEpsilonRight_head prod.right he
    refine ⟨?_, fun _ => hrule.1 Y1 hhead hn⟩
    intro b hb _
    obtain ⟨pre, X, post, hdec, _, _⟩ := hb
    rw [rhsOf_of_epsilon prod he] at hdec
    cases pre <;> cases hdec
  | false =>
    rw [rhsOf_of_not_epsilon prod he]
    have hne := (productionsLit_shape prod hprod).1
    cases hr : prod.right with
    | nil => exact absurd hr hne
    | cons Y1 tl =>
      have hhead : prod.right.head? = some Y1 := by rw [hr]; rfl
      have hn : Y1.name ≠ "E" :=
        ((grammar_shape prod hprod).2.2.2 he Y1 (by rw [hr]; exact List.mem_cons_self _ _)).1
      rw [← hr]
      refine ⟨?_, (hrule.2 Y1 hhead hn).2⟩
      intro b hb hbn
      obtain ⟨pre, X, post, hdec, hpre, hbX⟩ := hb
      exact firstRule_split _ prod Y1 hrule hhead hn pre X post hdec hpre b hbX hbn

theorem first_complete (α w : List Symbol) (h : Yields productionsLit α w) :
    (∀ Z ∈ α, Z.isTerminal = true → Z ∈ terminalsLit) →
    (∀ b w', w = b :: w' → InFirst firstSetLit α b ∧ b ∈ terminalsLit) ∧
    (w = [] → ∀ Z ∈ α, epsilon ∈ symGet firstSetLit Z) := by
  induction h with
  | nil =>
    intro _
    exact ⟨fun b w' h => (by cases h), fun _ Z hZ => (by cases hZ)⟩
  | term a rest w ha _ _ =>
    intro hgood
    have hat := hgood a (List.mem_cons_self _ _) ha
    refine ⟨?_, fun h => by cases h⟩
    intro b w' hw
    have hb : a = b := (List.cons.inj hw).1
    subst hb
    exact ⟨⟨[], a, rest, rfl, fun Z hZ => (by cases hZ), first_terminal_self a hat⟩, hat⟩
  | nonterm prod rest u w hp _ _ ih1 ih2 =>
    intro hgood
    obtain ⟨i1a, i1b⟩ := ih1 (rhsOf_good prod hp)
    obtain ⟨i2a, i2b⟩ := ih2 (fun Z hZ => hgood Z (List.mem_cons_of_mem _ hZ))
    obtain ⟨hl1, hl2⟩ := first_of_left prod hp
    cases u with
    | cons b u' =>
      refine ⟨?_, fun h => by cases h⟩
      intro b' w' hw
      have hb : b = b' := (List.cons.inj hw).1
      subst hb
      obtain ⟨hin, hbt⟩ := i1a b u' rfl
      exact ⟨⟨[], prod.left, rest, rfl, fun Z hZ => (by cases hZ),
        hl1 b hin (terminalsLit_facts.1 b hbt).2.1⟩, hbt⟩
    | nil =>
      have hnull : epsilon ∈ symGet firstSetLit prod.left := hl2 (i1b rfl)
      rw [List.nil_append]
      constructor
      · intro b w' hw
        obtain ⟨⟨pre, X, post, hdec, hpre, hbX⟩, hbt⟩ := i2a b w' hw
        refine ⟨⟨prod.left :: pre, X, post, by rw [hdec]; rfl, ?_, hbX⟩, hbt⟩
        intro Z hZ
        rcases List.mem_cons.mp hZ with hZ | hZ
        · rw [hZ]; exact hnull
        · exact hpre Z hZ
      · intro hw Z hZ
        rcases List.mem_cons.mp hZ with hZ | hZ
        · rw [hZ]; exact hnull
        · exact i2b hw Z hZ

theorem firstWalk_of_inFirst (fs : SymMap) (b : Symbol) (hb : b.name ≠ "E")
    (pre : List Symbol) :
    ∀ (X : Symbol) (post acc : List Symbol), (∀ Z ∈ pre, Z.name ≠ "E") → X.name ≠ "E" →
      (∀ Z ∈ pre, epsilon ∈ symGet fs Z) → b ∈ symGet fs X →
      b ∈ (firstWalk fs (pre ++ X :: post) acc).1 := by
  have hadd : ∀ (src target : List Symbol), b ∈ src → b ∈ addNonEpsilon src target := by
    intro src
    unfold addNonEpsilon
    induction src with
    | nil => intro _ h; cases h
    | cons f src ih =>
      intro target h
      rw [List.foldl_cons]
      rcases List.mem_cons.mp h with h | h
      · subst h
        have hs : strEq b.name "E" = false := strEq_false_of_ne _ _ hb
        have hin : b ∈ (if !strEq b.name "E" then setInsert Symbol.lt b target else target) := by
          rw [hs]
          have hc := setContains_setInsert_self Symbol.lt symbol_lt_irrefl b target
          exact (setContains_iff_mem Symbol.lt symbol_lt_irrefl symbol_eq_of_not_lt _ _).mp hc
        exact mem_addNonEpsilon_of_mem src _ b hin
      · exact ih _ h
  induction pre with
  | nil =>
    intro X post acc _ hX _ hbX
    have hs : strEq X.name "E" = false := strEq_false_of_ne _ _ hX
    rw [List.nil_append, firstWalk]
    simp only [hs, Bool.false_eq_true, if_false]
    split
    · exact hadd _ _ hbX
    · exact firstWalk_superset _ _ _ _ (hadd _ _ hbX)
  | cons Z pre ih =>
    intro X post acc hpreE hX hpre hbX
    have hs : strEq Z.name "E" = false :=
      strEq_false_of_ne _ _ (hpreE Z (List.mem_cons_self _ _))
    have hc : setContains Symbol.lt epsilon (symGet fs Z) = true :=
      setContains_of_mem Symbol.lt symbol_lt_irrefl _ _ (hpre Z (List.mem_cons_self _ _))
    rw [List.cons_append, firstWalk]
    simp only [hs, Bool.false_eq_true, if_false, hc, Bool.not_true]
    exact ih X post _ (fun Y hY => hpreE Y (List.mem_cons_of_mem _ hY)) hX
      (fun Y hY => hpre Y (List.mem_cons_of_mem _ hY)) hbX

/-! ## The items of a state and the entries of the tables -/

theorem item_after_dot (item : LR1Item) (pre : List Symbol) (X : Symbol) (post : List Symbol)
    (hprod : item.prod ∈ productionsLit) (hdec : rhsOf item.prod = pre ++ X :: post)
    (hlen : pre.length = item.dotPos) :
    item.prod.right = pre ++ X :: post ∧ isEpsilonRight item.prod.right = false ∧
    item.getSymbolAfterDot = X ∧ item.isComplete = false ∧
    betaA item = post ++ [item.lookahead] := by
  have he : isEpsilonRight item.prod.right = false := by
    cases h : isEpsilonRight item.prod.right with
    | false => rfl
    | true =>
      rw [rhsOf_of_epsilon item.prod h] at hdec
      cases pre <;> cases hdec
  have hr : item.prod.right = pre ++ X :: post := by
    rw [← rhsOf_of_not_epsilon item.prod he]
    exact hdec
  have hlt : item.dotPos < item.prod.right.length := by
    rw [hr, ← hlen, List.length_append, List.length_cons]
    omega
  have hnoE : ∀ Y ∈ post, (!strEq Y.name "E") = true := by
    intro Y hY
    have hY2 : Y ∈ item.prod.right := by
      rw [hr]
      exact List.mem_append_right _ (List.mem_cons_of_mem _ hY)
    have := ((grammar_shape item.prod hprod).2.2.2 he Y hY2).1
    rw [strEq_false_of_ne _ _ this]
    rfl
  refine ⟨hr, he, ?_, ?_, ?_⟩
  · unfold LR1Item.getSymbolAfterDot
    rw [if_pos ⟨hlt, by rw [he]; exact Bool.false_ne_true⟩, hr, ← hlen,
      List.getD_eq_getElem?_getD, List.getElem?_append_right (le_refl _), Nat.sub_self,
      List.getElem?_cons_zero]
    rfl
  · unfold LR1Item.isComplete
    rw [he]
    simp only [Bool.false_eq_true, if_false, decide_eq_false_iff_not, ge_iff_le, not_le]
    exact hlt
  · unfold betaA
    have hd : item.prod.right.drop (item.dotPos + 1) = post := by
      rw [hr, show pre ++ X :: post = (pre ++ [X]) ++ post by
        rw [List.append_assoc]; rfl]
      exact List.drop_left' (by rw [List.length_append, hlen]; rfl)
    rw [hd, List.filter_eq_self.mpr hnoE]

theorem item_complete (item : LR1Item) (h : item.dotPos = (rhsOf item.prod).length) :
    item.isComplete = true := by
  unfold LR1Item.isComplete
  cases he : isEpsilonRight item.prod.right with
  | true => rfl
  | false =>
    rw [rhsOf_of_not_epsilon item.prod he] at h
    simp only [Bool.false_eq_true, if_false, decide_eq_true_eq, ge_iff_le]
    omega

theorem state_closed (s : Nat) (st : LR1State) (hst : statesLit[s]? = some st) :
    ClosedItems productionsLit firstSetLit st.items := by
  obtain ⟨hcore, _, _⟩ := automaton_lit
  obtain ⟨_, hstates, _⟩ := autAt_final
  have hst1 : (autAt 127).states[s]? = some st := by rw [hstates]; exact hst
  exact (hcore.ids s st hst1).2.2.2

theorem mem_of_setContains_item (c : LR1Item) (items : List LR1Item)
    (hc : c.prod ∈ productionsLit) (hwf : WFItems productionsLit items)
    (h : setContains LR1Item.lt c items = true) : c ∈ items := by
  rw [setContains, List.any_eq_true] at h
  obtain ⟨y, hy, hq⟩ := h
  simp only [Bool.and_eq_true, Bool.not_eq_true'] at hq
  rw [item_eq_of_not_lt productionsLit prodsInj_lit c y hc (hwf y hy) hq.1 hq.2]
  exact hy

theorem goto_step (s : Nat) (st : LR1State) (hst : statesLit[s]? = some st) (item : LR1Item)
    (hit : item ∈ st.items) (X : Symbol) (hX : item.getSymbolAfterDot = X)
    (hsym : X ∈ allSymbolsLit) :
    ∃ (j : Nat) (stj : LR1State), mapFind keyLt ((s : Int), X) gotoTableLit = some (j : Int) ∧
      statesLit[j]? = some stj ∧ { item with dotPos := item.dotPos + 1 } ∈ stj.items := by
  obtain ⟨hcore, hcomp, _⟩ := automaton_lit
  obtain ⟨_, hstates, hgoto⟩ := autAt_final
  obtain ⟨_, _, hwf⟩ := state_at s st hst
  have hst1 : (autAt 127).states[s]? = some st := by rw [hstates]; exact hst
  obtain ⟨k1, _, k3⟩ := gotoKernel_fold X st.items []
  have hker : { item with dotPos := item.dotPos + 1 } ∈ gotoKernel st.items X := by
    have hc := k3 item hit hX
    have hcw : setContains LR1Item.lt { item with dotPos := item.dotPos + 1 }
        (gotoKernel st.items X) = true := hc
    rw [setContains, List.any_eq_true] at hcw
    obtain ⟨y, hy, hq⟩ := hcw
    simp only [Bool.and_eq_true, Bool.not_eq_true'] at hq
    have hyk : y ∈ gotoKernel st.items X := hy
    have hyp : y.prod ∈ productionsLit := by
      rcases k1 y hy with h | ⟨item2, hit2, _, hy2⟩
      · cases h
      · rw [hy2]
        exact hwf item2 hit2
    have heq : ({ item with dotPos := item.dotPos + 1 } : LR1Item) = y :=
      item_eq_of_not_lt productionsLit prodsInj_lit
        ({ item with dotPos := item.dotPos + 1 } : LR1Item) y (hwf item hit) hyp hq.1 hq.2
    rw [heq]
    exact hyk
  have hin : { item with dotPos := item.dotPos + 1 } ∈
      (gotoFunc productionsLit firstSetLit st X).items :=
    closureLoop_superset productionsLit firstSetLit _ _ _ _ hker
  have hne : (gotoFunc productionsLit firstSetLit st X).items ≠ [] := by
    intro h
    rw [h] at hin
    cases hin
  have hsome := hcomp s (by rw [hstates]; exact lt_of_getElem_some _ s st hst) st hst1 X hsym hne
  cases hf : mapFind keyLt ((s : Int), X) (autAt 127).gotoTable with
  | none => rw [hf] at hsome; cases hsome
  | some j =>
    obtain ⟨i, sti, k, stk, h1, h2, _, h4, h5, h6⟩ := hcore.gotoSound _ _ _ hf
    have his : i = s := by omega
    subst his
    rw [hst1] at h2
    rw [← Option.some.inj h2] at h6
    rw [hstates] at h5
    rw [hgoto] at hf
    refine ⟨k, stk, by rw [hf, h4], h5, ?_⟩
    rw [h6]
    exact hin

theorem closure_item (s : Nat) (st : LR1State) (hst : statesLit[s]? = some st)
    (item : LR1Item) (hit : item ∈ st.items) (prod : Production)
    (hprod : prod ∈ productionsLit) (hX : item.getSymbolAfterDot = prod.left)
    (b : Symbol) (hb : b ∈ getFirstOfString firstSetLit (betaA item) 0)
    (hbn : b.name ≠ "E") : (⟨prod, 0, b⟩ : LR1Item) ∈ st.items := by
  obtain ⟨_, _, hwf⟩ := state_at s st hst
  have hclosed := state_closed s st hst
  have hshape := grammar_shape prod hprod
  have hcand : (⟨prod, 0, b⟩ : LR1Item) ∈ candidates productionsLit firstSetLit item := by
    rw [mem_candidates]
    refine ⟨?_, prod, hprod, ?_, b, hb, strEq_false_of_ne _ _ hbn, rfl⟩
    · rw [hX, hshape.1, strEq_false_of_ne _ _ hshape.2.1]
      rfl
    · rw [hX]
      exact symbol_eqv_refl _
  exact mem_of_setContains_item _ _ hprod hwf (hclosed item hit _ hcand)

theorem next_lookahead (post w : List Symbol) (la : Symbol)
    (hy : Yields productionsLit post w)
    (hgood : ∀ Z ∈ post, Z.name ≠ "E" ∧ (Z.isTerminal = true → Z ∈ terminalsLit))
    (hla : la ∈ terminalsLit) (b : Symbol) (rest : List Symbol)
    (hb : w ++ [la] = b :: rest) :
    b ∈ getFirstOfString firstSetLit (post ++ [la]) 0 ∧ b.name ≠ "E" := by
  obtain ⟨h1, h2⟩ := first_complete post w hy (fun Z hZ => (hgood Z hZ).2)
  have hlaE : la.name ≠ "E" := (terminalsLit_facts.1 la hla).2.1
  have hwalk : b ∈ (firstWalk firstSetLit (post ++ [la]) []).1 ∧ b.name ≠ "E" := by
    cases w with
    | nil =>
      have hbl : la = b := (List.cons.inj hb).1
      subst hbl
      refine ⟨?_, hlaE⟩
      exact firstWalk_of_inFirst firstSetLit la hlaE post la [] []
        (fun Z hZ => (hgood Z hZ).1) hlaE (h2 rfl) (first_terminal_self la hla)
    | cons c w' =>
      have hbc : c = b := (List.cons.inj hb).1
      subst hbc
      obtain ⟨⟨pre, X, post', hdec, hpre, hcX⟩, hct⟩ := h1 c w' rfl
      have hcE : c.name ≠ "E" := (terminalsLit_facts.1 c hct).2.1
      refine ⟨?_, hcE⟩
      have hdec2 : post ++ [la] = pre ++ X :: (post' ++ [la]) := by
        rw [hdec, List.append_assoc]
        rfl
      rw [hdec2]
      exact firstWalk_of_inFirst firstSetLit c hcE pre X (post' ++ [la]) []
        (fun Z hZ => (hgood Z (by rw [hdec]; exact List.mem_append_left _ hZ)).1)
        ((hgood X (by rw [hdec]; exact List.mem_append_right _ (List.mem_cons_self _ _))).1)
        hpre hcX
  refine ⟨?_, hwalk.2⟩
  unfold getFirstOfString
  have hlen : ¬ (0 ≥ (post ++ [la]).length) := by
    rw [List.length_append, List.length_singleton]
    omega
  rw [if_neg hlen]
  simp only [List.drop_zero]
  split
  · exact mem_setInsert_of_mem _ _ _ _ hwalk.1
  · exact hwalk.1

/-! ## Single iterations of `parse` on the constructed tables -/

theorem input_head (toks : List Token) (q : LRParser) (hq : q.tokens = toks)
    (b : Symbol) (rest : List Symbol)
    (h : (toks.drop q.currentToken).map tokenSymbol = b :: rest) :
    q.currentToken < q.tokens.length ∧ (⟨q.getCurrentToken.value, true⟩ : Symbol) = b ∧
    (toks.drop (q.currentToken + 1)).map tokenSymbol = rest := by
  have hlt : q.currentToken < toks.length := by
    by_contra hge
    rw [List.drop_eq_nil_of_le (by omega)] at h
    cases h
  rw [List.drop_eq_getElem_cons hlt, List.map_cons] at h
  have h1 := (List.cons.inj h).1
  have h2 := (List.cons.inj h).2
  have hcur : q.getCurrentToken = toks[q.currentToken] := by
    have hg := getCurrentToken_inside q (by rw [hq]; exact hlt)
    rw [List.getElem?_eq_getElem (by rw [hq]; exact hlt)] at hg
    have := Option.some.inj hg
    rw [← this]
    simp only [hq]
  refine ⟨by rw [hq]; exact hlt, ?_, h2⟩
  rw [hcur]
  exact h1

theorem framed_advance (toks : List Token) (errs : List String) (q : LRParser)
    (hF : Framed toks errs q) : Framed toks errs q.advance := by
  obtain ⟨h1, h2, h3, h4, h5⟩ := hF
  obtain ⟨a1, a2, a3, _⟩ := advance_fields q
  obtain ⟨b1, _, b3, _⟩ := advance_frame q
  exact ⟨by rw [b1, h1], by rw [b3, h2], by rw [a3, h3], by rw [a2, h4], by rw [a1, h5]⟩

theorem shift_step (toks : List Token) (errs : List String) (q : LRParser) (s : ParseState)
    (sN : Int) (stk : List Int) (a : Symbol) (rest : List Symbol) (t : Int)
    (hF : Framed toks errs q) (hs : s.stateStack = sN :: stk)
    (hin : (toks.drop q.currentToken).map tokenSymbol = a :: rest)
    (hact : mapFind keyLt (sN, a) actionTableLit = some (t + 1)) (ht : 0 ≤ t) :
    cleanSteps 1 q s = some (q.advance,
      { s with symbolStack := a :: s.symbolStack, stateStack := t :: sN :: stk }) ∧
    Framed toks errs q.advance ∧
    (toks.drop q.advance.currentToken).map tokenSymbol = rest := by
  obtain ⟨hlt, hcur, hrest⟩ := input_head toks q hF.2.2.2.1 a rest hin
  have hl : mapFind keyLt (sN, ⟨q.getCurrentToken.value, true⟩) q.actionTable =
      some (t + 1) := by
    rw [hcur, hF.2.2.1]
    exact hact
  have hcall : callsHandleError q s = false := by
    unfold callsHandleError
    rw [hs]
    simp only [hl, Option.isNone_some]
  have hstep : q.parseStep s = .running q.advance
      { s with symbolStack := a :: s.symbolStack, stateStack := t :: sN :: stk } := by
    simp only [LRParser.parseStep, hs, hl]
    rw [if_pos (by omega)]
    rw [hcur, show t + 1 - 1 = t by omega]
  refine ⟨?_, framed_advance toks errs q hF, ?_⟩
  · simp only [cleanSteps, hcall, Bool.false_eq_true, if_false, hstep]
  · rw [(advance_inside q hlt).1]
    exact hrest

theorem reduce_step (toks : List Token) (errs : List String) (q : LRParser) (s : ParseState)
    (top sN : Int) (pushed stk : List Int) (b : Symbol) (rest : List Symbol) (t : Int)
    (prod : Production) (hprod : prod ∈ productionsLit)
    (hF : Framed toks errs q) (hs : s.stateStack = pushed ++ sN :: stk)
    (htop : s.stateStack.head? = some top)
    (hlen : pushed.length = (rhsOf prod).length)
    (hsym : (rhsOf prod).length ≤ s.symbolStack.length)
    (hin : (toks.drop q.currentToken).map tokenSymbol = b :: rest)
    (hact : mapFind keyLt (top, b) actionTableLit = some (-(prod.id + 2)))
    (hgoto : mapFind keyLt (sN, prod.left) gotoTableLit = some t) :
    cleanSteps 1 q s = some (q,
      { stateStack := t :: sN :: stk,
        symbolStack := prod.left :: s.symbolStack.drop (rhsOf prod).length,
        reductions := s.reductions ++ [prod.id] }) := by
  obtain ⟨hlt, hcur, _⟩ := input_head toks q hF.2.2.2.1 b rest hin
  obtain ⟨_, _, hat, _⟩ := grammar_shape prod hprod
  have hid := productionsLit_facts.1 prod hprod
  cases hss : s.stateStack with
  | nil => rw [hss] at htop; cases htop
  | cons top' below =>
    have htt : top' = top := by
      rw [hss] at htop
      exact Option.some.inj htop
    subst htt
    have hl : mapFind keyLt (top', ⟨q.getCurrentToken.value, true⟩) q.actionTable =
        some (-(prod.id + 2)) := by
      rw [hcur, hF.2.2.1]
      exact hact
    have hcall : callsHandleError q s = false := by
      unfold callsHandleError
      rw [hss]
      simp only [hl, Option.isNone_some]
    have hdrop : s.stateStack.drop (rhsOf prod).length = sN :: stk := by
      rw [hs]
      exact List.drop_left' hlen
    have hstlen : (rhsOf prod).length ≤ s.stateStack.length := by
      rw [hs, List.length_append, hlen]
      omega
    have hred : reduceStep q s prod.id prod = .running q
        { stateStack := t :: sN :: stk,
          symbolStack := prod.left :: s.symbolStack.drop (rhsOf prod).length,
          reductions := s.reductions ++ [prod.id] } := by
      unfold reduceStep
      simp only [rhsOf_length]
      rw [if_neg (by
        simp only [Bool.or_eq_true, decide_eq_true_eq, not_or, not_lt]
        exact ⟨hsym, hstlen⟩)]
      rw [hdrop]
      simp only [hF.2.1, hgoto]
    have hstep : q.parseStep s = .running q
        { stateStack := t :: sN :: stk,
          symbolStack := prod.left :: s.symbolStack.drop (rhsOf prod).length,
          reductions := s.reductions ++ [prod.id] } := by
      simp only [LRParser.parseStep, hss, hl]
      rw [if_neg (by omega), if_neg (by omega),
        show -(-(prod.id + 2) + 2) = prod.id by omega, hF.1, hat]
      exact hred
    simp only [cleanSteps, hcall, Bool.false_eq_true, if_false, hstep]

theorem accept_step (toks : List Token) (errs : List String) (q : LRParser) (s : ParseState)
    (top : Int) (stk : List Int) (rest : List Symbol)
    (hF : Framed toks errs q) (hs : s.stateStack = top :: stk)
    (hin : (toks.drop q.currentToken).map tokenSymbol = (⟨"$", true⟩ : Symbol) :: rest)
    (hact : mapFind keyLt (top, ⟨"$", true⟩) actionTableLit = some (-1)) :
    callsHandleError q s = false ∧ q.parseStep s = .accepted q s := by
  obtain ⟨_, hcur, _⟩ := input_head toks q hF.2.2.2.1 _ rest hin
  have hl : mapFind keyLt (top, ⟨q.getCurrentToken.value, true⟩) q.actionTable =
      some (-1) := by
    rw [hcur, hF.2.2.1]
    exact hact
  constructor
  · unfold callsHandleError
    rw [hs]
    simp only [hl, Option.isNone_some]
  · simp only [LRParser.parseStep, hs, hl]
    rfl

theorem cleanSteps_append (n m : Nat) :
    ∀ (p : LRParser) (s : ParseState) (p1 : LRParser) (s1 : ParseState)
      (p2 : LRParser) (s2 : ParseState),
      cleanSteps n p s = some (p1, s1) → cleanSteps m p1 s1 = some (p2, s2) →
      cleanSteps (n + m) p s = some (p2, s2) := by
  induction n with
  | zero =>
    intro p s p1 s1 p2 s2 h1 h2
    rw [cleanSteps] at h1
    cases h1
    rw [Nat.zero_add]
    exact h2
  | succ n ih =>
    intro p s p1 s1 p2 s2 h1 h2
    rw [show n + 1 + m = (n + m) + 1 by omega, cleanSteps]
    rw [cleanSteps] at h1
    split at h1
    · cases h1
    · rename_i hc
      rw [if_neg hc]
      cases hstep : p.parseStep s with
      | running q t =>
        rw [hstep] at h1
        exact ih q t p1 s1 p2 s2 h1 h2
      | accepted q t => rw [hstep] at h1; cases h1
      | fault => rw [hstep] at h1; cases h1

theorem cleanSteps_parseLoop (n : Nat) :
    ∀ (p : LRParser) (s : ParseState) (p1 : LRParser) (s1 : ParseState) (m : Nat),
      cleanSteps n p s = some (p1, s1) → parseLoop (n + m) p s = parseLoop m p1 s1 := by
  induction n with
  | zero =>
    intro p s p1 s1 m h
    rw [cleanSteps] at h
    cases h
    rw [Nat.zero_add]
  | succ n ih =>
    intro p s p1 s1 m h
    rw [show n + 1 + m = (n + m) + 1 by omega, parseLoop]
    rw [cleanSteps] at h
    split at h
    · cases h
    · cases hstep : p.parseStep s with
      | running q t =>
        rw [hstep] at h
        exact ih q t p1 s1 m h
      | accepted q t => rw [hstep] at h; cases h
      | fault => rw [hstep] at h; cases h

/-! ## The parser follows every parse tree -/

theorem lr_run (β w : List Symbol) (h : Yields productionsLit β w) :
    ∀ (toks : List Token) (errs : List String) (item : LR1Item) (pre : List Symbol) (sN : Nat)
      (st : LR1State) (q : LRParser) (s : ParseState) (stk : List Int) (rest : List Symbol),
      statesLit[sN]? = some st → item ∈ st.items → rhsOf item.prod = pre ++ β →
      pre.length = item.dotPos → Framed toks errs q → s.stateStack = (sN : Int) :: stk →
      (toks.drop q.currentToken).map tokenSymbol = w ++ item.lookahead :: rest →
      ∃ (n : Nat) (q1 : LRParser) (s1 : ParseState) (pushed : List Int) (sM : Nat)
        (stM : LR1State),
        cleanSteps n q s = some (q1, s1) ∧ Framed toks errs q1 ∧
        s1.stateStack = pushed ++ (sN : Int) :: stk ∧ pushed.length = β.length ∧
        s1.stateStack.head? = some (sM : Int) ∧ statesLit[sM]? = some stM ∧
        ({ item with dotPos := item.dotPos + β.length } : LR1Item) ∈ stM.items ∧
        s1.symbolStack.length = s.symbolStack.length + β.length ∧
        (toks.drop q1.currentToken).map tokenSymbol = item.lookahead :: rest := by
  induction h with
  | nil =>
    intro toks errs item pre sN st q s stk rest hst hit _ _ hF hs hin
    exact ⟨0, q, s, [], sN, st, rfl, hF, hs, rfl, by rw [hs]; rfl, hst, hit, rfl, hin⟩
  | term a β1 w1 ha _ ih =>
    intro toks errs item pre sN st q s stk rest hst hit hdec hlen hF hs hin
    obtain ⟨_, _, hwf⟩ := state_at sN st hst
    obtain ⟨hr, he, hafter, hnc, _⟩ :=
      item_after_dot item pre a β1 (hwf item hit) hdec hlen
    have hmem : a ∈ item.prod.right := by
      rw [hr]
      exact List.mem_append_right _ (List.mem_cons_self _ _)
    obtain ⟨haE, _, _, hasym, _⟩ := (grammar_shape item.prod (hwf item hit)).2.2.2 he a hmem
    obtain ⟨j, stj, hgoto, hstj, hadv⟩ := goto_step sN st hst item hit a hafter hasym
    have hact : mapFind keyLt ((sN : Int), a) actionTableLit = some ((j : Int) + 1) := by
      refine (action_at sN st hst a _).mpr ⟨item, hit, ?_⟩
      refine (tableWrite_some _ _ _ _ _ _).mpr (Or.inr (Or.inr
        ⟨hnc, by rw [hafter]; exact ha, by rw [hafter]; exact haE, by rw [hafter],
          (j : Int), by rw [hafter]; exact hgoto, rfl⟩))
    obtain ⟨hc1, hF1, hin1⟩ := shift_step toks errs q s (sN : Int) stk a
      (w1 ++ item.lookahead :: rest) (j : Int) hF hs hin hact (by omega)
    obtain ⟨n, q2, s2, pushed, sM, stM, hc2, hF2, hs2, hpl, htop2, hstM, hitM, hsl, hin2⟩ :=
      ih toks errs ({ item with dotPos := item.dotPos + 1 } : LR1Item) (pre ++ [a]) j stj
        q.advance { s with symbolStack := a :: s.symbolStack,
                           stateStack := (j : Int) :: (sN : Int) :: stk }
        ((sN : Int) :: stk) rest hstj hadv
        (by rw [List.append_assoc]; exact hdec)
        (by rw [List.length_append, hlen]; rfl) hF1 rfl hin1
    refine ⟨1 + n, q2, s2, pushed ++ [(j : Int)], sM, stM,
      cleanSteps_append 1 n _ _ _ _ _ _ hc1 hc2, hF2, ?_, ?_, htop2, hstM, ?_, ?_, hin2⟩
    · rw [hs2, List.append_assoc]
      rfl
    · rw [List.length_append, hpl]
      rfl
    · have hd : item.dotPos + (a :: β1).length = item.dotPos + 1 + β1.length := by
        rw [List.length_cons]
        omega
      rw [hd]
      exact hitM
    · rw [hsl, List.length_cons]
      simp only [List.length_cons]
      omega
  | nonterm prod β1 u w1 hp hyu hyw ih1 ih2 =>
    intro toks errs item pre sN st q s stk rest hst hit hdec hlen hF hs hin
    obtain ⟨_, _, hwf⟩ := state_at sN st hst
    obtain ⟨hr, he, hafter, _, hbeta⟩ :=
      item_after_dot item pre prod.left β1 (hwf item hit) hdec hlen
    have hmem : prod.left ∈ item.prod.right := by
      rw [hr]
      exact List.mem_append_right _ (List.mem_cons_self _ _)
    obtain ⟨_, _, hnaug, hlsym, _⟩ :=
      (grammar_shape item.prod (hwf item hit)).2.2.2 he prod.left hmem
    have hla := lookahead_terminal st (state_at sN st hst).1 item hit
    have hgood : ∀ Z ∈ β1, Z.name ≠ "E" ∧ (Z.isTerminal = true → Z ∈ terminalsLit) := by
      intro Z hZ
      have hZ2 : Z ∈ item.prod.right := by
        rw [hr]
        exact List.mem_append_right _ (List.mem_cons_of_mem _ hZ)
      obtain ⟨h1, _, _, _, h5⟩ := (grammar_shape item.prod (hwf item hit)).2.2.2 he Z hZ2
      exact ⟨h1, h5⟩
    obtain ⟨b, rest2, hb⟩ : ∃ b rest2, w1 ++ item.lookahead :: rest = b :: rest2 := by
      cases w1 with
      | nil => exact ⟨item.lookahead, rest, rfl⟩
      | cons c w2 => exact ⟨c, w2 ++ item.lookahead :: rest, rfl⟩
    have hb1 : ∃ r1, w1 ++ [item.lookahead] = b :: r1 := by
      cases w1 with
      | nil => exact ⟨[], by rw [List.nil_append] at hb ⊢; rw [(List.cons.inj hb).1]⟩
      | cons c w2 =>
        exact ⟨w2 ++ [item.lookahead], by
          rw [List.cons_append] at hb ⊢
          rw [(List.cons.inj hb).1]⟩
    obtain ⟨r1, hb1⟩ := hb1
    obtain ⟨hbfirst, hbE⟩ := next_lookahead β1 w1 item.lookahead hyw hgood hla b r1 hb1
    have hitem2 : (⟨prod, 0, b⟩ : LR1Item) ∈ st.items :=
      closure_item sN st hst item hit prod hp hafter b (by rw [hbeta]; exact hbfirst) hbE
    have hin1 : (toks.drop q.currentToken).map tokenSymbol = u ++ b :: rest2 := by
      rw [hin, List.append_assoc, hb]
    obtain ⟨n1, q1, s1, pushed1, sM1, stM1, hc1, hF1, hs1, hpl1, htop1, hstM1, hitM1, hsl1,
      hin2⟩ := ih1 toks errs (⟨prod, 0, b⟩ : LR1Item) [] sN st q s stk rest2 hst hitem2
        rfl rfl hF hs hin1
    have hcomp : ({ (⟨prod, 0, b⟩ : LR1Item) with dotPos := 0 + (rhsOf prod).length } :
        LR1Item).isComplete = true := item_complete _ (by simp)
    have hact : mapFind keyLt ((sM1 : Int), b) actionTableLit = some (-(prod.id + 2)) := by
      refine (action_at sM1 stM1 hstM1 b _).mpr ⟨_, hitM1, ?_⟩
      refine (tableWrite_some _ _ _ _ _ _).mpr (Or.inr (Or.inl ⟨hcomp, hnaug, rfl, rfl⟩))
    obtain ⟨j, stj, hgoto, hstj, hadv⟩ :=
      goto_step sN st hst item hit prod.left hafter hlsym
    have hred := reduce_step toks errs q1 s1 (sM1 : Int) (sN : Int) pushed1 stk b rest2
      (j : Int) prod hp hF1 hs1 htop1 hpl1 (by omega) hin2 hact hgoto
    have hin3 : (toks.drop q1.currentToken).map tokenSymbol =
        w1 ++ item.lookahead :: rest := by
      rw [hin2, hb]
    obtain ⟨n2, q2, s2, pushed2, sM2, stM2, hc2, hF2, hs2, hpl2, htop2, hstM2, hitM2, hsl2,
      hin4⟩ := ih2 toks errs ({ item with dotPos := item.dotPos + 1 } : LR1Item)
        (pre ++ [prod.left]) j stj q1
        { stateStack := (j : Int) :: (sN : Int) :: stk,
          symbolStack := prod.left :: s1.symbolStack.drop (rhsOf prod).length,
          reductions := s1.reductions ++ [prod.id] }
        ((sN : Int) :: stk) rest hstj hadv
        (by rw [List.append_assoc]; exact hdec)
        (by rw [List.length_append, hlen]; rfl) hF1 rfl hin3
    refine ⟨n1 + (1 + n2), q2, s2, pushed2 ++ [(j : Int)], sM2, stM2,
      cleanSteps_append n1 (1 + n2) _ _ _ _ _ _ hc1
        (cleanSteps_append 1 n2 _ _ _ _ _ _ hred hc2),
      hF2, ?_, ?_, htop2, hstM2, ?_, ?_, hin4⟩
    · rw [hs2, List.append_assoc]
      rfl
    · rw [List.length_append, hpl2]
      rfl
    · have hd : item.dotPos + (prod.left :: β1).length = item.dotPos + 1 + β1.length := by
        rw [List.length_cons]
        omega
      rw [hd]
      exact hitM2
    · rw [hsl2]
      simp only [List.length_cons, List.length_drop]
      omega

/-! ## Every sentence of the grammar is accepted without a diagnostic (claim C21) -/

theorem start_item :
    ∃ st0, statesLit[0]? = some st0 ∧
      (⟨⟨nsym "program'", [nsym "program"], 0⟩, 0, ⟨"$", true⟩⟩ : LR1Item) ∈ st0.items := by
  obtain ⟨_, _, p0, extra, hp0, hs⟩ := automaton_lit
  obtain ⟨_, hstates, _⟩ := autAt_final
  have hhead : productionsLit.head? = some ⟨nsym "program'", [nsym "program"], 0⟩ := by
    decide
  rw [hhead] at hp0
  have hp : p0 = ⟨nsym "program'", [nsym "program"], 0⟩ := (Option.some.inj hp0).symm
  subst hp
  rw [hstates] at hs
  refine ⟨_, by rw [hs]; exact List.getElem?_cons_zero, ?_⟩
  exact closureLoop_superset productionsLit firstSetLit _ _ _ _ (List.mem_singleton.mpr rfl)

theorem parseLoop_accept (q : LRParser) (s : ParseState)
    (h : q.parseStep s = .accepted q s) (k : Nat) : parseLoop (k + 1) q s = .accepted q s := by
  rw [parseLoop, h]

/-- Claim C21.  Let `ws` be a string of symbols derivable from `program` in the grammar of
the constructed parser, and let the token list spell `ws` followed by `$`.  Then `parse`
reaches the accept action after finitely many iterations none of which calls
`handleError`: no diagnostic is recorded, the token list is left as it was, and with
every larger bound on the number of iterations `parse` returns. -/
theorem sentence_accepted (p q : LRParser) (ws : List Symbol)
    (hp : LRParser.construct 200 = some p) (hq : generatorOf q = generatorOf p)
    (hder : Derives p.productions [p.startSymbol] ws)
    (htok : q.tokens.map tokenSymbol = ws ++ [tsym "$"]) :
    ∃ (n : Nat) (q1 : LRParser) (s1 : ParseState),
      cleanSteps n { q with currentToken := 0 } ParseState.init = some (q1, s1) ∧
      callsHandleError q1 s1 = false ∧
      q1.parseStep s1 = .accepted q1 s1 ∧
      q1.errors = q.errors ∧ q1.tokens = q.tokens ∧
      ∀ m, n < m →
        parseLoop m { q with currentToken := 0 } ParseState.init = .accepted q1 s1 ∧
        q.parse m = some (q1.generateDerivation s1.reductions) := by
  rw [construct_eq] at hp
  have hpe : p = freshLit := (Option.some.inj hp).symm
  subst hpe
  have hprods : q.productions = productionsLit := congrArg (fun g => g.1) hq
  have hgoto : q.gotoTable = gotoTableLit := congrArg (fun g => g.2.2.2.2.2.2.2.2.1) hq
  have hact : q.actionTable = actionTableLit := congrArg (fun g => g.2.2.2.2.2.2.2.2.2) hq
  have hF : Framed q.tokens q.errors { q with currentToken := 0 } :=
    ⟨hprods, hgoto, hact, rfl, rfl⟩
  have hterm : ∀ x ∈ ws, x.isTerminal = true := by
    intro x hx
    have hx2 : x ∈ q.tokens.map tokenSymbol := by
      rw [htok]
      exact List.mem_append_left _ hx
    obtain ⟨t, _, ht⟩ := List.mem_map.mp hx2
    rw [← ht]
    rfl
  have hy : Yields productionsLit [nsym "program"] ws :=
    yields_of_derives productionsLit _ ws hder hterm
  obtain ⟨st0, hst0, hitem0⟩ := start_item
  obtain ⟨n, q1, s1, pushed, sM, stM, hc, hF1, hs1, _, htop, hstM, hitM, _, hin⟩ :=
    lr_run [nsym "program"] ws hy q.tokens q.errors
      (⟨⟨nsym "program'", [nsym "program"], 0⟩, 0, ⟨"$", true⟩⟩ : LR1Item) [] 0 st0
      { q with currentToken := 0 } ParseState.init [] [] hst0 hitem0 (by decide) rfl hF rfl
      (by
        show (q.tokens.drop 0).map tokenSymbol = _
        rw [List.drop_zero, htok]
        rfl)
  have hacc : mapFind keyLt ((sM : Int), ⟨"$", true⟩) actionTableLit = some (-1) := by
    refine (action_at sM stM hstM _ _).mpr ⟨_, hitM, ?_⟩
    exact (tableWrite_some _ _ _ _ _ _).mpr (Or.inl
      ⟨item_complete _ (by decide), rfl, rfl, rfl⟩)
  cases hss : s1.stateStack with
  | nil => rw [hss] at htop; cases htop
  | cons top below =>
    have htt : top = (sM : Int) := by
      rw [hss] at htop
      exact Option.some.inj htop
    subst htt
    obtain ⟨hcall, hstep⟩ := accept_step q.tokens q.errors q1 s1 _ below [] hF1 hss hin hacc
    refine ⟨n, q1, s1, hc, hcall, hstep, hF1.2.2.2.2, hF1.2.2.2.1, ?_⟩
    intro m hm
    have hloop : parseLoop m { q with currentToken := 0 } ParseState.init =
        .accepted q1 s1 := by
      rw [show m = n + ((m - n - 1) + 1) by omega,
        cleanSteps_parseLoop n _ _ q1 s1 _ hc]
      exact parseLoop_accept q1 s1 hstep _
    refine ⟨hloop, ?_⟩
    unfold LRParser.parse
    rw [hloop]

theorem sentence_accepted_witness :
    LRParser.construct 200 = some freshLit ∧
    generatorOf emptyBlockParser = generatorOf freshLit ∧
    Derives freshLit.productions [freshLit.startSymbol] [tsym "\x7b", tsym "\x7d"] ∧
    emptyBlockParser.tokens.map tokenSymbol = [tsym "\x7b", tsym "\x7d"] ++ [tsym "$"] ∧
    ∃ (n : Nat) (q1 : LRParser) (s1 : ParseState),
      cleanSteps n { emptyBlockParser with currentToken := 0 } ParseState.init =
        some (q1, s1) ∧
      callsHandleError q1 s1 = false ∧
      q1.parseStep s1 = .accepted q1 s1 ∧
      q1.errors = emptyBlockParser.errors ∧ q1.tokens = emptyBlockParser.tokens ∧
      ∀ m, n < m →
        parseLoop m { emptyBlockParser with currentToken := 0 } ParseState.init =
          .accepted q1 s1 ∧
        emptyBlockParser.parse m = some (q1.generateDerivation s1.reductions) :=
  have hder : Derives freshLit.productions [freshLit.startSymbol]
      [tsym "\x7b", tsym "\x7d"] :=
    Derives.step _ [nsym "compoundstmt"] _
      ⟨[], [], ⟨nsym "program", [nsym "compoundstmt"], 1⟩, by decide, rfl, by decide⟩
      (Derives.step _ [tsym "\x7b", nsym "stmts", tsym "\x7d"] _
        ⟨[], [], ⟨nsym "compoundstmt", [tsym "\x7b", nsym "stmts", tsym "\x7d"], 6⟩,
          by decide, rfl, by decide⟩
        (Derives.step _ [tsym "\x7b", tsym "\x7d"] _
          ⟨[tsym "\x7b"], [tsym "\x7d"], ⟨nsym "stmts", [tsym "E"], 8⟩,
            by decide, rfl, by decide⟩
          (Derives.refl _)))
  ⟨construct_eq, rfl, hder, by decide,
    sentence_accepted freshLit emptyBlockParser [tsym "\x7b", tsym "\x7d"] construct_eq rfl
      hder (by decide)⟩

/-! ## Production ids and item shapes (claims C35, C39) -/

theorem productionsLit_ids :
    productionsLit.length = 29 ∧
    ∀ i < 29, (productionsLit.getD i ⟨⟨"", true⟩, [], -1⟩).id = (i : Int) := by
  decide!

theorem productionAt_id (k : Int) (prod : Production)
    (h : productionAt productionsLit k = some prod) : prod.id = k ∧ 0 ≤ k ∧ k < 29 := by
  unfold productionAt at h
  split at h
  · cases h
  · rename_i hk
    rw [List.get?_eq_getElem?] at h
    obtain ⟨hlt, hg⟩ := getD_of_getElem productionsLit k.toNat prod ⟨⟨"", true⟩, [], -1⟩ h
    rw [productionsLit_ids.1] at hlt
    have hid := productionsLit_ids.2 k.toNat hlt
    rw [hg] at hid
    refine ⟨?_, by omega, by omega⟩
    rw [hid]
    omega

/-- Claim C35.  Production ids are dense: `initGrammar` builds 29 productions, the
production stored at index `i` has id `i` for every `i` from 0 to 28, production 0 is
`program' → program`, and it is the only production whose left symbol is `program'`.
The constructed parser has this production list. -/
theorem production_ids_dense :
    LRParser.blank.initGrammar.productions.length = 29 ∧
    (∀ (i : Nat) (prod : Production),
      LRParser.blank.initGrammar.productions[i]? = some prod → prod.id = (i : Int)) ∧
    (∀ i < 29, ∃ prod, LRParser.blank.initGrammar.productions[i]? = some prod) ∧
    LRParser.blank.initGrammar.productions[0]? =
      some ⟨⟨"program'", false⟩, [⟨"program", false⟩], 0⟩ ∧
    LRParser.blank.initGrammar.augmentedStart = ⟨"program'", false⟩ ∧
    (∀ (i : Nat) (prod : Production),
      LRParser.blank.initGrammar.productions[i]? = some prod →
      prod.left = ⟨"program'", false⟩ → i = 0) ∧
    ∃ p, LRParser.construct 200 = some p ∧
      p.productions = LRParser.blank.initGrammar.productions := by
  rw [initGrammar_eq]
  have hP : grammarLit.productions = productionsLit := rfl
  rw [hP]
  refine ⟨productionsLit_ids.1, ?_, ?_, by decide, rfl, ?_, freshLit, construct_eq, rfl⟩
  · intro i prod h
    obtain ⟨hlt, hg⟩ := getD_of_getElem productionsLit i prod ⟨⟨"", true⟩, [], -1⟩ h
    rw [productionsLit_ids.1] at hlt
    have hid := productionsLit_ids.2 i hlt
    rw [hg] at hid
    exact hid
  · intro i hi
    have hlt : i < productionsLit.length := by rw [productionsLit_ids.1]; exact hi
    exact ⟨_, List.getElem?_eq_getElem hlt⟩
  · intro i prod h hleft
    obtain ⟨hlt, hg⟩ := getD_of_getElem productionsLit i prod ⟨⟨"", true⟩, [], -1⟩ h
    rw [productionsLit_ids.1] at hlt
    have hid := productionsLit_ids.2 i hlt
    rw [hg] at hid
    have hmem : prod ∈ productionsLit := List.getElem?_mem h
    have h0 := productionsLit_facts.2.1 prod hmem hleft
    rw [h0] at hid
    have : ((i : Nat) : Int) = 0 := hid.symm
    omega

theorem items_dot_eval :
    statesLit.all (fun st => st.items.all (fun it =>
      Nat.ble it.dotPos it.prod.right.length)) = true := by
  decide!

/-- Claim C39.  Every item in every state of the constructed automaton is well formed:
its production is one of the productions of the grammar, its dot position is at most the
length of the right-hand side, and its lookahead is one of the 22 terminals of the
grammar, never the epsilon marker `E` and never the empty symbol. -/
theorem items_well_formed :
    ∃ p, LRParser.construct 200 = some p ∧ p.terminals.length = 22 ∧
      ∀ st ∈ p.states, ∀ item ∈ st.items,
        item.prod ∈ p.productions ∧
        0 ≤ item.dotPos ∧ item.dotPos ≤ item.prod.right.length ∧
        item.lookahead ∈ p.terminals ∧ item.lookahead.isTerminal = true ∧
        item.lookahead.name ≠ "E" ∧ item.lookahead.name ≠ "" ∧
        item.lookahead ≠ epsilon ∧ item.lookahead ≠ ⟨"", true⟩ := by
  refine ⟨freshLit, construct_eq, by decide, ?_⟩
  intro st hst item hit
  have hst1 : st ∈ statesLit := hst
  obtain ⟨s, hs⟩ := List.getElem?_of_mem hst1
  obtain ⟨_, _, hwf⟩ := state_at s st hs
  have hla := lookahead_terminal st hst1 item hit
  obtain ⟨h1, h2, h3⟩ := terminalsLit_facts.1 _ hla
  have hdot := List.all_eq_true.mp (List.all_eq_true.mp items_dot_eval st hst1) item hit
  refine ⟨hwf item hit, Nat.zero_le _, Nat.le_of_ble_eq_true hdot, hla, h1, h2, h3, ?_, ?_⟩
  · intro h
    rw [h] at h2
    exact h2 rfl
  · intro h
    rw [h] at h3
    exact h3 rfl

/-! ## The stacks of `parse` spell a path of the automaton (claims C31, C36, C37) -/

theorem stackPath_path (ss : List Int) (xs : List Symbol)
    (h : StackPath gotoTableLit ss xs) : Path gotoTableLit ss xs := by
  induction h with
  | base => exact Path.base
  | step u t X ss xs hg _ ih =>
    exact Path.step u t X ss xs (mapFind_eq_some keyLt key_eq_of_not_lt _ t _ hg) ih

theorem stackPath_length (G : Table) (ss : List Int) (xs : List Symbol)
    (h : StackPath G ss xs) : ss.length = xs.length + 1 ∧ ss.getLast? = some 0 := by
  induction h with
  | base => exact ⟨rfl, rfl⟩
  | step u t X ss xs _ _ ih =>
    refine ⟨by rw [List.length_cons, ih.1, List.length_cons], ?_⟩
    rw [List.getLast?_cons_cons]
    exact ih.2

theorem stackPath_drop (G : Table) (ss : List Int) (xs : List Symbol)
    (h : StackPath G ss xs) : ∀ k, k ≤ xs.length → StackPath G (ss.drop k) (xs.drop k) := by
  induction h with
  | base =>
    intro k hk
    have hk0 : k = 0 := by
      rw [List.length_nil] at hk
      omega
    subst hk0
    exact StackPath.base
  | step u t X ss xs hg hrest ih =>
    intro k hk
    cases k with
    | zero => exact StackPath.step u t X ss xs hg hrest
    | succ k =>
      rw [List.drop_succ_cons, List.drop_succ_cons]
      exact ih k (by rw [List.length_cons] at hk; omega)

theorem shift_goto (k : Int × Symbol) (v : Int)
    (h : mapFind keyLt k actionTableLit = some v) (hv : v > 0) :
    mapFind keyLt k gotoTableLit = some (v - 1) := by
  obtain ⟨st, hst, item, hit, hw⟩ := (action_iff_write k v).mp h
  obtain ⟨s, hs⟩ := List.getElem?_of_mem hst
  obtain ⟨_, _, hwf⟩ := state_at s st hs
  rcases (tableWrite_some _ _ _ _ _ _).mp hw with ⟨_, _, _, h4⟩ | ⟨_, _, _, h4⟩ |
    ⟨_, _, _, h4, t, h5, h6⟩
  · omega
  · have := productionsLit_facts.1 _ (hwf item hit)
    omega
  · rw [h4, h5, h6, show t + 1 - 1 = t by omega]

theorem reduce_forward (p : LRParser) (s : ParseState) (state : Int) (rest : List Int)
    (action : Int) (hP : p.productions = productionsLit)
    (hA : p.actionTable = actionTableLit) (hG : p.gotoTable = gotoTableLit)
    (hsp : StackPath gotoTableLit s.stateStack s.symbolStack)
    (hst : s.stateStack = state :: rest)
    (hact : mapFind keyLt (state, ⟨p.getCurrentToken.value, true⟩) p.actionTable =
      some action)
    (hneg : ¬ action > 0) (hacc : action ≠ -1) :
    ∃ (prod : Production) (xs0 : List Symbol) (u : Int) (below : List Int) (g : Int),
      productionAt p.productions (-(action + 2)) = some prod ∧
      prod.id = -(action + 2) ∧ 1 ≤ prod.id ∧ prod.id < 29 ∧
      s.symbolStack = (rhsOf prod).reverse ++ xs0 ∧
      s.stateStack.drop (rhsOf prod).length = u :: below ∧
      mapFind keyLt (u, prod.left) p.gotoTable = some g ∧
      StackPath gotoTableLit (u :: below) xs0 ∧
      p.parseStep s = .running p
        { stateStack := g :: u :: below, symbolStack := prod.left :: xs0,
          reductions := s.reductions ++ [prod.id] } := by
  have hentry := action_entry p hA _ _ hact
  have hok := reduce_entry _ _ hentry hneg hacc
  unfold reduceOk at hok
  rw [Bool.and_eq_true] at hok
  obtain ⟨hk, hok2⟩ := hok
  have hk0 : -(action + 2) ≠ 0 := by
    intro h0
    rw [(intEq_iff _ _).mpr h0] at hk
    cases hk
  cases hprod : productionAt productionsLit (-(action + 2)) with
  | none => rw [hprod] at hok2; cases hok2
  | some prod =>
    rw [hprod] at hok2
    simp only [Bool.and_eq_true, Bool.not_eq_true'] at hok2
    obtain ⟨_, hback⟩ := hok2
    obtain ⟨hid, hid0, hid29⟩ := productionAt_id _ prod hprod
    have hpath := stackPath_path _ _ hsp
    rw [hst] at hpath
    obtain ⟨xs0, u, below, hxs, hdrop, _, hgoto⟩ :=
      backOk_sound prod.left (rhsOf prod).reverse state rest s.symbolStack hpath hback
    rw [List.length_reverse, ← hst] at hdrop
    have hsymdrop : s.symbolStack.drop (rhsOf prod).length = xs0 := by
      rw [hxs]
      exact List.drop_left' (List.length_reverse _)
    have hlen1 : (rhsOf prod).length ≤ s.symbolStack.length := by
      rw [hxs, List.length_append, List.length_reverse]
      omega
    have hsp0 : StackPath gotoTableLit (u :: below) xs0 := by
      have := stackPath_drop _ _ _ hsp (rhsOf prod).length hlen1
      rw [hdrop, hsymdrop] at this
      exact this
    have hlen2 : (rhsOf prod).length ≤ s.stateStack.length := by
      have := (stackPath_length _ _ _ hsp).1
      omega
    cases hg : mapFind keyLt (u, prod.left) gotoTableLit with
    | none => rw [hg] at hgoto; cases hgoto
    | some g =>
      refine ⟨prod, xs0, u, below, g, by rw [hP]; exact hprod, hid, by omega, by omega, hxs,
        hdrop, by rw [hG]; exact hg, hsp0, ?_⟩
      have hred : reduceStep p s (-(action + 2)) prod = .running p
          { stateStack := g :: u :: below, symbolStack := prod.left :: xs0,
            reductions := s.reductions ++ [prod.id] } := by
        unfold reduceStep
        simp only [rhsOf_length]
        rw [if_neg (by
          simp only [Bool.or_eq_true, decide_eq_true_eq, not_or, not_lt]
          exact ⟨hlen1, hlen2⟩)]
        rw [hdrop]
        simp only [hG, hg, hsymdrop, hid]
      simp only [LRParser.parseStep, hst, hact]
      rw [if_neg hneg, if_neg hacc, hP, hprod]
      exact hred

theorem stackPath_step (p q : LRParser) (s t : ParseState)
    (hP : p.productions = productionsLit) (hA : p.actionTable = actionTableLit)
    (hG : p.gotoTable = gotoTableLit)
    (hsp : StackPath gotoTableLit s.stateStack s.symbolStack)
    (h : p.parseStep s = .running q t) :
    StackPath gotoTableLit t.stateStack t.symbolStack := by
  obtain ⟨state, rest, hst, hc⟩ := parseStep_running p q s t h
  rcases hc with ⟨_, _, ht⟩ | ⟨action, hact, hpos, _, ht⟩ |
    ⟨action, prod, hact, hneg, hacc, _, _⟩
  · have hf := (handleError_frame p state p.getCurrentToken s.stateStack s.symbolStack).2
    rw [ht, hf]
    exact hsp
  · rw [hA] at hact
    have hg := shift_goto _ _ hact hpos
    rw [ht]
    show StackPath gotoTableLit ((action - 1) :: s.stateStack) (_ :: s.symbolStack)
    rw [hst]
    rw [hst] at hsp
    exact StackPath.step state (action - 1) _ rest s.symbolStack hg hsp
  · obtain ⟨prod2, xs0, u, below, g, _, _, _, _, _, _, hg, hsp0, hstep⟩ :=
      reduce_forward p s state rest action hP hA hG hsp hst hact hneg hacc
    rw [hstep] at h
    simp only [StepResult.running.injEq] at h
    rw [← h.2]
    rw [hG] at hg
    exact StackPath.step u g prod2.left below xs0 hg hsp0

theorem frame_runSteps (n : Nat) : ∀ (p q : LRParser) (s t : ParseState),
    p.productions = productionsLit → p.actionTable = actionTableLit →
    p.gotoTable = gotoTableLit → StackPath gotoTableLit s.stateStack s.symbolStack →
    runSteps n p s = some (q, t) →
    q.productions = productionsLit ∧ q.actionTable = actionTableLit ∧
    q.gotoTable = gotoTableLit ∧ StackPath gotoTableLit t.stateStack t.symbolStack := by
  induction n with
  | zero =>
    intro p q s t hP hA hG hsp h
    simp only [runSteps, Option.some.injEq, Prod.mk.injEq] at h
    rw [← h.1, ← h.2]
    exact ⟨hP, hA, hG, hsp⟩
  | succ n ih =>
    intro p q s t hP hA hG hsp h
    rw [runSteps] at h
    cases hstep : p.parseStep s with
    | running p1 s1 =>
      rw [hstep] at h
      obtain ⟨f1, f2, f3, _, _⟩ := parseStep_frame p p1 s s1 hstep
      exact ih p1 q s1 t (by rw [f1, hP]) (by rw [f2, hA]) (by rw [f3, hG])
        (stackPath_step p p1 s s1 hP hA hG hsp hstep) h
    | accepted p1 s1 => rw [hstep] at h; cases h
    | fault => rw [hstep] at h; cases h

theorem sampleRun :
    runSteps 10 { sampleStart with currentToken := 0 } ParseState.init =
      some (sampleParser, sampleState) := by
  decide!

theorem emptyBlockRun :
    runSteps 1 { emptyBlockParser with currentToken := 0 } ParseState.init =
      some (emptyBlockShifted, emptyBlockState) := by
  decide!

theorem generator_fields (p q : LRParser) (h : generatorOf p = generatorOf q) :
    p.productions = q.productions ∧ p.gotoTable = q.gotoTable ∧
    p.actionTable = q.actionTable :=
  ⟨congrArg (fun g => g.1) h, congrArg (fun g => g.2.2.2.2.2.2.2.2.1) h,
    congrArg (fun g => g.2.2.2.2.2.2.2.2.2) h⟩

theorem reachable_frame (p q : LRParser) (n : Nat) (s : ParseState)
    (hgen : generatorOf p = generatorOf freshLit)
    (hrun : runSteps n { p with currentToken := 0 } ParseState.init = some (q, s)) :
    q.productions = productionsLit ∧ q.actionTable = actionTableLit ∧
    q.gotoTable = gotoTableLit ∧ StackPath gotoTableLit s.stateStack s.symbolStack := by
  obtain ⟨h1, h2, h3⟩ := generator_fields p freshLit hgen
  exact frame_runSteps n { p with currentToken := 0 } q ParseState.init s h1 h3 h2
    StackPath.base hrun

theorem parseStep_no_fault (p : LRParser) (s : ParseState)
    (hP : p.productions = productionsLit) (hA : p.actionTable = actionTableLit)
    (hG : p.gotoTable = gotoTableLit)
    (hsp : StackPath gotoTableLit s.stateStack s.symbolStack) :
    p.parseStep s ≠ .fault := by
  cases hst : s.stateStack with
  | nil =>
    have := (stackPath_length _ _ _ hsp).1
    rw [hst] at this
    simp at this
  | cons state rest =>
    cases hact : mapFind keyLt (state, ⟨p.getCurrentToken.value, true⟩) p.actionTable with
    | none =>
      rw [parseStep_error p s state rest hst hact]
      exact fun h => StepResult.noConfusion h
    | some action =>
      by_cases hpos : action > 0
      · simp only [LRParser.parseStep, hst, hact]
        rw [if_pos hpos]
        exact fun h => StepResult.noConfusion h
      · by_cases hacc : action = -1
        · simp only [LRParser.parseStep, hst, hact]
          rw [if_neg hpos, if_pos hacc]
          exact fun h => StepResult.noConfusion h
        · obtain ⟨_, _, _, _, _, _, _, _, _, _, _, _, _, hstep⟩ :=
            reduce_forward p s state rest action hP hA hG hsp hst hact hpos hacc
          rw [hstep]
          exact fun h => StepResult.noConfusion h

theorem parseLoop_no_fault (fuel : Nat) : ∀ (p : LRParser) (s : ParseState),
    p.productions = productionsLit → p.actionTable = actionTableLit →
    p.gotoTable = gotoTableLit → StackPath gotoTableLit s.stateStack s.symbolStack →
    parseLoop fuel p s ≠ .fault := by
  induction fuel with
  | zero =>
    intro p s _ _ _ _
    exact fun h => Outcome.noConfusion h
  | succ n ih =>
    intro p s hP hA hG hsp
    rw [parseLoop]
    cases hstep : p.parseStep s with
    | running p1 s1 =>
      obtain ⟨f1, f2, f3, _, _⟩ := parseStep_frame p p1 s s1 hstep
      exact ih p1 s1 (by rw [f1, hP]) (by rw [f2, hA]) (by rw [f3, hG])
        (stackPath_step p p1 s s1 hP hA hG hsp hstep)
    | accepted p1 s1 => exact fun h => Outcome.noConfusion h
    | fault => exact absurd hstep (parseStep_no_fault p s hP hA hG hsp)

/-- Claim C31.  In a parse on the constructed tables, started from any token list, let
the ACTION entry for the state on top of the stack and the current token be a reduce
action, and let `P` be the production it names.  Then the iteration pops `|P.right|`
entries from both stacks, none when `P.right` is the epsilon marker, pushes `P.left` on
the symbol stack and `GOTO[new top state, P.left]`, which is defined, on the state stack,
appends `P.id` to the reduction log and leaves the parser, so the cursor and the token
list, as it is. -/
theorem reduce_pops_and_pushes (q0 p q : LRParser) (n : Nat) (s : ParseState)
    (state : Int) (rest : List Int) (action : Int)
    (hq0 : LRParser.construct 200 = some q0) (hgen : generatorOf p = generatorOf q0)
    (hrun : runSteps n { p with currentToken := 0 } ParseState.init = some (q, s))
    (hst : s.stateStack = state :: rest)
    (hact : mapFind keyLt (state, ⟨q.getCurrentToken.value, true⟩) q.actionTable =
      some action)
    (hneg : ¬ action > 0) (hacc : action ≠ -1) :
    ∃ (P : Production) (top : Int) (below : List Int) (g : Int),
      productionAt q.productions (-(action + 2)) = some P ∧ action = -(P.id + 2) ∧
      (if isEpsilonRight P.right then 0 else P.right.length) ≤ s.symbolStack.length ∧
      (if isEpsilonRight P.right then 0 else P.right.length) ≤ s.stateStack.length ∧
      s.stateStack.drop (if isEpsilonRight P.right then 0 else P.right.length) =
        top :: below ∧
      mapFind keyLt (top, P.left) q.gotoTable = some g ∧
      q.parseStep s = .running q
        { stateStack := g :: top :: below,
          symbolStack := P.left ::
            s.symbolStack.drop (if isEpsilonRight P.right then 0 else P.right.length),
          reductions := s.reductions ++ [P.id] } := by
  rw [construct_eq] at hq0
  have hq : q0 = freshLit := (Option.some.inj hq0).symm
  subst hq
  obtain ⟨hP, hA, hG, hsp⟩ := reachable_frame p q n s hgen hrun
  obtain ⟨P, xs0, u, below, g, h1, h2, _, _, h5, h6, h7, _, h9⟩ :=
    reduce_forward q s state rest action hP hA hG hsp hst hact hneg hacc
  have hlen := (stackPath_length _ _ _ hsp).1
  have hd : s.symbolStack.drop (rhsOf P).length = xs0 := by
    rw [h5]
    exact List.drop_left' (List.length_reverse _)
  have hl1 : (rhsOf P).length ≤ s.symbolStack.length := by
    rw [h5, List.length_append, List.length_reverse]
    omega
  refine ⟨P, u, below, g, h1, by omega, ?_, ?_, ?_, h7, ?_⟩
  · rw [rhsOf_length]; exact hl1
  · rw [rhsOf_length]; omega
  · rw [rhsOf_length]; exact h6
  · rw [rhsOf_length, hd]; exact h9

theorem reduce_pops_and_pushes_witness :
    LRParser.construct 200 = some freshLit ∧
    generatorOf emptyBlockParser = generatorOf freshLit ∧
    runSteps 1 { emptyBlockParser with currentToken := 0 } ParseState.init =
      some (emptyBlockShifted, emptyBlockState) ∧
    mapFind keyLt (3, ⟨emptyBlockShifted.getCurrentToken.value, true⟩)
      emptyBlockShifted.actionTable = some (-10) ∧
    ∃ (P : Production) (top : Int) (below : List Int) (g : Int),
      productionAt emptyBlockShifted.productions (-(-10 + 2)) = some P ∧
      (-10 : Int) = -(P.id + 2) ∧
      (if isEpsilonRight P.right then 0 else P.right.length) ≤
        emptyBlockState.symbolStack.length ∧
      (if isEpsilonRight P.right then 0 else P.right.length) ≤
        emptyBlockState.stateStack.length ∧
      emptyBlockState.stateStack.drop
        (if isEpsilonRight P.right then 0 else P.right.length) = top :: below ∧
      mapFind keyLt (top, P.left) emptyBlockShifted.gotoTable = some g ∧
      emptyBlockShifted.parseStep emptyBlockState = .running emptyBlockShifted
        { stateStack := g :: top :: below,
          symbolStack := P.left :: emptyBlockState.symbolStack.drop
            (if isEpsilonRight P.right then 0 else P.right.length),
          reductions := emptyBlockState.reductions ++ [P.id] } :=
  have hact : mapFind keyLt (3, ⟨emptyBlockShifted.getCurrentToken.value, true⟩)
      emptyBlockShifted.actionTable = some (-10) := by decide!
  ⟨construct_eq, rfl, emptyBlockRun, hact,
    reduce_pops_and_pushes freshLit emptyBlockParser emptyBlockShifted 1 emptyBlockState 3
      [0] (-10) construct_eq rfl emptyBlockRun rfl hact (by decide) (by decide)⟩

/-- Claim C36.  In a parse on the constructed tables, started from any token list, at the
start of every iteration of the loop the state stack has exactly one more entry than the
symbol stack, its bottom entry is 0, and every state above the bottom is the entry of
`gotoTable` for the state below it and the symbol stacked at that level: the stacks spell
a path of the automaton from the start state. -/
theorem stacks_spell_path (q0 p q : LRParser) (n : Nat) (s : ParseState)
    (hq0 : LRParser.construct 200 = some q0) (hgen : generatorOf p = generatorOf q0)
    (hrun : runSteps n { p with currentToken := 0 } ParseState.init = some (q, s)) :
    s.stateStack.length = s.symbolStack.length + 1 ∧ s.stateStack.getLast? = some 0 ∧
    StackPath q.gotoTable s.stateStack s.symbolStack := by
  rw [construct_eq] at hq0
  have hq : q0 = freshLit := (Option.some.inj hq0).symm
  subst hq
  obtain ⟨_, _, hG, hsp⟩ := reachable_frame p q n s hgen hrun
  obtain ⟨h1, h2⟩ := stackPath_length _ _ _ hsp
  rw [hG]
  exact ⟨h1, h2, hsp⟩

theorem stacks_spell_path_witness :
    LRParser.construct 200 = some freshLit ∧
    generatorOf sampleStart = generatorOf freshLit ∧
    runSteps 10 { sampleStart with currentToken := 0 } ParseState.init =
      some (sampleParser, sampleState) ∧
    sampleState.stateStack.length = sampleState.symbolStack.length + 1 ∧
    sampleState.stateStack.getLast? = some 0 ∧
    StackPath sampleParser.gotoTable sampleState.stateStack sampleState.symbolStack :=
  ⟨construct_eq, rfl, sampleRun,
    stacks_spell_path freshLit sampleStart sampleParser 10 sampleState construct_eq rfl
      sampleRun⟩

/-- Claim C37.  In a parse on the constructed tables, for every token list, the error
branches of the stack machine are unreachable.  At the start of every iteration the state
stack is not empty and the iteration has defined behaviour; where the ACTION entry is a
reduce action, the decoded index is within the production list, both stacks hold at
least as many entries as are popped, the state stack is not empty after the pops and
`GOTO[new top state, P.left]` is defined, so that a state is pushed.  Whatever the bound
on the number of iterations, the loop does not end in undefined behaviour. -/
theorem stack_machine_safe (q0 p q : LRParser) (n : Nat) (s : ParseState)
    (hq0 : LRParser.construct 200 = some q0) (hgen : generatorOf p = generatorOf q0)
    (hrun : runSteps n { p with currentToken := 0 } ParseState.init = some (q, s)) :
    s.stateStack ≠ [] ∧ q.parseStep s ≠ .fault ∧
    (∀ state rest action, s.stateStack = state :: rest →
      mapFind keyLt (state, ⟨q.getCurrentToken.value, true⟩) q.actionTable = some action →
      ¬ action > 0 → action ≠ -1 →
      0 ≤ -(action + 2) ∧ -(action + 2) < (q.productions.length : Int) ∧
      ∃ (P : Production) (top : Int) (below : List Int) (g : Int),
        productionAt q.productions (-(action + 2)) = some P ∧
        (if isEpsilonRight P.right then 0 else P.right.length) ≤ s.symbolStack.length ∧
        (if isEpsilonRight P.right then 0 else P.right.length) ≤ s.stateStack.length ∧
        s.stateStack.drop (if isEpsilonRight P.right then 0 else P.right.length) =
          top :: below ∧
        mapFind keyLt (top, P.left) q.gotoTable = some g) ∧
    ∀ fuel, parseLoop fuel { p with currentToken := 0 } ParseState.init ≠ .fault := by
  rw [construct_eq] at hq0
  have hq : q0 = freshLit := (Option.some.inj hq0).symm
  subst hq
  obtain ⟨hP, hA, hG, hsp⟩ := reachable_frame p q n s hgen hrun
  obtain ⟨g1, g2, g3⟩ := generator_fields p freshLit hgen
  have hlen := (stackPath_length _ _ _ hsp).1
  refine ⟨?_, parseStep_no_fault q s hP hA hG hsp, ?_, ?_⟩
  · intro h
    rw [h] at hlen
    simp at hlen
  · intro state rest action hst hact hneg hacc
    obtain ⟨P, xs0, u, below, g, h1, h2, h3, h4, h5, h6, h7, _, _⟩ :=
      reduce_forward q s state rest action hP hA hG hsp hst hact hneg hacc
    have hl1 : (rhsOf P).length ≤ s.symbolStack.length := by
      rw [h5, List.length_append, List.length_reverse]
      omega
    have hpl : (q.productions.length : Int) = 29 := by
      rw [hP, productionsLit_ids.1]
      rfl
    refine ⟨by omega, by omega, P, u, below, g, h1, ?_, ?_, ?_, h7⟩
    · rw [rhsOf_length]; exact hl1
    · rw [rhsOf_length]; omega
    · rw [rhsOf_length]; exact h6
  · intro fuel
    exact parseLoop_no_fault fuel { p with currentToken := 0 } ParseState.init g1 g3 g2
      StackPath.base

theorem stack_machine_safe_witness :
    LRParser.construct 200 = some freshLit ∧
    generatorOf emptyBlockParser = generatorOf freshLit ∧
    runSteps 1 { emptyBlockParser with currentToken := 0 } ParseState.init =
      some (emptyBlockShifted, emptyBlockState) ∧
    emptyBlockState.stateStack ≠ [] ∧
    emptyBlockShifted.parseStep emptyBlockState ≠ .fault :=
  have h := stack_machine_safe freshLit emptyBlockParser emptyBlockShifted 1 emptyBlockState
    construct_eq rfl emptyBlockRun
  ⟨construct_eq, rfl, emptyBlockRun, h.1, h.2.1⟩

/-! ## The encoding of the actions (claim C34) -/

theorem goto_target (s : Int) (X : Symbol) (t : Int)
    (h : mapFind keyLt (s, X) gotoTableLit = some t) :
    ∃ k : Nat, t = (k : Int) ∧ k < statesLit.length := by
  obtain ⟨hcore, _, _⟩ := automaton_lit
  obtain ⟨_, hstates, hgoto⟩ := autAt_final
  have h1 : mapFind keyLt (s, X) (autAt 127).gotoTable = some t := by rw [hgoto]; exact h
  obtain ⟨i, sti, k, stk, _, _, _, h4, h5, _⟩ := hcore.gotoSound _ _ _ h1
  rw [hstates] at h5
  exact ⟨k, h4, lt_of_getElem_some _ k stk h5⟩

theorem reduce_id_pos (pr : Production) (hpr : pr ∈ productionsLit)
    (hleft : pr.left ≠ nsym "program'") : 1 ≤ pr.id := by
  have h0 := productionsLit_facts.1 pr hpr
  by_contra hlt
  have hid : pr.id = 0 := by omega
  have hmem : (⟨nsym "program'", [nsym "program"], 0⟩ : Production) ∈ productionsLit := by
    decide
  have := productionsLit_facts.2.2 pr hpr _ hmem hid
  rw [this] at hleft
  exact hleft rfl

/-- Claim C34.  The integer encoding of the actions is unambiguous.  In the constructed
parser every ACTION entry is either positive, and then it is `t + 1` for a state `t` that
the GOTO table gives for the same key, or `-1`, the accept action, or at most `-3`, and
then it is `-(p + 2)` for the id `p` of a production other than the augmented one; no
entry is 0.  `buildParsingTable` stores nothing but these three forms, and `parse` decodes
them back: a positive entry pushes the state `action - 1`, the entry `-1` leaves the loop,
and any other entry reduces by `productions[-(action + 2)]`, whose id is that index. -/
theorem action_encoding :
    ∃ p, LRParser.construct 200 = some p ∧
      (∀ k v, mapFind keyLt k p.actionTable = some v →
        v ≠ 0 ∧
        ((0 < v ∧ ∃ t : Nat, t < p.states.length ∧ v = (t : Int) + 1 ∧ v - 1 = (t : Int) ∧
            mapFind keyLt k p.gotoTable = some (t : Int)) ∨
         v = -1 ∨
         (v ≤ -3 ∧ ∃ pr ∈ p.productions, pr.left ≠ p.augmentedStart ∧ v = -(pr.id + 2) ∧
            -(v + 2) = pr.id ∧ productionAt p.productions (-(v + 2)) = some pr))) ∧
      (∀ (sid : Int) (item : LR1Item) (w : TableWrite),
        tableWrite p.augmentedStart p.gotoTable sid item = some w →
        w.action = -1 ∨ w.action = -(item.prod.id + 2) ∨
        ∃ t, mapFind keyLt (sid, item.getSymbolAfterDot) p.gotoTable = some t ∧
          w.action = t + 1) ∧
      (∀ (q : LRParser) (s : ParseState) (state : Int) (rest : List Int) (v : Int),
        q.actionTable = p.actionTable → q.productions = p.productions →
        s.stateStack = state :: rest →
        mapFind keyLt (state, ⟨q.getCurrentToken.value, true⟩) q.actionTable = some v →
        (0 < v → q.parseStep s = .running q.advance
          { s with symbolStack := ⟨q.getCurrentToken.value, true⟩ :: s.symbolStack,
                   stateStack := (v - 1) :: s.stateStack }) ∧
        (v = -1 → q.parseStep s = .accepted q s) ∧
        (v ≤ -3 → ∃ pr, productionAt q.productions (-(v + 2)) = some pr ∧
          pr.id = -(v + 2) ∧ q.parseStep s = reduceStep q s (-(v + 2)) pr)) := by
  have hentry : ∀ k v, mapFind keyLt k freshLit.actionTable = some v →
      (0 < v ∧ ∃ t : Nat, t < statesLit.length ∧ v = (t : Int) + 1 ∧
          mapFind keyLt k gotoTableLit = some (t : Int)) ∨
      v = -1 ∨
      (v ≤ -3 ∧ ∃ pr ∈ productionsLit, pr.left ≠ nsym "program'" ∧ v = -(pr.id + 2) ∧
          productionAt productionsLit pr.id = some pr) := by
    intro k v h
    obtain ⟨st, hst, item, hit, hw⟩ := (action_iff_write k v).mp h
    obtain ⟨s, hs⟩ := List.getElem?_of_mem hst
    obtain ⟨_, _, hwf⟩ := state_at s st hs
    rcases (tableWrite_some _ _ _ _ _ _).mp hw with ⟨_, _, _, h4⟩ | ⟨_, h2, _, h4⟩ |
      ⟨_, _, _, h4, t, h5, h6⟩
    · right; left; exact h4
    · right; right
      have hid := reduce_id_pos _ (hwf item hit) h2
      exact ⟨by omega, item.prod, hwf item hit, h2, h4,
        (grammar_shape _ (hwf item hit)).2.2.1⟩
    · left
      obtain ⟨j, hj, hjl⟩ := goto_target _ _ _ h5
      refine ⟨by omega, j, hjl, by omega, ?_⟩
      rw [h4, h5, hj]
  refine ⟨freshLit, construct_eq, ?_, ?_, ?_⟩
  · intro k v h
    rcases hentry k v h with ⟨h1, t, h2, h3, h4⟩ | h1 | ⟨h1, pr, h2, h3, h4, h5⟩
    · exact ⟨by omega, Or.inl ⟨h1, t, h2, h3, by omega, h4⟩⟩
    · exact ⟨by omega, Or.inr (Or.inl h1)⟩
    · refine ⟨by omega, Or.inr (Or.inr ⟨h1, pr, h2, h3, h4, by omega, ?_⟩)⟩
      rw [show -(v + 2) = pr.id by omega]
      exact h5
  · intro sid item w hw
    have hw2 : tableWrite freshLit.augmentedStart freshLit.gotoTable sid item =
        some ⟨w.key, w.action⟩ := hw
    rcases (tableWrite_some _ _ _ _ _ _).mp hw2 with ⟨_, _, _, h4⟩ | ⟨_, _, _, h4⟩ |
      ⟨_, _, _, _, t, h5, h6⟩
    · left; exact h4
    · right; left; exact h4
    · right; right; exact ⟨t, h5, h6⟩
  · intro q s state rest v hA hP hst hact
    have hact2 : mapFind keyLt (state, ⟨q.getCurrentToken.value, true⟩)
        freshLit.actionTable = some v := by
      rw [← hA]; exact hact
    refine ⟨?_, ?_, ?_⟩
    · intro hv
      simp only [LRParser.parseStep, hst, hact]
      rw [if_pos hv]
    · intro hv
      simp only [LRParser.parseStep, hst, hact]
      rw [if_neg (by omega), if_pos hv]
    · intro hv
      rcases hentry _ v hact2 with ⟨h1, _⟩ | h1 | ⟨_, pr, h2, h3, h4, h5⟩
      · omega
      · omega
      · have hidx : -(v + 2) = pr.id := by omega
        refine ⟨pr, by rw [hP, hidx]; exact h5, hidx.symm, ?_⟩
        simp only [LRParser.parseStep, hst, hact]
        rw [if_neg (by omega), if_neg (by omega), hP, hidx]
        have h5b : productionAt freshLit.productions pr.id = some pr := h5
        rw [h5b]

/-! ## After an insertion the inserted token has an action (claim C33) -/

theorem handleError_branches (p : LRParser) (state : Int) (tok : Token) (ss : List Int)
    (ys : List Symbol) :
    (∃ sym ∈ priorityList, ∃ line,
      setContains strLt sym (expectedSet p.actionTable state) = true ∧
      p.handleError state tok ss ys =
        ({ p with errors := p.errors ++ [missingMsg line sym],
                  tokens := insertToken p.tokens p.currentToken ⟨sym, line⟩ }, ss, ys)) ∨
    ((∀ m ∈ priorityList,
        (setContains strLt m (expectedSet p.actionTable state) && !strEq tok.value m) =
          false) ∧
      p.handleError state tok ss ys =
        ({ p with errors := p.errors ++ [unexpectedMsg tok] }.advance, ss, ys)) := by
  obtain ⟨e1, e2, e3, e4, e5⟩ :
      (∀ l : Nat, "语法错误，第" ++ toString l ++ "行，缺少\";\"" = missingMsg l ";") ∧
      (∀ l : Nat, "语法错误，第" ++ toString l ++ "行，缺少\")\"" = missingMsg l ")") ∧
      (∀ l : Nat, "语法错误，第" ++ toString l ++ "行，缺少\"\x7d\"" = missingMsg l "\x7d") ∧
      (∀ l : Nat, "语法错误，第" ++ toString l ++ "行，缺少\"then\"" = missingMsg l "then") ∧
      (∀ l : Nat, "语法错误，第" ++ toString l ++ "行，缺少\"else\"" = missingMsg l "else") :=
    ⟨fun l => (missingMsg_literals l).1, fun l => (missingMsg_literals l).2.1,
      fun l => (missingMsg_literals l).2.2.1, fun l => (missingMsg_literals l).2.2.2.1,
      fun l => (missingMsg_literals l).2.2.2.2⟩
  have hfalse : ∀ b : Bool, ¬ b = true → b = false := by
    intro b hb
    cases b
    · rfl
    · exact absurd rfl hb
  unfold LRParser.handleError
  simp only [e1, e2, e3, e4, e5]
  split
  · rename_i h
    left
    exact ⟨";", by simp [priorityList], p.lastTokenLine, (Bool.and_eq_true _ _ ▸ h).1, rfl⟩
  · rename_i h1
    split
    · rename_i h
      left
      exact ⟨")", by simp [priorityList], p.lastTokenLine, (Bool.and_eq_true _ _ ▸ h).1, rfl⟩
    · rename_i h2
      split
      · rename_i h
        left
        exact ⟨"\x7d", by simp [priorityList], p.lastTokenLine,
          (Bool.and_eq_true _ _ ▸ h).1, rfl⟩
      · rename_i h3
        split
        · rename_i h
          left
          exact ⟨"then", by simp [priorityList], tok.line, (Bool.and_eq_true _ _ ▸ h).1, rfl⟩
        · rename_i h4
          split
          · rename_i h
            left
            exact ⟨"else", by simp [priorityList], tok.line,
              (Bool.and_eq_true _ _ ▸ h).1, rfl⟩
          · rename_i h5
            right
            refine ⟨?_, rfl⟩
            intro m hm
            simp only [priorityList, List.mem_cons, List.mem_singleton, List.not_mem_nil,
              or_false] at hm
            rcases hm with h | h | h | h | h <;> subst h
            · exact hfalse _ h1
            · exact hfalse _ h2
            · exact hfalse _ h3
            · exact hfalse _ h4
            · exact hfalse _ h5

theorem length_insertToken (tokens : List Token) (c : Nat) (tok : Token) :
    (insertToken tokens c tok).length = tokens.length + 1 := by
  unfold insertToken
  simp only [List.length_append, List.length_take, List.length_cons, List.length_drop]
  omega

theorem getD_insertToken_at (tokens : List Token) (c : Nat) (tok d : Token)
    (hc : c ≤ tokens.length) : (insertToken tokens c tok).getD c d = tok := by
  unfold insertToken
  rw [List.getD_eq_getElem?_getD,
    List.getElem?_append_right (by rw [List.length_take]; omega), List.length_take,
    Nat.min_eq_left hc, Nat.sub_self, List.getElem?_cons_zero]
  rfl

theorem getCurrentToken_inserted (q : LRParser) (errs : List String) (tok : Token)
    (hle : q.currentToken ≤ q.tokens.length) :
    LRParser.getCurrentToken
      { q with errors := errs, tokens := insertToken q.tokens q.currentToken tok } = tok := by
  unfold LRParser.getCurrentToken
  simp only
  rw [if_pos (by rw [length_insertToken]; omega)]
  exact getD_insertToken_at _ _ _ _ hle

/-- Claim C33.  In a parse on the constructed tables, started from any token list, let an
iteration be an insertion recovery, one that changes the token list.  Then the stacks
and the cursor are as before, the token at the cursor is the inserted one, and the ACTION
table has an entry for it in the state on top of the stack: the next iteration does not
call `handleError`. -/
theorem insertion_is_followed_by_action (q0 p q q1 : LRParser) (n : Nat)
    (s s1 : ParseState)
    (hq0 : LRParser.construct 200 = some q0) (hgen : generatorOf p = generatorOf q0)
    (hrun : runSteps n { p with currentToken := 0 } ParseState.init = some (q, s))
    (hstep : q.parseStep s = .running q1 s1) (hins : q1.tokens ≠ q.tokens) :
    s1 = s ∧ q1.currentToken = q.currentToken ∧
    (∃ sym ∈ priorityList, ∃ line,
      q1.tokens = insertToken q.tokens q.currentToken ⟨sym, line⟩ ∧
      q1.getCurrentToken = ⟨sym, line⟩ ∧
      ∃ state rest action, s1.stateStack = state :: rest ∧
        mapFind keyLt (state, ⟨q1.getCurrentToken.value, true⟩) q1.actionTable =
          some action) ∧
    callsHandleError q1 s1 = false := by
  rw [construct_eq] at hq0
  have hq : q0 = freshLit := (Option.some.inj hq0).symm
  subst hq
  obtain ⟨g1, g2, g3⟩ := generator_fields p freshLit hgen
  have hinit : CursorInv { p with currentToken := 0 } ParseState.init :=
    ⟨g3, Nat.zero_le _, fun _ => rfl, fun h => absurd h (Nat.lt_irrefl 0)⟩
  obtain ⟨hA, hle, _, _⟩ :=
    cursorInv_runSteps n _ q ParseState.init s hinit hrun
  obtain ⟨state, rest, hst, hc⟩ := parseStep_running q q1 s s1 hstep
  rcases hc with ⟨_, hq1, hs1⟩ | ⟨action, _, _, hq1, _⟩ | ⟨action, prod, _, _, _, _, hr⟩
  · rcases handleError_branches q state q.getCurrentToken s.stateStack s.symbolStack with
      ⟨sym, hsym, line, hexp, he⟩ | ⟨_, he⟩
    · rw [he] at hq1 hs1
      subst hq1
      have hs1' : s1 = s := hs1
      subst hs1'
      have hcur := getCurrentToken_inserted q (q.errors ++ [missingMsg line sym])
        ⟨sym, line⟩ hle
      have hhas : hasAction q state sym = true := (hasAction_iff q hA state sym).mpr hexp
      unfold hasAction at hhas
      cases hf : mapFind keyLt (state, ⟨sym, true⟩) q.actionTable with
      | none => rw [hf] at hhas; cases hhas
      | some action =>
        refine ⟨rfl, rfl, ⟨sym, hsym, line, rfl, hcur, state, rest, action, hst, ?_⟩, ?_⟩
        · rw [hcur]
          exact hf
        · unfold callsHandleError
          rw [hst]
          simp only
          rw [hcur]
          show (mapFind keyLt (state, ⟨sym, true⟩) q.actionTable).isNone = false
          rw [hf]
          rfl
    · rw [he] at hq1
      exact absurd (by rw [hq1]; exact (advance_fields _).2.1) hins
  · exact absurd (by rw [hq1]; exact (advance_fields _).2.1) hins
  · have := (reduceStep_running q q1 s s1 _ prod hr).1
    exact absurd (by rw [this]) hins

theorem insertion_is_followed_by_action_witness :
    LRParser.construct 200 = some freshLit ∧
    generatorOf sampleStart = generatorOf freshLit ∧
    runSteps 10 { sampleStart with currentToken := 0 } ParseState.init =
      some (sampleParser, sampleState) ∧
    sampleParser.parseStep sampleState = .running sampleInserted sampleState ∧
    sampleInserted.tokens ≠ sampleParser.tokens ∧
    sampleInserted.getCurrentToken = ⟨"\x7d", 2⟩ ∧
    callsHandleError sampleInserted sampleState = false :=
  have hstep : sampleParser.parseStep sampleState = .running sampleInserted sampleState := by
    decide!
  have hins : sampleInserted.tokens ≠ sampleParser.tokens := by decide
  have h := insertion_is_followed_by_action freshLit sampleStart sampleParser sampleInserted
    10 sampleState sampleState construct_eq rfl sampleRun hstep hins
  ⟨construct_eq, rfl, sampleRun, hstep, hins, by decide, h.2.2.2⟩

/-! ## A skip at the final `$` repeats for ever (claim C38) -/

theorem advance_past (p : LRParser) (h : p.tokens.length ≤ p.currentToken) :
    p.advance = p := by
  unfold LRParser.advance
  rw [if_neg (by omega)]

theorem skip_branch (p : LRParser) (s : ParseState) (state : Int) (rest : List Int)
    (hst : s.stateStack = state :: rest)
    (hfail : mapFind keyLt (state, ⟨p.getCurrentToken.value, true⟩) p.actionTable = none)
    (hno : ∀ m ∈ priorityList,
      setContains strLt m (expectedSet p.actionTable state) = false) :
    callsHandleError p s = true ∧
    p.parseStep s =
      .running ({ p with errors := p.errors ++ [unexpectedMsg p.getCurrentToken] }.advance)
        s := by
  constructor
  · unfold callsHandleError
    rw [hst]
    simp only [hfail, Option.isNone_none]
  · rw [parseStep_error p s state rest hst hfail,
      handleError_skip p state p.getCurrentToken s.stateStack s.symbolStack hno]

theorem getCurrentToken_after_skip (p : LRParser) (errs : List String)
    (hval : p.getCurrentToken.value = "$") (hend : p.tokens.length ≤ p.currentToken + 1) :
    (LRParser.advance { p with errors := errs }).getCurrentToken = p.getCurrentToken ∧
    (LRParser.advance { p with errors := errs }).tokens.length ≤
      (LRParser.advance { p with errors := errs }).currentToken ∧
    (LRParser.advance { p with errors := errs }).tokens = p.tokens ∧
    (LRParser.advance { p with errors := errs }).actionTable = p.actionTable ∧
    (LRParser.advance { p with errors := errs }).errors = errs := by
  by_cases hc : p.currentToken < p.tokens.length
  · have hlast : p.currentToken = p.tokens.length - 1 := by omega
    have hadv : LRParser.advance { p with errors := errs } =
        { p with errors := errs,
                 lastTokenLine := (p.tokens.getD p.currentToken ⟨"", 1⟩).line,
                 currentToken := p.currentToken + 1 } := by
      unfold LRParser.advance
      rw [if_pos hc]
    rw [hadv]
    refine ⟨?_, by show p.tokens.length ≤ p.currentToken + 1; omega, rfl, rfl, rfl⟩
    have hcur : p.getCurrentToken = p.tokens.getD p.currentToken ⟨"", 1⟩ := by
      unfold LRParser.getCurrentToken
      rw [if_pos hc]
    have hgl : p.tokens.getLast? = some (p.tokens.getD p.currentToken ⟨"", 1⟩) := by
      rw [List.getLast?_eq_getElem?, ← hlast, List.getD_eq_getElem?_getD,
        List.getElem?_eq_getElem hc]
      rfl
    unfold LRParser.getCurrentToken
    simp only
    rw [if_neg (by omega), if_pos hc, hgl]
    rw [hcur] at hval
    show (⟨"$", (p.tokens.getD p.currentToken ⟨"", 1⟩).line⟩ : Token) = _
    rw [← hval]
  · have hadv : LRParser.advance { p with errors := errs } = { p with errors := errs } := by
      unfold LRParser.advance
      rw [if_neg hc]
    rw [hadv]
    refine ⟨?_, by show p.tokens.length ≤ p.currentToken; omega, rfl, rfl, rfl⟩
    unfold LRParser.getCurrentToken
    rfl

theorem skip_repeats (p : LRParser) (s : ParseState) (state : Int) (rest : List Int)
    (msg : String) (hst : s.stateStack = state :: rest)
    (hpast : p.tokens.length ≤ p.currentToken)
    (hmsg : unexpectedMsg p.getCurrentToken = msg)
    (hfail : mapFind keyLt (state, ⟨p.getCurrentToken.value, true⟩) p.actionTable = none)
    (hno : ∀ m ∈ priorityList,
      setContains strLt m (expectedSet p.actionTable state) = false) (n : Nat) :
    callsHandleError { p with errors := p.errors ++ List.replicate n msg } s = true ∧
    LRParser.parseStep { p with errors := p.errors ++ List.replicate n msg } s =
      .running { p with errors := p.errors ++ List.replicate (n + 1) msg } s := by
  have h := skip_branch { p with errors := p.errors ++ List.replicate n msg } s state rest
    hst hfail hno
  have hadv : ∀ e : List String,
      LRParser.advance { p with errors := e } = { p with errors := e } :=
    fun e => advance_past { p with errors := e } hpast
  refine ⟨h.1, h.2.trans ?_⟩
  show StepResult.running (LRParser.advance
    { p with errors := (p.errors ++ List.replicate n msg) ++
      [unexpectedMsg p.getCurrentToken] }) s = _
  rw [hadv, hmsg, List.replicate_succ', List.append_assoc]

theorem skip_runSteps (p : LRParser) (s : ParseState) (state : Int) (rest : List Int)
    (msg : String) (hst : s.stateStack = state :: rest)
    (hpast : p.tokens.length ≤ p.currentToken)
    (hmsg : unexpectedMsg p.getCurrentToken = msg)
    (hfail : mapFind keyLt (state, ⟨p.getCurrentToken.value, true⟩) p.actionTable = none)
    (hno : ∀ m ∈ priorityList,
      setContains strLt m (expectedSet p.actionTable state) = false) (n : Nat) :
    ∀ k, runSteps n { p with errors := p.errors ++ List.replicate k msg } s =
        some ({ p with errors := p.errors ++ List.replicate (k + n) msg }, s) ∧
      parseLoop n { p with errors := p.errors ++ List.replicate k msg } s =
        .outOfFuel { p with errors := p.errors ++ List.replicate (k + n) msg } s := by
  induction n with
  | zero => intro k; exact ⟨rfl, rfl⟩
  | succ n ih =>
    intro k
    have hstep := (skip_repeats p s state rest msg hst hpast hmsg hfail hno k).2
    have hk : k + (n + 1) = k + 1 + n := by omega
    rw [runSteps, parseLoop, hstep, hk]
    exact ih (k + 1)

/-- Claim C38.  Let an iteration of `parse` be a skip recovery, a recovery that inserts
nothing, applied to the final `$` token: the value of the current token is `$` and the
cursor is on the last token or past the end.  Then the iteration leaves both stacks and
the token list as they are, and from that point on every iteration is again a skip
recovery: it calls `handleError`, leaves the cursor, the token list and both stacks
unchanged and appends the same diagnostic once more.  So the loop never reaches the
accept action, whatever the bound on the number of iterations. -/
theorem skip_at_dollar_never_ends (p : LRParser) (s : ParseState) (state : Int)
    (rest : List Int)
    (hst : s.stateStack = state :: rest)
    (hval : p.getCurrentToken.value = "$")
    (hend : p.tokens.length ≤ p.currentToken + 1)
    (hfail : mapFind keyLt (state, ⟨p.getCurrentToken.value, true⟩) p.actionTable = none)
    (hskip : (p.handleError state p.getCurrentToken s.stateStack s.symbolStack).1.tokens =
      p.tokens) :
    ∃ p1 : LRParser,
      p.parseStep s = .running p1 s ∧ p1.tokens = p.tokens ∧
      p1.errors = p.errors ++ [unexpectedMsg p.getCurrentToken] ∧
      p1.tokens.length ≤ p1.currentToken ∧
      (∀ n, ∃ pn : LRParser,
        runSteps n p1 s = some (pn, s) ∧
        pn.currentToken = p1.currentToken ∧ pn.tokens = p1.tokens ∧
        pn.errors = p1.errors ++ List.replicate n (unexpectedMsg p.getCurrentToken) ∧
        callsHandleError pn s = true ∧
        pn.parseStep s =
          .running { pn with errors := pn.errors ++ [unexpectedMsg p.getCurrentToken] } s) ∧
      ∀ fuel, ∃ r, parseLoop fuel p s = .outOfFuel r s := by
  have hno : ∀ m ∈ priorityList,
      setContains strLt m (expectedSet p.actionTable state) = false := by
    rcases handleError_branches p state p.getCurrentToken s.stateStack s.symbolStack with
      ⟨sym, _, line, _, he⟩ | ⟨hb, _⟩
    · rw [he] at hskip
      have hl := congrArg List.length hskip
      simp only at hl
      rw [length_insertToken] at hl
      omega
    · intro m hm
      have h1 := hb m hm
      have hne : strEq p.getCurrentToken.value m = false := by
        rw [hval]
        simp only [priorityList, List.mem_cons, List.mem_singleton, List.not_mem_nil,
          or_false] at hm
        rcases hm with h | h | h | h | h <;> subst h <;> decide
      rw [hne] at h1
      simpa using h1
  obtain ⟨_, hstep⟩ := skip_branch p s state rest hst hfail hno
  obtain ⟨a1, a2, a3, a4, a5⟩ := getCurrentToken_after_skip p
    (p.errors ++ [unexpectedMsg p.getCurrentToken]) hval hend
  have hfail1 : mapFind keyLt (state, ⟨(LRParser.advance
      { p with errors := p.errors ++ [unexpectedMsg p.getCurrentToken] }).getCurrentToken.value,
        true⟩) (LRParser.advance
      { p with errors := p.errors ++ [unexpectedMsg p.getCurrentToken] }).actionTable =
      none := by
    rw [a1, a4]
    exact hfail
  have hno1 : ∀ m ∈ priorityList, setContains strLt m (expectedSet (LRParser.advance
      { p with errors := p.errors ++ [unexpectedMsg p.getCurrentToken] }).actionTable
        state) = false := by
    rw [a4]
    exact hno
  have hmsg1 : unexpectedMsg (LRParser.advance
      { p with errors := p.errors ++ [unexpectedMsg p.getCurrentToken] }).getCurrentToken =
      unexpectedMsg p.getCurrentToken := by
    rw [a1]
  refine ⟨_, hstep, a3, a5, a2, ?_, ?_⟩
  · intro n
    have hrun := (skip_runSteps _ s state rest _ hst a2 hmsg1 hfail1 hno1 n 0).1
    have hrep := skip_repeats _ s state rest _ hst a2 hmsg1 hfail1 hno1 n
    rw [List.replicate_zero, List.append_nil, Nat.zero_add] at hrun
    refine ⟨_, hrun, rfl, rfl, rfl, hrep.1, ?_⟩
    rw [hrep.2, List.replicate_succ', List.append_assoc]
  · intro fuel
    cases fuel with
    | zero => exact ⟨p, rfl⟩
    | succ k =>
      have hloop := (skip_runSteps _ s state rest _ hst a2 hmsg1 hfail1 hno1 k 0).2
      rw [List.replicate_zero, List.append_nil, Nat.zero_add] at hloop
      rw [parseLoop, hstep]
      exact ⟨_, hloop⟩

theorem skip_at_dollar_never_ends_witness :
    (emptyRun 0).getCurrentToken.value = "$" ∧
    (emptyRun 0).tokens.length ≤ (emptyRun 0).currentToken + 1 ∧
    mapFind keyLt (0, ⟨(emptyRun 0).getCurrentToken.value, true⟩) (emptyRun 0).actionTable =
      none ∧
    ((emptyRun 0).handleError 0 (emptyRun 0).getCurrentToken ParseState.init.stateStack
      ParseState.init.symbolStack).1.tokens = (emptyRun 0).tokens ∧
    ∀ fuel, ∃ r, parseLoop fuel (emptyRun 0) ParseState.init =
      .outOfFuel r ParseState.init := by
  have hskip : ((emptyRun 0).handleError 0 (emptyRun 0).getCurrentToken
      ParseState.init.stateStack ParseState.init.symbolStack).1.tokens =
      (emptyRun 0).tokens := by decide!
  have hend : (emptyRun 0).tokens.length ≤ (emptyRun 0).currentToken + 1 := Nat.le_refl 1
  have hval : (emptyRun 0).getCurrentToken.value = "$" := rfl
  have hst : ParseState.init.stateStack = 0 :: [] := rfl
  have hfail : mapFind keyLt (0, ⟨(emptyRun 0).getCurrentToken.value, true⟩)
      (emptyRun 0).actionTable = none := action_state0_dollar
  obtain ⟨p1, _, _, _, _, _, h6⟩ :=
    skip_at_dollar_never_ends (emptyRun 0) ParseState.init 0 [] hst hval hend hfail hskip
  exact ⟨hval, hend, hfail, hskip, h6⟩

/-! ## generateDerivation replays the log (claim C32) -/

theorem rightmost_cases (form : List Symbol) (A : Symbol) :
    (∀ x ∈ form, x ≠ A) ∨ ∃ α w, form = α ++ A :: w ∧ ∀ x ∈ w, x ≠ A := by
  induction form with
  | nil => left; intro x hx; cases hx
  | cons y ys ih =>
    rcases ih with h | ⟨α, w, hdec, hw⟩
    · by_cases hy : y = A
      · right
        exact ⟨[], ys, by rw [hy]; rfl, h⟩
      · left
        intro x hx
        rcases List.mem_cons.mp hx with hx | hx
        · rw [hx]; exact hy
        · exact h x hx
    · right
      exact ⟨y :: α, w, by rw [hdec]; rfl, hw⟩

theorem replaceRightmost_miss (form : List Symbol) (A : Symbol) (β : List Symbol)
    (h : ∀ x ∈ form, x ≠ A) : replaceRightmost form A β = none := by
  induction form with
  | nil => rfl
  | cons y ys ih =>
    rw [replaceRightmost, ih (fun x hx => h x (List.mem_cons_of_mem _ hx))]
    simp only
    rw [if_neg (h y (List.mem_cons_self _ _))]

theorem replaceRightmost_hit (α w : List Symbol) (A : Symbol) (β : List Symbol)
    (hw : ∀ x ∈ w, x ≠ A) : replaceRightmost (α ++ A :: w) A β = some (α ++ β ++ w) := by
  induction α with
  | nil =>
    rw [List.nil_append, replaceRightmost, replaceRightmost_miss w A β hw]
    simp
  | cons y ys ih =>
    rw [List.cons_append, replaceRightmost, ih]
    rfl

theorem findIdx_miss {α : Type} (f : α → Bool) (l : List α) (h : ∀ x ∈ l, f x = false) :
    l.findIdx f = l.length := by
  induction l with
  | nil => rfl
  | cons a l ih =>
    rw [List.findIdx_cons, h a (List.mem_cons_self _ _),
      ih (fun x hx => h x (List.mem_cons_of_mem _ hx))]
    rfl

theorem eqv_false_of_ne (x A : Symbol) (h : x ≠ A) : x.eqv A = false := by
  cases hxa : x.eqv A with
  | false => rfl
  | true => exact absurd ((symbol_eqv_iff x A).mp hxa) h

theorem rightmostIndex_miss (form : List Symbol) (A : Symbol) (h : ∀ x ∈ form, x ≠ A) :
    rightmostIndex form A = none := by
  unfold rightmostIndex
  have hidx : form.reverse.findIdx (fun s => s.eqv A) = form.length := by
    rw [findIdx_miss (fun s : Symbol => s.eqv A) form.reverse
      (fun x hx => eqv_false_of_ne x A (h x (List.mem_reverse.mp hx))), List.length_reverse]
  simp only [hidx]
  rw [if_neg (Nat.lt_irrefl _)]

theorem rightmostIndex_last (α w : List Symbol) (A : Symbol) (hw : ∀ x ∈ w, x ≠ A) :
    rightmostIndex (α ++ A :: w) A = some α.length := by
  have hrev : (α ++ A :: w).reverse = w.reverse ++ A :: α.reverse := by
    rw [List.reverse_append, List.reverse_cons, List.append_assoc]
    rfl
  have hidx : (α ++ A :: w).reverse.findIdx (fun s => s.eqv A) = w.length := by
    rw [hrev, findIdx_append_hit (fun s : Symbol => s.eqv A) w.reverse A α.reverse
      (fun x hx => eqv_false_of_ne x A (hw x (List.mem_reverse.mp hx)))
      (symbol_eqv_refl A), List.length_reverse]
  have hlen : (α ++ A :: w).length = α.length + w.length + 1 := by
    rw [List.length_append, List.length_cons]
    omega
  unfold rightmostIndex
  simp only [hidx, hlen]
  rw [if_pos (by omega)]
  congr 1
  omega

theorem derivationStep_replace (prods : List Production) (form : List Symbol)
    (acc : List String) (k : Int) (prod : Production) (hk : k ≠ 0)
    (hp : productionAt prods k = some prod) :
    derivationStep prods (form, acc) k =
      match replaceRightmost form prod.left (rhsOf prod) with
      | some next => (next, acc ++ [sententialFormToString next])
      | none => (form, acc) := by
  unfold derivationStep
  rw [if_neg hk, hp]
  simp only
  rcases rightmost_cases form prod.left with h | ⟨α, w, hdec, hw⟩
  · rw [rightmostIndex_miss form prod.left h, replaceRightmost_miss form prod.left _ h]
  · have htake : (α ++ prod.left :: w).take α.length = α := List.take_left _ _
    have hdrop : (α ++ prod.left :: w).drop (α.length + 1) = w := by
      rw [← List.drop_drop, List.drop_left]
      rfl
    rw [hdec, rightmostIndex_last α w prod.left hw, replaceRightmost_hit α w prod.left _ hw]
    simp only [htake, hdrop, rhsOf]

theorem replaced_good (form next : List Symbol) (prod : Production)
    (hprod : prod ∈ productionsLit)
    (hgood : ∀ x ∈ form, x.name ≠ "E" ∧ x ≠ nsym "program'")
    (h : replaceRightmost form prod.left (rhsOf prod) = some next) :
    ∀ x ∈ next, x.name ≠ "E" ∧ x ≠ nsym "program'" := by
  rcases rightmost_cases form prod.left with hm | ⟨α, w, hdec, hw⟩
  · rw [replaceRightmost_miss form prod.left _ hm] at h
    cases h
  · rw [hdec, replaceRightmost_hit α w prod.left _ hw] at h
    have hn : next = α ++ rhsOf prod ++ w := (Option.some.inj h).symm
    intro x hx
    rw [hn] at hx
    rcases List.mem_append.mp hx with hx | hx
    · rcases List.mem_append.mp hx with hx | hx
      · exact hgood x (by rw [hdec]; exact List.mem_append_left _ hx)
      · cases he : isEpsilonRight prod.right with
        | true => rw [rhsOf_of_epsilon prod he] at hx; cases hx
        | false =>
          rw [rhsOf_of_not_epsilon prod he] at hx
          obtain ⟨h1, _, h3, _, _⟩ := (grammar_shape prod hprod).2.2.2 he x hx
          exact ⟨h1, h3⟩
    · exact hgood x (by
        rw [hdec]
        exact List.mem_append_right _ (List.mem_cons_of_mem _ hx))

theorem replay_fold (ks : List Int) :
    ∀ (form : List Symbol) (acc : List String),
      (∀ x ∈ form, x.name ≠ "E" ∧ x ≠ nsym "program'") →
      (ks.foldl (derivationStep productionsLit) (form, acc)).2 =
        acc ++ (replayForms productionsLit form ks).map sententialFormToString ∧
      ∀ f ∈ replayForms productionsLit form ks,
        ∀ x ∈ f, x.name ≠ "E" ∧ x ≠ nsym "program'" := by
  induction ks with
  | nil =>
    intro form acc _
    exact ⟨(List.append_nil acc).symm, fun f hf => by cases hf⟩
  | cons k ks ih =>
    intro form acc hgood
    rw [List.foldl_cons, replayForms]
    by_cases hk : k = 0
    · subst hk
      have hstep : derivationStep productionsLit (form, acc) 0 = (form, acc) := by
        unfold derivationStep
        rw [if_pos rfl]
      have hp0 : productionAt productionsLit 0 =
          some ⟨nsym "program'", [nsym "program"], 0⟩ := by decide
      have hmiss : replaceRightmost form (nsym "program'")
          (rhsOf ⟨nsym "program'", [nsym "program"], 0⟩) = none :=
        replaceRightmost_miss form _ _ (fun x hx => (hgood x hx).2)
      rw [hstep, hp0]
      simp only [hmiss]
      exact ih form acc hgood
    · cases hp : productionAt productionsLit k with
      | none =>
        have hstep : derivationStep productionsLit (form, acc) k = (form, acc) := by
          unfold derivationStep
          rw [if_neg hk, hp]
        rw [hstep]
        exact ih form acc hgood
      | some prod =>
        rw [derivationStep_replace productionsLit form acc k prod hk hp]
        simp only
        cases hr : replaceRightmost form prod.left (rhsOf prod) with
        | none => exact ih form acc hgood
        | some next =>
          have hnext := replaced_good form next prod (productionAt_mem _ _ _ hp) hgood hr
          obtain ⟨i1, i2⟩ := ih next (acc ++ [sententialFormToString next]) hnext
          simp only
          refine ⟨?_, ?_⟩
          · rw [i1, List.map_cons, List.append_assoc, List.singleton_append]
          · intro f hf
            rcases List.mem_cons.mp hf with hf | hf
            · rw [hf]; exact hnext
            · exact i2 f hf

/-- Claim C32.  On the grammar of the constructed parser `generateDerivation` starts from
the form `[program]` and, taking the logged productions in reverse order, replaces the
rightmost occurrence of the left symbol of the production in the current form by its
right-hand side, by nothing for an epsilon production; it appends to `derivation` the
line of `[program]` and one line per replacement, and changes nothing else.  No recorded
form contains the epsilon marker `E`. -/
theorem generateDerivation_replays :
    ∃ p, LRParser.construct 200 = some p ∧
      ∀ (q : LRParser) (reductions : List Int),
        q.productions = p.productions → q.startSymbol = p.startSymbol →
        q.generateDerivation reductions =
          { q with derivation := (q.derivation ++ List.map sententialFormToString
              ([nsym "program"] ::
                replayForms q.productions [nsym "program"] reductions.reverse)) } ∧
        ∀ form ∈ [nsym "program"] ::
            replayForms q.productions [nsym "program"] reductions.reverse,
          ∀ x ∈ form, x.name ≠ "E" := by
  refine ⟨freshLit, construct_eq, ?_⟩
  intro q reductions hP hS
  have hP1 : q.productions = productionsLit := hP
  have hS1 : q.startSymbol = nsym "program" := hS
  have hgood : ∀ x ∈ [nsym "program"], x.name ≠ "E" ∧ x ≠ nsym "program'" := by
    intro x hx
    rw [List.mem_singleton.mp hx]
    exact ⟨by decide, by decide⟩
  obtain ⟨h1, h2⟩ := replay_fold reductions.reverse [nsym "program"]
    (q.derivation ++ [sententialFormToString [nsym "program"]]) hgood
  constructor
  · unfold LRParser.generateDerivation
    simp only
    rw [hP1, hS1, h1, List.map_cons, List.append_assoc, List.singleton_append]
  · intro form hf x hx
    rw [hP1] at hf
    rcases List.mem_cons.mp hf with hf | hf
    · rw [hf] at hx
      exact (hgood x hx).1
    · exact (h2 form hf x hx).1

/-! ## The token list of tokenize (claim C40) -/

end Lab3
